import Mathlib

/-!
ExecutionBlockImpl: the tri-state pull protocol.

A shallow embedding of `arangod/Aql/ExecutionBlockImpl.cpp`, of the constructor of
`ShortestPathNode` from the AST (`arangod/Aql/ShortestPathNode.cpp`) and of
`beginTransactionOnFollowers` (`arangod/Cluster/ClusterTrxMethods.cpp`).

* The engine instance (`ExecutionBlockImpl<Executor>`) is a record of its member
  variables; every member function is a function from the record to a result and
  the record afterwards.
* The executor together with its fetchers (`_executor`, `_rowFetcher`,
  `_blockFetcher`) is an abstract state `σ`; the operations the engine calls on
  them are the fields of `Executor σ`.
* Every call the engine makes on a collaborator is appended to the `calls` field,
  a ghost variable that lets "is called", "is not called again" be stated.
* The `while` loop of `getSomeWithoutTrace` may run forever when the executor
  keeps answering `HASMORE` without producing a row; the embedding takes a bound
  on the number of `produceRow` calls of one `getSome` call and answers `none`
  when the bound is used up.
* `TRI_ASSERT` is compiled out in a release build and is a no-op here; the
  asserted facts are stated as theorems where the claims need them.
* A dependency is the list of the answers it gives to the `initializeCursor` and
  `shutdown` calls to come; the dependency cursor `_dependencyPos` is an index
  into the list, and the loops over the dependencies are bounded by the number of
  dependencies from the cursor on.
* `delete` of a buffered block is logged in `calls` like a call on a
  collaborator.
* A constructor or function that throws returns the error number in `Except`; a
  read outside a vector, where C++ leaves the behaviour undefined, is an outcome
  of its own.
-/

namespace arangodb
namespace aql

/-! ## Data model -/

/-- The control value of every pull operation (`Aql/ExecutionState.h`). -/
inductive ExecutionState where
  | DONE
  | HASMORE
  | WAITING
deriving DecidableEq, Repr

/-- An `AqlValue`; `none` is the empty value of an unwritten register. -/
abbrev AqlValue := Option Nat

/-- The registers of one row of a block. -/
abbrev Row := List AqlValue

/-- An `AqlItemBlock`: a grid of `rows.length` rows by `nrRegs` registers. The
field `id` is the identity of the block (its address in the source). -/
structure AqlItemBlock where
  id : Nat
  nrRegs : Nat
  rows : List Row
deriving DecidableEq, Repr

/-- Method `AqlItemBlock::size()`: the number of rows. -/
def AqlItemBlock.size (b : AqlItemBlock) : Nat := b.rows.length

/-- Method `AqlItemBlock::getNrRegs()`. -/
def AqlItemBlock.getNrRegs (b : AqlItemBlock) : Nat := b.nrRegs

/-- Method `AqlItemBlock::shrink(nrItems)`: keeps the first `nrItems` rows. -/
def AqlItemBlock.shrink (b : AqlItemBlock) (nrItems : Nat) : AqlItemBlock :=
  { b with rows := b.rows.take nrItems }

/-- Modelled from the spec: the block pool (`AqlItemBlockManager`), whose code is
not part of the sources at hand. `requested` counts the blocks handed out and is
the identity of the next one; `returned` lists the blocks given back, latest
first. -/
structure AqlItemBlockManager where
  requested : Nat
  returned : List AqlItemBlock
deriving DecidableEq, Repr

/-- Modelled from the spec: `requestBlock(rows, registers)` of the block pool
(§4.1) "returns a block able to hold exactly `rows × registers` cells"; every
cell of it is empty (§3). -/
def AqlItemBlockManager.requestBlock (m : AqlItemBlockManager) (nrItems nrRegs : Nat) :
    AqlItemBlock × AqlItemBlockManager :=
  ({ id := m.requested, nrRegs := nrRegs,
     rows := List.replicate nrItems (List.replicate nrRegs none) },
   { m with requested := m.requested + 1 })

/-- Modelled from the spec: `returnBlock(Block)` of the block pool (§4.1)
"releases it back to the pool". -/
def AqlItemBlockManager.returnBlock (m : AqlItemBlockManager) (block : AqlItemBlock) :
    AqlItemBlockManager :=
  { m with returned := block :: m.returned }

/-- Modelled from the spec: the output row cursor (`OutputAqlItemRow`), whose code
is not part of the sources at hand. It is bound to one block and one row index
(`baseIndex`) and knows whether the current row has been written
(`producedFlag`); `doNotCopyInputRows` is the `CopyRowBehaviour` it was created
with. -/
structure OutputAqlItemRow where
  block : AqlItemBlock
  baseIndex : Nat
  producedFlag : Bool
  doNotCopyInputRows : Bool
deriving DecidableEq, Repr

/-- Modelled from the spec: `isFull()`, no row of the block is left to write. -/
def OutputAqlItemRow.isFull (o : OutputAqlItemRow) : Bool :=
  decide (o.block.size ≤ o.baseIndex)

/-- Modelled from the spec: `produced()`, the current row has been written. -/
def OutputAqlItemRow.produced (o : OutputAqlItemRow) : Bool := o.producedFlag

/-- Modelled from the spec: `advanceRow()`, moves to the next row. -/
def OutputAqlItemRow.advanceRow (o : OutputAqlItemRow) : OutputAqlItemRow :=
  { o with baseIndex := o.baseIndex + 1, producedFlag := false }

/-- Modelled from the spec: `numRowsWritten()`, the number of rows that were
written completely, the current one included when it is marked produced. -/
def OutputAqlItemRow.numRowsWritten (o : OutputAqlItemRow) : Nat :=
  if o.produced then o.baseIndex + 1 else o.baseIndex

/-- Modelled from the spec: `stealBlock()`. By §4.4 step 3 "the accumulated block
(even if it has fewer rows than `atMost`) is finalized and returned; an empty
result is represented as `null`, never as a zero-row block". -/
def OutputAqlItemRow.stealBlock (o : OutputAqlItemRow) : Option AqlItemBlock :=
  if o.numRowsWritten = 0 then none else some (o.block.shrink o.numRowsWritten)

/-- Modelled from the spec: what an executor does to the output row when it
produces (§4.3 (a)): it writes the current row and marks it produced. -/
def OutputAqlItemRow.write (o : OutputAqlItemRow) (row : Row) : OutputAqlItemRow :=
  { o with block := { o.block with rows := o.block.rows.set o.baseIndex row },
           producedFlag := true }

/-- Class `ExecutorInfos`: the register layout given by the planner (§6). -/
structure ExecutorInfos where
  numberOfInputRegisters : Nat
  numberOfOutputRegisters : Nat
  getOutputRegisters : List Nat
  registersToKeep : List Nat
  registersToClear : List Nat
deriving DecidableEq, Repr

/-- An `arangodb::Result`, reduced to its error number. -/
structure Result where
  errorNumber : Nat
deriving DecidableEq, Repr

/-- Error number `TRI_ERROR_NO_ERROR`. -/
def TRI_ERROR_NO_ERROR : Nat := 0
/-- Error number `TRI_ERROR_INTERNAL`. -/
def TRI_ERROR_INTERNAL : Nat := 4
/-- Error number `TRI_ERROR_DEBUG`. -/
def TRI_ERROR_DEBUG : Nat := 22
/-- Error number `TRI_ERROR_QUERY_KILLED`. -/
def TRI_ERROR_QUERY_KILLED : Nat := 1500

/-- Method `Result::ok()`. -/
def Result.ok (r : Result) : Bool := decide (r.errorNumber = TRI_ERROR_NO_ERROR)
/-- Method `Result::fail()`. -/
def Result.fail (r : Result) : Bool := !r.ok

/-- The profiling levels (`Aql/types.h`). -/
def PROFILE_LEVEL_BLOCKS : Nat := 2
/-- The first tracing level. -/
def PROFILE_LEVEL_TRACE_1 : Nat := 3
/-- The second tracing level. -/
def PROFILE_LEVEL_TRACE_2 : Nat := 4

/-- Class `ExecutionStats::Node`: the per-node counters. -/
structure ExecutionStatsNode where
  calls : Nat
  items : Nat
  runtime : Nat
deriving DecidableEq, Repr

/-- Operator `ExecutionStats::Node::operator+=`. -/
def ExecutionStatsNode.add (a b : ExecutionStatsNode) : ExecutionStatsNode :=
  { calls := a.calls + b.calls, items := a.items + b.items, runtime := a.runtime + b.runtime }

/-- A dependency as the lifecycle operations see it: the answers it gives to the
successive `initializeCursor` and `shutdown` calls made on it (`none` is a
`shutdown` that throws). A dependency whose answers are used up answers
`(DONE, no error)`. -/
structure Dependency where
  initializeCursorAnswers : List (ExecutionState × Result)
  shutdownAnswers : List (Option (ExecutionState × Result))
deriving DecidableEq, Repr

/-- The calls an engine instance makes on its collaborators, with their answers. -/
inductive Call where
  | produceRow (state : ExecutionState) (row : Option Row)
  | fetchBlockForPassthrough (atMost : Nat) (state : ExecutionState) (block : Option AqlItemBlock)
  | preFetchNumberOfRows (atMost : Nat) (state : ExecutionState) (expectedRows : Nat)
  | requestBlock (nrItems nrRegs : Nat)
  | returnBlock (block : AqlItemBlock)
  | deleteBlock (block : AqlItemBlock)
  | initializeCursor (dependency : Nat)
  | shutdown (dependency : Nat)
  | executorShutdown
deriving DecidableEq, Repr

/-- What the engine calls on its executor and on the fetcher bound to it; `σ` is
the state of both (and of the upstream they read from).

Modelled from the spec: after §4.3 a `produceRow` call either writes the output
row and marks it produced (the row it writes is the `Option Row` of the answer)
or leaves it alone; the other operations are those of §4.2. -/
structure Executor (σ : Type) where
  allowsBlockPassthrough : Bool
  inputSizeRestrictsOutputSize : Bool
  produceRow : σ → (ExecutionState × Nat × Option Row) × σ
  fetchBlockForPassthrough : Nat → σ → (ExecutionState × Option AqlItemBlock) × σ
  preFetchNumberOfRows : Nat → σ → (ExecutionState × Nat) × σ
  numberOfRowsInFlight : σ → Nat

/-- The member variables of `ExecutionBlockImpl<Executor>` (and of its base class
`ExecutionBlock`), with the parts of the engine and of the query it reaches. -/
structure ExecutionBlockImpl (σ : Type) where
  /-- Members `_executor`, `_rowFetcher` and `_blockFetcher`. -/
  executor : σ
  /-- Member `_infos`. -/
  infos : ExecutorInfos
  /-- Member `_outputItemRow`; `none` is the null pointer. -/
  outputItemRow : Option OutputAqlItemRow
  /-- The flag `getQuery().killed()`. -/
  killed : Bool
  /-- The failure points that are switched on (`TRI_IF_FAILURE`). -/
  failurePoints : List String
  /-- The pool `_engine->itemBlockManager()`. -/
  itemBlockManager : AqlItemBlockManager
  /-- The sum `_engine->_stats` of the executor-specific counters. -/
  engineStats : Nat
  /-- The entry of this node in `_engine->_stats.nodes`. -/
  nodeStats : Option ExecutionStatsNode
  /-- Member `_profile`. -/
  profile : Nat
  /-- Member `_getSomeBegin`; `0` when no call is being timed. -/
  getSomeBegin : Nat
  /-- The reading of `TRI_microtime()`. -/
  microtime : Nat
  /-- Member `_buffer`. -/
  buffer : List AqlItemBlock
  /-- Member `_done`. -/
  done : Bool
  /-- Member `_upstreamState`. -/
  upstreamState : ExecutionState
  /-- Member `_pos`. -/
  pos : Nat
  /-- Member `_collector`. -/
  collector : List AqlItemBlock
  /-- Member `_dependencies`. -/
  dependencies : List Dependency
  /-- Member `_dependencyPos`, as an index; `dependencies.length` is `end()`. -/
  dependencyPos : Nat
  /-- Member `_shutdownResult`. -/
  shutdownResult : Result
  /-- The calls made on the collaborators so far, oldest first. -/
  calls : List Call

/-- How a call ends: it returns a value or throws an exception with an error
number. -/
inductive Completion (α : Type) where
  | returned (value : α)
  | exception (errorNumber : Nat)
deriving DecidableEq, Repr

/-- The end of a call and the engine instance after it. -/
structure CallResult (σ α : Type) where
  ret : Completion α
  post : ExecutionBlockImpl σ

/-! ## The engine: `getSome` and `skipSome` -/

variable {σ : Type}

/-- The test `TRI_IF_FAILURE(name)`: the failure point `name` is switched on. -/
def ExecutionBlockImpl.TRI_IF_FAILURE (s : ExecutionBlockImpl σ) (name : String) : Bool :=
  s.failurePoints.contains name

/-- Method `ExecutionBlockImpl::requestBlock`: asks the pool of the engine. -/
def ExecutionBlockImpl.requestBlock (s : ExecutionBlockImpl σ) (nrItems nrRegs : Nat) :
    AqlItemBlock × ExecutionBlockImpl σ :=
  let r := s.itemBlockManager.requestBlock nrItems nrRegs
  (r.1, { s with itemBlockManager := r.2,
                 calls := s.calls ++ [Call.requestBlock nrItems nrRegs] })

/-- Method `ExecutionBlockImpl::returnBlock`: gives the block to the pool of the
engine. -/
def ExecutionBlockImpl.returnBlock (s : ExecutionBlockImpl σ) (block : AqlItemBlock) :
    ExecutionBlockImpl σ :=
  { s with itemBlockManager := s.itemBlockManager.returnBlock block,
           calls := s.calls ++ [Call.returnBlock block] }

/-- Method `ExecutionBlockImpl::requestWrappedBlock`: the block the output row is
opened on, by the properties of the executor. -/
def ExecutionBlockImpl.requestWrappedBlock (E : Executor σ) (nrItems nrRegs : Nat)
    (s : ExecutionBlockImpl σ) : (ExecutionState × Option AqlItemBlock) × ExecutionBlockImpl σ :=
  if E.allowsBlockPassthrough then
    let r := E.fetchBlockForPassthrough nrItems s.executor
    let state := r.1.1
    let blockShell := r.1.2
    let s := { s with executor := r.2,
                      calls := s.calls ++ [Call.fetchBlockForPassthrough nrItems state blockShell] }
    if state = ExecutionState.WAITING then
      ((state, none), s)
    else
      match blockShell with
      | none => ((state, none), s)
      | some block => ((ExecutionState.HASMORE, some block), s)
  else if E.inputSizeRestrictsOutputSize then
    let r := E.preFetchNumberOfRows nrItems s.executor
    let state := r.1.1
    let expectedRows := r.1.2
    let s := { s with executor := r.2,
                      calls := s.calls ++ [Call.preFetchNumberOfRows nrItems state expectedRows] }
    if state = ExecutionState.WAITING then
      ((state, none), s)
    else
      let expectedRows := (expectedRows + E.numberOfRowsInFlight s.executor) % 2 ^ 64
      let nrItems := min expectedRows nrItems
      if nrItems = 0 then
        ((state, none), s)
      else
        let b := s.requestBlock nrItems nrRegs
        ((ExecutionState.HASMORE, some b.1), b.2)
  else
    let b := s.requestBlock nrItems nrRegs
    ((ExecutionState.HASMORE, some b.1), b.2)

/-- Method `ExecutionBlockImpl::createOutputRow`: a cursor on the first row of the
block; with passthrough the input rows are not copied. -/
def ExecutionBlockImpl.createOutputRow (E : Executor σ) (newBlock : AqlItemBlock) :
    OutputAqlItemRow :=
  if E.allowsBlockPassthrough then
    { block := newBlock, baseIndex := 0, producedFlag := false, doNotCopyInputRows := true }
  else
    { block := newBlock, baseIndex := 0, producedFlag := false, doNotCopyInputRows := false }

/-- The `while (!_outputItemRow->isFull())` loop of `getSomeWithoutTrace` and the
statements after it. `state` is the local variable of that name, `out` the output
row; `fuel` bounds the number of `produceRow` calls. -/
def ExecutionBlockImpl.produceRows (E : Executor σ) :
    Nat → ExecutionState → OutputAqlItemRow → ExecutionBlockImpl σ →
      Option (CallResult σ (ExecutionState × Option AqlItemBlock))
  | fuel, state, out, s =>
    if out.isFull then
      some { ret := Completion.returned (state, out.stealBlock),
             post := { s with outputItemRow := none } }
    else
      match fuel with
      | 0 => none
      | fuel + 1 =>
        let r := E.produceRow s.executor
        let state := r.1.1
        let executorStats := r.1.2.1
        let out := match r.1.2.2 with
          | some row => out.write row
          | none => out
        let s := { s with executor := r.2,
                          engineStats := s.engineStats + executorStats,
                          calls := s.calls ++ [Call.produceRow state r.1.2.2] }
        let out := if out.produced then out.advanceRow else out
        if state = ExecutionState.WAITING then
          some { ret := Completion.returned (state, none),
                 post := { s with outputItemRow := some out } }
        else if state = ExecutionState.DONE then
          some { ret := Completion.returned (state, out.stealBlock),
                 post := { s with outputItemRow := none } }
        else
          ExecutionBlockImpl.produceRows E fuel state out s

/-- Method `ExecutionBlockImpl::getSomeWithoutTrace`. -/
def ExecutionBlockImpl.getSomeWithoutTrace (E : Executor σ) (fuel atMost : Nat)
    (s : ExecutionBlockImpl σ) : Option (CallResult σ (ExecutionState × Option AqlItemBlock)) :=
  if s.TRI_IF_FAILURE "ExecutionBlock::getOrSkipSome1" then
    some { ret := Completion.exception TRI_ERROR_DEBUG, post := s }
  else if s.TRI_IF_FAILURE "ExecutionBlock::getOrSkipSome2" then
    some { ret := Completion.exception TRI_ERROR_DEBUG, post := s }
  else if s.TRI_IF_FAILURE "ExecutionBlock::getOrSkipSome3" then
    some { ret := Completion.exception TRI_ERROR_DEBUG, post := s }
  else if s.killed then
    some { ret := Completion.exception TRI_ERROR_QUERY_KILLED, post := s }
  else
    match s.outputItemRow with
    | none =>
      let r := ExecutionBlockImpl.requestWrappedBlock E atMost s.infos.numberOfOutputRegisters s
      let state := r.1.1
      if state = ExecutionState.WAITING then
        some { ret := Completion.returned (state, none), post := r.2 }
      else
        match r.1.2 with
        | none => some { ret := Completion.returned (state, none), post := r.2 }
        | some newBlock =>
          ExecutionBlockImpl.produceRows E fuel ExecutionState.HASMORE
            (ExecutionBlockImpl.createOutputRow E newBlock) r.2
    | some out =>
      ExecutionBlockImpl.produceRows E fuel ExecutionState.HASMORE out s

/-- Method `ExecutionBlockImpl::traceGetSomeBeginInner`: starts the timer of the
call when blocks are profiled. The log lines are not part of the embedding. -/
def ExecutionBlockImpl.traceGetSomeBeginInner (s : ExecutionBlockImpl σ) (_atMost : Nat) :
    ExecutionBlockImpl σ :=
  if PROFILE_LEVEL_BLOCKS ≤ s.profile then
    if s.getSomeBegin ≤ 0 then { s with getSomeBegin := s.microtime } else s
  else s

/-- The entry of this node in the statistics table after `stats` is merged in
(`find`, then `+=` or `emplace`). -/
def ExecutionBlockImpl.addNodeStats (s : ExecutionBlockImpl σ) (stats : ExecutionStatsNode) :
    ExecutionBlockImpl σ :=
  match s.nodeStats with
  | some node => { s with nodeStats := some (node.add stats) }
  | none => { s with nodeStats := some stats }

/-- Method `ExecutionBlockImpl::traceGetSomeEndInner`: counts the call, its rows
and, when the call is over, its runtime. -/
def ExecutionBlockImpl.traceGetSomeEndInner (s : ExecutionBlockImpl σ)
    (result : Option AqlItemBlock) (state : ExecutionState) : ExecutionBlockImpl σ :=
  if PROFILE_LEVEL_BLOCKS ≤ s.profile then
    let items := match result with
      | some block => block.size
      | none => 0
    if state ≠ ExecutionState.WAITING then
      ExecutionBlockImpl.addNodeStats { s with getSomeBegin := 0 }
        { calls := 1, items := items, runtime := s.microtime - s.getSomeBegin }
    else
      ExecutionBlockImpl.addNodeStats s { calls := 1, items := items, runtime := 0 }
  else s

/-- Method `ExecutionBlockImpl::traceGetSomeEnd`. -/
def ExecutionBlockImpl.traceGetSomeEnd (s : ExecutionBlockImpl σ) (state : ExecutionState)
    (result : Option AqlItemBlock) : CallResult σ (ExecutionState × Option AqlItemBlock) :=
  { ret := Completion.returned (state, result), post := s.traceGetSomeEndInner result state }

/-- Method `ExecutionBlockImpl::getSome`. An exception of `getSomeWithoutTrace`
passes through. -/
def ExecutionBlockImpl.getSome (E : Executor σ) (fuel atMost : Nat) (s : ExecutionBlockImpl σ) :
    Option (CallResult σ (ExecutionState × Option AqlItemBlock)) :=
  match ExecutionBlockImpl.getSomeWithoutTrace E fuel atMost (s.traceGetSomeBeginInner atMost) with
  | none => none
  | some result =>
    match result.ret with
    | Completion.exception errorNumber =>
      some { ret := Completion.exception errorNumber, post := result.post }
    | Completion.returned value => some (result.post.traceGetSomeEnd value.1 value.2)

/-- Method `ExecutionBlockImpl::traceSkipSomeBeginInner`. -/
def ExecutionBlockImpl.traceSkipSomeBeginInner (s : ExecutionBlockImpl σ) (_atMost : Nat) :
    ExecutionBlockImpl σ :=
  if PROFILE_LEVEL_BLOCKS ≤ s.profile then
    if s.getSomeBegin ≤ 0 then { s with getSomeBegin := s.microtime } else s
  else s

/-- Method `ExecutionBlockImpl::traceSkipSomeEndInner`. -/
def ExecutionBlockImpl.traceSkipSomeEndInner (s : ExecutionBlockImpl σ) (skipped : Nat)
    (state : ExecutionState) : ExecutionBlockImpl σ :=
  if PROFILE_LEVEL_BLOCKS ≤ s.profile then
    if state ≠ ExecutionState.WAITING then
      ExecutionBlockImpl.addNodeStats { s with getSomeBegin := 0 }
        { calls := 1, items := skipped, runtime := s.microtime - s.getSomeBegin }
    else
      ExecutionBlockImpl.addNodeStats s { calls := 1, items := skipped, runtime := 0 }
  else s

/-- Method `ExecutionBlockImpl::traceSkipSomeEnd`. -/
def ExecutionBlockImpl.traceSkipSomeEnd (s : ExecutionBlockImpl σ) (state : ExecutionState)
    (skipped : Nat) : CallResult σ (ExecutionState × Nat) :=
  { ret := Completion.returned (state, skipped), post := s.traceSkipSomeEndInner skipped state }

/-- Method `ExecutionBlockImpl::skipSome`: runs `getSomeWithoutTrace`, counts the
rows of its block and gives the block to the pool. -/
def ExecutionBlockImpl.skipSome (E : Executor σ) (fuel atMost : Nat) (s : ExecutionBlockImpl σ) :
    Option (CallResult σ (ExecutionState × Nat)) :=
  match ExecutionBlockImpl.getSomeWithoutTrace E fuel atMost (s.traceSkipSomeBeginInner atMost) with
  | none => none
  | some res =>
    match res.ret with
    | Completion.exception errorNumber =>
      some { ret := Completion.exception errorNumber, post := res.post }
    | Completion.returned value =>
      match value.2 with
      | some block =>
        some ((res.post.returnBlock block).traceSkipSomeEnd value.1 block.size)
      | none => some (res.post.traceSkipSomeEnd value.1 0)

/-- The row a call wrote into the output row, when it is a `produceRow` call that
produced. -/
def Call.producedRow : Call → Option Row
  | Call.produceRow _ row => row
  | _ => none

/-- The state a collaborator answered with, when the call is a `produceRow`
call. -/
def Call.produceRowState : Call → Option ExecutionState
  | Call.produceRow state _ => some state
  | _ => none

/-- The rows that the `produceRow` calls among `cs` produced, in call order. -/
def producedRows (cs : List Call) : List Row := cs.filterMap Call.producedRow

/-- The output row is between two `produceRow` calls: the current row is not
written yet and the cursor is inside the block or right after its last row. -/
def OutputAqlItemRow.wellFormed (o : OutputAqlItemRow) : Prop :=
  o.producedFlag = false ∧ o.baseIndex ≤ o.block.size

/-- The rows of the block that the output row has written so far. -/
def OutputAqlItemRow.writtenRows (o : OutputAqlItemRow) : List Row :=
  o.block.rows.take o.numRowsWritten

/-- The call gets past the failure points and the kill check at the top of
`getSomeWithoutTrace`. -/
def ExecutionBlockImpl.passesEntryChecks (s : ExecutionBlockImpl σ) : Prop :=
  s.TRI_IF_FAILURE "ExecutionBlock::getOrSkipSome1" = false ∧
  s.TRI_IF_FAILURE "ExecutionBlock::getOrSkipSome2" = false ∧
  s.TRI_IF_FAILURE "ExecutionBlock::getOrSkipSome3" = false ∧
  s.killed = false

/-- The output row of the instance, when one is open, is between two `produceRow`
calls. -/
def ExecutionBlockImpl.wellFormed (s : ExecutionBlockImpl σ) : Prop :=
  ∀ o, s.outputItemRow = some o → o.wellFormed

/-- The rows of the open output block that are written so far; none when no output
row is open. -/
def ExecutionBlockImpl.writtenRows (s : ExecutionBlockImpl σ) : List Row :=
  match s.outputItemRow with
  | some o => o.writtenRows
  | none => []

/-- The output row after one `produceRow` call of the loop: the executor has
written `row` (or nothing), and the engine has advanced the cursor when the row
is marked produced. -/
def OutputAqlItemRow.afterProduceRow (o : OutputAqlItemRow) (row : Option Row) :
    OutputAqlItemRow :=
  if (match row with
      | some r => o.write r
      | none => o).produced then
    (match row with
      | some r => o.write r
      | none => o).advanceRow
  else
    match row with
    | some r => o.write r
    | none => o

/-! ## Draining a block, and the un-batched reference -/

/-- The driver of §6: it calls `getSome(atMost)` until the state `DONE` comes back,
at most `calls` times, and collects the blocks returned. A `WAITING` result is
followed by the same call again. -/
def ExecutionBlockImpl.drain (E : Executor σ) (fuel atMost : Nat) :
    Nat → ExecutionBlockImpl σ → Option (List AqlItemBlock × ExecutionBlockImpl σ)
  | 0, _ => none
  | calls + 1, s =>
    match ExecutionBlockImpl.getSome E fuel atMost s with
    | none => none
    | some r =>
      match r.ret with
      | Completion.exception _ => none
      | Completion.returned (state, result) =>
        if state = ExecutionState.DONE then some (result.toList, r.post)
        else
          match ExecutionBlockImpl.drain E fuel atMost calls r.post with
          | none => none
          | some (blocks, post) => some (result.toList ++ blocks, post)

/-- The un-batched reference evaluation of §8: the rows the executor produces
when `produceRow` is called, at most `fuel` times, until it answers `DONE`. No
block and no batch size is involved. -/
def Executor.referenceOutput (E : Executor σ) : Nat → σ → List Row
  | 0, _ => []
  | fuel + 1, x =>
    if (E.produceRow x).1.1 = ExecutionState.DONE then (E.produceRow x).1.2.2.toList
    else (E.produceRow x).1.2.2.toList ++ E.referenceOutput fuel (E.produceRow x).2

/-- The contract of an executor and its fetcher over a finite upstream input
(§4.2, §4.3); `μ` bounds the calls it still takes to exhaust the input, and `ω`
counts the rows of the block handed out for passthrough that the executor has
still to write. The engine asks the fetcher for a block only when no output row
is open, that is when `ω` is 0, and the clauses on `fetchBlockForPassthrough` are
for these states only.

* A `produceRow` call that does not answer `DONE` uses up input; one that answers
  `WAITING` produces nothing.
* With passthrough, a `produceRow` call that produces writes one of the rows still
  to write, and one that does not leaves them; a block handed out is to be
  written row by row.
* A fetcher operation that answers `WAITING` makes progress; no fetcher operation
  changes the rows the executor will produce; it reports nothing to deliver only
  with the state `DONE` and when the executor has nothing left to produce; a
  block it hands out has a row. -/
structure Executor.Coherent (E : Executor σ) (μ : σ → Nat) (ω : σ → Nat) : Prop where
  produceRow_uses : ∀ x, (E.produceRow x).1.1 ≠ ExecutionState.DONE → μ (E.produceRow x).2 < μ x
  waiting_produces_nothing : ∀ x, (E.produceRow x).1.1 = ExecutionState.WAITING →
    (E.produceRow x).1.2.2 = none
  produceRow_owed : E.allowsBlockPassthrough = true → ∀ x, 0 < ω x →
    ω (E.produceRow x).2 = if (E.produceRow x).1.2.2 = none then ω x else ω x - 1
  fetchBlock_owed : E.allowsBlockPassthrough = true → ∀ n x b, ω x = 0 →
    (E.fetchBlockForPassthrough n x).1.1 ≠ ExecutionState.WAITING →
    (E.fetchBlockForPassthrough n x).1.2 = some b →
    ω (E.fetchBlockForPassthrough n x).2 = b.size
  fetchBlock_waiting : E.allowsBlockPassthrough = true → ∀ n x, ω x = 0 →
    (E.fetchBlockForPassthrough n x).1.1 = ExecutionState.WAITING →
    ω (E.fetchBlockForPassthrough n x).2 = 0
  fetchBlock_progress : E.allowsBlockPassthrough = true → ∀ n x, ω x = 0 →
    μ (E.fetchBlockForPassthrough n x).2 ≤ μ x ∧
    ((E.fetchBlockForPassthrough n x).1.1 = ExecutionState.WAITING →
      μ (E.fetchBlockForPassthrough n x).2 < μ x)
  fetchBlock_output : E.allowsBlockPassthrough = true → ∀ n x, ω x = 0 →
    E.referenceOutput (μ (E.fetchBlockForPassthrough n x).2 + 1) (E.fetchBlockForPassthrough n x).2
      = E.referenceOutput (μ x + 1) x
  fetchBlock_none : E.allowsBlockPassthrough = true → ∀ n x, ω x = 0 →
    (E.fetchBlockForPassthrough n x).1.1 ≠ ExecutionState.WAITING →
    (E.fetchBlockForPassthrough n x).1.2 = none →
    (E.fetchBlockForPassthrough n x).1.1 = ExecutionState.DONE ∧
      E.referenceOutput (μ x + 1) x = []
  fetchBlock_rows : E.allowsBlockPassthrough = true → ∀ n x b, ω x = 0 →
    (E.fetchBlockForPassthrough n x).1.2 = some b → 0 < b.size
  preFetch_progress : E.allowsBlockPassthrough = false → E.inputSizeRestrictsOutputSize = true →
    ∀ n x, μ (E.preFetchNumberOfRows n x).2 ≤ μ x ∧
      ((E.preFetchNumberOfRows n x).1.1 = ExecutionState.WAITING →
        μ (E.preFetchNumberOfRows n x).2 < μ x)
  preFetch_output : E.allowsBlockPassthrough = false → E.inputSizeRestrictsOutputSize = true →
    ∀ n x,
      E.referenceOutput (μ (E.preFetchNumberOfRows n x).2 + 1) (E.preFetchNumberOfRows n x).2
        = E.referenceOutput (μ x + 1) x
  preFetch_none : E.allowsBlockPassthrough = false → E.inputSizeRestrictsOutputSize = true →
    ∀ n x, (E.preFetchNumberOfRows n x).1.1 ≠ ExecutionState.WAITING →
      ((E.preFetchNumberOfRows n x).1.2
        + E.numberOfRowsInFlight (E.preFetchNumberOfRows n x).2) % 2 ^ 64 = 0 →
      (E.preFetchNumberOfRows n x).1.1 = ExecutionState.DONE ∧
        E.referenceOutput (μ x + 1) x = []

/-- With passthrough, the executor has still to write the rows that are left of
the open output block, and none when no output row is open. -/
def ExecutionBlockImpl.owes (E : Executor σ) (ω : σ → Nat) (s : ExecutionBlockImpl σ) : Prop :=
  E.allowsBlockPassthrough = true →
    match s.outputItemRow with
    | none => ω s.executor = 0
    | some o => ω s.executor + o.baseIndex = o.block.size

/-- The rows of a returned block; none for the null block. -/
def rowsOf (result : Option AqlItemBlock) : List Row :=
  match result with
  | some b => b.rows
  | none => []

/-- The rows of a list of blocks, in order. -/
def concatRows : List AqlItemBlock → List Row
  | [] => []
  | b :: bs => b.rows ++ concatRows bs

/-! ## Re-invoking after `WAITING`, and the upstream without `WAITING` -/

/-- The result is a `WAITING` result. -/
def Completion.isWaiting (c : Completion (ExecutionState × Option AqlItemBlock)) : Bool :=
  match c with
  | Completion.returned value => decide (value.1 = ExecutionState.WAITING)
  | Completion.exception _ => false

/-- The caller of §5: it calls `getSome(atMost)` and, after each `WAITING` result,
the same call again with no other call in between, at most `retries` times
more. -/
def ExecutionBlockImpl.getSomeRetrying (E : Executor σ) (fuel atMost : Nat) :
    Nat → ExecutionBlockImpl σ → Option (CallResult σ (ExecutionState × Option AqlItemBlock))
  | 0, s => ExecutionBlockImpl.getSome E fuel atMost s
  | retries + 1, s =>
    match ExecutionBlockImpl.getSome E fuel atMost s with
    | none => none
    | some r =>
      if r.ret.isWaiting then ExecutionBlockImpl.getSomeRetrying E fuel atMost retries r.post
      else some r

/-- The results of `k` successive pending calls, each re-invoked after `WAITING`,
and the instance after the last. -/
def ExecutionBlockImpl.results (E : Executor σ) (fuel atMost retries : Nat) :
    Nat → ExecutionBlockImpl σ →
      Option (List (Completion (ExecutionState × Option AqlItemBlock)) × ExecutionBlockImpl σ)
  | 0, s => some ([], s)
  | k + 1, s =>
    match ExecutionBlockImpl.getSomeRetrying E fuel atMost retries s with
    | none => none
    | some r =>
      match ExecutionBlockImpl.results E fuel atMost retries k r.post with
      | none => none
      | some (l, t) => some (r.ret :: l, t)

/-- The answer of an operation with its `WAITING` answers removed: the operation
is asked again while it answers `WAITING`, at most `w` times more. -/
def skipWaiting {α : Type} (f : σ → (ExecutionState × α) × σ) : Nat → σ → (ExecutionState × α) × σ
  | 0, x => f x
  | w + 1, x => if (f x).1.1 = ExecutionState.WAITING then skipWaiting f w (f x).2 else f x

/-- The same executor and fetcher on an upstream that blocks instead of answering
`WAITING`: every `WAITING` answer is removed from the answers of the three
operations that can wait. -/
def Executor.withoutWaiting (E : Executor σ) (w : Nat) : Executor σ :=
  { allowsBlockPassthrough := E.allowsBlockPassthrough
    inputSizeRestrictsOutputSize := E.inputSizeRestrictsOutputSize
    produceRow := skipWaiting E.produceRow w
    fetchBlockForPassthrough := fun n => skipWaiting (E.fetchBlockForPassthrough n) w
    preFetchNumberOfRows := fun n => skipWaiting (E.preFetchNumberOfRows n) w
    numberOfRowsInFlight := E.numberOfRowsInFlight }

/-- The parts of the instance, other than executor and output row, that a pull
operation reads: the pool, the kill flag, the failure points and the register
layout. -/
def ExecutionBlockImpl.config (s : ExecutionBlockImpl σ) :
    AqlItemBlockManager × Bool × List String × ExecutorInfos :=
  (s.itemBlockManager, s.killed, s.failurePoints, s.infos)

/-- Two instances agree on everything a pull operation reads; the statistics, the
timer and the list of calls may differ. -/
def ExecutionBlockImpl.sameCore (s t : ExecutionBlockImpl σ) : Prop :=
  s.executor = t.executor ∧ s.outputItemRow = t.outputItemRow ∧ s.config = t.config

/-- What `getSome` makes of the result of `getSomeWithoutTrace`: an exception
passes through, a returned pair is traced. -/
def CallResult.traced (r0 : CallResult σ (ExecutionState × Option AqlItemBlock)) :
    CallResult σ (ExecutionState × Option AqlItemBlock) :=
  match r0.ret with
  | Completion.exception errorNumber =>
    { ret := Completion.exception errorNumber, post := r0.post }
  | Completion.returned value => r0.post.traceGetSomeEnd value.1 value.2

/-- The caller, from a result on: it re-invokes the call when the result is
`WAITING`. -/
def ExecutionBlockImpl.retryAfter (E : Executor σ) (fuel atMost : Nat) (retries : Nat)
    (o : Option (CallResult σ (ExecutionState × Option AqlItemBlock))) :
    Option (CallResult σ (ExecutionState × Option AqlItemBlock)) :=
  match retries with
  | 0 => o
  | retries + 1 =>
    match o with
    | none => none
    | some r =>
      if r.ret.isWaiting then ExecutionBlockImpl.getSomeRetrying E fuel atMost retries r.post
      else some r

/-- The instance after the `produceRow` call was answered `a`: the executor has
moved on, its statistics are counted, the call is logged. -/
def ExecutionBlockImpl.answered (s : ExecutionBlockImpl σ)
    (a : (ExecutionState × Nat × Option Row) × σ) : ExecutionBlockImpl σ :=
  { s with executor := a.2, engineStats := s.engineStats + a.1.2.1,
           calls := s.calls ++ [Call.produceRow a.1.1 a.1.2.2] }

/-- The loop body after the `produceRow` call was answered `a`. -/
def ExecutionBlockImpl.afterAnswer (E : Executor σ) (fuel : Nat) (out : OutputAqlItemRow)
    (s : ExecutionBlockImpl σ) (a : (ExecutionState × Nat × Option Row) × σ) :
    Option (CallResult σ (ExecutionState × Option AqlItemBlock)) :=
  if a.1.1 = ExecutionState.WAITING then
    some { ret := Completion.returned (ExecutionState.WAITING, none),
           post := { s.answered a with outputItemRow := some (out.afterProduceRow a.1.2.2) } }
  else if a.1.1 = ExecutionState.DONE then
    some { ret := Completion.returned (ExecutionState.DONE,
             (out.afterProduceRow a.1.2.2).stealBlock),
           post := { s.answered a with outputItemRow := none } }
  else
    ExecutionBlockImpl.produceRows E fuel a.1.1 (out.afterProduceRow a.1.2.2) (s.answered a)

/-- The rest of `getSomeWithoutTrace` after `requestWrappedBlock` returned `q`. -/
def ExecutionBlockImpl.afterRequest (E : Executor σ) (fuel : Nat)
    (q : (ExecutionState × Option AqlItemBlock) × ExecutionBlockImpl σ) :
    Option (CallResult σ (ExecutionState × Option AqlItemBlock)) :=
  if q.1.1 = ExecutionState.WAITING then
    some { ret := Completion.returned (q.1.1, none), post := q.2 }
  else
    match q.1.2 with
    | none => some { ret := Completion.returned (q.1.1, none), post := q.2 }
    | some newBlock =>
      ExecutionBlockImpl.produceRows E fuel ExecutionState.HASMORE
        (ExecutionBlockImpl.createOutputRow E newBlock) q.2

/-- The passthrough branch of `requestWrappedBlock` after the fetcher answered
`a`. -/
def ExecutionBlockImpl.passFetched (nrItems : Nat) (s : ExecutionBlockImpl σ)
    (a : (ExecutionState × Option AqlItemBlock) × σ) :
    (ExecutionState × Option AqlItemBlock) × ExecutionBlockImpl σ :=
  if a.1.1 = ExecutionState.WAITING then
    ((a.1.1, none),
     { s with executor := a.2,
              calls := s.calls ++ [Call.fetchBlockForPassthrough nrItems a.1.1 a.1.2] })
  else
    match a.1.2 with
    | none =>
      ((a.1.1, none),
       { s with executor := a.2,
                calls := s.calls ++ [Call.fetchBlockForPassthrough nrItems a.1.1 a.1.2] })
    | some block =>
      ((ExecutionState.HASMORE, some block),
       { s with executor := a.2,
                calls := s.calls ++ [Call.fetchBlockForPassthrough nrItems a.1.1 a.1.2] })

/-- The size-prediction branch of `requestWrappedBlock` after the fetcher answered
`a`. -/
def ExecutionBlockImpl.preFetched (E : Executor σ) (nrItems : Nat) (s : ExecutionBlockImpl σ)
    (a : (ExecutionState × Nat) × σ) :
    (ExecutionState × Option AqlItemBlock) × ExecutionBlockImpl σ :=
  if a.1.1 = ExecutionState.WAITING then
    ((a.1.1, none),
     { s with executor := a.2,
              calls := s.calls ++ [Call.preFetchNumberOfRows nrItems a.1.1 a.1.2] })
  else if min ((a.1.2 + E.numberOfRowsInFlight a.2) % 2 ^ 64) nrItems = 0 then
    ((a.1.1, none),
     { s with executor := a.2,
              calls := s.calls ++ [Call.preFetchNumberOfRows nrItems a.1.1 a.1.2] })
  else
    ((ExecutionState.HASMORE,
      some (ExecutionBlockImpl.requestBlock
        { s with executor := a.2,
                 calls := s.calls ++ [Call.preFetchNumberOfRows nrItems a.1.1 a.1.2] }
        (min ((a.1.2 + E.numberOfRowsInFlight a.2) % 2 ^ 64) nrItems) s.infos.numberOfOutputRegisters).1),
     (ExecutionBlockImpl.requestBlock
        { s with executor := a.2,
                 calls := s.calls ++ [Call.preFetchNumberOfRows nrItems a.1.1 a.1.2] }
        (min ((a.1.2 + E.numberOfRowsInFlight a.2) % 2 ^ 64) nrItems) s.infos.numberOfOutputRegisters).2)

/-- The default branch of `requestWrappedBlock`, which asks no fetcher; `a` stands
for an answer that is never `WAITING` and carries the executor along. -/
def ExecutionBlockImpl.plainRequested (nrItems : Nat) (s : ExecutionBlockImpl σ)
    (a : (ExecutionState × Unit) × σ) :
    (ExecutionState × Option AqlItemBlock) × ExecutionBlockImpl σ :=
  ((ExecutionState.HASMORE,
    some (ExecutionBlockImpl.requestBlock { s with executor := a.2 } nrItems
      s.infos.numberOfOutputRegisters).1),
   (ExecutionBlockImpl.requestBlock { s with executor := a.2 } nrItems
      s.infos.numberOfOutputRegisters).2)

/-- Two results agree: the same value or exception, and instances that agree on
executor, output row and configuration. -/
def CallResult.matches (r r' : CallResult σ (ExecutionState × Option AqlItemBlock)) : Prop :=
  r.ret = r'.ret ∧ r.post.sameCore r'.post

/-! ## The lifecycle: `initializeCursor` and `shutdown` -/

/-- The answer of a dependency to the next `initializeCursor` call made on it, and
the dependency after the call. -/
def Dependency.initializeCursor (d : Dependency) : (ExecutionState × Result) × Dependency :=
  match d.initializeCursorAnswers with
  | [] => ((ExecutionState.DONE, { errorNumber := TRI_ERROR_NO_ERROR }), d)
  | a :: rest => (a, { d with initializeCursorAnswers := rest })

/-- The answer of a dependency to the next `shutdown` call made on it (`none` when
the call throws), and the dependency after the call. -/
def Dependency.shutdown (d : Dependency) (_errorCode : Nat) :
    Option (ExecutionState × Result) × Dependency :=
  match d.shutdownAnswers with
  | [] => (some (ExecutionState.DONE, { errorNumber := TRI_ERROR_NO_ERROR }), d)
  | a :: rest => (a, { d with shutdownAnswers := rest })

/-- Method `ExecutionBlockImpl::getHasMoreState`. -/
def ExecutionBlockImpl.getHasMoreState (s : ExecutionBlockImpl σ) :
    ExecutionState × ExecutionBlockImpl σ :=
  if s.done then
    (ExecutionState.DONE, s)
  else if s.buffer.isEmpty && decide (s.upstreamState = ExecutionState.DONE) then
    (ExecutionState.DONE, { s with done := true })
  else
    (ExecutionState.HASMORE, s)

/-- The loop `for (; _dependencyPos != _dependencies.end(); ++_dependencyPos)` of
`initializeCursor`, for the `n` dependencies from the cursor on. It answers the
pair that the loop returns, or `none` when the loop runs to the end of the
list. -/
def ExecutionBlockImpl.initializeCursorLoop :
    Nat → ExecutionBlockImpl σ → Option (ExecutionState × Result) × ExecutionBlockImpl σ
  | 0, s => (none, s)
  | n + 1, s =>
    match s.dependencies[s.dependencyPos]? with
    | none => (none, s)
    | some d =>
      if (d.initializeCursor).1.1 = ExecutionState.WAITING ∨ (d.initializeCursor).1.2.ok = false then
        (some (d.initializeCursor).1,
         { s with dependencies := s.dependencies.set s.dependencyPos (d.initializeCursor).2,
                  calls := s.calls ++ [Call.initializeCursor s.dependencyPos] })
      else
        ExecutionBlockImpl.initializeCursorLoop n
          { s with dependencies := s.dependencies.set s.dependencyPos (d.initializeCursor).2,
                   calls := s.calls ++ [Call.initializeCursor s.dependencyPos],
                   dependencyPos := s.dependencyPos + 1 }

/-- The instance at the head of the dependency loop of `initializeCursor`: the
fetchers and the executor are destroyed and constructed again (`recreate`), and a
cursor at the end of the list is set to its begin. -/
def ExecutionBlockImpl.initializeCursorBegin (recreate : σ → σ) (s : ExecutionBlockImpl σ) :
    ExecutionBlockImpl σ :=
  if s.dependencyPos = s.dependencies.length then
    { s with executor := recreate s.executor, dependencyPos := 0 }
  else
    { s with executor := recreate s.executor }

/-- Method `ExecutionBlockImpl::initializeCursor`. `recreate` is what destroying
and constructing the fetchers and the executor again makes of their state. -/
def ExecutionBlockImpl.initializeCursor (recreate : σ → σ) (_input : Row)
    (s : ExecutionBlockImpl σ) : (ExecutionState × Result) × ExecutionBlockImpl σ :=
  let s := s.initializeCursorBegin recreate
  let r := s.initializeCursorLoop (s.dependencies.length - s.dependencyPos)
  match r.1 with
  | some res => (res, r.2)
  | none =>
    let s := r.2.buffer.foldl (fun t block => t.returnBlock block) r.2
    ((ExecutionState.DONE, { errorNumber := TRI_ERROR_NO_ERROR }),
     { s with buffer := [], done := false, upstreamState := ExecutionState.HASMORE, pos := 0,
              collector := [] })

/-- The loop `for (; _dependencyPos != _dependencies.end(); ++_dependencyPos)` of
`internalShutdown`, for the `n` dependencies from the cursor on. It answers the
pair that the loop returns, or `none` when the loop runs to the end of the
list. -/
def ExecutionBlockImpl.internalShutdownLoop (errorCode : Nat) :
    Nat → ExecutionBlockImpl σ → Option (ExecutionState × Result) × ExecutionBlockImpl σ
  | 0, s => (none, s)
  | n + 1, s =>
    match s.dependencies[s.dependencyPos]? with
    | none => (none, s)
    | some d =>
      match (d.shutdown errorCode).1 with
      | none =>
        ExecutionBlockImpl.internalShutdownLoop errorCode n
          { s with dependencies := s.dependencies.set s.dependencyPos (d.shutdown errorCode).2,
                   calls := s.calls ++ [Call.shutdown s.dependencyPos],
                   shutdownResult := { errorNumber := TRI_ERROR_INTERNAL },
                   dependencyPos := s.dependencyPos + 1 }
      | some (state, res) =>
        if state = ExecutionState.WAITING then
          (some (state, { errorNumber := TRI_ERROR_NO_ERROR }),
           { s with dependencies := s.dependencies.set s.dependencyPos (d.shutdown errorCode).2,
                    calls := s.calls ++ [Call.shutdown s.dependencyPos] })
        else if res.fail then
          ExecutionBlockImpl.internalShutdownLoop errorCode n
            { s with dependencies := s.dependencies.set s.dependencyPos (d.shutdown errorCode).2,
                     calls := s.calls ++ [Call.shutdown s.dependencyPos],
                     shutdownResult := res,
                     dependencyPos := s.dependencyPos + 1 }
        else
          ExecutionBlockImpl.internalShutdownLoop errorCode n
            { s with dependencies := s.dependencies.set s.dependencyPos (d.shutdown errorCode).2,
                     calls := s.calls ++ [Call.shutdown s.dependencyPos],
                     dependencyPos := s.dependencyPos + 1 }

/-- The instance at the head of the dependency loop of `internalShutdown`: with the
cursor at the end of the list the recorded result is reset and the cursor is set
to the begin. -/
def ExecutionBlockImpl.internalShutdownBegin (s : ExecutionBlockImpl σ) : ExecutionBlockImpl σ :=
  if s.dependencyPos = s.dependencies.length then
    { s with shutdownResult := { errorNumber := TRI_ERROR_NO_ERROR }, dependencyPos := 0 }
  else s

/-- Method `ExecutionBlockImpl::internalShutdown`. The buffered blocks are deleted
(`delete it`), which is logged as `Call.deleteBlock`. -/
def ExecutionBlockImpl.internalShutdown (errorCode : Nat) (s : ExecutionBlockImpl σ) :
    (ExecutionState × Result) × ExecutionBlockImpl σ :=
  let s := s.internalShutdownBegin
  let r := s.internalShutdownLoop errorCode (s.dependencies.length - s.dependencyPos)
  match r.1 with
  | some res => (res, r.2)
  | none =>
    if r.2.buffer.isEmpty then
      ((ExecutionState.DONE, r.2.shutdownResult), r.2)
    else
      ((ExecutionState.DONE, r.2.shutdownResult),
       { r.2 with calls := r.2.calls ++ r.2.buffer.map Call.deleteBlock, buffer := [] })

/-- Method `ExecutionBlockImpl<Executor>::shutdown` of the executors without a
specialisation. -/
def ExecutionBlockImpl.shutdown (errorCode : Nat) (s : ExecutionBlockImpl σ) :
    (ExecutionState × Result) × ExecutionBlockImpl σ :=
  s.internalShutdown errorCode

/-- Method `ExecutionBlockImpl<TraversalExecutor>::shutdown`. `executorShutdown` is
`TraversalExecutor::shutdown`, whose code is not part of the sources at hand. -/
def ExecutionBlockImpl.shutdownTraversalExecutor
    (executorShutdown : Nat → σ → (ExecutionState × Result) × σ) (errorCode : Nat)
    (s : ExecutionBlockImpl σ) : (ExecutionState × Result) × ExecutionBlockImpl σ :=
  let r := s.internalShutdown errorCode
  if r.1.1 = ExecutionState.WAITING then
    (r.1, r.2)
  else
    ((executorShutdown errorCode r.2.executor).1,
     { r.2 with executor := (executorShutdown errorCode r.2.executor).2,
                calls := r.2.calls ++ [Call.executorShutdown] })

/-- Method `ExecutionBlockImpl<ShortestPathExecutor>::shutdown`. `executorShutdown`
is `ShortestPathExecutor::shutdown`, whose code is not part of the sources at
hand. -/
def ExecutionBlockImpl.shutdownShortestPathExecutor
    (executorShutdown : Nat → σ → (ExecutionState × Result) × σ) (errorCode : Nat)
    (s : ExecutionBlockImpl σ) : (ExecutionState × Result) × ExecutionBlockImpl σ :=
  let r := s.internalShutdown errorCode
  if r.1.1 = ExecutionState.WAITING then
    (r.1, r.2)
  else
    ((executorShutdown errorCode r.2.executor).1,
     { r.2 with executor := (executorShutdown errorCode r.2.executor).2,
                calls := r.2.calls ++ [Call.executorShutdown] })

/-- Method `ExecutionBlockImpl<SubqueryExecutor>::shutdown`. `executorShutdown` is
`SubqueryExecutor::shutdown`, whose code is not part of the sources at hand. -/
def ExecutionBlockImpl.shutdownSubqueryExecutor
    (executorShutdown : Nat → σ → (ExecutionState × Result) × σ) (errorCode : Nat)
    (s : ExecutionBlockImpl σ) : (ExecutionState × Result) × ExecutionBlockImpl σ :=
  let x := executorShutdown errorCode s.executor
  let s := { s with executor := x.2, calls := s.calls ++ [Call.executorShutdown] }
  if x.1.1 = ExecutionState.WAITING then
    ((ExecutionState.WAITING, x.1.2), s)
  else
    let r := s.internalShutdown errorCode
    if r.1.1 = ExecutionState.WAITING then
      (r.1, r.2)
    else if r.1.2.fail then
      (r.1, r.2)
    else
      ((r.1.1, x.1.2), r.2)

/-- The caller that re-enters `shutdown` after each `WAITING`, at most `retries`
times. -/
def ExecutionBlockImpl.shutdownRetrying (errorCode : Nat) :
    Nat → ExecutionBlockImpl σ → (ExecutionState × Result) × ExecutionBlockImpl σ
  | 0, s => s.shutdown errorCode
  | retries + 1, s =>
    if (s.shutdown errorCode).1.1 = ExecutionState.WAITING then
      ExecutionBlockImpl.shutdownRetrying errorCode retries (s.shutdown errorCode).2
    else s.shutdown errorCode

/-- The dependency answers its next `initializeCursor` call with a state other
than `WAITING` and an ok `Result`. -/
def Dependency.acknowledges (d : Dependency) : Prop :=
  (d.initializeCursor).1.1 ≠ ExecutionState.WAITING ∧ (d.initializeCursor).1.2.ok = true

/-- The dependency answers its next `shutdown` call with `WAITING`. -/
def Dependency.shutdownWaits (d : Dependency) (errorCode : Nat) : Prop :=
  ∃ res, (d.shutdown errorCode).1 = some (ExecutionState.WAITING, res)

/-- The next `shutdown` call on the dependency fails: it throws, or it answers a
state other than `WAITING` with a failed `Result`. -/
def Dependency.shutdownFails (d : Dependency) (errorCode : Nat) : Prop :=
  (d.shutdown errorCode).1 = none ∨
    ∃ state res, (d.shutdown errorCode).1 = some (state, res) ∧
      state ≠ ExecutionState.WAITING ∧ res.fail = true

/-- The `Result` that the next `shutdown` call on the dependency makes the cascade
record, when there is one: `TRI_ERROR_INTERNAL` when the call throws, the answered
`Result` when that failed. -/
def Dependency.shutdownFailure (d : Dependency) (errorCode : Nat) : Option Result :=
  match (d.shutdown errorCode).1 with
  | none => some { errorNumber := TRI_ERROR_INTERNAL }
  | some (_, res) => if res.fail then some res else none

/-- The dependency at which the cascade of the next lifecycle call starts: the
first one when the cursor is at the end of the list, else the one under the
cursor. -/
def ExecutionBlockImpl.cascadeStart (s : ExecutionBlockImpl σ) : Nat :=
  if s.dependencyPos = s.dependencies.length then 0 else s.dependencyPos

/-- The `Result` that the cascade has recorded after the next `shutdown` call on
each dependency of `ds`, in order, when it had recorded `recorded` before. -/
def recordedShutdownResult (errorCode : Nat) (recorded : Result) (ds : List Dependency) : Result :=
  ds.foldl (fun acc d => (d.shutdownFailure errorCode).getD acc) recorded

/-- No answer of the dependency to a `shutdown` call to come is a failure: none
throws, and none has a failed `Result` with a state other than `WAITING`. -/
def Dependency.neverFailsShutdown (d : Dependency) : Prop :=
  ∀ a ∈ d.shutdownAnswers, ∃ state res, a = some (state, res) ∧
    (state = ExecutionState.WAITING ∨ res.fail = false)

/-- Whether a dependency acknowledges can be computed. -/
instance Dependency.decidableAcknowledges (d : Dependency) : Decidable d.acknowledges := by
  unfold Dependency.acknowledges
  exact inferInstance

/-- Whether the next `shutdown` answer is `WAITING` can be computed. -/
instance Dependency.decidableShutdownWaits (d : Dependency) (errorCode : Nat) :
    Decidable (d.shutdownWaits errorCode) :=
  decidable_of_iff ((d.shutdown errorCode).1.map Prod.fst = some ExecutionState.WAITING) (by
    unfold Dependency.shutdownWaits
    cases (d.shutdown errorCode).1 with
    | none => simp
    | some a =>
      obtain ⟨state, res⟩ := a
      simp)

/-- Whether the next `shutdown` call fails can be computed. -/
instance Dependency.decidableShutdownFails (d : Dependency) (errorCode : Nat) :
    Decidable (d.shutdownFails errorCode) :=
  decidable_of_iff ((d.shutdown errorCode).1 = none ∨
      ((d.shutdown errorCode).1.map Prod.fst ≠ some ExecutionState.WAITING ∧
        (d.shutdown errorCode).1.map (fun a => a.2.fail) = some true)) (by
    unfold Dependency.shutdownFails
    cases (d.shutdown errorCode).1 with
    | none => simp
    | some a =>
      obtain ⟨state, res⟩ := a
      simp only [reduceCtorEq, Option.map_some', ne_eq, Option.some.injEq, false_or,
        Prod.mk.injEq]
      constructor
      · intro h
        exact ⟨state, res, ⟨rfl, rfl⟩, h⟩
      · rintro ⟨state', res', ⟨rfl, rfl⟩, h⟩
        exact h)

/-- Whether no `shutdown` answer to come is a failure can be computed. -/
instance Dependency.decidableNeverFailsShutdown (d : Dependency) :
    Decidable d.neverFailsShutdown :=
  decidable_of_iff (∀ a ∈ d.shutdownAnswers,
      a.map Prod.fst = some ExecutionState.WAITING ∨ a.map (fun a => a.2.fail) = some false) (by
    unfold Dependency.neverFailsShutdown
    constructor
    · intro h a ha
      cases a with
      | none => simpa using h none ha
      | some p =>
        obtain ⟨state, res⟩ := p
        exact ⟨state, res, rfl, by simpa using h _ ha⟩
    · intro h a ha
      obtain ⟨state, res, rfl, hsr⟩ := h a ha
      simpa using hsr)

/-- Whether an answer to a `shutdown` call is `WAITING`. -/
def isWaitingAnswer (a : Option (ExecutionState × Result)) : Bool :=
  match a with
  | none => false
  | some p => decide (p.1 = ExecutionState.WAITING)

/-- The dependency when it has given the `WAITING` answers with which it puts a
`shutdown` off: its next answer is the one that ends the call on it. -/
def Dependency.shutdownSettled (d : Dependency) : Dependency :=
  { d with shutdownAnswers := d.shutdownAnswers.dropWhile isWaitingAnswer }

/-- The number of `WAITING` answers with which the dependency puts a `shutdown`
off. -/
def Dependency.shutdownWaitings (d : Dependency) : Nat :=
  (d.shutdownAnswers.takeWhile isWaitingAnswer).length

/-- What a completed cascade, re-entered after each `WAITING`, has done. -/
def ExecutionBlockImpl.CascadeDone (errorCode : Nat) (s : ExecutionBlockImpl σ)
    (r : (ExecutionState × Result) × ExecutionBlockImpl σ) : Prop :=
  r.1.1 = ExecutionState.DONE ∧
  (∃ cs, r.2.calls = s.calls ++ cs ∧
    (∀ j, s.cascadeStart ≤ j → j < s.dependencies.length → Call.shutdown j ∈ cs) ∧
    (∀ j, j < s.cascadeStart → Call.shutdown j ∉ cs)) ∧
  ((s.internalShutdownBegin.shutdownResult.fail = true ∨
      ∃ x ∈ s.dependencies.drop s.cascadeStart, x.shutdownFails errorCode) →
    r.1.2.fail = true) ∧
  ((∀ x ∈ s.dependencies.drop s.cascadeStart, x.neverFailsShutdown) →
    r.1.2 = s.internalShutdownBegin.shutdownResult)

/-! ## The profiling members -/

/-- The instance with another profiling level, timer and statistics entry. -/
def ExecutionBlockImpl.withStatistics (s : ExecutionBlockImpl σ) (profile getSomeBegin : Nat)
    (nodeStats : Option ExecutionStatsNode) : ExecutionBlockImpl σ :=
  { s with profile := profile, getSomeBegin := getSomeBegin, nodeStats := nodeStats }

/-- The instance without what the tracing reads and writes: the profiling level,
the timer of the call and the entry of the node in the statistics table. All
other members are kept. -/
def ExecutionBlockImpl.withoutStatistics (s : ExecutionBlockImpl σ) : ExecutionBlockImpl σ :=
  s.withStatistics 0 0 none

/-- A result with another profiling level, timer and statistics entry. -/
def CallResult.withStatistics {α : Type} (r : CallResult σ α) (profile getSomeBegin : Nat)
    (nodeStats : Option ExecutionStatsNode) : CallResult σ α :=
  { ret := r.ret, post := r.post.withStatistics profile getSomeBegin nodeStats }

/-! ## Planning a shortest path: the constructor of `ShortestPathNode` -/

/-- Error number `TRI_ERROR_QUERY_PARSE`. -/
def TRI_ERROR_QUERY_PARSE : Nat := 1501

/-- Error number `TRI_ERROR_ARANGO_COLLECTION_TYPE_INVALID`. -/
def TRI_ERROR_ARANGO_COLLECTION_TYPE_INVALID : Nat := 1218

/-- Error number `TRI_ERROR_GRAPH_NOT_FOUND`. -/
def TRI_ERROR_GRAPH_NOT_FOUND : Nat := 1924

/-- Error number `TRI_ERROR_GRAPH_EMPTY`. -/
def TRI_ERROR_GRAPH_EMPTY : Nat := 1950

/-- The enumeration `TRI_edge_direction_e`. -/
inductive TRI_edge_direction_e where
  | TRI_EDGE_ANY
  | TRI_EDGE_IN
  | TRI_EDGE_OUT
deriving DecidableEq, Repr

/-- The enumeration `TRI_col_type_e`. -/
inductive TRI_col_type_e where
  | TRI_COL_TYPE_UNKNOWN
  | TRI_COL_TYPE_DOCUMENT
  | TRI_COL_TYPE_EDGE
deriving DecidableEq, Repr

/-- An `AstNode` (a class whose code is not part of the sources at hand), as far
as the constructor of `ShortestPathNode` looks into it: the node types it tells
apart, each with the data it reads from such a node. -/
inductive AstNode where
  /-- A `NODE_TYPE_REFERENCE` node and the variable it refers to. -/
  | reference (variableId : Nat)
  /-- A `NODE_TYPE_VALUE` node of the type `VALUE_TYPE_STRING`. -/
  | stringValue (value : String)
  /-- A `NODE_TYPE_VALUE` node of the type `VALUE_TYPE_INT`. -/
  | intValue (value : Int)
  /-- A `NODE_TYPE_VALUE` node of another value type. -/
  | otherValue
  /-- A `NODE_TYPE_COLLECTION` node and the name of the collection. -/
  | collection (name : String)
  /-- A `NODE_TYPE_DIRECTION` node with its two members. -/
  | direction (dirNode col : AstNode)
  /-- A `NODE_TYPE_COLLECTION_LIST` node with its members. -/
  | collectionList (members : List AstNode)
  /-- A node of another type. -/
  | other

/-- Method `AstNode::getString()`. -/
def AstNode.getString : AstNode → String
  | AstNode.stringValue value => value
  | AstNode.collection name => name
  | _ => ""

/-- Method `AstNode::isStringValue()`. -/
def AstNode.isStringValue : AstNode → Bool
  | AstNode.stringValue _ => true
  | _ => false

/-- Method `AstNode::getIntValue()`, an `int64_t`. -/
def AstNode.getIntValue : AstNode → Int
  | AstNode.intValue value => value
  | _ => 0

/-- The conversion of an `int64_t` to the `uint64_t` that `parseDirection` takes. -/
def toUInt64 (value : Int) : Nat := (value % 2 ^ 64).toNat

/-- What the constructor of `ShortestPathNode` asks of the server it runs on
(`CollectionNameResolver`, `ServerState`, `ClusterInfo` and the query, whose code
is not part of the sources at hand). A graph is given by its edge collections, in
the order in which `edgeCollections()` lists them. -/
structure PlanningServer where
  getCollectionTypeCluster : String → TRI_col_type_e
  isRunningInCluster : Bool
  isSmart : String → Bool
  realNamesForRead : String → List String
  lookupGraphByName : String → Option (List String)

/-- The members of `ShortestPathNode` that its constructor from the AST sets. An
edge collection (`aql::Collection`) is given by its name; `graphInfo` lists the
values added to the builder `_graphInfo`; `graphObj` is the graph looked up, by
its edge collections. -/
structure ShortestPathNode where
  directions : List TRI_edge_direction_e
  edgeColls : List String
  graphInfo : List String
  graphObj : Option (List String)
  inStartVariable : Option Nat
  startVertexId : String
  inTargetVariable : Option Nat
  targetVertexId : String
deriving DecidableEq, Repr

/-- Function `parseNodeInput`: the vertex id and the variable of a start or target
node; `TRI_ERROR_QUERY_PARSE` is thrown for another node. -/
def parseNodeInput (node : AstNode) : Except Nat (String × Option Nat) :=
  match node with
  | AstNode.reference variableId => Except.ok ("", some variableId)
  | AstNode.stringValue value => Except.ok (value, none)
  | AstNode.intValue _ => Except.error TRI_ERROR_QUERY_PARSE
  | AstNode.otherValue => Except.error TRI_ERROR_QUERY_PARSE
  | _ => Except.error TRI_ERROR_QUERY_PARSE

/-- Function `parseDirection`. -/
def parseDirection (dirNum : Nat) : Except Nat TRI_edge_direction_e :=
  match dirNum with
  | 0 => Except.ok TRI_edge_direction_e.TRI_EDGE_ANY
  | 1 => Except.ok TRI_edge_direction_e.TRI_EDGE_IN
  | 2 => Except.ok TRI_edge_direction_e.TRI_EDGE_OUT
  | _ => Except.error TRI_ERROR_QUERY_PARSE

/-- The lambda `addEdgeColl` of the constructor. -/
def ShortestPathNode.addEdgeColl (node : ShortestPathNode) (n : String)
    (dir : TRI_edge_direction_e) : ShortestPathNode :=
  if dir = TRI_edge_direction_e.TRI_EDGE_ANY then
    { node with
        directions := node.directions ++
          [TRI_edge_direction_e.TRI_EDGE_OUT, TRI_edge_direction_e.TRI_EDGE_IN],
        edgeColls := node.edgeColls ++ [n, n] }
  else
    { node with directions := node.directions ++ [dir], edgeColls := node.edgeColls ++ [n] }

/-- The branch on `isRunningInCluster()` of the constructor: the collection is
added, or, for a smart collection in a cluster, each of its real names. -/
def ShortestPathNode.addEdgeCollOnServer (server : PlanningServer) (node : ShortestPathNode)
    (n : String) (dir : TRI_edge_direction_e) : ShortestPathNode :=
  if server.isRunningInCluster then
    if !server.isSmart n then
      node.addEdgeColl n dir
    else
      (server.realNamesForRead n).foldl (fun node name => node.addEdgeColl name dir) node
  else
    node.addEdgeColl n dir

/-- The head of the loop over a collection list: the direction of the member and
the node that names the collection. -/
def ShortestPathNode.memberDirection (baseDirection : TRI_edge_direction_e) (col : AstNode) :
    Except Nat (TRI_edge_direction_e × AstNode) :=
  match col with
  | AstNode.direction dirNode col =>
    match parseDirection (toUInt64 dirNode.getIntValue) with
    | Except.error e => Except.error e
    | Except.ok dir => Except.ok (dir, col)
  | _ => Except.ok (baseDirection, col)

/-- The loop over the members of a collection list. `seenCollections` is the map
of that name, as the list of its entries in the order of their insertion. -/
def ShortestPathNode.addCollectionList (server : PlanningServer)
    (baseDirection : TRI_edge_direction_e) :
    List AstNode → List (String × TRI_edge_direction_e) → ShortestPathNode →
      Except Nat ShortestPathNode
  | [], _, node => Except.ok node
  | col :: rest, seenCollections, node =>
    match ShortestPathNode.memberDirection baseDirection col with
    | Except.error e => Except.error e
    | Except.ok (dir, col) =>
      match seenCollections.find? (fun it => it.1 == col.getString) with
      | some it =>
        if it.2 ≠ dir then
          Except.error TRI_ERROR_ARANGO_COLLECTION_TYPE_INVALID
        else
          ShortestPathNode.addCollectionList server baseDirection rest seenCollections node
      | none =>
        if server.getCollectionTypeCluster col.getString ≠ TRI_col_type_e.TRI_COL_TYPE_EDGE then
          Except.error TRI_ERROR_ARANGO_COLLECTION_TYPE_INVALID
        else
          let node := { node with graphInfo := node.graphInfo ++ [col.getString] }
          let node := ShortestPathNode.addEdgeCollOnServer server node col.getString dir
          let node :=
            if dir = TRI_edge_direction_e.TRI_EDGE_ANY then
              { node with graphInfo := node.graphInfo ++ [col.getString] }
            else node
          ShortestPathNode.addCollectionList server baseDirection rest
            (seenCollections ++ [(col.getString, dir)]) node

/-- The branch of the constructor for a graph given by its name. -/
def ShortestPathNode.addGraph (server : PlanningServer) (baseDirection : TRI_edge_direction_e)
    (graphName : String) (node : ShortestPathNode) : Except Nat ShortestPathNode :=
  let node := { node with graphInfo := node.graphInfo ++ [graphName],
                          graphObj := server.lookupGraphByName graphName }
  match node.graphObj with
  | none => Except.error TRI_ERROR_GRAPH_NOT_FOUND
  | some eColls =>
    if eColls.length = 0 then
      Except.error TRI_ERROR_GRAPH_EMPTY
    else
      Except.ok (eColls.foldl
        (fun node n => ShortestPathNode.addEdgeCollOnServer server node n baseDirection) node)

/-- The constructor of `ShortestPathNode` from the AST; an exception is the error
number thrown. -/
def ShortestPathNode.construct (server : PlanningServer) (direction : Nat)
    (start target graph : AstNode) : Except Nat ShortestPathNode :=
  match parseDirection direction with
  | Except.error e => Except.error e
  | Except.ok baseDirection =>
    let node : ShortestPathNode :=
      { directions := [], edgeColls := [], graphInfo := [], graphObj := none,
        inStartVariable := none, startVertexId := "",
        inTargetVariable := none, targetVertexId := "" }
    match (match graph with
        | AstNode.collectionList members =>
          ShortestPathNode.addCollectionList server baseDirection members [] node
        | _ =>
          if node.edgeColls.isEmpty then
            if graph.isStringValue then
              ShortestPathNode.addGraph server baseDirection graph.getString node
            else Except.ok node
          else Except.ok node) with
    | Except.error e => Except.error e
    | Except.ok node =>
      match parseNodeInput start with
      | Except.error e => Except.error e
      | Except.ok (id, variableId) =>
        let node := { node with startVertexId := id, inStartVariable := variableId }
        match parseNodeInput target with
        | Except.error e => Except.error e
        | Except.ok (id, variableId) =>
          Except.ok { node with targetVertexId := id, inTargetVariable := variableId }

/-- The entries of the direction list and of the edge-collection list that stand
for one collection with its direction: two entries, `OUT` then `IN`, for the
direction `ANY`, and one entry otherwise. -/
def ShortestPathNode.entries (c : String × TRI_edge_direction_e) :
    List (String × TRI_edge_direction_e) :=
  if c.2 = TRI_edge_direction_e.TRI_EDGE_ANY then
    [(c.1, TRI_edge_direction_e.TRI_EDGE_OUT), (c.1, TRI_edge_direction_e.TRI_EDGE_IN)]
  else [c]

/-- The direction list and the edge-collection list of `node` are the entries of
the collections `added`, in order. -/
def ShortestPathNode.StandsFor (node : ShortestPathNode)
    (added : List (String × TRI_edge_direction_e)) : Prop :=
  node.edgeColls = (added.flatMap ShortestPathNode.entries).map Prod.fst ∧
  node.directions = (added.flatMap ShortestPathNode.entries).map Prod.snd

end aql

/-! ## Cluster transactions: `ClusterTrxMethods::beginTransactionOnFollowers` -/

/-- A `ServerID`. -/
abbrev ServerID := String

/-- Error number `TRI_ERROR_SHUTTING_DOWN`. -/
def TRI_ERROR_SHUTTING_DOWN : Nat := 30

/-- What `ClusterTrxMethods` calls on its collaborators, whose code is not part of
the sources at hand: `τ` is the `TransactionState`, `φ` the `FollowerInfo` and `ρ`
a `ClusterCommRequest`. `beginTransactionRequest` and `checkTransactionResult` are
the functions of these names in the anonymous namespace of the file, which build
such a request for a server and read the result stored in it; `clusterComm` tells
that `ClusterComm::instance()` is not null; `performRequests` returns the number
of good requests and the requests with their results. -/
structure ClusterTrxCollaborators (τ φ ρ : Type) where
  knowsServer : τ → ServerID → Bool
  addKnownServer : τ → ServerID → τ
  beginTransactionRequest : τ → ServerID → ρ
  clusterComm : Bool
  performRequests : List ρ → Nat × List ρ
  checkTransactionResult : τ → ρ → aql.Result
  remove : φ → ServerID → φ

/-- How `beginTransactionOnFollowers` ends: it returns, or it reads
`requests[index]` outside the vector of `size` requests, where the behaviour of
the program is undefined; `info` is the `FollowerInfo` at that point. -/
inductive ClusterTrxMethods.Outcome (α φ : Type) where
  | returned (value : α)
  | readOutside (index size : Nat) (info : φ)
deriving DecidableEq, Repr

/-- The loop "prepare the requests" of `beginTransactionOnLeaders` and of
`beginTransactionOnFollowers`: a server the transaction knows is passed over;
another one is made known and a request is built for it. -/
def ClusterTrxMethods.prepareRequests {τ φ ρ : Type} (C : ClusterTrxCollaborators τ φ ρ) :
    List ServerID → τ → List ρ → τ × List ρ
  | [], state, requests => (state, requests)
  | follower :: rest, state, requests =>
    if C.knowsServer state follower then
      ClusterTrxMethods.prepareRequests C rest state requests
    else
      ClusterTrxMethods.prepareRequests C rest (C.addKnownServer state follower)
        (requests ++ [C.beginTransactionRequest (C.addKnownServer state follower) follower])

/-- The loop of `beginTransactionOnFollowers` that drops the followers that were
not successful: `i` is its index and the list is `followers` from `i` on. -/
def ClusterTrxMethods.dropFollowers {τ φ ρ : Type} (C : ClusterTrxCollaborators τ φ ρ)
    (state : τ) (requests : List ρ) :
    List ServerID → Nat → φ → ClusterTrxMethods.Outcome φ φ
  | [], _, info => ClusterTrxMethods.Outcome.returned info
  | follower :: rest, i, info =>
    match requests[i]? with
    | none => ClusterTrxMethods.Outcome.readOutside i requests.length info
    | some request =>
      if (C.checkTransactionResult state request).fail then
        ClusterTrxMethods.dropFollowers C state requests rest (i + 1) (C.remove info follower)
      else
        ClusterTrxMethods.dropFollowers C state requests rest (i + 1) info

/-- Function `ClusterTrxMethods::beginTransactionOnFollowers`: the `Result` it
returns, with the transaction state and the `FollowerInfo` it leaves. -/
def ClusterTrxMethods.beginTransactionOnFollowers {τ φ ρ : Type}
    (C : ClusterTrxCollaborators τ φ ρ) (state : τ) (info : φ) (followers : List ServerID) :
    ClusterTrxMethods.Outcome (aql.Result × τ × φ) φ :=
  let prepared := ClusterTrxMethods.prepareRequests C followers state []
  let state := prepared.1
  let requests := prepared.2
  if requests.isEmpty then
    ClusterTrxMethods.Outcome.returned ({ errorNumber := aql.TRI_ERROR_NO_ERROR }, state, info)
  else if C.clusterComm = false then
    ClusterTrxMethods.Outcome.returned ({ errorNumber := TRI_ERROR_SHUTTING_DOWN }, state, info)
  else
    let performed := C.performRequests requests
    let nrGood := performed.1
    let requests := performed.2
    if nrGood < followers.length then
      match ClusterTrxMethods.dropFollowers C state requests followers 0 info with
      | ClusterTrxMethods.Outcome.returned info =>
        ClusterTrxMethods.Outcome.returned ({ errorNumber := aql.TRI_ERROR_NO_ERROR }, state, info)
      | ClusterTrxMethods.Outcome.readOutside index size info =>
        ClusterTrxMethods.Outcome.readOutside index size info
    else
      ClusterTrxMethods.Outcome.returned ({ errorNumber := aql.TRI_ERROR_NO_ERROR }, state, info)

/-- The loop of `beginTransactionOnLeaders` over the requests: it stops at the
first request whose result is a failure. -/
def ClusterTrxMethods.checkRequests {τ φ ρ : Type} (C : ClusterTrxCollaborators τ φ ρ)
    (state : τ) : List ρ → aql.Result → aql.Result
  | [], res => res
  | request :: rest, _ =>
    if (C.checkTransactionResult state request).fail then
      C.checkTransactionResult state request
    else
      ClusterTrxMethods.checkRequests C state rest (C.checkTransactionResult state request)

/-- Function `ClusterTrxMethods::beginTransactionOnLeaders`: the `Result` it
returns and the transaction state it leaves. -/
def ClusterTrxMethods.beginTransactionOnLeaders {τ φ ρ : Type}
    (C : ClusterTrxCollaborators τ φ ρ) (state : τ) (leaders : List ServerID) :
    aql.Result × τ :=
  if leaders.isEmpty then
    ({ errorNumber := aql.TRI_ERROR_NO_ERROR }, state)
  else
    let prepared := ClusterTrxMethods.prepareRequests C leaders state []
    let state := prepared.1
    let requests := prepared.2
    if requests.isEmpty then
      ({ errorNumber := aql.TRI_ERROR_NO_ERROR }, state)
    else if C.clusterComm = false then
      ({ errorNumber := TRI_ERROR_SHUTTING_DOWN }, state)
    else
      let performed := C.performRequests requests
      (ClusterTrxMethods.checkRequests C state performed.2
        { errorNumber := aql.TRI_ERROR_NO_ERROR }, state)

/-- Collaborators for concrete inputs: the transaction state is the list of the
servers it knows, the `FollowerInfo` the list of the followers, and a request is
the server it was built for with the flag that the begin failed there; the begin
fails on the servers `failing`, with the error `TRI_ERROR_INTERNAL`. -/
def listCollaborators (failing : List ServerID) :
    ClusterTrxCollaborators (List ServerID) (List ServerID) (ServerID × Bool) :=
  { knowsServer := fun state server => state.contains server,
    addKnownServer := fun state server => state ++ [server],
    beginTransactionRequest := fun _ server => (server, false),
    clusterComm := true,
    performRequests := fun requests =>
      ((requests.filter (fun request => !failing.contains request.1)).length,
       requests.map (fun request => (request.1, failing.contains request.1))),
    checkTransactionResult := fun _ request =>
      if request.2 then { errorNumber := aql.TRI_ERROR_INTERNAL }
      else { errorNumber := aql.TRI_ERROR_NO_ERROR },
    remove := fun info server => info.erase server }

namespace aql
variable {σ : Type}

/-! ## Instances used as concrete inputs -/

/-- The constructor of `ExecutionBlockImpl`: no output row is open, the buffer is
empty, the dependency cursor is at the end of the list, and the node has an entry
in the statistics table when blocks are profiled. -/
def ExecutionBlockImpl.construct (executor : σ) (infos : ExecutorInfos)
    (dependencies : List Dependency) (profile : Nat) : ExecutionBlockImpl σ :=
  { executor := executor, infos := infos, outputItemRow := none, killed := false,
    failurePoints := [], itemBlockManager := { requested := 0, returned := [] },
    engineStats := 0,
    nodeStats := if PROFILE_LEVEL_BLOCKS ≤ profile then some { calls := 0, items := 0, runtime := 0 }
      else none,
    profile := profile, getSomeBegin := 0, microtime := 0, buffer := [], done := false,
    upstreamState := ExecutionState.HASMORE, pos := 0, collector := [],
    dependencies := dependencies, dependencyPos := dependencies.length,
    shutdownResult := { errorNumber := TRI_ERROR_NO_ERROR }, calls := [] }

/-- The state of an executor and fetcher that answer from lists: the answers to
the `produceRow`, `fetchBlockForPassthrough` and `preFetchNumberOfRows` calls to
come, in call order, and the rows in flight. -/
structure Script where
  produce : List (ExecutionState × Nat × Option Row)
  blocks : List (ExecutionState × Option AqlItemBlock)
  counts : List (ExecutionState × Nat)
  inFlight : Nat
deriving DecidableEq, Repr

/-- An executor and fetcher that answer from lists; a list that is used up
answers `DONE` without data. -/
def scriptedExecutor (passthrough restricts : Bool) : Executor Script where
  allowsBlockPassthrough := passthrough
  inputSizeRestrictsOutputSize := restricts
  produceRow x := match x.produce with
    | [] => ((ExecutionState.DONE, 0, none), x)
    | a :: rest => (a, { x with produce := rest })
  fetchBlockForPassthrough _ x := match x.blocks with
    | [] => ((ExecutionState.DONE, none), x)
    | a :: rest => (a, { x with blocks := rest })
  preFetchNumberOfRows _ x := match x.counts with
    | [] => ((ExecutionState.DONE, 0), x)
    | a :: rest => (a, { x with counts := rest })
  numberOfRowsInFlight x := x.inFlight

/-- A register layout with one output register. -/
def oneRegister : ExecutorInfos :=
  { numberOfInputRegisters := 0, numberOfOutputRegisters := 1, getOutputRegisters := [0],
    registersToKeep := [], registersToClear := [] }

/-- A row of one register that holds `n`. -/
def rowOf (n : Nat) : Row := [some n]

/-- An instance whose executor produces the rows 1, 2 and 3, each with the state
`HASMORE`. -/
def threeRows : ExecutionBlockImpl Script :=
  ExecutionBlockImpl.construct
    { produce := [(ExecutionState.HASMORE, 0, some (rowOf 1)),
                  (ExecutionState.HASMORE, 0, some (rowOf 2)),
                  (ExecutionState.HASMORE, 0, some (rowOf 3))],
      blocks := [], counts := [], inFlight := 0 } oneRegister [] 0

/-- An instance whose fetcher reports one row available with more to come
upstream, and whose executor produces that row with the state `HASMORE`. -/
def oneRowAvailable : ExecutionBlockImpl Script :=
  ExecutionBlockImpl.construct
    { produce := [(ExecutionState.HASMORE, 0, some (rowOf 7)),
                  (ExecutionState.HASMORE, 0, some (rowOf 8))],
      blocks := [], counts := [(ExecutionState.HASMORE, 1), (ExecutionState.HASMORE, 1)],
      inFlight := 0 } oneRegister [] 0

/-- An instance whose fetcher reports 2^64 - 1 rows with `DONE` while the
executor has one row in flight. -/
def rowsWrapAround : ExecutionBlockImpl Script :=
  ExecutionBlockImpl.construct
    { produce := [], blocks := [], counts := [(ExecutionState.DONE, 18446744073709551615)],
      inFlight := 1 } oneRegister [] 0

/-- An instance with passthrough whose fetcher answers `HASMORE` without a
block. -/
def passthroughNoBlock : ExecutionBlockImpl Script :=
  ExecutionBlockImpl.construct
    { produce := [], blocks := [(ExecutionState.HASMORE, none)], counts := [], inFlight := 0 }
    oneRegister [] 0

/-- An instance whose fetcher reports no row available with `HASMORE` while the
executor has no row in flight. -/
def noRowExpected : ExecutionBlockImpl Script :=
  ExecutionBlockImpl.construct
    { produce := [], blocks := [], counts := [(ExecutionState.HASMORE, 0)], inFlight := 0 }
    oneRegister [] 0

/-- An instance with passthrough: the fetcher hands out the upstream block 7 of
two rows, with more to come, and the executor writes both rows. -/
def passthroughTwoRows : ExecutionBlockImpl Script :=
  ExecutionBlockImpl.construct
    { produce := [(ExecutionState.HASMORE, 0, some (rowOf 1)),
                  (ExecutionState.HASMORE, 0, some (rowOf 2))],
      blocks := [(ExecutionState.HASMORE, some { id := 7, nrRegs := 1, rows := [[none], [none]] })],
      counts := [], inFlight := 0 } oneRegister [] 0

/-- An instance with passthrough whose fetcher answers `WAITING` to the first
request of a block and hands out the upstream block 7 on the second. -/
def passthroughWaiting : ExecutionBlockImpl Script :=
  ExecutionBlockImpl.construct
    { produce := [(ExecutionState.DONE, 0, some (rowOf 1))],
      blocks := [(ExecutionState.WAITING, none),
                 (ExecutionState.DONE, some { id := 7, nrRegs := 1, rows := [[none]] })],
      counts := [], inFlight := 0 } oneRegister [] 0

/-- An instance left by a `getSome(2)` that returned `WAITING`: the output row is
open on block 0 with one row written; the executor answers `WAITING` once more
and then produces the last row with `DONE`. -/
def openRowWaiting : ExecutionBlockImpl Script :=
  { ExecutionBlockImpl.construct
      { produce := [(ExecutionState.WAITING, 0, none), (ExecutionState.DONE, 0, some (rowOf 2))],
        blocks := [], counts := [], inFlight := 0 } oneRegister [] 0 with
    outputItemRow := some { block := { id := 0, nrRegs := 1, rows := [rowOf 1, [none]] },
                            baseIndex := 1, producedFlag := false, doNotCopyInputRows := false },
    itemBlockManager := { requested := 1, returned := [] } }

/-- An instance whose executor produces the row 1, skips a row and then answers
`DONE` without a row. -/
def oneRowThenDone : ExecutionBlockImpl Script :=
  ExecutionBlockImpl.construct
    { produce := [(ExecutionState.HASMORE, 0, some (rowOf 1)), (ExecutionState.HASMORE, 1, none),
                  (ExecutionState.DONE, 0, none)],
      blocks := [], counts := [], inFlight := 0 } oneRegister [] 0

/-- The instance `threeRows` after the query was killed. -/
def threeRowsKilled : ExecutionBlockImpl Script :=
  { threeRows with killed := true }

/-- Modelled from the spec: a filter followed by a limit (§8), as the executor of
the limit stage sees its upstream; the executors of the two operators are not
part of the sources at hand. `input` holds the upstream rows not read yet,
`remaining` the rows the limit still lets through. -/
structure FilterLimit where
  input : List Row
  remaining : Nat
deriving DecidableEq, Repr

/-- The filter of the example: a row passes unless its value leaves remainder 1
modulo 3. -/
def passesFilter (row : Row) : Bool :=
  match row with
  | [some n] => decide (n % 3 ≠ 1)
  | _ => false

/-- Modelled from the spec: `produceRow` of the filter-then-limit executor. It
reads one upstream row per call; a row that passes the filter is produced, a row
that does not is skipped and counted as filtered; the answer is `DONE` on the
call that exhausts the input or reaches the limit. -/
def filterLimitExecutor : Executor FilterLimit where
  allowsBlockPassthrough := false
  inputSizeRestrictsOutputSize := false
  produceRow x :=
    if x.remaining = 0 then ((ExecutionState.DONE, 0, none), x)
    else
      match x.input with
      | [] => ((ExecutionState.DONE, 0, none), x)
      | row :: rest =>
        if passesFilter row then
          ((if x.remaining = 1 ∨ rest = [] then ExecutionState.DONE else ExecutionState.HASMORE,
            0, some row), { input := rest, remaining := x.remaining - 1 })
        else
          ((if rest = [] then ExecutionState.DONE else ExecutionState.HASMORE, 1, none),
            { input := rest, remaining := x.remaining })
  fetchBlockForPassthrough _ x := ((ExecutionState.DONE, none), x)
  preFetchNumberOfRows _ x := ((ExecutionState.DONE, 0), x)
  numberOfRowsInFlight _ := 0

/-- The pipeline of the example: ten input rows with the values 1 to 10, of which
six pass the filter, and a limit of 3. -/
def filterLimitExample : ExecutionBlockImpl FilterLimit :=
  ExecutionBlockImpl.construct
    { input := (List.range 10).map (fun n => rowOf (n + 1)), remaining := 3 } oneRegister [] 0

/-- The calls the input of the filter-then-limit executor allows: the input rows
not read yet. -/
def FilterLimit.rowsToRead (x : FilterLimit) : Nat := x.input.length

/-- The state of an executor and fetcher on an upstream that makes them wait:
the answers to come of the fetcher and of `produceRow`, in call order, where
`none` stands for an answer `WAITING`. -/
structure WaitingSource where
  blocks : List (Option AqlItemBlock)
  rows : List (Option Row)
deriving DecidableEq, Repr

/-- A passthrough executor on a waiting upstream: the fetcher hands the blocks of
its list on and `produceRow` writes the rows of its list, the last one with
`DONE`; a `WAITING` answer carries no block and no row. -/
def waitingSourceExecutor : Executor WaitingSource where
  allowsBlockPassthrough := true
  inputSizeRestrictsOutputSize := false
  produceRow x := match x.rows with
    | [] => ((ExecutionState.DONE, 0, none), x)
    | none :: rest => ((ExecutionState.WAITING, 0, none), { x with rows := rest })
    | some row :: rest =>
      ((if rest.isEmpty then ExecutionState.DONE else ExecutionState.HASMORE, 0, some row),
       { x with rows := rest })
  fetchBlockForPassthrough _ x := match x.blocks with
    | [] => ((ExecutionState.DONE, none), x)
    | none :: rest => ((ExecutionState.WAITING, none), { x with blocks := rest })
    | some block :: rest => ((ExecutionState.HASMORE, some block), { x with blocks := rest })
  preFetchNumberOfRows _ x := ((ExecutionState.DONE, 0), x)
  numberOfRowsInFlight _ := 0

/-- An instance on a waiting upstream: the fetcher waits once and then hands on a
block of two rows and a block of one row; `produceRow` waits before the first
row, twice before the second and once before the third. -/
def waitingExample : ExecutionBlockImpl WaitingSource :=
  ExecutionBlockImpl.construct
    { blocks := [none, some { id := 7, nrRegs := 1, rows := [[none], [none]] },
                 none, none, some { id := 8, nrRegs := 1, rows := [[none]] }],
      rows := [none, some (rowOf 1), none, none, some (rowOf 2), none, some (rowOf 3)] }
    oneRegister [] 0

/-- The calls the input of the executor on a waiting upstream allows: the answers
of `produceRow` and of the fetcher not given yet. -/
def WaitingSource.callsLeft (x : WaitingSource) : Nat := x.rows.length + x.blocks.length

/-- The rows of the blocks the fetcher has still to hand on. -/
def WaitingSource.rowsToFetch (x : WaitingSource) : Nat :=
  ((x.blocks.filterMap id).map AqlItemBlock.size).sum

/-- The rows `produceRow` has still to write. -/
def WaitingSource.rowsToWrite (x : WaitingSource) : Nat := (x.rows.filterMap id).length

/-- The rows of the block handed on that the executor on a waiting upstream has
still to write: the rows to write that are not rows of a block still to fetch.
In a state whose blocks do not hold the rows to write (an empty block, or more
rows to fetch than to write) the fetcher is not asked. -/
def WaitingSource.rowsOwed (x : WaitingSource) : Nat :=
  if (x.blocks.filterMap id).all (fun b => decide (0 < b.size)) ∧ x.rowsToFetch ≤ x.rowsToWrite
  then x.rowsToWrite - x.rowsToFetch
  else x.rowsToWrite + 1

/-- A block of one register and one row, used as the content of a buffer. -/
def bufferedBlock : AqlItemBlock := { id := 3, nrRegs := 1, rows := [rowOf 1] }

/-- An instance with the given dependencies, freshly constructed but for one
buffered block. -/
def lifecycleBlock (dependencies : List Dependency) : ExecutionBlockImpl Unit :=
  { ExecutionBlockImpl.construct () oneRegister dependencies 0 with buffer := [bufferedBlock] }

/-- A dependency that answers every call with `DONE` and no error. -/
def dependencyOk : Dependency := { initializeCursorAnswers := [], shutdownAnswers := [] }

/-- A dependency whose first two `shutdown` calls answer `DONE` with the error
`errorNumber`. -/
def dependencyShutdownFailing (errorNumber : Nat) : Dependency :=
  { initializeCursorAnswers := [],
    shutdownAnswers := [some (ExecutionState.DONE, { errorNumber := errorNumber }),
                        some (ExecutionState.DONE, { errorNumber := errorNumber })] }

/-- A dependency whose first `initializeCursor` call answers `DONE` with the error
`errorNumber`. -/
def dependencyInitializeCursorFailing (errorNumber : Nat) : Dependency :=
  { initializeCursorAnswers := [(ExecutionState.DONE, { errorNumber := errorNumber })],
    shutdownAnswers := [] }

/-- A dependency whose first `initializeCursor` call answers `WAITING`. -/
def dependencyInitializeCursorWaiting : Dependency :=
  { initializeCursorAnswers := [(ExecutionState.WAITING, { errorNumber := TRI_ERROR_NO_ERROR })],
    shutdownAnswers := [] }

/-- A dependency whose first `shutdown` call answers `WAITING` and whose second
answers `DONE` with the error `errorNumber`. -/
def dependencyShutdownWaiting (errorNumber : Nat) : Dependency :=
  { initializeCursorAnswers := [],
    shutdownAnswers := [some (ExecutionState.WAITING, { errorNumber := TRI_ERROR_NO_ERROR }),
                        some (ExecutionState.DONE, { errorNumber := errorNumber })] }

/-- A dependency whose first `shutdown` call answers `DONE` with the error
`errorNumber` and whose later calls answer `DONE` without error. -/
def dependencyShutdownFailingOnce (errorNumber : Nat) : Dependency :=
  { initializeCursorAnswers := [],
    shutdownAnswers := [some (ExecutionState.DONE, { errorNumber := errorNumber })] }

/-- An instance with the done flag set and one buffered block. -/
def doneWithBuffer : ExecutionBlockImpl Unit :=
  { lifecycleBlock [] with done := true }

/-- An instance with the done flag unset, an empty buffer and the upstream state
`DONE`. -/
def upstreamDone : ExecutionBlockImpl Unit :=
  { lifecycleBlock [] with buffer := [], upstreamState := ExecutionState.DONE }

/-- An executor's own `shutdown` that answers `DONE` without error and leaves the
executor as it is. -/
def executorShutdownOk (_errorCode : Nat) (x : Unit) : (ExecutionState × Result) × Unit :=
  ((ExecutionState.DONE, { errorNumber := TRI_ERROR_NO_ERROR }), x)

/-- A single server on which every collection is an edge collection and the graph
`g` has the edge collections `e1` and `e2`. -/
def singleServer : PlanningServer :=
  { getCollectionTypeCluster := fun _ => TRI_col_type_e.TRI_COL_TYPE_EDGE,
    isRunningInCluster := false,
    isSmart := fun _ => false,
    realNamesForRead := fun _ => [],
    lookupGraphByName := fun name => if name = "g" then some ["e1", "e2"] else none }

/-- The collection list `e1, INBOUND e2, e1`. -/
def twoCollections : AstNode :=
  AstNode.collectionList [AstNode.collection "e1",
    AstNode.direction (AstNode.intValue 1) (AstNode.collection "e2"),
    AstNode.collection "e1"]

/-- The node planned for the direction `ANY`, the start vertex `v/1`, the target
variable 3 and the collection list `e1, INBOUND e2, e1`. -/
def twoCollectionsNode : ShortestPathNode :=
  { directions := [TRI_edge_direction_e.TRI_EDGE_OUT, TRI_edge_direction_e.TRI_EDGE_IN,
      TRI_edge_direction_e.TRI_EDGE_IN],
    edgeColls := ["e1", "e1", "e2"], graphInfo := ["e1", "e1", "e2"], graphObj := none,
    inStartVariable := none, startVertexId := "v/1",
    inTargetVariable := some 3, targetVertexId := "" }

/-! ## Theorems -/

theorem OutputAqlItemRow.stealBlock_size (o : OutputAqlItemRow) (b : AqlItemBlock)
    (hw : o.numRowsWritten ≤ o.block.size) (h : o.stealBlock = some b) :
    b.size = o.numRowsWritten ∧ 0 < b.size ∧ b.id = o.block.id := by
  unfold OutputAqlItemRow.stealBlock at h
  split at h
  · exact absurd h (by simp)
  · rename_i hne
    have hb : b = o.block.shrink o.numRowsWritten := by
      injection h with h'; exact h'.symm
    subst hb
    refine ⟨?_, ?_, rfl⟩ <;>
      simp only [AqlItemBlock.size, AqlItemBlock.shrink, List.length_take] at * <;> omega

theorem List.take_succ_set {α : Type} (l : List α) (i : Nat) (a : α) (h : i < l.length) :
    (l.set i a).take (i + 1) = l.take i ++ [a] := by
  induction l generalizing i with
  | nil => simp at h
  | cons x xs ih =>
    cases i with
    | zero => simp
    | succ j =>
      simp only [List.set_cons_succ, List.take_succ_cons, List.cons_append, List.cons.injEq,
        true_and]
      exact ih j (by simpa using h)

theorem OutputAqlItemRow.step_spec (o : OutputAqlItemRow) (row : Option Row)
    (hfull : o.isFull = false) (hp : o.producedFlag = false) :
    let o1 := match row with
      | some r => o.write r
      | none => o
    let o2 := if o1.produced then o1.advanceRow else o1
    o2.wellFormed ∧ o2.block.size = o.block.size ∧ o2.block.id = o.block.id ∧
      o2.block.nrRegs = o.block.nrRegs ∧ o2.doNotCopyInputRows = o.doNotCopyInputRows ∧
      o2.block.rows.take o2.baseIndex = o.block.rows.take o.baseIndex ++ row.toList ∧
      o2.baseIndex = o.baseIndex + row.toList.length := by
  have hlt : o.baseIndex < o.block.rows.length := by
    simpa [OutputAqlItemRow.isFull, AqlItemBlock.size] using hfull
  cases row with
  | none =>
    simp [OutputAqlItemRow.produced, OutputAqlItemRow.wellFormed, hp, AqlItemBlock.size]
    omega
  | some r =>
    simp [OutputAqlItemRow.produced, OutputAqlItemRow.advanceRow, OutputAqlItemRow.write,
      OutputAqlItemRow.wellFormed, AqlItemBlock.size]
    exact ⟨by omega, List.take_succ_set _ _ _ hlt⟩

theorem ExecutionBlockImpl.produceRows_spec (E : Executor σ) :
    ∀ (fuel : Nat) (st : ExecutionState) (out : OutputAqlItemRow) (s : ExecutionBlockImpl σ)
      (r : CallResult σ (ExecutionState × Option AqlItemBlock)),
      ExecutionBlockImpl.produceRows E fuel st out s = some r → out.wellFormed →
      ∃ (cs : List Call) (out' : OutputAqlItemRow) (ex : σ) (stats : Nat),
        cs.length ≤ fuel ∧
        (∀ c ∈ cs, ∃ x row, c = Call.produceRow x row) ∧
        (∀ c ∈ cs.dropLast, c.produceRowState = some ExecutionState.HASMORE) ∧
        out'.wellFormed ∧ out'.block.size = out.block.size ∧ out'.block.id = out.block.id ∧
        out'.block.nrRegs = out.block.nrRegs ∧
        out'.block.rows.take out'.baseIndex
          = out.block.rows.take out.baseIndex ++ producedRows cs ∧
        ((∃ row, r.ret = Completion.returned (ExecutionState.WAITING, none) ∧
            r.post = { s with executor := ex, engineStats := stats, calls := s.calls ++ cs,
                              outputItemRow := some out' } ∧
            cs.getLast? = some (Call.produceRow ExecutionState.WAITING row)) ∨
         (∃ row, r.ret = Completion.returned (ExecutionState.DONE, out'.stealBlock) ∧
            r.post = { s with executor := ex, engineStats := stats, calls := s.calls ++ cs,
                              outputItemRow := none } ∧
            cs.getLast? = some (Call.produceRow ExecutionState.DONE row)) ∨
         (r.ret = Completion.returned
              (if cs = [] then st else ExecutionState.HASMORE, out'.stealBlock) ∧
            r.post = { s with executor := ex, engineStats := stats, calls := s.calls ++ cs,
                              outputItemRow := none } ∧
            out'.isFull = true ∧
            ∀ c ∈ cs, c.produceRowState = some ExecutionState.HASMORE)) := by
  intro fuel
  induction fuel with
  | zero =>
    intro st out s r h hwf
    unfold ExecutionBlockImpl.produceRows at h
    by_cases hfull : out.isFull = true
    · simp only [hfull, if_true, Option.some.injEq] at h
      subst h
      exact ⟨[], out, s.executor, s.engineStats, by simp, by simp, by simp, hwf, rfl, rfl, rfl,
        by simp [producedRows], Or.inr (Or.inr ⟨by simp, by simp, hfull, by simp⟩)⟩
    · simp [hfull] at h
  | succ n ih =>
    intro st out s r h hwf
    unfold ExecutionBlockImpl.produceRows at h
    by_cases hfull : out.isFull = true
    · simp only [hfull, if_true, Option.some.injEq] at h
      subst h
      exact ⟨[], out, s.executor, s.engineStats, by simp, by simp, by simp, hwf, rfl, rfl, rfl,
        by simp [producedRows], Or.inr (Or.inr ⟨by simp, by simp, hfull, by simp⟩)⟩
    · have hfull' : out.isFull = false := by simpa using hfull
      simp only [hfull', Bool.false_eq_true, if_false] at h
      obtain ⟨hwf2, hsize, hid, hregs, -, htake, -⟩ :=
        OutputAqlItemRow.step_spec out (E.produceRow s.executor).1.2.2 hfull' hwf.1
      generalize hout2 : (if (match (E.produceRow s.executor).1.2.2 with
          | some row => out.write row
          | none => out).produced = true then (match (E.produceRow s.executor).1.2.2 with
          | some row => out.write row
          | none => out).advanceRow else (match (E.produceRow s.executor).1.2.2 with
          | some row => out.write row
          | none => out)) = out2 at h hwf2 hsize hid hregs htake
      cases hst : (E.produceRow s.executor).1.1 with
      | WAITING =>
        simp only [hst, if_true, Option.some.injEq] at h
        subst h
        refine ⟨[Call.produceRow ExecutionState.WAITING (E.produceRow s.executor).1.2.2], out2,
          (E.produceRow s.executor).2, s.engineStats + (E.produceRow s.executor).1.2.1,
          by simp, by simp, by simp, hwf2, hsize, hid, hregs, ?_, Or.inl ⟨_, rfl, rfl, rfl⟩⟩
        rw [htake]; cases (E.produceRow s.executor).1.2.2 <;> simp [producedRows, Call.producedRow]
      | DONE =>
        simp only [hst, if_true, Option.some.injEq] at h
        simp only [reduceCtorEq, if_false, Option.some.injEq] at h
        subst h
        refine ⟨[Call.produceRow ExecutionState.DONE (E.produceRow s.executor).1.2.2], out2,
          (E.produceRow s.executor).2, s.engineStats + (E.produceRow s.executor).1.2.1,
          by simp, by simp, by simp, hwf2, hsize, hid, hregs, ?_, Or.inr (Or.inl ⟨_, rfl, rfl, rfl⟩)⟩
        rw [htake]; cases (E.produceRow s.executor).1.2.2 <;> simp [producedRows, Call.producedRow]
      | HASMORE =>
        simp only [hst, reduceCtorEq, if_false] at h
        obtain ⟨cs, out', ex, stats, hlen, hall, hdrop, hwf', hsize', hid', hregs', htake', hcases⟩ :=
          ih _ _ _ _ h hwf2
        have hc : Call.producedRow (Call.produceRow ExecutionState.HASMORE
            (E.produceRow s.executor).1.2.2) = (E.produceRow s.executor).1.2.2 := rfl
        refine ⟨Call.produceRow ExecutionState.HASMORE (E.produceRow s.executor).1.2.2 :: cs,
          out', ex, stats, by simp; omega, ?_, ?_, hwf', hsize'.trans hsize, hid'.trans hid,
          hregs'.trans hregs, ?_, ?_⟩
        · intro c hc'
          rcases List.mem_cons.1 hc' with rfl | hc'
          · exact ⟨_, _, rfl⟩
          · exact hall c hc'
        · intro c hc'
          cases cs with
          | nil => simp at hc'
          | cons c' cs' =>
            rw [List.dropLast_cons₂] at hc'
            rcases List.mem_cons.1 hc' with rfl | hc'
            · rfl
            · exact hdrop c hc'
        · rw [htake', htake]
          cases hrow : (E.produceRow s.executor).1.2.2 <;>
            simp [producedRows, Call.producedRow, List.filterMap_cons, hrow]
        · rcases hcases with ⟨row, hret, hpost, hlast⟩ | ⟨row, hret, hpost, hlast⟩ |
            ⟨hret, hpost, hfull2, hmore⟩
          · refine Or.inl ⟨row, hret, ?_, ?_⟩
            · rw [hpost]; simp
            · cases cs with
              | nil => simp at hlast
              | cons c' cs' => simpa [List.getLast?_cons_cons] using hlast
          · refine Or.inr (Or.inl ⟨row, hret, ?_, ?_⟩)
            · rw [hpost]; simp
            · cases cs with
              | nil => simp at hlast
              | cons c' cs' => simpa [List.getLast?_cons_cons] using hlast
          · refine Or.inr (Or.inr ⟨?_, ?_, hfull2, ?_⟩)
            · rw [hret]; simp
            · rw [hpost]; simp
            · intro c hc'
              rcases List.mem_cons.1 hc' with rfl | hc'
              · rfl
              · exact hmore c hc'

theorem ExecutionBlockImpl.traceGetSomeBeginInner_frame (s : ExecutionBlockImpl σ) (atMost : Nat) :
    ∃ b, s.traceGetSomeBeginInner atMost = { s with getSomeBegin := b } := by
  unfold ExecutionBlockImpl.traceGetSomeBeginInner
  split
  · split
    · exact ⟨_, rfl⟩
    · exact ⟨s.getSomeBegin, rfl⟩
  · exact ⟨s.getSomeBegin, rfl⟩

theorem ExecutionBlockImpl.traceSkipSomeBeginInner_eq (s : ExecutionBlockImpl σ) (atMost : Nat) :
    s.traceSkipSomeBeginInner atMost = s.traceGetSomeBeginInner atMost := rfl

theorem ExecutionBlockImpl.addNodeStats_frame (s : ExecutionBlockImpl σ)
    (stats : ExecutionStatsNode) :
    ∃ n, s.addNodeStats stats = { s with nodeStats := n } := by
  unfold ExecutionBlockImpl.addNodeStats
  split <;> exact ⟨_, rfl⟩

theorem ExecutionBlockImpl.traceGetSomeEndInner_frame (s : ExecutionBlockImpl σ)
    (result : Option AqlItemBlock) (state : ExecutionState) :
    ∃ b n, s.traceGetSomeEndInner result state = { s with getSomeBegin := b, nodeStats := n } := by
  unfold ExecutionBlockImpl.traceGetSomeEndInner
  by_cases hp : PROFILE_LEVEL_BLOCKS ≤ s.profile
  · by_cases hs : state ≠ ExecutionState.WAITING
    · simp only [hp, hs, if_true, ne_eq, not_false_eq_true]
      obtain ⟨n, hn⟩ := ExecutionBlockImpl.addNodeStats_frame { s with getSomeBegin := 0 }
        { calls := 1, items := (match result with
            | some block => block.size
            | none => 0), runtime := s.microtime - s.getSomeBegin }
      exact ⟨0, n, by rw [hn]⟩
    · simp only [hp, hs, if_true, if_false]
      obtain ⟨n, hn⟩ := ExecutionBlockImpl.addNodeStats_frame s
        { calls := 1, items := (match result with
            | some block => block.size
            | none => 0), runtime := 0 }
      exact ⟨s.getSomeBegin, n, by rw [hn]⟩
  · simp only [hp, if_false]
    exact ⟨s.getSomeBegin, s.nodeStats, rfl⟩

theorem ExecutionBlockImpl.traceSkipSomeEndInner_frame (s : ExecutionBlockImpl σ)
    (skipped : Nat) (state : ExecutionState) :
    ∃ b n, s.traceSkipSomeEndInner skipped state = { s with getSomeBegin := b, nodeStats := n } := by
  unfold ExecutionBlockImpl.traceSkipSomeEndInner
  split
  · split
    · obtain ⟨n, hn⟩ := ExecutionBlockImpl.addNodeStats_frame { s with getSomeBegin := 0 }
        { calls := 1, items := skipped, runtime := s.microtime - s.getSomeBegin }
      exact ⟨0, n, by rw [hn]⟩
    · obtain ⟨n, hn⟩ := ExecutionBlockImpl.addNodeStats_frame s
        { calls := 1, items := skipped, runtime := 0 }
      exact ⟨s.getSomeBegin, n, by rw [hn]⟩
  · exact ⟨s.getSomeBegin, s.nodeStats, rfl⟩

/-- What `getSome` returns is what `getSomeWithoutTrace` returns on the instance
with the timer started; the instance afterwards differs in the timer and the
statistics entry only. -/
theorem ExecutionBlockImpl.getSome_eq (E : Executor σ) (fuel atMost : Nat)
    (s : ExecutionBlockImpl σ) (r : CallResult σ (ExecutionState × Option AqlItemBlock))
    (h : ExecutionBlockImpl.getSome E fuel atMost s = some r) :
    ∃ r0 b n, ExecutionBlockImpl.getSomeWithoutTrace E fuel atMost (s.traceGetSomeBeginInner atMost)
        = some r0 ∧ r.ret = r0.ret ∧ r.post = { r0.post with getSomeBegin := b, nodeStats := n } := by
  unfold ExecutionBlockImpl.getSome at h
  cases h0 : ExecutionBlockImpl.getSomeWithoutTrace E fuel atMost (s.traceGetSomeBeginInner atMost) with
  | none => simp [h0] at h
  | some r0 =>
    simp only [h0] at h
    cases hret : r0.ret with
    | exception e =>
      simp only [hret, Option.some.injEq] at h
      subst h
      exact ⟨r0, r0.post.getSomeBegin, r0.post.nodeStats, rfl, hret.symm, rfl⟩
    | returned v =>
      simp only [hret, Option.some.injEq] at h
      subst h
      obtain ⟨b, n, hbn⟩ := ExecutionBlockImpl.traceGetSomeEndInner_frame r0.post v.2 v.1
      exact ⟨r0, b, n, rfl, hret.symm, hbn⟩

/-- The ways through `getSomeWithoutTrace`: it throws at the top, it returns
without a block because none could be opened, or it runs the loop on the open
output row or on a row opened on the requested block. -/
theorem ExecutionBlockImpl.getSomeWithoutTrace_cases (E : Executor σ) (fuel atMost : Nat)
    (s : ExecutionBlockImpl σ) (r : CallResult σ (ExecutionState × Option AqlItemBlock))
    (h : ExecutionBlockImpl.getSomeWithoutTrace E fuel atMost s = some r) :
    (¬ s.passesEntryChecks ∧ r.post = s ∧ ∃ e, r.ret = Completion.exception e) ∨
    (s.passesEntryChecks ∧
      ((∃ out, s.outputItemRow = some out ∧
          ExecutionBlockImpl.produceRows E fuel ExecutionState.HASMORE out s = some r) ∨
       (s.outputItemRow = none ∧
          ((ExecutionBlockImpl.requestWrappedBlock E atMost s.infos.numberOfOutputRegisters s).1.1
              = ExecutionState.WAITING ∨
            (ExecutionBlockImpl.requestWrappedBlock E atMost
              s.infos.numberOfOutputRegisters s).1.2 = none) ∧
          r = { ret := Completion.returned
                  ((ExecutionBlockImpl.requestWrappedBlock E atMost
                    s.infos.numberOfOutputRegisters s).1.1, none),
                post := (ExecutionBlockImpl.requestWrappedBlock E atMost
                    s.infos.numberOfOutputRegisters s).2 }) ∨
       (s.outputItemRow = none ∧
          (ExecutionBlockImpl.requestWrappedBlock E atMost s.infos.numberOfOutputRegisters s).1.1
              ≠ ExecutionState.WAITING ∧
          ∃ b, (ExecutionBlockImpl.requestWrappedBlock E atMost
              s.infos.numberOfOutputRegisters s).1.2 = some b ∧
            ExecutionBlockImpl.produceRows E fuel ExecutionState.HASMORE
              (ExecutionBlockImpl.createOutputRow E b)
              (ExecutionBlockImpl.requestWrappedBlock E atMost
                s.infos.numberOfOutputRegisters s).2 = some r))) := by
  unfold ExecutionBlockImpl.getSomeWithoutTrace at h
  cases h1 : s.TRI_IF_FAILURE "ExecutionBlock::getOrSkipSome1" with
  | true =>
    simp only [h1, if_true, Option.some.injEq] at h
    subst h
    exact Or.inl ⟨by simp [ExecutionBlockImpl.passesEntryChecks, h1], rfl, _, rfl⟩
  | false =>
  cases h2 : s.TRI_IF_FAILURE "ExecutionBlock::getOrSkipSome2" with
  | true =>
    simp only [h1, h2, if_true, if_false, Bool.false_eq_true, Option.some.injEq] at h
    subst h
    exact Or.inl ⟨by simp [ExecutionBlockImpl.passesEntryChecks, h2], rfl, _, rfl⟩
  | false =>
  cases h3 : s.TRI_IF_FAILURE "ExecutionBlock::getOrSkipSome3" with
  | true =>
    simp only [h1, h2, h3, if_true, if_false, Bool.false_eq_true, Option.some.injEq] at h
    subst h
    exact Or.inl ⟨by simp [ExecutionBlockImpl.passesEntryChecks, h3], rfl, _, rfl⟩
  | false =>
  cases h4 : s.killed with
  | true =>
    simp only [h1, h2, h3, h4, if_true, if_false, Bool.false_eq_true, Option.some.injEq] at h
    subst h
    exact Or.inl ⟨by simp [ExecutionBlockImpl.passesEntryChecks, h4], rfl, _, rfl⟩
  | false =>
  simp only [h1, h2, h3, h4, if_false, Bool.false_eq_true] at h
  refine Or.inr ⟨⟨h1, h2, h3, h4⟩, ?_⟩
  cases hrow : s.outputItemRow with
  | some out =>
    simp only [hrow] at h
    exact Or.inl ⟨out, rfl, h⟩
  | none =>
    simp only [hrow] at h
    by_cases hw : (ExecutionBlockImpl.requestWrappedBlock E atMost
        s.infos.numberOfOutputRegisters s).1.1 = ExecutionState.WAITING
    · simp only [hw, if_true, Option.some.injEq] at h
      exact Or.inr (Or.inl ⟨rfl, Or.inl hw, by rw [← h, hw]⟩)
    · simp only [hw, if_false] at h
      cases hb : (ExecutionBlockImpl.requestWrappedBlock E atMost
          s.infos.numberOfOutputRegisters s).1.2 with
      | none =>
        simp only [hb, Option.some.injEq] at h
        exact Or.inr (Or.inl ⟨rfl, Or.inr rfl, h.symm⟩)
      | some b =>
        simp only [hb] at h
        exact Or.inr (Or.inr ⟨rfl, hw, b, rfl, h⟩)

theorem AqlItemBlockManager.requestBlock_size (m : AqlItemBlockManager) (nrItems nrRegs : Nat) :
    (m.requestBlock nrItems nrRegs).1.size = nrItems := by
  simp [AqlItemBlockManager.requestBlock, AqlItemBlock.size]

/-- The instance after `requestWrappedBlock`: the executor and fetcher, the pool
and the list of calls may have changed, nothing else; no call is a `produceRow`
call. -/
theorem ExecutionBlockImpl.requestWrappedBlock_frame (E : Executor σ) (nrItems nrRegs : Nat)
    (s : ExecutionBlockImpl σ) :
    ∃ ex m cs, (ExecutionBlockImpl.requestWrappedBlock E nrItems nrRegs s).2
        = { s with executor := ex, itemBlockManager := m, calls := s.calls ++ cs } ∧
      (∀ c ∈ cs, c.produceRowState = none ∧ c.producedRow = none) ∧
      (E.allowsBlockPassthrough = true → m = s.itemBlockManager) := by
  unfold ExecutionBlockImpl.requestWrappedBlock
  cases hp : E.allowsBlockPassthrough with
  | true =>
    simp only [if_true]
    by_cases hw : (E.fetchBlockForPassthrough nrItems s.executor).1.1 = ExecutionState.WAITING
    · simp only [hw, if_true]
      exact ⟨_, s.itemBlockManager, [_], rfl,
        by simp [Call.produceRowState, Call.producedRow], fun _ => rfl⟩
    · simp only [hw, if_false]
      cases (E.fetchBlockForPassthrough nrItems s.executor).1.2 <;>
        exact ⟨_, s.itemBlockManager, [_], rfl,
          by simp [Call.produceRowState, Call.producedRow], fun _ => rfl⟩
  | false =>
    simp only [Bool.false_eq_true, if_false]
    cases hr : E.inputSizeRestrictsOutputSize with
    | true =>
      simp only [if_true]
      by_cases hw : (E.preFetchNumberOfRows nrItems s.executor).1.1 = ExecutionState.WAITING
      · simp only [hw, if_true]
        exact ⟨_, s.itemBlockManager, [_], rfl,
          by simp [Call.produceRowState, Call.producedRow], by simp⟩
      · simp only [hw, if_false]
        split
        · exact ⟨_, s.itemBlockManager, [_], rfl,
            by simp [Call.produceRowState, Call.producedRow], by simp⟩
        · simp only [ExecutionBlockImpl.requestBlock, List.append_assoc, List.singleton_append]
          exact ⟨_, _, [_, _], rfl, by simp [Call.produceRowState, Call.producedRow], by simp⟩
    | false =>
      simp only [Bool.false_eq_true, if_false]
      exact ⟨s.executor, _, [_], rfl, by simp [Call.produceRowState, Call.producedRow], by simp⟩

/-- The block `requestWrappedBlock` hands out: it comes with the state `HASMORE`;
without passthrough it is a block of the pool that has at least one and at most
`nrItems` rows, exactly `nrItems` unless the input size restricts the output size
and then the smaller of `nrItems` and the rows expected; with passthrough it is
the block the fetcher answered. -/
theorem ExecutionBlockImpl.requestWrappedBlock_block (E : Executor σ) (nrItems nrRegs : Nat)
    (s : ExecutionBlockImpl σ) (b : AqlItemBlock)
    (h : (ExecutionBlockImpl.requestWrappedBlock E nrItems nrRegs s).1.2 = some b) :
    (ExecutionBlockImpl.requestWrappedBlock E nrItems nrRegs s).1.1 = ExecutionState.HASMORE ∧
    (E.allowsBlockPassthrough = false →
      b.size ≤ nrItems ∧ (0 < nrItems → 0 < b.size) ∧
      (E.inputSizeRestrictsOutputSize = false → b.size = nrItems) ∧
      (E.inputSizeRestrictsOutputSize = true →
        b.size = min (((E.preFetchNumberOfRows nrItems s.executor).1.2
          + E.numberOfRowsInFlight (E.preFetchNumberOfRows nrItems s.executor).2) % 2 ^ 64) nrItems)) ∧
    (E.allowsBlockPassthrough = true →
      (E.fetchBlockForPassthrough nrItems s.executor).1.2 = some b) := by
  unfold ExecutionBlockImpl.requestWrappedBlock at h ⊢
  cases hp : E.allowsBlockPassthrough with
  | true =>
    simp only [hp, if_true] at h ⊢
    by_cases hw : (E.fetchBlockForPassthrough nrItems s.executor).1.1 = ExecutionState.WAITING
    · simp [hw] at h
    · simp only [hw, if_false] at h ⊢
      cases hb : (E.fetchBlockForPassthrough nrItems s.executor).1.2 with
      | none => simp [hb] at h
      | some b' =>
        simp only [hb, Option.some.injEq] at h ⊢
        subst h
        simp
  | false =>
    simp only [hp, Bool.false_eq_true, if_false] at h ⊢
    cases hr : E.inputSizeRestrictsOutputSize with
    | true =>
      simp only [hr, if_true] at h ⊢
      by_cases hw : (E.preFetchNumberOfRows nrItems s.executor).1.1 = ExecutionState.WAITING
      · simp [hw] at h
      · simp only [hw, if_false] at h ⊢
        split at h
        · simp at h
        · rename_i hne
          split
          · rename_i h0; exact absurd h0 hne
          · simp only [ExecutionBlockImpl.requestBlock, Option.some.injEq] at h
            subst h
            simp only [AqlItemBlockManager.requestBlock_size]
            refine ⟨trivial, fun _ => ⟨by omega, fun _ => by omega, by simp, fun _ => trivial⟩,
              by simp⟩
    | false =>
      simp only [hr, Bool.false_eq_true, if_false, ExecutionBlockImpl.requestBlock,
        Option.some.injEq] at h ⊢
      subst h
      simp only [AqlItemBlockManager.requestBlock_size]
      exact ⟨trivial, fun _ => ⟨le_refl _, fun h => h, fun _ => trivial, by simp⟩, by simp⟩

theorem OutputAqlItemRow.wellFormed_numRowsWritten (o : OutputAqlItemRow) (h : o.wellFormed) :
    o.numRowsWritten = o.baseIndex := by
  simp [OutputAqlItemRow.numRowsWritten, OutputAqlItemRow.produced, h.1]

theorem OutputAqlItemRow.wellFormed_isFull (o : OutputAqlItemRow) (h : o.wellFormed)
    (hfull : o.isFull = true) : o.numRowsWritten = o.block.size := by
  rw [OutputAqlItemRow.wellFormed_numRowsWritten o h]
  have := h.2
  simp [OutputAqlItemRow.isFull] at hfull
  omega

theorem ExecutionBlockImpl.createOutputRow_wellFormed (E : Executor σ) (b : AqlItemBlock) :
    (ExecutionBlockImpl.createOutputRow E b).wellFormed ∧
      (ExecutionBlockImpl.createOutputRow E b).block = b ∧
      (ExecutionBlockImpl.createOutputRow E b).baseIndex = 0 := by
  unfold ExecutionBlockImpl.createOutputRow
  split <;> simp [OutputAqlItemRow.wellFormed]

/-- The block the loop returns, when it returns one: it has at least one row and
no more rows than the block of the output row; with a state other than `DONE` it
has exactly as many. Its identity is that of the block of the output row. -/
theorem ExecutionBlockImpl.produceRows_block (E : Executor σ) (fuel : Nat) (st : ExecutionState)
    (out : OutputAqlItemRow) (s : ExecutionBlockImpl σ)
    (r : CallResult σ (ExecutionState × Option AqlItemBlock))
    (h : ExecutionBlockImpl.produceRows E fuel st out s = some r) (hwf : out.wellFormed)
    (x : ExecutionState) (b : AqlItemBlock) (hret : r.ret = Completion.returned (x, some b)) :
    0 < b.size ∧ b.size ≤ out.block.size ∧ b.id = out.block.id ∧
      (x ≠ ExecutionState.DONE → b.size = out.block.size) := by
  obtain ⟨cs, out', ex, stats, -, -, -, hwf', hsize, hid, -, -, hc⟩ :=
    ExecutionBlockImpl.produceRows_spec E fuel st out s r h hwf
  rcases hc with ⟨row, hr, -, -⟩ | ⟨row, hr, -, -⟩ | ⟨hr, -, hfull, -⟩
  · rw [hr] at hret; simp at hret
  · rw [hr] at hret
    simp only [Completion.returned.injEq, Prod.mk.injEq] at hret
    obtain ⟨h1, h2, h3⟩ := OutputAqlItemRow.stealBlock_size out' b
      (by rw [OutputAqlItemRow.wellFormed_numRowsWritten out' hwf']; exact hwf'.2) hret.2
    rw [OutputAqlItemRow.wellFormed_numRowsWritten out' hwf'] at h1
    have := hwf'.2
    exact ⟨h2, by omega, h3.trans hid, fun hx => absurd hret.1.symm hx⟩
  · rw [hr] at hret
    simp only [Completion.returned.injEq, Prod.mk.injEq] at hret
    have hn := OutputAqlItemRow.wellFormed_isFull out' hwf' hfull
    obtain ⟨h1, h2, h3⟩ := OutputAqlItemRow.stealBlock_size out' b (by omega) hret.2
    exact ⟨h2, by omega, h3.trans hid, fun _ => by omega⟩

/-- The loop never ends in the state `HASMORE` without a block when the block of
the output row has a row. -/
theorem ExecutionBlockImpl.produceRows_HASMORE (E : Executor σ) (fuel : Nat)
    (out : OutputAqlItemRow) (s : ExecutionBlockImpl σ)
    (r : CallResult σ (ExecutionState × Option AqlItemBlock))
    (h : ExecutionBlockImpl.produceRows E fuel ExecutionState.HASMORE out s = some r)
    (hwf : out.wellFormed) (hpos : 0 < out.block.size)
    (hret : r.ret = Completion.returned (ExecutionState.HASMORE, none)) : False := by
  obtain ⟨cs, out', ex, stats, -, -, -, hwf', hsize, hid, -, -, hc⟩ :=
    ExecutionBlockImpl.produceRows_spec E fuel ExecutionState.HASMORE out s r h hwf
  rcases hc with ⟨row, hr, -, -⟩ | ⟨row, hr, -, -⟩ | ⟨hr, -, hfull, -⟩
  · rw [hr] at hret; simp at hret
  · rw [hr] at hret; simp at hret
  · rw [hr] at hret
    simp only [Completion.returned.injEq, Prod.mk.injEq] at hret
    have hn := OutputAqlItemRow.wellFormed_isFull out' hwf' hfull
    have := hret.2
    simp [OutputAqlItemRow.stealBlock] at this
    omega

theorem List.mem_dropLast_or_getLast {α : Type} (l : List α) (a : α) (h : a ∈ l) :
    a ∈ l.dropLast ∨ l.getLast? = some a := by
  induction l with
  | nil => simp at h
  | cons x xs ih =>
    cases xs with
    | nil =>
      simp only [List.mem_singleton] at h
      subst h
      exact Or.inr rfl
    | cons y ys =>
      rw [List.dropLast_cons₂, List.getLast?_cons_cons]
      rcases List.mem_cons.1 h with rfl | h'
      · exact Or.inl (List.mem_cons_self _ _)
      · rcases ih h' with h1 | h1
        · exact Or.inl (List.mem_cons_of_mem _ h1)
        · exact Or.inr h1

/-- A `produceRow` call of the loop that is answered `WAITING` or `DONE` is the
last call of the loop, and the loop returns that state. -/
theorem ExecutionBlockImpl.produceRows_last (E : Executor σ) (fuel : Nat) (st : ExecutionState)
    (out : OutputAqlItemRow) (s : ExecutionBlockImpl σ)
    (r : CallResult σ (ExecutionState × Option AqlItemBlock))
    (h : ExecutionBlockImpl.produceRows E fuel st out s = some r) (hwf : out.wellFormed) :
    ∃ (cs : List Call) (out' : OutputAqlItemRow) (ex : σ) (stats : Nat),
      (∀ c ∈ cs, ∃ y row, c = Call.produceRow y row) ∧
      out'.wellFormed ∧ out'.block.size = out.block.size ∧ out'.block.id = out.block.id ∧
      out'.block.nrRegs = out.block.nrRegs ∧
      out'.block.rows.take out'.baseIndex
        = out.block.rows.take out.baseIndex ++ producedRows cs ∧
      r.post = { s with executor := ex, engineStats := stats, calls := s.calls ++ cs,
                        outputItemRow := r.post.outputItemRow } ∧
      (∀ x b, r.ret = Completion.returned (x, some b) →
        b.id = out'.block.id ∧ b.rows = out'.block.rows.take out'.baseIndex ∧
        r.post.outputItemRow = none) ∧
      (∀ x, x ≠ ExecutionState.HASMORE → (∃ row, Call.produceRow x row ∈ cs) →
        (∃ row, cs.getLast? = some (Call.produceRow x row)) ∧
        (∀ c ∈ cs.dropLast, c.produceRowState = some ExecutionState.HASMORE) ∧
        ((x = ExecutionState.WAITING ∧ r.ret = Completion.returned (x, none) ∧
            r.post.outputItemRow = some out') ∨
         (x = ExecutionState.DONE ∧ r.ret = Completion.returned (x, out'.stealBlock) ∧
            r.post.outputItemRow = none))) := by
  obtain ⟨cs, out', ex, stats, -, hall, hdrop, hwf', hsize, hid, hregs, htake, hc⟩ :=
    ExecutionBlockImpl.produceRows_spec E fuel st out s r h hwf
  have hsteal : ∀ b, out'.stealBlock = some b →
      b.id = out'.block.id ∧ b.rows = out'.block.rows.take out'.baseIndex := by
    intro b hb
    unfold OutputAqlItemRow.stealBlock at hb
    rw [OutputAqlItemRow.wellFormed_numRowsWritten out' hwf'] at hb
    split at hb
    · simp at hb
    · simp only [Option.some.injEq] at hb
      subst hb
      exact ⟨rfl, rfl⟩
  refine ⟨cs, out', ex, stats, hall, hwf', hsize, hid, hregs, htake, ?_, ?_, ?_⟩
  · rcases hc with ⟨_, -, hp, -⟩ | ⟨_, -, hp, -⟩ | ⟨-, hp, -, -⟩ <;> rw [hp]
  · intro x b hb
    rcases hc with ⟨_, hr, hp, -⟩ | ⟨_, hr, hp, -⟩ | ⟨hr, hp, -, -⟩
    · rw [hr] at hb; simp at hb
    · rw [hr] at hb
      simp only [Completion.returned.injEq, Prod.mk.injEq] at hb
      exact ⟨(hsteal b hb.2).1, (hsteal b hb.2).2, by rw [hp]⟩
    · rw [hr] at hb
      simp only [Completion.returned.injEq, Prod.mk.injEq] at hb
      exact ⟨(hsteal b hb.2).1, (hsteal b hb.2).2, by rw [hp]⟩
  · rintro x hx ⟨row, hmem⟩
    have hlast : cs.getLast? = some (Call.produceRow x row) := by
      rcases List.mem_dropLast_or_getLast cs _ hmem with h1 | h1
      · have := hdrop _ h1
        simp only [Call.produceRowState, Option.some.injEq] at this
        exact absurd this hx
      · exact h1
    refine ⟨⟨row, hlast⟩, hdrop, ?_⟩
    rcases hc with ⟨row', hr, hp, hl⟩ | ⟨row', hr, hp, hl⟩ | ⟨-, -, -, hmore⟩
    · rw [hlast] at hl
      simp only [Option.some.injEq, Call.produceRow.injEq] at hl
      exact Or.inl ⟨hl.1, by rw [hl.1]; exact hr, by rw [hp]⟩
    · rw [hlast] at hl
      simp only [Option.some.injEq, Call.produceRow.injEq] at hl
      exact Or.inr ⟨hl.1, by rw [hl.1]; exact hr, by rw [hp]⟩
    · have := hmore _ hmem
      simp only [Call.produceRowState, Option.some.injEq] at this
      exact absurd this hx

/-- The timer does not matter to `requestWrappedBlock`. -/
theorem ExecutionBlockImpl.requestWrappedBlock_getSomeBegin (E : Executor σ) (nrItems nrRegs : Nat)
    (s : ExecutionBlockImpl σ) (g : Nat) :
    ExecutionBlockImpl.requestWrappedBlock E nrItems nrRegs { s with getSomeBegin := g }
      = ((ExecutionBlockImpl.requestWrappedBlock E nrItems nrRegs s).1,
         { (ExecutionBlockImpl.requestWrappedBlock E nrItems nrRegs s).2 with getSomeBegin := g }) := by
  unfold ExecutionBlockImpl.requestWrappedBlock
  cases E.allowsBlockPassthrough with
  | true =>
    simp only [if_true]
    by_cases hw : (E.fetchBlockForPassthrough nrItems s.executor).1.1 = ExecutionState.WAITING
    · simp only [hw, if_true]
    · simp only [hw, if_false]
      cases (E.fetchBlockForPassthrough nrItems s.executor).1.2 <;> rfl
  | false =>
    simp only [Bool.false_eq_true, if_false]
    cases E.inputSizeRestrictsOutputSize with
    | true =>
      simp only [if_true]
      by_cases hw : (E.preFetchNumberOfRows nrItems s.executor).1.1 = ExecutionState.WAITING
      · simp only [hw, if_true]
      · simp only [hw, if_false]
        split <;> rfl
    | false => rfl

/-- The ways through `getSome`, with the tracing taken apart: `r0` is what
`getSomeWithoutTrace` answers, `g` the timer it runs with. -/
theorem ExecutionBlockImpl.getSome_cases (E : Executor σ) (fuel atMost : Nat)
    (s : ExecutionBlockImpl σ) (r : CallResult σ (ExecutionState × Option AqlItemBlock))
    (h : ExecutionBlockImpl.getSome E fuel atMost s = some r) :
    ∃ (r0 : CallResult σ (ExecutionState × Option AqlItemBlock)) (g g' : Nat)
      (n : Option ExecutionStatsNode),
      r.ret = r0.ret ∧ r.post = { r0.post with getSomeBegin := g', nodeStats := n } ∧
      ((¬ s.passesEntryChecks ∧ r0.post = { s with getSomeBegin := g } ∧
          ∃ e, r0.ret = Completion.exception e) ∨
       (s.passesEntryChecks ∧
        ((∃ out, s.outputItemRow = some out ∧
            ExecutionBlockImpl.produceRows E fuel ExecutionState.HASMORE out
              { s with getSomeBegin := g } = some r0) ∨
         (s.outputItemRow = none ∧
            ((ExecutionBlockImpl.requestWrappedBlock E atMost s.infos.numberOfOutputRegisters s).1.1
                = ExecutionState.WAITING ∨
              (ExecutionBlockImpl.requestWrappedBlock E atMost
                s.infos.numberOfOutputRegisters s).1.2 = none) ∧
            r0 = { ret := Completion.returned
                    ((ExecutionBlockImpl.requestWrappedBlock E atMost
                      s.infos.numberOfOutputRegisters s).1.1, none),
                   post := { (ExecutionBlockImpl.requestWrappedBlock E atMost
                      s.infos.numberOfOutputRegisters s).2 with getSomeBegin := g } }) ∨
         (s.outputItemRow = none ∧
            (ExecutionBlockImpl.requestWrappedBlock E atMost s.infos.numberOfOutputRegisters s).1.1
                ≠ ExecutionState.WAITING ∧
            ∃ b, (ExecutionBlockImpl.requestWrappedBlock E atMost
                s.infos.numberOfOutputRegisters s).1.2 = some b ∧
              ExecutionBlockImpl.produceRows E fuel ExecutionState.HASMORE
                (ExecutionBlockImpl.createOutputRow E b)
                { (ExecutionBlockImpl.requestWrappedBlock E atMost
                  s.infos.numberOfOutputRegisters s).2 with getSomeBegin := g } = some r0)))) := by
  obtain ⟨r0, g', n, h0, hr0, hpost⟩ := ExecutionBlockImpl.getSome_eq E fuel atMost s r h
  obtain ⟨g, hg⟩ := ExecutionBlockImpl.traceGetSomeBeginInner_frame s atMost
  rw [hg] at h0
  refine ⟨r0, g, g', n, hr0, hpost, ?_⟩
  have hrq := ExecutionBlockImpl.requestWrappedBlock_getSomeBegin E atMost
    s.infos.numberOfOutputRegisters s g
  rcases ExecutionBlockImpl.getSomeWithoutTrace_cases E fuel atMost _ r0 h0 with
    ⟨hn, hp, he⟩ | ⟨hpass, hc⟩
  · exact Or.inl ⟨hn, hp, he⟩
  · refine Or.inr ⟨hpass, ?_⟩
    rcases hc with ⟨out, hout, hloop⟩ | ⟨hnone, hw, hr⟩ | ⟨hnone, hw, b, hb, hloop⟩
    · exact Or.inl ⟨out, hout, hloop⟩
    · simp only at hw hr
      rw [hrq] at hw hr
      exact Or.inr (Or.inl ⟨hnone, hw, hr⟩)
    · simp only at hw hb hloop
      rw [hrq] at hw hb hloop
      exact Or.inr (Or.inr ⟨hnone, hw, b, hb, hloop⟩)

theorem OutputAqlItemRow.stealBlock_none (o : OutputAqlItemRow) (hwf : o.wellFormed)
    (h : o.block.rows.take o.baseIndex = []) : o.stealBlock = none := by
  have h2 := hwf.2
  have hlen := congrArg List.length h
  simp only [List.length_take, List.length_nil, AqlItemBlock.size] at hlen h2
  have h0 : o.baseIndex = 0 := by omega
  simp [OutputAqlItemRow.stealBlock, OutputAqlItemRow.wellFormed_numRowsWritten o hwf, h0]

theorem producedRows_append (cs ds : List Call) :
    producedRows (cs ++ ds) = producedRows cs ++ producedRows ds := by
  simp [producedRows, List.filterMap_append]

theorem producedRows_eq_nil (cs : List Call) (h : ∀ c ∈ cs, c.producedRow = none) :
    producedRows cs = [] := by
  simp only [producedRows, List.filterMap_eq_nil_iff]
  exact h

/-- When `requestWrappedBlock` hands out no block, the state it returns is the
state the fetcher answered: with passthrough the fetcher answered `WAITING` or no
block; with an input size that restricts the output size it answered `WAITING`
or no row is expected; otherwise a block is always handed out. -/
theorem ExecutionBlockImpl.requestWrappedBlock_none (E : Executor σ) (nrItems nrRegs : Nat)
    (s : ExecutionBlockImpl σ)
    (h : (ExecutionBlockImpl.requestWrappedBlock E nrItems nrRegs s).1.2 = none) :
    (E.allowsBlockPassthrough = true ∧
      (ExecutionBlockImpl.requestWrappedBlock E nrItems nrRegs s).1.1
        = (E.fetchBlockForPassthrough nrItems s.executor).1.1 ∧
      ((E.fetchBlockForPassthrough nrItems s.executor).1.1 = ExecutionState.WAITING ∨
        (E.fetchBlockForPassthrough nrItems s.executor).1.2 = none)) ∨
    (E.allowsBlockPassthrough = false ∧ E.inputSizeRestrictsOutputSize = true ∧
      (ExecutionBlockImpl.requestWrappedBlock E nrItems nrRegs s).1.1
        = (E.preFetchNumberOfRows nrItems s.executor).1.1 ∧
      ((E.preFetchNumberOfRows nrItems s.executor).1.1 = ExecutionState.WAITING ∨
        min (((E.preFetchNumberOfRows nrItems s.executor).1.2
          + E.numberOfRowsInFlight (E.preFetchNumberOfRows nrItems s.executor).2) % 2 ^ 64) nrItems = 0)) := by
  unfold ExecutionBlockImpl.requestWrappedBlock at h ⊢
  cases hp : E.allowsBlockPassthrough with
  | true =>
    simp only [hp, if_true] at h ⊢
    by_cases hw : (E.fetchBlockForPassthrough nrItems s.executor).1.1 = ExecutionState.WAITING
    · simp [hw]
    · simp only [hw, if_false] at h ⊢
      cases hb : (E.fetchBlockForPassthrough nrItems s.executor).1.2 with
      | none => simp
      | some b' => simp [hb] at h
  | false =>
    simp only [hp, Bool.false_eq_true, if_false] at h ⊢
    cases hr : E.inputSizeRestrictsOutputSize with
    | true =>
      simp only [hr, if_true] at h ⊢
      by_cases hw : (E.preFetchNumberOfRows nrItems s.executor).1.1 = ExecutionState.WAITING
      · simp [hw]
      · simp only [hw, if_false] at h ⊢
        split at h
        · rename_i h0
          simp only [h0, if_true]
          simp
        · simp at h
    | false =>
      simp [hr, ExecutionBlockImpl.requestBlock] at h

/-- Past the entry checks `getSomeWithoutTrace` opens the output row if need be
and runs the loop. -/
theorem ExecutionBlockImpl.getSomeWithoutTrace_of_passes (E : Executor σ) (fuel atMost : Nat)
    (s : ExecutionBlockImpl σ) (hpass : s.passesEntryChecks) :
    ExecutionBlockImpl.getSomeWithoutTrace E fuel atMost s =
      match s.outputItemRow with
      | none =>
        if (ExecutionBlockImpl.requestWrappedBlock E atMost s.infos.numberOfOutputRegisters s).1.1
            = ExecutionState.WAITING then
          some { ret := Completion.returned
                  ((ExecutionBlockImpl.requestWrappedBlock E atMost
                    s.infos.numberOfOutputRegisters s).1.1, none),
                 post := (ExecutionBlockImpl.requestWrappedBlock E atMost
                    s.infos.numberOfOutputRegisters s).2 }
        else
          match (ExecutionBlockImpl.requestWrappedBlock E atMost
              s.infos.numberOfOutputRegisters s).1.2 with
          | none =>
            some { ret := Completion.returned
                    ((ExecutionBlockImpl.requestWrappedBlock E atMost
                      s.infos.numberOfOutputRegisters s).1.1, none),
                   post := (ExecutionBlockImpl.requestWrappedBlock E atMost
                      s.infos.numberOfOutputRegisters s).2 }
          | some newBlock =>
            ExecutionBlockImpl.produceRows E fuel ExecutionState.HASMORE
              (ExecutionBlockImpl.createOutputRow E newBlock)
              (ExecutionBlockImpl.requestWrappedBlock E atMost
                s.infos.numberOfOutputRegisters s).2
      | some out => ExecutionBlockImpl.produceRows E fuel ExecutionState.HASMORE out s := by
  obtain ⟨h1, h2, h3, h4⟩ := hpass
  unfold ExecutionBlockImpl.getSomeWithoutTrace
  simp only [h1, h2, h3, h4, Bool.false_eq_true, if_false]

theorem ExecutionBlockImpl.passesEntryChecks_traceGetSomeBeginInner (s : ExecutionBlockImpl σ)
    (atMost : Nat) (hpass : s.passesEntryChecks) :
    (s.traceGetSomeBeginInner atMost).passesEntryChecks := by
  obtain ⟨g, hg⟩ := ExecutionBlockImpl.traceGetSomeBeginInner_frame s atMost
  rw [hg]
  exact hpass

theorem ExecutionBlockImpl.getSomeWithoutTrace_no_block (E : Executor σ) (fuel atMost : Nat)
    (s : ExecutionBlockImpl σ) (hpass : s.passesEntryChecks) (hnone : s.outputItemRow = none)
    (hrq : (ExecutionBlockImpl.requestWrappedBlock E atMost
      s.infos.numberOfOutputRegisters s).1.2 = none) :
    ExecutionBlockImpl.getSomeWithoutTrace E fuel atMost s
      = some { ret := Completion.returned
                ((ExecutionBlockImpl.requestWrappedBlock E atMost
                  s.infos.numberOfOutputRegisters s).1.1, none),
               post := (ExecutionBlockImpl.requestWrappedBlock E atMost
                  s.infos.numberOfOutputRegisters s).2 } := by
  rw [ExecutionBlockImpl.getSomeWithoutTrace_of_passes E fuel atMost _ hpass]
  simp only [hnone, hrq]
  split <;> rfl

/-- When `requestWrappedBlock` hands out no block it has made one call, on the
fetcher, and has left the pool alone. -/
theorem ExecutionBlockImpl.requestWrappedBlock_none_frame (E : Executor σ) (nrItems nrRegs : Nat)
    (s : ExecutionBlockImpl σ)
    (h : (ExecutionBlockImpl.requestWrappedBlock E nrItems nrRegs s).1.2 = none) :
    ∃ ex c, (ExecutionBlockImpl.requestWrappedBlock E nrItems nrRegs s).2
        = { s with executor := ex, calls := s.calls ++ [c] } ∧
      c.produceRowState = none ∧ c.producedRow = none := by
  unfold ExecutionBlockImpl.requestWrappedBlock at h ⊢
  cases hp : E.allowsBlockPassthrough with
  | true =>
    simp only [hp, if_true] at h ⊢
    by_cases hw : (E.fetchBlockForPassthrough nrItems s.executor).1.1 = ExecutionState.WAITING
    · simp only [hw, if_true]
      exact ⟨_, _, rfl, rfl, rfl⟩
    · simp only [hw, if_false] at h ⊢
      cases hb : (E.fetchBlockForPassthrough nrItems s.executor).1.2 with
      | none => exact ⟨_, _, rfl, rfl, rfl⟩
      | some b' => simp [hb] at h
  | false =>
    simp only [hp, Bool.false_eq_true, if_false] at h ⊢
    cases hr : E.inputSizeRestrictsOutputSize with
    | true =>
      simp only [hr, if_true] at h ⊢
      by_cases hw : (E.preFetchNumberOfRows nrItems s.executor).1.1 = ExecutionState.WAITING
      · simp only [hw, if_true]
        exact ⟨_, _, rfl, rfl, rfl⟩
      · simp only [hw, if_false] at h ⊢
        split at h
        · rename_i h0
          simp only [h0, if_true]
          exact ⟨_, _, rfl, rfl, rfl⟩
        · simp at h
    | false =>
      simp [hr, ExecutionBlockImpl.requestBlock] at h

theorem OutputAqlItemRow.wellFormed_writtenRows (o : OutputAqlItemRow) (h : o.wellFormed) :
    o.writtenRows = o.block.rows.take o.baseIndex := by
  rw [OutputAqlItemRow.writtenRows, OutputAqlItemRow.wellFormed_numRowsWritten o h]

/-- One `getSome` call from a well-formed instance, as its list of calls: first
the calls `rq` that open the output row (none when a row is open), then the
`produceRow` calls `ps` of the loop; `out'` is the output row at the end of the
loop. The rows written are those written before and those the calls produced; a
returned block holds exactly them; a `produceRow` call answered `WAITING` or
`DONE` is the last call. -/
theorem ExecutionBlockImpl.getSome_run (E : Executor σ) (fuel atMost : Nat)
    (s : ExecutionBlockImpl σ) (hwf : s.wellFormed)
    (r : CallResult σ (ExecutionState × Option AqlItemBlock))
    (h : ExecutionBlockImpl.getSome E fuel atMost s = some r) :
    ∃ (rq ps : List Call) (out' : OutputAqlItemRow),
      r.post.calls = s.calls ++ (rq ++ ps) ∧
      (∀ c ∈ rq, c.produceRowState = none ∧ c.producedRow = none) ∧
      (∀ c ∈ ps, ∃ x row, c = Call.produceRow x row) ∧
      (∀ o, s.outputItemRow = some o → rq = [] ∧
        r.post.itemBlockManager = s.itemBlockManager ∧
        out'.block.id = o.block.id ∧ out'.block.size = o.block.size) ∧
      out'.wellFormed ∧
      out'.writtenRows = s.writtenRows ++ producedRows ps ∧
      (∀ x b, r.ret = Completion.returned (x, some b) →
        b.id = out'.block.id ∧ b.rows = out'.writtenRows ∧ r.post.outputItemRow = none) ∧
      (∀ x, x ≠ ExecutionState.HASMORE → (∃ row, Call.produceRow x row ∈ ps) →
        (∃ row, ps.getLast? = some (Call.produceRow x row)) ∧
        ((x = ExecutionState.WAITING ∧ r.ret = Completion.returned (x, none) ∧
            r.post.outputItemRow = some out') ∨
         (x = ExecutionState.DONE ∧ r.ret = Completion.returned (x, out'.stealBlock) ∧
            r.post.outputItemRow = none))) := by
  obtain ⟨r0, g, g', n, hret, hpost, hc⟩ := ExecutionBlockImpl.getSome_cases E fuel atMost s r h
  have hcalls : r.post.calls = r0.post.calls := by rw [hpost]
  have hpool : r.post.itemBlockManager = r0.post.itemBlockManager := by rw [hpost]
  have hrow : r.post.outputItemRow = r0.post.outputItemRow := by rw [hpost]
  rw [hret, hcalls, hpool, hrow]
  rcases hc with ⟨-, hp, e, he⟩ |
    ⟨-, ⟨out, hout, hloop⟩ | ⟨hnone, hwn, hr⟩ | ⟨hnone, -, b0, hb0, hloop⟩⟩
  · cases hrow0 : s.outputItemRow with
    | none =>
      refine ⟨[], [], ⟨⟨0, 0, []⟩, 0, false, false⟩, by rw [hp]; simp, by simp, by simp,
        by simp, ⟨rfl, by simp [AqlItemBlock.size]⟩, ?_, ?_, by simp⟩
      · simp [ExecutionBlockImpl.writtenRows, hrow0, OutputAqlItemRow.writtenRows, producedRows]
      · intro x b hb; rw [he] at hb; simp at hb
    | some o =>
      refine ⟨[], [], o, by rw [hp]; simp, by simp, by simp, ?_, hwf o hrow0, ?_, ?_, by simp⟩
      · intro o' ho'
        simp only [Option.some.injEq] at ho'
        subst ho'
        exact ⟨rfl, by rw [hp], rfl, rfl⟩
      · simp [ExecutionBlockImpl.writtenRows, hrow0, producedRows]
      · intro x b hb; rw [he] at hb; simp at hb
  · obtain ⟨cs, out', ex, stats, hall, hwf', hsize, hid, -, htake, hp, hblk, hlast⟩ :=
      ExecutionBlockImpl.produceRows_last E fuel _ out _ r0 hloop (hwf out hout)
    refine ⟨[], cs, out', by rw [hp]; simp, by simp, hall, ?_, hwf', ?_, ?_, ?_⟩
    · intro o' ho'
      rw [hout] at ho'
      simp only [Option.some.injEq] at ho'
      subst ho'
      exact ⟨rfl, by rw [hp], hid, hsize⟩
    · rw [OutputAqlItemRow.wellFormed_writtenRows out' hwf', htake]
      simp [ExecutionBlockImpl.writtenRows, hout,
        OutputAqlItemRow.wellFormed_writtenRows out (hwf out hout)]
    · intro x b hb
      rw [OutputAqlItemRow.wellFormed_writtenRows out' hwf']
      exact hblk x b hb
    · intro x hx hmem
      obtain ⟨h1, -, h3⟩ := hlast x hx hmem
      exact ⟨h1, h3⟩
  · obtain ⟨ex, c, hframe, hc, hc'⟩ := ExecutionBlockImpl.requestWrappedBlock_none_frame E atMost
      s.infos.numberOfOutputRegisters s (by
        rcases hwn with hw | hw
        · cases hb : (ExecutionBlockImpl.requestWrappedBlock E atMost
              s.infos.numberOfOutputRegisters s).1.2 with
          | none => rfl
          | some b =>
            have := (ExecutionBlockImpl.requestWrappedBlock_block E atMost _ s b hb).1
            rw [hw] at this; simp at this
        · exact hw)
    refine ⟨[c], [], ⟨⟨0, 0, []⟩, 0, false, false⟩, by rw [hr, hframe]; simp, ?_, by simp,
      ?_, ⟨rfl, by simp [AqlItemBlock.size]⟩, ?_, ?_, by simp⟩
    · intro c' hc''
      simp only [List.mem_singleton] at hc''
      subst hc''
      exact ⟨hc, hc'⟩
    · intro o ho; rw [hnone] at ho; simp at ho
    · simp [ExecutionBlockImpl.writtenRows, hnone, OutputAqlItemRow.writtenRows, producedRows]
    · intro x b hb; rw [hr] at hb; simp at hb
  · obtain ⟨hwf0, hblk0, hbase⟩ := ExecutionBlockImpl.createOutputRow_wellFormed E b0
    obtain ⟨cs, out', ex, stats, hall, hwf', hsize, hid, -, htake, hp, hblk, hlast⟩ :=
      ExecutionBlockImpl.produceRows_last E fuel _ _ _ r0 hloop hwf0
    obtain ⟨ex0, m, rq, hrq, hnp, -⟩ := ExecutionBlockImpl.requestWrappedBlock_frame E atMost
      s.infos.numberOfOutputRegisters s
    refine ⟨rq, cs, out', by rw [hp, hrq]; simp, hnp, hall, ?_, hwf', ?_, ?_, ?_⟩
    · intro o ho; rw [hnone] at ho; simp at ho
    · rw [OutputAqlItemRow.wellFormed_writtenRows out' hwf', htake, hbase]
      simp [ExecutionBlockImpl.writtenRows, hnone]
    · intro x b hb
      rw [OutputAqlItemRow.wellFormed_writtenRows out' hwf']
      exact hblk x b hb
    · intro x hx hmem
      obtain ⟨h1, -, h3⟩ := hlast x hx hmem
      exact ⟨h1, h3⟩

theorem ExecutionBlockImpl.getSomeWithoutTrace_killed (E : Executor σ) (fuel atMost : Nat)
    (s : ExecutionBlockImpl σ)
    (h1 : s.TRI_IF_FAILURE "ExecutionBlock::getOrSkipSome1" = false)
    (h2 : s.TRI_IF_FAILURE "ExecutionBlock::getOrSkipSome2" = false)
    (h3 : s.TRI_IF_FAILURE "ExecutionBlock::getOrSkipSome3" = false)
    (hkilled : s.killed = true) :
    ExecutionBlockImpl.getSomeWithoutTrace E fuel atMost s
      = some { ret := Completion.exception TRI_ERROR_QUERY_KILLED, post := s } := by
  unfold ExecutionBlockImpl.getSomeWithoutTrace
  simp only [h1, h2, h3, hkilled, Bool.false_eq_true, if_false, if_true]

/-- One turn of the loop, spelled out. -/
theorem ExecutionBlockImpl.produceRows_succ (E : Executor σ) (fuel : Nat) (st : ExecutionState)
    (out : OutputAqlItemRow) (s : ExecutionBlockImpl σ) :
    ExecutionBlockImpl.produceRows E (fuel + 1) st out s =
      if out.isFull then
        some { ret := Completion.returned (st, out.stealBlock),
               post := { s with outputItemRow := none } }
      else if (E.produceRow s.executor).1.1 = ExecutionState.WAITING then
        some { ret := Completion.returned (ExecutionState.WAITING, none),
               post := { s with executor := (E.produceRow s.executor).2,
                                engineStats := s.engineStats + (E.produceRow s.executor).1.2.1,
                                calls := s.calls ++ [Call.produceRow (E.produceRow s.executor).1.1
                                  (E.produceRow s.executor).1.2.2],
                                outputItemRow :=
                                  some (out.afterProduceRow (E.produceRow s.executor).1.2.2) } }
      else if (E.produceRow s.executor).1.1 = ExecutionState.DONE then
        some { ret := Completion.returned (ExecutionState.DONE,
                 (out.afterProduceRow (E.produceRow s.executor).1.2.2).stealBlock),
               post := { s with executor := (E.produceRow s.executor).2,
                                engineStats := s.engineStats + (E.produceRow s.executor).1.2.1,
                                calls := s.calls ++ [Call.produceRow (E.produceRow s.executor).1.1
                                  (E.produceRow s.executor).1.2.2],
                                outputItemRow := none } }
      else
        ExecutionBlockImpl.produceRows E fuel (E.produceRow s.executor).1.1
          (out.afterProduceRow (E.produceRow s.executor).1.2.2)
          { s with executor := (E.produceRow s.executor).2,
                   engineStats := s.engineStats + (E.produceRow s.executor).1.2.1,
                   calls := s.calls ++ [Call.produceRow (E.produceRow s.executor).1.1
                     (E.produceRow s.executor).1.2.2] } := by
  rw [ExecutionBlockImpl.produceRows]
  by_cases hfull : out.isFull = true
  · simp only [hfull, if_true]
  · simp only [hfull, if_false]
    by_cases hw : (E.produceRow s.executor).1.1 = ExecutionState.WAITING
    · simp only [hw, if_true]
      rfl
    · simp only [hw, if_false]
      by_cases hd : (E.produceRow s.executor).1.1 = ExecutionState.DONE
      · simp only [hd, if_true]
        rfl
      · simp only [hd, if_false]
        rfl

theorem ExecutionBlockImpl.produceRows_zero (E : Executor σ) (st : ExecutionState)
    (out : OutputAqlItemRow) (s : ExecutionBlockImpl σ) :
    ExecutionBlockImpl.produceRows E 0 st out s =
      if out.isFull then
        some { ret := Completion.returned (st, out.stealBlock),
               post := { s with outputItemRow := none } }
      else none := by
  rw [ExecutionBlockImpl.produceRows]

theorem OutputAqlItemRow.afterProduceRow_spec (o : OutputAqlItemRow) (row : Option Row)
    (hfull : o.isFull = false) (hwf : o.wellFormed) :
    (o.afterProduceRow row).wellFormed ∧
      (o.afterProduceRow row).block.size = o.block.size ∧
      (o.afterProduceRow row).block.id = o.block.id ∧
      (o.afterProduceRow row).writtenRows = o.writtenRows ++ row.toList ∧
      (o.afterProduceRow row).baseIndex = o.baseIndex + row.toList.length ∧
      (row = none → o.afterProduceRow row = o) := by
  obtain ⟨h1, h2, h3, -, -, h6, h7⟩ := OutputAqlItemRow.step_spec o row hfull hwf.1
  refine ⟨h1, h2, h3, ?_, h7, ?_⟩
  · have := OutputAqlItemRow.wellFormed_writtenRows _ h1
    unfold OutputAqlItemRow.afterProduceRow
    rw [this, OutputAqlItemRow.wellFormed_writtenRows o hwf]
    exact h6
  · intro hnone
    subst hnone
    simp [OutputAqlItemRow.afterProduceRow, OutputAqlItemRow.produced, hwf.1]

/-! ### Draining -/

theorem Executor.referenceOutput_succ (E : Executor σ) (fuel : Nat) (x : σ) :
    E.referenceOutput (fuel + 1) x =
      if (E.produceRow x).1.1 = ExecutionState.DONE then (E.produceRow x).1.2.2.toList
      else (E.produceRow x).1.2.2.toList ++ E.referenceOutput fuel (E.produceRow x).2 := rfl

/-- With more calls than the input allows, the reference output does not depend
on the bound. -/
theorem Executor.referenceOutput_of_lt (E : Executor σ) (μ ω : σ → Nat) (hE : E.Coherent μ ω) :
    ∀ (k : Nat) (x : σ), μ x < k → E.referenceOutput k x = E.referenceOutput (μ x + 1) x := by
  intro k
  induction k using Nat.strong_induction_on with
  | _ k ih =>
    intro x hx
    cases k with
    | zero => omega
    | succ k =>
      rw [Executor.referenceOutput_succ, Executor.referenceOutput_succ]
      by_cases hd : (E.produceRow x).1.1 = ExecutionState.DONE
      · simp only [hd, if_true]
      · simp only [hd, if_false]
        have hlt := hE.produceRow_uses x hd
        rw [ih k (by omega) _ (by omega), ih (μ x) (by omega) _ hlt]

/-- The reference output, one `produceRow` call at a time. -/
theorem Executor.referenceOutput_step (E : Executor σ) (μ ω : σ → Nat) (hE : E.Coherent μ ω) (x : σ) :
    E.referenceOutput (μ x + 1) x =
      if (E.produceRow x).1.1 = ExecutionState.DONE then (E.produceRow x).1.2.2.toList
      else (E.produceRow x).1.2.2.toList
        ++ E.referenceOutput (μ (E.produceRow x).2 + 1) (E.produceRow x).2 := by
  rw [Executor.referenceOutput_succ]
  by_cases hd : (E.produceRow x).1.1 = ExecutionState.DONE
  · simp only [hd, if_true]
  · simp only [hd, if_false]
    rw [Executor.referenceOutput_of_lt E μ ω hE (μ x) _ (hE.produceRow_uses x hd)]

theorem OutputAqlItemRow.rowsOf_stealBlock (o : OutputAqlItemRow) :
    rowsOf o.stealBlock = o.writtenRows := by
  unfold OutputAqlItemRow.stealBlock
  split
  · rename_i h0
    simp [rowsOf, OutputAqlItemRow.writtenRows, h0]
  · rfl

/-- The loop run with enough fuel on a coherent executor: it returns, and the
rows returned and still to come are the rows written and the reference output. -/
theorem ExecutionBlockImpl.produceRows_forward (E : Executor σ) (μ ω : σ → Nat) (hE : E.Coherent μ ω) :
    ∀ (n : Nat) (out : OutputAqlItemRow) (s : ExecutionBlockImpl σ),
      μ s.executor < n → out.wellFormed →
      ∃ (r : CallResult σ (ExecutionState × Option AqlItemBlock)) (st : ExecutionState)
        (result : Option AqlItemBlock) (ex : σ) (stats : Nat) (cs : List Call),
        ExecutionBlockImpl.produceRows E n ExecutionState.HASMORE out s = some r ∧
        r.ret = Completion.returned (st, result) ∧
        ((st = ExecutionState.DONE ∧
            r.post = { s with executor := ex, engineStats := stats, calls := s.calls ++ cs,
                              outputItemRow := none } ∧
            rowsOf result = out.writtenRows ++ E.referenceOutput (μ s.executor + 1) s.executor) ∨
         (st = ExecutionState.WAITING ∧ result = none ∧ μ ex < μ s.executor ∧
            ∃ out', r.post = { s with executor := ex, engineStats := stats,
                                      calls := s.calls ++ cs, outputItemRow := some out' } ∧
              out'.wellFormed ∧ out'.isFull = false ∧
              out'.writtenRows ++ E.referenceOutput (μ ex + 1) ex
                = out.writtenRows ++ E.referenceOutput (μ s.executor + 1) s.executor) ∨
         (st = ExecutionState.HASMORE ∧
            r.post = { s with executor := ex, engineStats := stats, calls := s.calls ++ cs,
                              outputItemRow := none } ∧
            μ ex ≤ μ s.executor ∧ (out.isFull = false → μ ex < μ s.executor) ∧
            rowsOf result ++ E.referenceOutput (μ ex + 1) ex
              = out.writtenRows ++ E.referenceOutput (μ s.executor + 1) s.executor)) := by
  intro n
  induction n with
  | zero => intro out s h; omega
  | succ n ih =>
    intro out s hμ hwf
    rw [ExecutionBlockImpl.produceRows_succ]
    by_cases hfull : out.isFull = true
    · simp only [hfull, if_true]
      refine ⟨_, _, _, s.executor, s.engineStats, [], rfl, rfl, Or.inr (Or.inr ⟨rfl, by simp,
        le_refl _, by simp [hfull], ?_⟩)⟩
      rw [OutputAqlItemRow.rowsOf_stealBlock]
    · have hfull' : out.isFull = false := by simpa using hfull
      simp only [hfull', Bool.false_eq_true, if_false]
      obtain ⟨hwf2, hsize, -, hw2, hbase, hsame⟩ :=
        OutputAqlItemRow.afterProduceRow_spec out (E.produceRow s.executor).1.2.2 hfull' hwf
      have hstep := Executor.referenceOutput_step E μ ω hE s.executor
      cases hst : (E.produceRow s.executor).1.1 with
      | WAITING =>
        simp only [if_true]
        have hnone := hE.waiting_produces_nothing s.executor hst
        have hlt := hE.produceRow_uses s.executor (by rw [hst]; simp)
        refine ⟨_, _, _, (E.produceRow s.executor).2, _, [_], rfl, rfl,
          Or.inr (Or.inl ⟨rfl, rfl, hlt, _, rfl, hwf2, ?_, ?_⟩)⟩
        · rw [hsame hnone]; exact hfull'
        · rw [hw2, hstep, hst, hnone]; simp
      | DONE =>
        simp only [reduceCtorEq, if_false, if_true]
        refine ⟨_, _, _, (E.produceRow s.executor).2, _, [_], rfl, rfl, Or.inl ⟨rfl, rfl, ?_⟩⟩
        rw [OutputAqlItemRow.rowsOf_stealBlock, hw2, hstep, hst]; simp
      | HASMORE =>
        simp only [reduceCtorEq, if_false]
        have hlt := hE.produceRow_uses s.executor (by rw [hst]; simp)
        obtain ⟨r, st, result, ex, stats, cs, hrun, hret, hc⟩ :=
          ih (out.afterProduceRow (E.produceRow s.executor).1.2.2)
          { s with executor := (E.produceRow s.executor).2,
                   engineStats := s.engineStats + (E.produceRow s.executor).1.2.1,
                   calls := s.calls ++ [Call.produceRow ExecutionState.HASMORE
                      (E.produceRow s.executor).1.2.2] } (by simp only; omega) hwf2
        have hrows : (out.afterProduceRow (E.produceRow s.executor).1.2.2).writtenRows
              ++ E.referenceOutput (μ (E.produceRow s.executor).2 + 1) (E.produceRow s.executor).2
            = out.writtenRows ++ E.referenceOutput (μ s.executor + 1) s.executor := by
          rw [hw2, hstep, hst]; simp
        refine ⟨r, st, result, ex, stats,
          Call.produceRow ExecutionState.HASMORE (E.produceRow s.executor).1.2.2 :: cs,
          hrun, hret, ?_⟩
        rcases hc with ⟨h1, h2, h3⟩ | ⟨h1, h2, h3, out', h4, h5, h6, h7⟩ | ⟨h1, h2, h3, h4, h5⟩
        · exact Or.inl ⟨h1, by rw [h2]; simp, by rw [h3]; exact hrows⟩
        · refine Or.inr (Or.inl ⟨h1, h2, by simp only at h3; omega, out', by rw [h4]; simp, h5, h6,
            by rw [h7]; exact hrows⟩)
        · refine Or.inr (Or.inr ⟨h1, by rw [h2]; simp, by simp only at h3; omega,
            fun _ => by simp only at h3; omega, by rw [h5]; exact hrows⟩)

/-- The executor and fetcher after `requestWrappedBlock`. -/
theorem ExecutionBlockImpl.requestWrappedBlock_executor (E : Executor σ) (nrItems nrRegs : Nat)
    (s : ExecutionBlockImpl σ) :
    (ExecutionBlockImpl.requestWrappedBlock E nrItems nrRegs s).2.executor =
      if E.allowsBlockPassthrough then (E.fetchBlockForPassthrough nrItems s.executor).2
      else if E.inputSizeRestrictsOutputSize then (E.preFetchNumberOfRows nrItems s.executor).2
      else s.executor := by
  unfold ExecutionBlockImpl.requestWrappedBlock
  cases E.allowsBlockPassthrough with
  | true =>
    simp only [if_true]
    by_cases hw : (E.fetchBlockForPassthrough nrItems s.executor).1.1 = ExecutionState.WAITING
    · simp only [hw, if_true]
    · simp only [hw, if_false]
      cases (E.fetchBlockForPassthrough nrItems s.executor).1.2 <;> rfl
  | false =>
    simp only [Bool.false_eq_true, if_false]
    cases E.inputSizeRestrictsOutputSize with
    | true =>
      simp only [if_true]
      by_cases hw : (E.preFetchNumberOfRows nrItems s.executor).1.1 = ExecutionState.WAITING
      · simp only [hw, if_true]
      · simp only [hw, if_false]
        split <;> rfl
    | false => rfl

/-- The call gets past the entry checks again after `requestWrappedBlock`. -/
theorem ExecutionBlockImpl.requestWrappedBlock_passes (E : Executor σ) (nrItems nrRegs : Nat)
    (s : ExecutionBlockImpl σ) (hpass : s.passesEntryChecks) :
    (ExecutionBlockImpl.requestWrappedBlock E nrItems nrRegs s).2.passesEntryChecks ∧
      (ExecutionBlockImpl.requestWrappedBlock E nrItems nrRegs s).2.outputItemRow
        = s.outputItemRow := by
  obtain ⟨ex, m, cs, hframe, -, -⟩ :=
    ExecutionBlockImpl.requestWrappedBlock_frame E nrItems nrRegs s
  rw [hframe]
  exact ⟨hpass, rfl⟩

/-- Past the entry checks, with no output row open and a block handed out,
`getSomeWithoutTrace` runs the loop on a fresh output row on that block. -/
theorem ExecutionBlockImpl.getSomeWithoutTrace_block (E : Executor σ) (fuel atMost : Nat)
    (s : ExecutionBlockImpl σ) (hpass : s.passesEntryChecks) (hnone : s.outputItemRow = none)
    (b : AqlItemBlock)
    (hrq : (ExecutionBlockImpl.requestWrappedBlock E atMost
      s.infos.numberOfOutputRegisters s).1.2 = some b) :
    ExecutionBlockImpl.getSomeWithoutTrace E fuel atMost s
      = ExecutionBlockImpl.produceRows E fuel ExecutionState.HASMORE
          (ExecutionBlockImpl.createOutputRow E b)
          (ExecutionBlockImpl.requestWrappedBlock E atMost s.infos.numberOfOutputRegisters s).2 := by
  rw [ExecutionBlockImpl.getSomeWithoutTrace_of_passes E fuel atMost _ hpass]
  have hst := (ExecutionBlockImpl.requestWrappedBlock_block E atMost _ s b hrq).1
  simp only [hnone, hrq, hst, reduceCtorEq, if_false]

/-- What `getSome` returns when `getSomeWithoutTrace` returns a pair. -/
theorem ExecutionBlockImpl.getSome_of_returned (E : Executor σ) (fuel atMost : Nat)
    (s : ExecutionBlockImpl σ) (r0 : CallResult σ (ExecutionState × Option AqlItemBlock))
    (st : ExecutionState) (result : Option AqlItemBlock)
    (h0 : ExecutionBlockImpl.getSomeWithoutTrace E fuel atMost (s.traceGetSomeBeginInner atMost)
      = some r0)
    (hret : r0.ret = Completion.returned (st, result)) :
    ExecutionBlockImpl.getSome E fuel atMost s
      = some { ret := Completion.returned (st, result),
               post := r0.post.traceGetSomeEndInner result st } := by
  unfold ExecutionBlockImpl.getSome
  rw [h0]
  simp only [hret, ExecutionBlockImpl.traceGetSomeEnd]

/-- With passthrough on a coherent executor, the loop keeps the rows the executor
has still to write in step with the output row: they are the rows left of the
block when the row stays open, and none when the loop ends on a full block. -/
theorem ExecutionBlockImpl.produceRows_owes (E : Executor σ) (μ ω : σ → Nat) (hE : E.Coherent μ ω)
    (hpt : E.allowsBlockPassthrough = true) :
    ∀ (fuel : Nat) (st : ExecutionState) (out : OutputAqlItemRow) (s : ExecutionBlockImpl σ)
      (r : CallResult σ (ExecutionState × Option AqlItemBlock)),
      ExecutionBlockImpl.produceRows E fuel st out s = some r → out.wellFormed →
      ω s.executor + out.baseIndex = out.block.size →
      (∀ o, r.post.outputItemRow = some o → ω r.post.executor + o.baseIndex = o.block.size) ∧
      (∀ st' result, r.ret = Completion.returned (st', result) → st' ≠ ExecutionState.DONE →
        r.post.outputItemRow = none → ω r.post.executor = 0) := by
  intro fuel
  induction fuel with
  | zero =>
    intro st out s r h hwf hω
    rw [ExecutionBlockImpl.produceRows_zero] at h
    by_cases hfull : out.isFull = true
    · rw [if_pos hfull] at h
      simp only [Option.some.injEq] at h
      subst h
      simp only [OutputAqlItemRow.isFull, decide_eq_true_eq] at hfull
      refine ⟨fun o ho => (by cases ho), fun _ _ _ _ _ => ?_⟩
      show ω s.executor = 0
      have := hwf.2
      omega
    · rw [if_neg hfull] at h
      cases h
  | succ fuel ih =>
    intro st out s r h hwf hω
    rw [ExecutionBlockImpl.produceRows_succ] at h
    by_cases hfull : out.isFull = true
    · rw [if_pos hfull] at h
      simp only [Option.some.injEq] at h
      subst h
      simp only [OutputAqlItemRow.isFull, decide_eq_true_eq] at hfull
      refine ⟨fun o ho => (by cases ho), fun _ _ _ _ _ => ?_⟩
      show ω s.executor = 0
      have := hwf.2
      omega
    · rw [if_neg hfull] at h
      have hnf : out.isFull = false := by simpa using hfull
      obtain ⟨hwf', hsize, -, -, hbase, -⟩ :=
        OutputAqlItemRow.afterProduceRow_spec out (E.produceRow s.executor).1.2.2 hnf hwf
      have hlt : out.baseIndex < out.block.size := by
        simpa [OutputAqlItemRow.isFull] using hnf
      have hstep : ω (E.produceRow s.executor).2
          + (out.afterProduceRow (E.produceRow s.executor).1.2.2).baseIndex
          = (out.afterProduceRow (E.produceRow s.executor).1.2.2).block.size := by
        rw [hbase, hsize, hE.produceRow_owed hpt s.executor (by omega)]
        cases (E.produceRow s.executor).1.2.2 with
        | none => simp only [if_true, Option.toList, List.length_nil]; omega
        | some row =>
          simp only [reduceCtorEq, if_false, Option.toList, List.length_cons, List.length_nil]
          omega
      by_cases hw : (E.produceRow s.executor).1.1 = ExecutionState.WAITING
      · rw [if_pos hw] at h
        simp only [Option.some.injEq] at h
        subst h
        refine ⟨fun o ho => ?_, fun _ _ _ _ hn => (by cases hn)⟩
        simp only [Option.some.injEq] at ho
        subst ho
        exact hstep
      · rw [if_neg hw] at h
        by_cases hd : (E.produceRow s.executor).1.1 = ExecutionState.DONE
        · rw [if_pos hd] at h
          simp only [Option.some.injEq] at h
          subst h
          refine ⟨fun o ho => (by cases ho), fun st' result hret hne _ => ?_⟩
          simp only [Completion.returned.injEq, Prod.mk.injEq] at hret
          exact absurd hret.1.symm hne
        · rw [if_neg hd] at h
          exact ih _ _ _ r h hwf' hstep

/-- The loop of one call on a coherent executor, as the driver sees it: the call
ends the drain with the rows still owed, or it makes progress and the rows it
returns, those left in the open output row and those to come are the rows owed. -/
theorem ExecutionBlockImpl.produceRows_owed (E : Executor σ) (μ ω : σ → Nat) (hE : E.Coherent μ ω)
    (fuel : Nat) (out : OutputAqlItemRow) (t : ExecutionBlockImpl σ)
    (hpass : t.passesEntryChecks) (hwf : out.wellFormed) (hfuel : μ t.executor < fuel)
    (hω : E.allowsBlockPassthrough = true → ω t.executor + out.baseIndex = out.block.size) :
    ∃ (r0 : CallResult σ (ExecutionState × Option AqlItemBlock)) (st : ExecutionState)
      (result : Option AqlItemBlock),
      ExecutionBlockImpl.produceRows E fuel ExecutionState.HASMORE out t = some r0 ∧
      r0.ret = Completion.returned (st, result) ∧
      r0.post.passesEntryChecks ∧
      ((st = ExecutionState.DONE ∧
          rowsOf result = out.writtenRows ++ E.referenceOutput (μ t.executor + 1) t.executor) ∨
       (st ≠ ExecutionState.DONE ∧ μ r0.post.executor ≤ μ t.executor ∧
          (out.isFull = false → μ r0.post.executor < μ t.executor) ∧
          (∀ o, r0.post.outputItemRow = some o → o.wellFormed ∧ o.isFull = false) ∧
          r0.post.owes E ω ∧
          rowsOf result ++ (r0.post.writtenRows
              ++ E.referenceOutput (μ r0.post.executor + 1) r0.post.executor)
            = out.writtenRows ++ E.referenceOutput (μ t.executor + 1) t.executor)) := by
  obtain ⟨r0, st, result, ex, stats, cs, hrun, hret, hc⟩ :=
    ExecutionBlockImpl.produceRows_forward E μ ω hE fuel out t hfuel hwf
  have howes : st ≠ ExecutionState.DONE → r0.post.owes E ω := by
    intro hne hpt
    obtain ⟨h1, h2⟩ := ExecutionBlockImpl.produceRows_owes E μ ω hE hpt fuel _ out t r0 hrun hwf
      (hω hpt)
    cases hrow : r0.post.outputItemRow with
    | none => exact h2 st result hret hne hrow
    | some o => exact h1 o hrow
  refine ⟨r0, st, result, hrun, hret, ?_, ?_⟩
  · rcases hc with ⟨-, hp, -⟩ | ⟨-, -, -, out', hp, -⟩ | ⟨-, hp, -⟩ <;> rw [hp] <;> exact hpass
  · rcases hc with ⟨h1, -, h3⟩ | ⟨h1, h2, h3, out', hp, h5, h6, h7⟩ | ⟨h1, hp, h3, h4, h5⟩
    · exact Or.inl ⟨h1, h3⟩
    · refine Or.inr ⟨by rw [h1]; simp, by rw [hp]; exact le_of_lt h3, fun _ => by rw [hp]; exact h3,
        ?_, howes (by rw [h1]; simp), ?_⟩
      · intro o ho
        rw [hp] at ho
        simp only [Option.some.injEq] at ho
        subst ho
        exact ⟨h5, h6⟩
      · rw [hp, h2]
        simp only [rowsOf, ExecutionBlockImpl.writtenRows, List.nil_append]
        exact h7
    · refine Or.inr ⟨by rw [h1]; simp, by rw [hp]; exact h3, fun hf => by rw [hp]; exact h4 hf,
        ?_, howes (by rw [h1]; simp), ?_⟩
      · intro o ho
        rw [hp] at ho
        simp at ho
      · rw [hp]
        simp only [ExecutionBlockImpl.writtenRows, List.nil_append]
        exact h5


theorem ExecutionBlockImpl.getSomeWithoutTrace_open (E : Executor σ) (fuel atMost : Nat)
    (t : ExecutionBlockImpl σ) (hpass : t.passesEntryChecks) (out : OutputAqlItemRow)
    (hout : t.outputItemRow = some out) :
    ExecutionBlockImpl.getSomeWithoutTrace E fuel atMost t
      = ExecutionBlockImpl.produceRows E fuel ExecutionState.HASMORE out t := by
  rw [ExecutionBlockImpl.getSomeWithoutTrace_of_passes E fuel atMost _ hpass]
  simp only [hout]

/-- On a coherent executor `requestWrappedBlock` does not add to the calls owed
and does not change the rows owed. -/
theorem ExecutionBlockImpl.requestWrappedBlock_fetched (E : Executor σ) (nrItems nrRegs : Nat)
    (s : ExecutionBlockImpl σ) (b : AqlItemBlock) (hp : E.allowsBlockPassthrough = true)
    (h : (ExecutionBlockImpl.requestWrappedBlock E nrItems nrRegs s).1.2 = some b) :
    (E.fetchBlockForPassthrough nrItems s.executor).1.1 ≠ ExecutionState.WAITING := by
  intro hw
  unfold ExecutionBlockImpl.requestWrappedBlock at h
  simp [hp, hw] at h

theorem ExecutionBlockImpl.owes_congr (E : Executor σ) (ω : σ → Nat)
    (s t : ExecutionBlockImpl σ) (hex : t.executor = s.executor)
    (hrow : t.outputItemRow = s.outputItemRow) (h : s.owes E ω) : t.owes E ω := by
  unfold ExecutionBlockImpl.owes at h ⊢
  rw [hex, hrow]
  exact h

theorem ExecutionBlockImpl.requestWrappedBlock_coherent (E : Executor σ) (μ ω : σ → Nat)
    (hE : E.Coherent μ ω) (nrItems nrRegs : Nat) (t : ExecutionBlockImpl σ)
    (hω : E.allowsBlockPassthrough = true → ω t.executor = 0) :
    μ (ExecutionBlockImpl.requestWrappedBlock E nrItems nrRegs t).2.executor ≤ μ t.executor ∧
    E.referenceOutput (μ (ExecutionBlockImpl.requestWrappedBlock E nrItems nrRegs t).2.executor + 1)
        (ExecutionBlockImpl.requestWrappedBlock E nrItems nrRegs t).2.executor
      = E.referenceOutput (μ t.executor + 1) t.executor := by
  rw [ExecutionBlockImpl.requestWrappedBlock_executor]
  cases hp : E.allowsBlockPassthrough with
  | true =>
    simp only [if_true]
    exact ⟨(hE.fetchBlock_progress hp nrItems t.executor (hω hp)).1,
      hE.fetchBlock_output hp nrItems t.executor (hω hp)⟩
  | false =>
    simp only [Bool.false_eq_true, if_false]
    cases hr : E.inputSizeRestrictsOutputSize with
    | true =>
      simp only [if_true]
      exact ⟨(hE.preFetch_progress hp hr nrItems t.executor).1,
        hE.preFetch_output hp hr nrItems t.executor⟩
    | false =>
      simp only [Bool.false_eq_true, if_false]
      exact ⟨le_refl _, trivial⟩

/-- One `getSomeWithoutTrace` call of the drain on a coherent executor: it
returns; with `DONE` it returns the rows still owed, otherwise it makes progress
and the rows returned, left in the open output row and to come are the rows
owed. -/
theorem ExecutionBlockImpl.getSomeWithoutTrace_forward (E : Executor σ) (μ ω : σ → Nat)
    (hE : E.Coherent μ ω) (fuel atMost : Nat) (hpos : 0 < atMost) (t : ExecutionBlockImpl σ)
    (hpass : t.passesEntryChecks)
    (hrow : ∀ o, t.outputItemRow = some o → o.wellFormed ∧ o.isFull = false)
    (howes : t.owes E ω)
    (hfuel : μ t.executor < fuel) :
    ∃ (r0 : CallResult σ (ExecutionState × Option AqlItemBlock)) (st : ExecutionState)
      (result : Option AqlItemBlock),
      ExecutionBlockImpl.getSomeWithoutTrace E fuel atMost t = some r0 ∧
      r0.ret = Completion.returned (st, result) ∧
      r0.post.passesEntryChecks ∧
      ((st = ExecutionState.DONE ∧
          rowsOf result = t.writtenRows ++ E.referenceOutput (μ t.executor + 1) t.executor) ∨
       (st ≠ ExecutionState.DONE ∧ μ r0.post.executor < μ t.executor ∧
          (∀ o, r0.post.outputItemRow = some o → o.wellFormed ∧ o.isFull = false) ∧
          r0.post.owes E ω ∧
          rowsOf result ++ (r0.post.writtenRows
              ++ E.referenceOutput (μ r0.post.executor + 1) r0.post.executor)
            = t.writtenRows ++ E.referenceOutput (μ t.executor + 1) t.executor)) := by
  cases hout : t.outputItemRow with
  | some out =>
    obtain ⟨hwf, hnf⟩ := hrow out hout
    have hω : E.allowsBlockPassthrough = true → ω t.executor + out.baseIndex = out.block.size := by
      intro hpt
      have h := howes hpt
      simp only [hout] at h
      exact h
    obtain ⟨r0, st, result, hrun, hret, hp, hc⟩ :=
      ExecutionBlockImpl.produceRows_owed E μ ω hE fuel out t hpass hwf hfuel hω
    have hw : t.writtenRows = out.writtenRows := by simp [ExecutionBlockImpl.writtenRows, hout]
    refine ⟨r0, st, result, ?_, hret, hp, ?_⟩
    · rw [ExecutionBlockImpl.getSomeWithoutTrace_open E fuel atMost t hpass out hout]; exact hrun
    · rw [hw]
      rcases hc with h | ⟨h1, -, h3, h4, ho, h5⟩
      · exact Or.inl h
      · exact Or.inr ⟨h1, h3 hnf, h4, ho, h5⟩
  | none =>
    have hw : t.writtenRows = [] := by simp [ExecutionBlockImpl.writtenRows, hout]
    have hω0 : E.allowsBlockPassthrough = true → ω t.executor = 0 := by
      intro hpt
      have h := howes hpt
      simp only [hout] at h
      exact h
    obtain ⟨hμ, href⟩ := ExecutionBlockImpl.requestWrappedBlock_coherent E μ ω hE atMost
      t.infos.numberOfOutputRegisters t hω0
    obtain ⟨hpass', hrow'⟩ := ExecutionBlockImpl.requestWrappedBlock_passes E atMost
      t.infos.numberOfOutputRegisters t hpass
    have hex := ExecutionBlockImpl.requestWrappedBlock_executor E atMost
      t.infos.numberOfOutputRegisters t
    cases hb : (ExecutionBlockImpl.requestWrappedBlock E atMost
        t.infos.numberOfOutputRegisters t).1.2 with
    | none =>
      refine ⟨_, _, none,
        ExecutionBlockImpl.getSomeWithoutTrace_no_block E fuel atMost t hpass hout hb, rfl,
        hpass', ?_⟩
      have hwn : (ExecutionBlockImpl.requestWrappedBlock E atMost
          t.infos.numberOfOutputRegisters t).2.writtenRows = [] := by
        simp [ExecutionBlockImpl.writtenRows, hrow', hout]
      simp only [hw, hwn, rowsOf, List.nil_append]
      rcases ExecutionBlockImpl.requestWrappedBlock_none E atMost _ t hb with
        ⟨hp, hst, hf⟩ | ⟨hp, hr, hst, hf⟩
      · rw [hst]
        by_cases hwait : (E.fetchBlockForPassthrough atMost t.executor).1.1 = ExecutionState.WAITING
        · refine Or.inr ⟨by rw [hwait]; simp, ?_, ?_, ?_, href⟩
          · rw [hex]; simp only [hp, if_true]
            exact (hE.fetchBlock_progress hp atMost t.executor (hω0 hp)).2 hwait
          · intro o ho; rw [hrow', hout] at ho; simp at ho
          · intro _
            simp only [hrow', hout]
            rw [hex]; simp only [hp, if_true]
            exact hE.fetchBlock_waiting hp atMost t.executor (hω0 hp) hwait
        · have hnone : (E.fetchBlockForPassthrough atMost t.executor).1.2 = none := by
            rcases hf with hf | hf
            · exact absurd hf hwait
            · exact hf
          obtain ⟨hd, hr0⟩ := hE.fetchBlock_none hp atMost t.executor (hω0 hp) hwait hnone
          exact Or.inl ⟨hd, hr0.symm⟩
      · rw [hst]
        by_cases hwait : (E.preFetchNumberOfRows atMost t.executor).1.1 = ExecutionState.WAITING
        · refine Or.inr ⟨by rw [hwait]; simp, ?_, ?_, ?_, href⟩
          · rw [hex]; simp only [hp, hr, if_true, Bool.false_eq_true, if_false]
            exact (hE.preFetch_progress hp hr atMost t.executor).2 hwait
          · intro o ho; rw [hrow', hout] at ho; simp at ho
          · intro hpt; rw [hp] at hpt; cases hpt
        · have hzero : ((E.preFetchNumberOfRows atMost t.executor).1.2
              + E.numberOfRowsInFlight (E.preFetchNumberOfRows atMost t.executor).2) % 2 ^ 64
              = 0 := by
            rcases hf with hf | hf
            · exact absurd hf hwait
            · omega
          obtain ⟨hd, hr0⟩ := hE.preFetch_none hp hr atMost t.executor hwait hzero
          exact Or.inl ⟨hd, hr0.symm⟩
    | some b =>
      obtain ⟨hwf0, hblk, hbase⟩ := ExecutionBlockImpl.createOutputRow_wellFormed E b
      have hωb : E.allowsBlockPassthrough = true →
          ω (ExecutionBlockImpl.requestWrappedBlock E atMost
              t.infos.numberOfOutputRegisters t).2.executor
            + (ExecutionBlockImpl.createOutputRow E b).baseIndex
            = (ExecutionBlockImpl.createOutputRow E b).block.size := by
        intro hpt
        obtain ⟨-, -, hfb⟩ := ExecutionBlockImpl.requestWrappedBlock_block E atMost _ t b hb
        rw [hex, hbase, hblk]; simp only [hpt, if_true]
        rw [hE.fetchBlock_owed hpt atMost t.executor b (hω0 hpt)
          (ExecutionBlockImpl.requestWrappedBlock_fetched E atMost _ t b hpt hb) (hfb hpt)]
        rfl
      obtain ⟨r0, st, result, hrun, hret, hp, hc⟩ :=
        ExecutionBlockImpl.produceRows_owed E μ ω hE fuel (ExecutionBlockImpl.createOutputRow E b)
          (ExecutionBlockImpl.requestWrappedBlock E atMost t.infos.numberOfOutputRegisters t).2
          hpass' hwf0 (by omega) hωb
      have hsize : 0 < b.size := by
        obtain ⟨-, hnp, hpt⟩ := ExecutionBlockImpl.requestWrappedBlock_block E atMost _ t b hb
        cases hpf : E.allowsBlockPassthrough with
        | true => exact hE.fetchBlock_rows hpf atMost t.executor b (hω0 hpf) (hpt hpf)
        | false => exact (hnp hpf).2.1 hpos
      have hnf : (ExecutionBlockImpl.createOutputRow E b).isFull = false := by
        simp only [OutputAqlItemRow.isFull, hblk, hbase, decide_eq_false_iff_not, not_le]
        exact hsize
      have hw0 : (ExecutionBlockImpl.createOutputRow E b).writtenRows = [] := by
        rw [OutputAqlItemRow.wellFormed_writtenRows _ hwf0, hbase]; simp
      refine ⟨r0, st, result, ?_, hret, hp, ?_⟩
      · rw [ExecutionBlockImpl.getSomeWithoutTrace_block E fuel atMost t hpass hout b hb]
        exact hrun
      · rw [hw0, href] at hc
        rw [hw]
        rcases hc with h | ⟨h1, -, h3, h4, ho, h5⟩
        · exact Or.inl h
        · exact Or.inr ⟨h1, lt_of_lt_of_le (h3 hnf) hμ, h4, ho, h5⟩

theorem concatRows_append (as bs : List AqlItemBlock) :
    concatRows (as ++ bs) = concatRows as ++ concatRows bs := by
  induction as with
  | nil => rfl
  | cons a as ih => simp [concatRows, ih]

theorem concatRows_toList (result : Option AqlItemBlock) :
    concatRows result.toList = rowsOf result := by
  cases result <;> simp [concatRows, rowsOf]

/-- One `getSome` call of the drain on a coherent executor. -/
theorem ExecutionBlockImpl.getSome_forward (E : Executor σ) (μ ω : σ → Nat)
    (hE : E.Coherent μ ω) (fuel atMost : Nat) (hpos : 0 < atMost) (s : ExecutionBlockImpl σ)
    (hpass : s.passesEntryChecks)
    (hrow : ∀ o, s.outputItemRow = some o → o.wellFormed ∧ o.isFull = false)
    (howes : s.owes E ω)
    (hfuel : μ s.executor < fuel) :
    ∃ (r : CallResult σ (ExecutionState × Option AqlItemBlock)) (st : ExecutionState)
      (result : Option AqlItemBlock),
      ExecutionBlockImpl.getSome E fuel atMost s = some r ∧
      r.ret = Completion.returned (st, result) ∧
      r.post.passesEntryChecks ∧
      ((st = ExecutionState.DONE ∧
          rowsOf result = s.writtenRows ++ E.referenceOutput (μ s.executor + 1) s.executor) ∨
       (st ≠ ExecutionState.DONE ∧ μ r.post.executor < μ s.executor ∧
          (∀ o, r.post.outputItemRow = some o → o.wellFormed ∧ o.isFull = false) ∧
          r.post.owes E ω ∧
          rowsOf result ++ (r.post.writtenRows
              ++ E.referenceOutput (μ r.post.executor + 1) r.post.executor)
            = s.writtenRows ++ E.referenceOutput (μ s.executor + 1) s.executor)) := by
  obtain ⟨g, hg⟩ := ExecutionBlockImpl.traceGetSomeBeginInner_frame s atMost
  have hpassb := ExecutionBlockImpl.passesEntryChecks_traceGetSomeBeginInner s atMost hpass
  have hexb : (s.traceGetSomeBeginInner atMost).executor = s.executor := by rw [hg]
  have hrowb : (s.traceGetSomeBeginInner atMost).outputItemRow = s.outputItemRow := by rw [hg]
  have hwb : (s.traceGetSomeBeginInner atMost).writtenRows = s.writtenRows := by
    simp only [ExecutionBlockImpl.writtenRows, hrowb]
  obtain ⟨r0, st, result, hrun, hret, hp, hc⟩ :=
    ExecutionBlockImpl.getSomeWithoutTrace_forward E μ ω hE fuel atMost hpos
      (s.traceGetSomeBeginInner atMost) hpassb (by rw [hrowb]; exact hrow)
      (ExecutionBlockImpl.owes_congr E ω s _ hexb hrowb howes) (by rw [hexb]; exact hfuel)
  obtain ⟨g', n, hend⟩ := ExecutionBlockImpl.traceGetSomeEndInner_frame r0.post result st
  refine ⟨_, st, result,
    ExecutionBlockImpl.getSome_of_returned E fuel atMost s r0 st result hrun hret, rfl, ?_, ?_⟩
  · simp only [hend]; exact hp
  · have hex : (r0.post.traceGetSomeEndInner result st).executor = r0.post.executor := by
      rw [hend]
    have hro : (r0.post.traceGetSomeEndInner result st).outputItemRow = r0.post.outputItemRow := by
      rw [hend]
    have hwr : (r0.post.traceGetSomeEndInner result st).writtenRows = r0.post.writtenRows := by
      simp only [ExecutionBlockImpl.writtenRows, hro]
    simp only [hex, hro, hwr]
    rw [hexb, hwb] at hc
    rcases hc with h | ⟨h1, h2, h3, ho, h5⟩
    · exact Or.inl h
    · exact Or.inr ⟨h1, h2, h3, ExecutionBlockImpl.owes_congr E ω r0.post _ hex hro ho, h5⟩

/-- The drain on a coherent executor: with more calls and more fuel than the
input allows it ends, and the rows of its blocks are the rows left in the open
output row followed by the reference output. -/
theorem ExecutionBlockImpl.drain_forward (E : Executor σ) (μ ω : σ → Nat)
    (hE : E.Coherent μ ω) (fuel atMost : Nat) (hpos : 0 < atMost) :
    ∀ (calls : Nat) (s : ExecutionBlockImpl σ), s.passesEntryChecks →
      (∀ o, s.outputItemRow = some o → o.wellFormed ∧ o.isFull = false) →
      s.owes E ω →
      μ s.executor < calls → μ s.executor < fuel →
      ∃ blocks post, ExecutionBlockImpl.drain E fuel atMost calls s = some (blocks, post) ∧
        concatRows blocks
          = s.writtenRows ++ E.referenceOutput (μ s.executor + 1) s.executor := by
  intro calls
  induction calls with
  | zero => intro s _ _ _ h; omega
  | succ calls ih =>
    intro s hpass hrow howes hcalls hfuel
    obtain ⟨r, st, result, hrun, hret, hp, hc⟩ :=
      ExecutionBlockImpl.getSome_forward E μ ω hE fuel atMost hpos s hpass hrow howes hfuel
    unfold ExecutionBlockImpl.drain
    rw [hrun]
    simp only [hret]
    rcases hc with ⟨hd, hrows⟩ | ⟨hnd, hμ, hrow', howes', hrows⟩
    · simp only [hd, if_true]
      exact ⟨_, _, rfl, by rw [concatRows_toList]; exact hrows⟩
    · simp only [hnd, if_false]
      obtain ⟨blocks, post, hdr, hcr⟩ := ih r.post hp hrow' howes' (by omega) (by omega)
      rw [hdr]
      refine ⟨_, _, rfl, ?_⟩
      rw [concatRows_append, concatRows_toList, hcr]
      exact hrows

theorem filterLimitExecutor_not_WAITING (x : FilterLimit) :
    (filterLimitExecutor.produceRow x).1.1 ≠ ExecutionState.WAITING := by
  simp only [filterLimitExecutor]
  split
  · simp
  · split
    · simp
    · split
      · split <;> simp
      · split <;> simp

/-- The filter-then-limit executor keeps to the contract. -/
theorem filterLimitExecutor_coherent :
    filterLimitExecutor.Coherent FilterLimit.rowsToRead (fun _ => 0) where
  produceRow_uses := by
    intro x h
    simp only [filterLimitExecutor, FilterLimit.rowsToRead] at h ⊢
    by_cases h0 : x.remaining = 0
    · simp [h0] at h
    · cases hin : x.input with
      | nil => simp [h0, hin] at h
      | cons row rest =>
        by_cases hf : passesFilter row = true
        · simp [h0, hin, hf]
        · simp [h0, hin, hf]
  waiting_produces_nothing := fun x h => absurd h (filterLimitExecutor_not_WAITING x)
  produceRow_owed := by intro h; simp [filterLimitExecutor] at h
  fetchBlock_owed := by intro h; simp [filterLimitExecutor] at h
  fetchBlock_waiting := by intro h; simp [filterLimitExecutor] at h
  fetchBlock_progress := by intro h; simp [filterLimitExecutor] at h
  fetchBlock_output := by intro h; simp [filterLimitExecutor] at h
  fetchBlock_none := by intro h; simp [filterLimitExecutor] at h
  fetchBlock_rows := by intro h; simp [filterLimitExecutor] at h
  preFetch_progress := by intro _ h; simp [filterLimitExecutor] at h
  preFetch_output := by intro _ h; simp [filterLimitExecutor] at h
  preFetch_none := by intro _ h; simp [filterLimitExecutor] at h

/-! ### Re-invoking after `WAITING` -/

theorem ExecutionBlockImpl.getSome_eq_map (E : Executor σ) (fuel atMost : Nat)
    (s : ExecutionBlockImpl σ) :
    ExecutionBlockImpl.getSome E fuel atMost s
      = (ExecutionBlockImpl.getSomeWithoutTrace E fuel atMost
          (s.traceGetSomeBeginInner atMost)).map CallResult.traced := by
  unfold ExecutionBlockImpl.getSome
  cases ExecutionBlockImpl.getSomeWithoutTrace E fuel atMost (s.traceGetSomeBeginInner atMost) with
  | none => rfl
  | some r0 =>
    simp only [Option.map_some', CallResult.traced]
    cases r0.ret <;> rfl

theorem ExecutionBlockImpl.passesEntryChecks_of_config (s t : ExecutionBlockImpl σ)
    (h : s.config = t.config) (hp : s.passesEntryChecks) : t.passesEntryChecks := by
  simp only [ExecutionBlockImpl.config, Prod.mk.injEq] at h
  obtain ⟨-, hk, hf, -⟩ := h
  unfold ExecutionBlockImpl.passesEntryChecks ExecutionBlockImpl.TRI_IF_FAILURE at hp ⊢
  rw [← hk, ← hf]
  exact hp

theorem ExecutionBlockImpl.traceGetSomeBeginInner_fields (s : ExecutionBlockImpl σ) (atMost : Nat) :
    (s.traceGetSomeBeginInner atMost).executor = s.executor ∧
      (s.traceGetSomeBeginInner atMost).outputItemRow = s.outputItemRow ∧
      (s.traceGetSomeBeginInner atMost).config = s.config := by
  obtain ⟨g, hg⟩ := ExecutionBlockImpl.traceGetSomeBeginInner_frame s atMost
  rw [hg]
  exact ⟨rfl, rfl, rfl⟩

theorem CallResult.traced_fields (r0 : CallResult σ (ExecutionState × Option AqlItemBlock)) :
    r0.traced.ret = r0.ret ∧ r0.traced.post.executor = r0.post.executor ∧
      r0.traced.post.outputItemRow = r0.post.outputItemRow ∧
      r0.traced.post.config = r0.post.config := by
  unfold CallResult.traced
  cases hret : r0.ret with
  | exception e => exact ⟨rfl, rfl, rfl, rfl⟩
  | returned v =>
    obtain ⟨g, n, h⟩ := ExecutionBlockImpl.traceGetSomeEndInner_frame r0.post v.2 v.1
    have hp : (r0.post.traceGetSomeEnd v.1 v.2).post
        = { r0.post with getSomeBegin := g, nodeStats := n } := h
    refine ⟨rfl, ?_, ?_, ?_⟩
    · show (r0.post.traceGetSomeEnd v.1 v.2).post.executor = _
      rw [hp]
    · show (r0.post.traceGetSomeEnd v.1 v.2).post.outputItemRow = _
      rw [hp]
    · show (r0.post.traceGetSomeEnd v.1 v.2).post.config = _
      rw [hp]
      rfl

theorem ExecutionBlockImpl.getSomeRetrying_eq (E : Executor σ) (fuel atMost n : Nat)
    (s : ExecutionBlockImpl σ) :
    ExecutionBlockImpl.getSomeRetrying E fuel atMost n s
      = ExecutionBlockImpl.retryAfter E fuel atMost n (ExecutionBlockImpl.getSome E fuel atMost s) := by
  cases n <;> rfl

theorem ExecutionBlockImpl.retryAfter_of_not_waiting (E : Executor σ) (fuel atMost n : Nat)
    (r : CallResult σ (ExecutionState × Option AqlItemBlock)) (h : r.ret.isWaiting = false) :
    ExecutionBlockImpl.retryAfter E fuel atMost n (some r) = some r := by
  cases n with
  | zero => rfl
  | succ n => simp [ExecutionBlockImpl.retryAfter, h]

/-- A result that is not `WAITING` ends the re-invoking; traced, it agrees with
every result of the same value on an instance that agrees. -/
theorem ExecutionBlockImpl.retryAfter_traced (E : Executor σ) (fuel atMost n : Nat)
    (r0 r' : CallResult σ (ExecutionState × Option AqlItemBlock))
    (hret : r0.ret = r'.ret) (hnw : r'.ret.isWaiting = false)
    (hex : r0.post.executor = r'.post.executor)
    (hrow : r0.post.outputItemRow = r'.post.outputItemRow)
    (hcfg : r0.post.config = r'.post.config) :
    ∃ r, ExecutionBlockImpl.retryAfter E fuel atMost n ((some r0).map CallResult.traced) = some r ∧
      r.matches r' := by
  obtain ⟨h1, h2, h3, h4⟩ := CallResult.traced_fields r0
  refine ⟨r0.traced, ?_, h1.trans hret, h2.trans hex, h3.trans hrow, h4.trans hcfg⟩
  rw [Option.map_some']
  exact ExecutionBlockImpl.retryAfter_of_not_waiting E fuel atMost n _
    (by rw [h1, hret]; exact hnw)

theorem ExecutionBlockImpl.retryAfter_of_waiting (E : Executor σ) (fuel atMost n : Nat)
    (r : CallResult σ (ExecutionState × Option AqlItemBlock)) (h : r.ret.isWaiting = true) :
    ExecutionBlockImpl.retryAfter E fuel atMost (n + 1) (some r)
      = ExecutionBlockImpl.getSomeRetrying E fuel atMost n r.post := by
  simp [ExecutionBlockImpl.retryAfter, h]

theorem ExecutionBlockImpl.produceRows_of_isFull (E : Executor σ) (fuel : Nat)
    (st : ExecutionState) (out : OutputAqlItemRow) (s : ExecutionBlockImpl σ)
    (hfull : out.isFull = true) :
    ExecutionBlockImpl.produceRows E fuel st out s
      = some { ret := Completion.returned (st, out.stealBlock),
               post := { s with outputItemRow := none } } := by
  cases fuel with
  | zero => rw [ExecutionBlockImpl.produceRows_zero]; simp [hfull]
  | succ f => rw [ExecutionBlockImpl.produceRows_succ]; simp [hfull]

theorem ExecutionBlockImpl.produceRows_afterAnswer (E : Executor σ) (fuel : Nat)
    (st : ExecutionState) (out : OutputAqlItemRow) (s : ExecutionBlockImpl σ)
    (hfull : out.isFull = false) :
    ExecutionBlockImpl.produceRows E (fuel + 1) st out s
      = ExecutionBlockImpl.afterAnswer E fuel out s (E.produceRow s.executor) := by
  rw [ExecutionBlockImpl.produceRows_succ]
  simp only [hfull, Bool.false_eq_true, if_false, ExecutionBlockImpl.afterAnswer,
    ExecutionBlockImpl.answered]

theorem skipWaiting_succ {α : Type} (f : σ → (ExecutionState × α) × σ) (w : Nat) (x : σ) :
    skipWaiting f (w + 1) x
      = if (f x).1.1 = ExecutionState.WAITING then skipWaiting f w (f x).2 else f x := rfl

theorem skipWaiting_of_not_waiting {α : Type} (f : σ → (ExecutionState × α) × σ) (w : Nat) (x : σ)
    (h : (f x).1.1 ≠ ExecutionState.WAITING) : skipWaiting f w x = f x := by
  cases w with
  | zero => rfl
  | succ w => rw [skipWaiting_succ]; simp [h]


/-- The loop on the upstream without `WAITING` against the loop of the caller who
re-invokes: when the first ends in a result that is not `WAITING`, so does the
second, in the same result. -/
theorem ExecutionBlockImpl.produceRows_sim (E : Executor σ) (w : Nat)
    (hE : ∀ x, (E.produceRow x).1.1 = ExecutionState.WAITING → (E.produceRow x).1.2.2 = none)
    (fuel atMost : Nat) :
    ∀ (f : Nat), f ≤ fuel →
      ∀ (out : OutputAqlItemRow) (s s' : ExecutionBlockImpl σ)
        (r' : CallResult σ (ExecutionState × Option AqlItemBlock)),
        ExecutionBlockImpl.produceRows (E.withoutWaiting w) f ExecutionState.HASMORE out s' = some r' →
        r'.ret.isWaiting = false → out.wellFormed → s.passesEntryChecks →
        s.executor = s'.executor → s.config = s'.config →
        ∀ (e n : Nat), f ≤ e → f * w ≤ n →
        ∃ r, ExecutionBlockImpl.retryAfter E fuel atMost n
              ((ExecutionBlockImpl.produceRows E e ExecutionState.HASMORE out s).map
                CallResult.traced) = some r ∧
          r.matches r' := by
  intro f
  induction f with
  | zero =>
    intro _ out s s' r' h' hnw hwf hpass hex hcfg e n _ _
    rw [ExecutionBlockImpl.produceRows_zero] at h'
    by_cases hfull : out.isFull = true
    · simp only [hfull, if_true, Option.some.injEq] at h'
      subst h'
      rw [ExecutionBlockImpl.produceRows_of_isFull E e _ out s hfull]
      exact ExecutionBlockImpl.retryAfter_traced E fuel atMost n _ _ rfl hnw hex rfl hcfg
    · simp [hfull] at h'
  | succ f ih =>
    intro hf out s s' r' h' hnw hwf hpass hex hcfg e n he hn
    by_cases hfull : out.isFull = true
    · rw [ExecutionBlockImpl.produceRows_of_isFull _ _ _ out s' hfull] at h'
      simp only [Option.some.injEq] at h'
      subst h'
      rw [ExecutionBlockImpl.produceRows_of_isFull E e _ out s hfull]
      exact ExecutionBlockImpl.retryAfter_traced E fuel atMost n _ _ rfl hnw hex rfl hcfg
    · have hfull' : out.isFull = false := by simpa using hfull
      rw [ExecutionBlockImpl.produceRows_afterAnswer _ f _ out s' hfull'] at h'
      have hf' : f ≤ fuel := by omega
      have hsame : ∀ (a : (ExecutionState × Nat × Option Row) × σ) (t : ExecutionBlockImpl σ)
          (e0 n0 : Nat), a.1.1 ≠ ExecutionState.WAITING →
          t.passesEntryChecks → t.config = s'.config → f ≤ e0 → f * w ≤ n0 →
          ExecutionBlockImpl.afterAnswer (E.withoutWaiting w) f out s' a = some r' →
          ∃ r, ExecutionBlockImpl.retryAfter E fuel atMost n0
                ((ExecutionBlockImpl.afterAnswer E e0 out t a).map CallResult.traced) = some r ∧
            r.matches r' := by
        intro a t e0 n0 hnwa htp htc he0 hn0 ha
        unfold ExecutionBlockImpl.afterAnswer at ha ⊢
        simp only [hnwa, if_false] at ha ⊢
        by_cases hd : a.1.1 = ExecutionState.DONE
        · simp only [hd, if_true, Option.some.injEq] at ha ⊢
          subst ha
          exact ExecutionBlockImpl.retryAfter_traced E fuel atMost n0 _ _ rfl hnw rfl rfl htc
        · simp only [hd, if_false] at ha ⊢
          have hh : a.1.1 = ExecutionState.HASMORE := by
            cases hs : a.1.1 with
            | DONE => exact absurd hs hd
            | WAITING => exact absurd hs hnwa
            | HASMORE => rfl
          rw [hh] at ha ⊢
          exact ih hf' (out.afterProduceRow a.1.2.2) (t.answered a) (s'.answered a) r' ha hnw
            (OutputAqlItemRow.afterProduceRow_spec out a.1.2.2 hfull' hwf).1 htp rfl htc
            e0 n0 he0 hn0
      have hstep : ∀ (wc : Nat) (x : σ) (t : ExecutionBlockImpl σ) (e0 n0 : Nat),
          t.executor = x → t.passesEntryChecks → t.config = s'.config → f ≤ e0 →
          wc + f * w ≤ n0 →
          ExecutionBlockImpl.afterAnswer (E.withoutWaiting w) f out s'
            (skipWaiting E.produceRow wc x) = some r' →
          ∃ r, ExecutionBlockImpl.retryAfter E fuel atMost n0
                ((ExecutionBlockImpl.afterAnswer E e0 out t (E.produceRow x)).map
                  CallResult.traced) = some r ∧
            r.matches r' := by
        intro wc
        induction wc with
        | zero =>
          intro x t e0 n0 htx htp htc he0 hn0 ha
          have hnwa : (E.produceRow x).1.1 ≠ ExecutionState.WAITING := by
            intro hwa
            simp only [skipWaiting, ExecutionBlockImpl.afterAnswer, hwa, if_true,
              Option.some.injEq] at ha
            rw [← ha] at hnw
            simp [Completion.isWaiting] at hnw
          simp only [skipWaiting] at ha
          exact hsame _ t e0 n0 hnwa htp htc he0 (by omega) ha
        | succ wc ihw =>
          intro x t e0 n0 htx htp htc he0 hn0 ha
          by_cases hwa : (E.produceRow x).1.1 = ExecutionState.WAITING
          · rw [skipWaiting_succ] at ha
            simp only [hwa, if_true] at ha
            have hnone := hE x hwa
            have hout : out.afterProduceRow (E.produceRow x).1.2.2 = out := by
              rw [hnone]
              exact (OutputAqlItemRow.afterProduceRow_spec out none hfull' hwf).2.2.2.2.2 rfl
            obtain ⟨n1, rfl⟩ : ∃ n1, n0 = n1 + 1 := ⟨n0 - 1, by omega⟩
            obtain ⟨fuel0, hfuel0⟩ : ∃ fuel0, fuel = fuel0 + 1 := ⟨fuel - 1, by omega⟩
            obtain ⟨r0, hafter, hr0ret, hr0ex, hr0row, hr0cfg⟩ :
                ∃ r0, ExecutionBlockImpl.afterAnswer E e0 out t (E.produceRow x) = some r0 ∧
                  r0.ret = Completion.returned (ExecutionState.WAITING, none) ∧
                  r0.post.executor = (E.produceRow x).2 ∧ r0.post.outputItemRow = some out ∧
                  r0.post.config = t.config := by
              unfold ExecutionBlockImpl.afterAnswer
              simp only [hwa, if_true, hout]
              exact ⟨_, rfl, rfl, rfl, rfl, rfl⟩
            rw [hafter, Option.map_some']
            obtain ⟨h1, h2, h3, h4⟩ := CallResult.traced_fields r0
            obtain ⟨b1, b2, b3⟩ :=
              ExecutionBlockImpl.traceGetSomeBeginInner_fields r0.traced.post atMost
            have hpb : (r0.traced.post.traceGetSomeBeginInner atMost).passesEntryChecks :=
              ExecutionBlockImpl.passesEntryChecks_of_config t _
                (by rw [b3, h4, hr0cfg]) htp
            have hpr : ExecutionBlockImpl.produceRows E fuel ExecutionState.HASMORE out
                  (r0.traced.post.traceGetSomeBeginInner atMost)
                = ExecutionBlockImpl.afterAnswer E fuel0 out
                    (r0.traced.post.traceGetSomeBeginInner atMost)
                    (E.produceRow (E.produceRow x).2) := by
              rw [hfuel0, ExecutionBlockImpl.produceRows_afterAnswer E fuel0 _ out _ hfull', b1, h2,
                hr0ex]
            rw [ExecutionBlockImpl.retryAfter_of_waiting E fuel atMost n1 _
                (by rw [h1, hr0ret]; rfl),
              ExecutionBlockImpl.getSomeRetrying_eq, ExecutionBlockImpl.getSome_eq_map,
              ExecutionBlockImpl.getSomeWithoutTrace_open E fuel atMost _ hpb out
                (by rw [b2, h3, hr0row]), hpr]
            exact ihw (E.produceRow x).2 _ fuel0 n1 (by rw [b1, h2, hr0ex]) hpb
              (by rw [b3, h4, hr0cfg]; exact htc) (by omega) (by omega) ha
          · rw [skipWaiting_of_not_waiting _ _ _ hwa] at ha
            exact hsame _ t e0 n0 hwa htp htc he0 (by omega) ha
      obtain ⟨e0, rfl⟩ : ∃ e0, e = e0 + 1 := ⟨e - 1, by omega⟩
      rw [ExecutionBlockImpl.produceRows_afterAnswer E e0 _ out s hfull']
      refine hstep w s.executor s e0 n rfl hpass hcfg (by omega) ?_ ?_
      · rw [Nat.succ_mul] at hn; omega
      · rw [hex]; exact h'

theorem ExecutionBlockImpl.getSomeWithoutTrace_fresh (E : Executor σ) (fuel atMost : Nat)
    (t : ExecutionBlockImpl σ) (hpass : t.passesEntryChecks) (hout : t.outputItemRow = none) :
    ExecutionBlockImpl.getSomeWithoutTrace E fuel atMost t
      = ExecutionBlockImpl.afterRequest E fuel
          (ExecutionBlockImpl.requestWrappedBlock E atMost t.infos.numberOfOutputRegisters t) := by
  rw [ExecutionBlockImpl.getSomeWithoutTrace_of_passes E fuel atMost _ hpass]
  simp only [hout]
  rfl

theorem ExecutionBlockImpl.getSomeWithoutTrace_rejected (E E' : Executor σ) (fuel fuel' atMost : Nat)
    (t t' : ExecutionBlockImpl σ) (hcfg : t.config = t'.config) (hp : ¬ t'.passesEntryChecks) :
    ∃ e, ExecutionBlockImpl.getSomeWithoutTrace E fuel atMost t
          = some { ret := Completion.exception e, post := t } ∧
        ExecutionBlockImpl.getSomeWithoutTrace E' fuel' atMost t'
          = some { ret := Completion.exception e, post := t' } := by
  simp only [ExecutionBlockImpl.config, Prod.mk.injEq] at hcfg
  obtain ⟨-, hk, hf, -⟩ := hcfg
  unfold ExecutionBlockImpl.passesEntryChecks at hp
  unfold ExecutionBlockImpl.getSomeWithoutTrace
  unfold ExecutionBlockImpl.TRI_IF_FAILURE at hp ⊢
  rw [hk, hf]
  cases h1 : t'.failurePoints.contains "ExecutionBlock::getOrSkipSome1" with
  | true => exact ⟨TRI_ERROR_DEBUG, by simp only [if_true], by simp only [if_true]⟩
  | false =>
  cases h2 : t'.failurePoints.contains "ExecutionBlock::getOrSkipSome2" with
  | true =>
    exact ⟨TRI_ERROR_DEBUG, by simp only [if_true, Bool.false_eq_true, if_false],
      by simp only [if_true, Bool.false_eq_true, if_false]⟩
  | false =>
  cases h3 : t'.failurePoints.contains "ExecutionBlock::getOrSkipSome3" with
  | true =>
    exact ⟨TRI_ERROR_DEBUG, by simp only [if_true, Bool.false_eq_true, if_false],
      by simp only [if_true, Bool.false_eq_true, if_false]⟩
  | false =>
  cases h4 : t'.killed with
  | true =>
    exact ⟨TRI_ERROR_QUERY_KILLED, by simp only [if_true, Bool.false_eq_true, if_false],
      by simp only [if_true, Bool.false_eq_true, if_false]⟩
  | false => exact absurd ⟨h1, h2, h3, h4⟩ hp

/-- The simulation of a fresh call, for a fetch operation `op` whose answer the
request turns into a block by `G`. -/
theorem ExecutionBlockImpl.request_sim {α : Type} (E : Executor σ) (w : Nat)
    (hE : ∀ x, (E.produceRow x).1.1 = ExecutionState.WAITING → (E.produceRow x).1.2.2 = none)
    (fuel atMost : Nat)
    (op : σ → (ExecutionState × α) × σ)
    (G : ExecutionBlockImpl σ → (ExecutionState × α) × σ →
      (ExecutionState × Option AqlItemBlock) × ExecutionBlockImpl σ)
    (hreq : ∀ u : ExecutionBlockImpl σ,
      ExecutionBlockImpl.requestWrappedBlock E atMost u.infos.numberOfOutputRegisters u
        = G u (op u.executor))
    (hwait : ∀ t x, (op x).1.1 = ExecutionState.WAITING →
      (G t (op x)).1 = (ExecutionState.WAITING, none) ∧ (G t (op x)).2.config = t.config)
    (hpost : ∀ t a, (G t a).2.executor = a.2 ∧ (G t a).2.outputItemRow = t.outputItemRow ∧
      (t.passesEntryChecks → (G t a).2.passesEntryChecks))
    (hcong : ∀ t t' a, t.config = t'.config →
      (G t a).1 = (G t' a).1 ∧ (G t a).2.config = (G t' a).2.config) :
    ∀ (wc : Nat) (x : σ) (t t' : ExecutionBlockImpl σ) (n : Nat) (r' : CallResult σ _),
      t.outputItemRow = none → t'.outputItemRow = none → t.passesEntryChecks →
      t.config = t'.config → wc + fuel * w ≤ n →
      ExecutionBlockImpl.afterRequest (E.withoutWaiting w) fuel (G t' (skipWaiting op wc x)) = some r' →
      r'.ret.isWaiting = false →
      ∃ r, ExecutionBlockImpl.retryAfter E fuel atMost n
            ((ExecutionBlockImpl.afterRequest E fuel (G t (op x))).map CallResult.traced) = some r ∧
        r.matches r' := by
  have hsame : ∀ (a : (ExecutionState × α) × σ) (t t' : ExecutionBlockImpl σ) (n : Nat)
      (r' : CallResult σ _),
      t.outputItemRow = none → t'.outputItemRow = none → t.passesEntryChecks →
      t.config = t'.config → fuel * w ≤ n →
      ExecutionBlockImpl.afterRequest (E.withoutWaiting w) fuel (G t' a) = some r' →
      r'.ret.isWaiting = false →
      ∃ r, ExecutionBlockImpl.retryAfter E fuel atMost n
            ((ExecutionBlockImpl.afterRequest E fuel (G t a)).map CallResult.traced) = some r ∧
        r.matches r' := by
    intro a t t' n r' ht ht' hpass hcfg hn h' hnw
    obtain ⟨hv, hc⟩ := hcong t t' a hcfg
    obtain ⟨hx, ho, hp⟩ := hpost t a
    obtain ⟨hx', ho', -⟩ := hpost t' a
    unfold ExecutionBlockImpl.afterRequest at h' ⊢
    rw [hv]
    by_cases hw : (G t' a).1.1 = ExecutionState.WAITING
    · simp only [hw, if_true, Option.some.injEq] at h'
      subst h'
      simp [Completion.isWaiting] at hnw
    · simp only [hw, if_false] at h' ⊢
      cases hb : (G t' a).1.2 with
      | none =>
        simp only [hb, Option.some.injEq] at h' ⊢
        subst h'
        exact ExecutionBlockImpl.retryAfter_traced E fuel atMost n _ _ rfl hnw
          (hx.trans hx'.symm) ((ho.trans ht).trans (ho'.trans ht').symm) hc
      | some b =>
        simp only [hb] at h' ⊢
        exact ExecutionBlockImpl.produceRows_sim E w hE fuel atMost fuel (Nat.le_refl _)
          (ExecutionBlockImpl.createOutputRow E b) (G t a).2 (G t' a).2 r' h' hnw
          (ExecutionBlockImpl.createOutputRow_wellFormed E b).1 (hp hpass)
          (hx.trans hx'.symm) hc fuel n (Nat.le_refl _) hn
  intro wc
  induction wc with
  | zero =>
    intro x t t' n r' ht ht' hpass hcfg hn h' hnw
    exact hsame (op x) t t' n r' ht ht' hpass hcfg (by omega) h' hnw
  | succ wc ih =>
    intro x t t' n r' ht ht' hpass hcfg hn h' hnw
    by_cases hw : (op x).1.1 = ExecutionState.WAITING
    · rw [skipWaiting_succ, if_pos hw] at h'
      obtain ⟨hv, hc⟩ := hwait t x hw
      obtain ⟨hx, ho, hp⟩ := hpost t (op x)
      obtain ⟨n1, rfl⟩ : ∃ n1, n = n1 + 1 := ⟨n - 1, by omega⟩
      obtain ⟨r0, hr0, hr0ret, hr0post⟩ : ∃ r0 : CallResult σ (ExecutionState × Option AqlItemBlock),
          ExecutionBlockImpl.afterRequest E fuel (G t (op x)) = some r0 ∧
            r0.ret = Completion.returned (ExecutionState.WAITING, none) ∧
            r0.post = (G t (op x)).2 := by
        unfold ExecutionBlockImpl.afterRequest
        rw [hv]
        simp only [if_true]
        exact ⟨_, rfl, rfl, rfl⟩
      obtain ⟨q1, q2, q3, q4⟩ := CallResult.traced_fields r0
      obtain ⟨b1, b2, b3⟩ :=
        ExecutionBlockImpl.traceGetSomeBeginInner_fields r0.traced.post atMost
      rw [hr0post] at q2 q3 q4
      have hcfg1 := (b3.trans q4).trans hc
      have hpass1 := ExecutionBlockImpl.passesEntryChecks_of_config _ _ hcfg1.symm hpass
      have hout1 := (b2.trans q3).trans (ho.trans ht)
      have hx1 := (b1.trans q2).trans hx
      rw [hr0, Option.map_some', ExecutionBlockImpl.retryAfter_of_waiting E fuel atMost n1 _
          (by rw [q1, hr0ret]; rfl),
        ExecutionBlockImpl.getSomeRetrying_eq, ExecutionBlockImpl.getSome_eq_map,
        ExecutionBlockImpl.getSomeWithoutTrace_fresh E fuel atMost _ hpass1 hout1, hreq, hx1]
      exact ih (op x).2 _ t' n1 r' hout1 ht' hpass1 (hcfg1.trans hcfg) (by omega) h' hnw
    · rw [skipWaiting_succ, if_neg hw] at h'
      exact hsame (op x) t t' n r' ht ht' hpass hcfg (by omega) h' hnw

theorem ExecutionBlockImpl.requestWrappedBlock_passthrough (E : Executor σ)
    (hpt : E.allowsBlockPassthrough = true) (nrItems nrRegs : Nat) (u : ExecutionBlockImpl σ) :
    ExecutionBlockImpl.requestWrappedBlock E nrItems nrRegs u
      = ExecutionBlockImpl.passFetched nrItems u (E.fetchBlockForPassthrough nrItems u.executor) := by
  unfold ExecutionBlockImpl.requestWrappedBlock ExecutionBlockImpl.passFetched
  simp only [hpt, if_true]

theorem ExecutionBlockImpl.requestWrappedBlock_restricts (E : Executor σ)
    (hpt : E.allowsBlockPassthrough = false) (hin : E.inputSizeRestrictsOutputSize = true)
    (nrItems : Nat) (u : ExecutionBlockImpl σ) :
    ExecutionBlockImpl.requestWrappedBlock E nrItems u.infos.numberOfOutputRegisters u
      = ExecutionBlockImpl.preFetched E nrItems u (E.preFetchNumberOfRows nrItems u.executor) := by
  unfold ExecutionBlockImpl.requestWrappedBlock ExecutionBlockImpl.preFetched
  simp only [hpt, hin, if_true, Bool.false_eq_true, if_false]

theorem ExecutionBlockImpl.requestWrappedBlock_plain (E : Executor σ)
    (hpt : E.allowsBlockPassthrough = false) (hin : E.inputSizeRestrictsOutputSize = false)
    (nrItems : Nat) (u : ExecutionBlockImpl σ) :
    ExecutionBlockImpl.requestWrappedBlock E nrItems u.infos.numberOfOutputRegisters u
      = ExecutionBlockImpl.plainRequested nrItems u ((ExecutionState.HASMORE, ()), u.executor) := by
  unfold ExecutionBlockImpl.requestWrappedBlock ExecutionBlockImpl.plainRequested
  simp only [hpt, hin, Bool.false_eq_true, if_false]

theorem ExecutionBlockImpl.passesEntryChecks_of_fields (s t : ExecutionBlockImpl σ)
    (hk : t.killed = s.killed) (hf : t.failurePoints = s.failurePoints)
    (hp : s.passesEntryChecks) : t.passesEntryChecks := by
  unfold ExecutionBlockImpl.passesEntryChecks ExecutionBlockImpl.TRI_IF_FAILURE at hp ⊢
  rw [hk, hf]
  exact hp

theorem ExecutionBlockImpl.passFetched_spec (nrItems : Nat) (t : ExecutionBlockImpl σ)
    (a : (ExecutionState × Option AqlItemBlock) × σ) :
    (a.1.1 = ExecutionState.WAITING →
      (ExecutionBlockImpl.passFetched nrItems t a).1 = (ExecutionState.WAITING, none)) ∧
    (ExecutionBlockImpl.passFetched nrItems t a).2.config = t.config ∧
    (ExecutionBlockImpl.passFetched nrItems t a).2.executor = a.2 ∧
    (ExecutionBlockImpl.passFetched nrItems t a).2.outputItemRow = t.outputItemRow ∧
    (∀ t' : ExecutionBlockImpl σ, (ExecutionBlockImpl.passFetched nrItems t a).1
      = (ExecutionBlockImpl.passFetched nrItems t' a).1) := by
  unfold ExecutionBlockImpl.passFetched
  obtain ⟨⟨st, blk⟩, x⟩ := a
  by_cases hw : st = ExecutionState.WAITING
  · rw [if_pos hw]
    exact ⟨fun _ => by rw [hw], rfl, rfl, rfl, fun _ => by rw [if_pos hw]⟩
  · rw [if_neg hw]
    cases blk with
    | none => exact ⟨fun h => absurd h hw, rfl, rfl, rfl, fun _ => by rw [if_neg hw]⟩
    | some b => exact ⟨fun h => absurd h hw, rfl, rfl, rfl, fun _ => by rw [if_neg hw]⟩

theorem ExecutionBlockImpl.preFetched_spec (E : Executor σ) (nrItems : Nat)
    (t : ExecutionBlockImpl σ) (a : (ExecutionState × Nat) × σ) :
    (a.1.1 = ExecutionState.WAITING →
      (ExecutionBlockImpl.preFetched E nrItems t a).1 = (ExecutionState.WAITING, none) ∧
      (ExecutionBlockImpl.preFetched E nrItems t a).2.config = t.config) ∧
    (ExecutionBlockImpl.preFetched E nrItems t a).2.executor = a.2 ∧
    (ExecutionBlockImpl.preFetched E nrItems t a).2.outputItemRow = t.outputItemRow ∧
    (ExecutionBlockImpl.preFetched E nrItems t a).2.killed = t.killed ∧
    (ExecutionBlockImpl.preFetched E nrItems t a).2.failurePoints = t.failurePoints ∧
    (∀ t' : ExecutionBlockImpl σ, t.config = t'.config →
      (ExecutionBlockImpl.preFetched E nrItems t a).1
        = (ExecutionBlockImpl.preFetched E nrItems t' a).1 ∧
      (ExecutionBlockImpl.preFetched E nrItems t a).2.config
        = (ExecutionBlockImpl.preFetched E nrItems t' a).2.config) := by
  unfold ExecutionBlockImpl.preFetched
  obtain ⟨⟨st, k⟩, x⟩ := a
  by_cases hw : st = ExecutionState.WAITING
  · rw [if_pos hw]
    exact ⟨fun _ => ⟨by rw [hw], rfl⟩, rfl, rfl, rfl, rfl,
      fun t' h => by rw [if_pos hw]; exact ⟨rfl, h⟩⟩
  · rw [if_neg hw]
    by_cases h0 : min ((k + E.numberOfRowsInFlight x) % 2 ^ 64) nrItems = 0
    · rw [if_pos h0]
      exact ⟨fun h => absurd h hw, rfl, rfl, rfl, rfl,
        fun t' h => by rw [if_neg hw, if_pos h0]; exact ⟨rfl, h⟩⟩
    · rw [if_neg h0]
      refine ⟨fun h => absurd h hw, rfl, rfl, rfl, rfl, fun t' h => ?_⟩
      rw [if_neg hw, if_neg h0]
      simp only [ExecutionBlockImpl.config, Prod.mk.injEq] at h
      obtain ⟨hm, hk, hf, hi⟩ := h
      simp only [ExecutionBlockImpl.requestBlock, ExecutionBlockImpl.config, hm, hk, hf, hi]
      exact ⟨trivial, trivial⟩

theorem ExecutionBlockImpl.plainRequested_spec (nrItems : Nat)
    (t : ExecutionBlockImpl σ) (a : (ExecutionState × Unit) × σ) :
    (ExecutionBlockImpl.plainRequested nrItems t a).2.executor = a.2 ∧
    (ExecutionBlockImpl.plainRequested nrItems t a).2.outputItemRow = t.outputItemRow ∧
    (ExecutionBlockImpl.plainRequested nrItems t a).2.killed = t.killed ∧
    (ExecutionBlockImpl.plainRequested nrItems t a).2.failurePoints = t.failurePoints ∧
    (∀ t' : ExecutionBlockImpl σ, t.config = t'.config →
      (ExecutionBlockImpl.plainRequested nrItems t a).1
        = (ExecutionBlockImpl.plainRequested nrItems t' a).1 ∧
      (ExecutionBlockImpl.plainRequested nrItems t a).2.config
        = (ExecutionBlockImpl.plainRequested nrItems t' a).2.config) := by
  unfold ExecutionBlockImpl.plainRequested
  refine ⟨rfl, rfl, rfl, rfl, fun t' h => ?_⟩
  simp only [ExecutionBlockImpl.config, Prod.mk.injEq] at h
  obtain ⟨hm, hk, hf, hi⟩ := h
  simp only [ExecutionBlockImpl.requestBlock, ExecutionBlockImpl.config, hm, hk, hf, hi]
  exact ⟨trivial, trivial⟩

/-- The simulation of one `getSomeWithoutTrace` call: what the blocking upstream
makes it return, the waiting upstream makes it return after at most
`(fuel + 1) * w` re-invocations. -/
theorem ExecutionBlockImpl.getSomeWithoutTrace_sim (E : Executor σ) (w : Nat)
    (hE : ∀ x, (E.produceRow x).1.1 = ExecutionState.WAITING → (E.produceRow x).1.2.2 = none)
    (fuel atMost : Nat) (t t' : ExecutionBlockImpl σ)
    (hx : t.executor = t'.executor) (ho : t.outputItemRow = t'.outputItemRow)
    (hcfg : t.config = t'.config) (hwf : t.wellFormed)
    (r' : CallResult σ (ExecutionState × Option AqlItemBlock))
    (h' : ExecutionBlockImpl.getSomeWithoutTrace (E.withoutWaiting w) fuel atMost t' = some r')
    (hnw : r'.ret.isWaiting = false) (n : Nat) (hn : (fuel + 1) * w ≤ n) :
    ∃ r, ExecutionBlockImpl.retryAfter E fuel atMost n
          ((ExecutionBlockImpl.getSomeWithoutTrace E fuel atMost t).map CallResult.traced) = some r ∧
      r.matches r' := by
  have hn1 : fuel * w ≤ n := le_trans (Nat.mul_le_mul_right w (Nat.le_succ fuel)) hn
  have hn2 : w + fuel * w ≤ n := by rw [Nat.add_mul, Nat.one_mul] at hn; omega
  by_cases hp' : t'.passesEntryChecks
  · have hp : t.passesEntryChecks := ExecutionBlockImpl.passesEntryChecks_of_config _ _ hcfg.symm hp'
    cases hout : t.outputItemRow with
    | some out =>
      rw [ExecutionBlockImpl.getSomeWithoutTrace_open _ fuel atMost t' hp' out (ho ▸ hout)] at h'
      rw [ExecutionBlockImpl.getSomeWithoutTrace_open E fuel atMost t hp out hout]
      exact ExecutionBlockImpl.produceRows_sim E w hE fuel atMost fuel (Nat.le_refl _) out t t' r'
        h' hnw (hwf out hout) hp hx hcfg fuel n (Nat.le_refl _) hn1
    | none =>
      have hout' : t'.outputItemRow = none := ho ▸ hout
      rw [ExecutionBlockImpl.getSomeWithoutTrace_fresh _ fuel atMost t' hp' hout'] at h'
      rw [ExecutionBlockImpl.getSomeWithoutTrace_fresh E fuel atMost t hp hout]
      cases hpt : E.allowsBlockPassthrough with
      | true =>
        rw [ExecutionBlockImpl.requestWrappedBlock_passthrough _ (by exact hpt), ← hx] at h'
        rw [ExecutionBlockImpl.requestWrappedBlock_passthrough E hpt]
        exact ExecutionBlockImpl.request_sim E w hE fuel atMost (E.fetchBlockForPassthrough atMost)
          (ExecutionBlockImpl.passFetched atMost)
          (fun u => ExecutionBlockImpl.requestWrappedBlock_passthrough E hpt _ _ u)
          (fun u x hw => ⟨(ExecutionBlockImpl.passFetched_spec atMost u _).1 hw,
            (ExecutionBlockImpl.passFetched_spec atMost u _).2.1⟩)
          (fun u a => ⟨(ExecutionBlockImpl.passFetched_spec atMost u a).2.2.1,
            (ExecutionBlockImpl.passFetched_spec atMost u a).2.2.2.1,
            fun hu => ExecutionBlockImpl.passesEntryChecks_of_config _ _
              (ExecutionBlockImpl.passFetched_spec atMost u a).2.1.symm hu⟩)
          (fun u u' a huu => ⟨(ExecutionBlockImpl.passFetched_spec atMost u a).2.2.2.2 u',
            ((ExecutionBlockImpl.passFetched_spec atMost u a).2.1.trans huu).trans
              (ExecutionBlockImpl.passFetched_spec atMost u' a).2.1.symm⟩)
          w t.executor t t' n r' hout hout' hp hcfg hn2 h' hnw
      | false =>
        cases hin : E.inputSizeRestrictsOutputSize with
        | true =>
          rw [ExecutionBlockImpl.requestWrappedBlock_restricts _ (by exact hpt) (by exact hin),
            ← hx] at h'
          rw [ExecutionBlockImpl.requestWrappedBlock_restricts E hpt hin]
          exact ExecutionBlockImpl.request_sim E w hE fuel atMost (E.preFetchNumberOfRows atMost)
            (ExecutionBlockImpl.preFetched E atMost)
            (fun u => ExecutionBlockImpl.requestWrappedBlock_restricts E hpt hin _ u)
            (fun u x hw => (ExecutionBlockImpl.preFetched_spec E atMost u _).1 hw)
            (fun u a => ⟨(ExecutionBlockImpl.preFetched_spec E atMost u a).2.1,
              (ExecutionBlockImpl.preFetched_spec E atMost u a).2.2.1,
              fun hu => ExecutionBlockImpl.passesEntryChecks_of_fields _ _
                (ExecutionBlockImpl.preFetched_spec E atMost u a).2.2.2.1
                (ExecutionBlockImpl.preFetched_spec E atMost u a).2.2.2.2.1 hu⟩)
            (fun u u' a huu => (ExecutionBlockImpl.preFetched_spec E atMost u a).2.2.2.2.2 u' huu)
            w t.executor t t' n r' hout hout' hp hcfg hn2 h' hnw
        | false =>
          rw [ExecutionBlockImpl.requestWrappedBlock_plain _ (by exact hpt) (by exact hin),
            ← hx] at h'
          rw [ExecutionBlockImpl.requestWrappedBlock_plain E hpt hin]
          exact ExecutionBlockImpl.request_sim E w hE fuel atMost
            (fun x => ((ExecutionState.HASMORE, ()), x))
            (ExecutionBlockImpl.plainRequested atMost)
            (fun u => ExecutionBlockImpl.requestWrappedBlock_plain E hpt hin _ u)
            (fun u x hw => absurd hw (by simp))
            (fun u a => ⟨(ExecutionBlockImpl.plainRequested_spec atMost u a).1,
              (ExecutionBlockImpl.plainRequested_spec atMost u a).2.1,
              fun hu => ExecutionBlockImpl.passesEntryChecks_of_fields _ _
                (ExecutionBlockImpl.plainRequested_spec atMost u a).2.2.1
                (ExecutionBlockImpl.plainRequested_spec atMost u a).2.2.2.1 hu⟩)
            (fun u u' a huu => (ExecutionBlockImpl.plainRequested_spec atMost u a).2.2.2.2 u' huu)
            w t.executor t t' n r' hout hout' hp hcfg hn2
            (by rw [skipWaiting_of_not_waiting _ _ _ (by simp)]; exact h') hnw
  · obtain ⟨e, h1, h2⟩ := ExecutionBlockImpl.getSomeWithoutTrace_rejected E (E.withoutWaiting w)
      fuel fuel atMost t t' hcfg hp'
    rw [h2, Option.some.injEq] at h'
    subst h'
    rw [h1]
    exact ExecutionBlockImpl.retryAfter_traced E fuel atMost n _ _ rfl hnw hx ho hcfg

/-- The simulation of one `getSome` call. -/
theorem ExecutionBlockImpl.getSome_sim (E : Executor σ) (w : Nat)
    (hE : ∀ x, (E.produceRow x).1.1 = ExecutionState.WAITING → (E.produceRow x).1.2.2 = none)
    (fuel atMost : Nat) (s s' : ExecutionBlockImpl σ) (hcore : s.sameCore s') (hwf : s.wellFormed)
    (r' : CallResult σ (ExecutionState × Option AqlItemBlock))
    (h' : ExecutionBlockImpl.getSome (E.withoutWaiting w) fuel atMost s' = some r')
    (hnw : r'.ret.isWaiting = false) (n : Nat) (hn : (fuel + 1) * w ≤ n) :
    ∃ r, ExecutionBlockImpl.getSomeRetrying E fuel atMost n s = some r ∧ r.matches r' := by
  obtain ⟨hx, ho, hcfg⟩ := hcore
  obtain ⟨b1, b2, b3⟩ := ExecutionBlockImpl.traceGetSomeBeginInner_fields s atMost
  obtain ⟨c1, c2, c3⟩ := ExecutionBlockImpl.traceGetSomeBeginInner_fields s' atMost
  rw [ExecutionBlockImpl.getSome_eq_map] at h'
  cases h0 : ExecutionBlockImpl.getSomeWithoutTrace (E.withoutWaiting w) fuel atMost
      (s'.traceGetSomeBeginInner atMost) with
  | none => rw [h0] at h'; simp at h'
  | some r0' =>
    rw [h0, Option.map_some', Option.some.injEq] at h'
    obtain ⟨q1, q2, q3, q4⟩ := CallResult.traced_fields r0'
    rw [h'] at q1 q2 q3 q4
    have hwf1 : (s.traceGetSomeBeginInner atMost).wellFormed := fun o h => hwf o (b2 ▸ h)
    obtain ⟨r, hr, m1, m2, m3, m4⟩ := ExecutionBlockImpl.getSomeWithoutTrace_sim E w hE fuel atMost
      (s.traceGetSomeBeginInner atMost) (s'.traceGetSomeBeginInner atMost)
      ((b1.trans hx).trans c1.symm) ((b2.trans ho).trans c2.symm) ((b3.trans hcfg).trans c3.symm)
      hwf1 r0' h0 (by rw [← q1]; exact hnw) n hn
    refine ⟨r, ?_, m1.trans q1.symm, m2.trans q2.symm, m3.trans q3.symm, m4.trans q4.symm⟩
    rw [ExecutionBlockImpl.getSomeRetrying_eq, ExecutionBlockImpl.getSome_eq_map]
    exact hr

theorem ExecutionBlockImpl.getSome_wellFormed (E : Executor σ) (fuel atMost : Nat)
    (s : ExecutionBlockImpl σ) (hwf : s.wellFormed)
    (r : CallResult σ (ExecutionState × Option AqlItemBlock))
    (h : ExecutionBlockImpl.getSome E fuel atMost s = some r) : r.post.wellFormed := by
  obtain ⟨b1, b2, b3⟩ := ExecutionBlockImpl.traceGetSomeBeginInner_fields s atMost
  rw [ExecutionBlockImpl.getSome_eq_map] at h
  cases h0 : ExecutionBlockImpl.getSomeWithoutTrace E fuel atMost
      (s.traceGetSomeBeginInner atMost) with
  | none => rw [h0] at h; simp at h
  | some r0 =>
    rw [h0, Option.map_some', Option.some.injEq] at h
    obtain ⟨-, -, q3, -⟩ := CallResult.traced_fields r0
    rw [h] at q3
    have hwf1 : (s.traceGetSomeBeginInner atMost).wellFormed := fun o ho => hwf o (b2 ▸ ho)
    have hloop : ∀ (out : OutputAqlItemRow) (u : ExecutionBlockImpl σ), out.wellFormed →
        ExecutionBlockImpl.produceRows E fuel ExecutionState.HASMORE out u = some r0 →
        r0.post.wellFormed := by
      intro out u hout hpr
      obtain ⟨cs, out', ex, stats, -, -, -, hwf', -, -, -, -, hc⟩ :=
        ExecutionBlockImpl.produceRows_spec E fuel _ out u r0 hpr hout
      rcases hc with ⟨row, -, hpost, -⟩ | ⟨row, -, hpost, -⟩ | ⟨-, hpost, -⟩
      · intro o ho
        rw [hpost] at ho
        simp only [Option.some.injEq] at ho
        exact ho ▸ hwf'
      · intro o ho
        rw [hpost] at ho
        simp at ho
      · intro o ho
        rw [hpost] at ho
        simp at ho
    have hr0 : r0.post.wellFormed := by
      rcases ExecutionBlockImpl.getSomeWithoutTrace_cases E fuel atMost _ r0 h0 with
        ⟨-, hp, -⟩ | ⟨-, ⟨out, hout, hpr⟩ | ⟨hnone, -, hr⟩ | ⟨hnone, -, b0, hb0, hpr⟩⟩
      · rw [hp]; exact hwf1
      · exact hloop out _ (hwf1 out hout) hpr
      · obtain ⟨ex, m, cs, hfr, -⟩ := ExecutionBlockImpl.requestWrappedBlock_frame E atMost
          (s.traceGetSomeBeginInner atMost).infos.numberOfOutputRegisters
          (s.traceGetSomeBeginInner atMost)
        intro o ho
        rw [hr] at ho
        simp only at ho
        rw [hfr] at ho
        simp only at ho
        rw [hnone] at ho
        simp at ho
      · exact hloop _ _ (ExecutionBlockImpl.createOutputRow_wellFormed E b0).1 hpr
    intro o ho
    exact hr0 o (q3 ▸ ho)

theorem ExecutionBlockImpl.results_succ (E : Executor σ) (fuel atMost n k : Nat)
    (s : ExecutionBlockImpl σ) :
    ExecutionBlockImpl.results E fuel atMost n (k + 1) s
      = (ExecutionBlockImpl.getSomeRetrying E fuel atMost n s).bind
          (fun r => (ExecutionBlockImpl.results E fuel atMost n k r.post).map
            (fun q => (r.ret :: q.1, q.2))) := by
  rw [ExecutionBlockImpl.results]
  cases ExecutionBlockImpl.getSomeRetrying E fuel atMost n s with
  | none => rfl
  | some r =>
    simp only [Option.some_bind]
    cases ExecutionBlockImpl.results E fuel atMost n k r.post with
    | none => rfl
    | some q => rfl

/-- The simulation of `k` successive calls. -/
theorem ExecutionBlockImpl.results_sim (E : Executor σ) (w : Nat)
    (hE : ∀ x, (E.produceRow x).1.1 = ExecutionState.WAITING → (E.produceRow x).1.2.2 = none)
    (fuel atMost n : Nat) (hn : (fuel + 1) * w ≤ n) :
    ∀ (k : Nat) (s s' : ExecutionBlockImpl σ)
      (p' : List (Completion (ExecutionState × Option AqlItemBlock)) × ExecutionBlockImpl σ),
      s.sameCore s' → s.wellFormed →
      ExecutionBlockImpl.results (E.withoutWaiting w) fuel atMost 0 k s' = some p' →
      (∀ c ∈ p'.1, c.isWaiting = false) →
      ∃ p, ExecutionBlockImpl.results E fuel atMost n k s = some p ∧ p.1 = p'.1 ∧
        p.2.sameCore p'.2 := by
  intro k
  induction k with
  | zero =>
    intro s s' p' hcore hwf h' hnw
    simp only [ExecutionBlockImpl.results, Option.some.injEq] at h'
    subst h'
    exact ⟨([], s), rfl, rfl, hcore⟩
  | succ k ih =>
    intro s s' p' hcore hwf h' hnw
    rw [ExecutionBlockImpl.results_succ, ExecutionBlockImpl.getSomeRetrying_eq] at h'
    cases hg : ExecutionBlockImpl.getSome (E.withoutWaiting w) fuel atMost s' with
    | none => rw [hg] at h'; simp [ExecutionBlockImpl.retryAfter] at h'
    | some r' =>
      rw [hg] at h'
      simp only [ExecutionBlockImpl.retryAfter, Option.some_bind] at h'
      cases hq : ExecutionBlockImpl.results (E.withoutWaiting w) fuel atMost 0 k r'.post with
      | none => rw [hq] at h'; simp at h'
      | some q' =>
        rw [hq, Option.map_some', Option.some.injEq] at h'
        subst h'
        have hnw0 : r'.ret.isWaiting = false := hnw _ (List.mem_cons_self _ _)
        obtain ⟨r, hr, m1, m2, m3, m4⟩ :=
          ExecutionBlockImpl.getSome_sim E w hE fuel atMost s s' hcore hwf r' hg hnw0 n hn
        have hwf' : r'.post.wellFormed := ExecutionBlockImpl.getSome_wellFormed _ fuel atMost s'
          (fun o ho => hwf o (hcore.2.1 ▸ ho)) r' hg
        obtain ⟨q, hq1, hq2, hq3⟩ := ih r.post r'.post q' ⟨m2, m3, m4⟩
          (fun o ho => hwf' o (m3 ▸ ho)) hq (fun c hc => hnw c (List.mem_cons_of_mem _ hc))
        refine ⟨(r.ret :: q.1, q.2), ?_, ?_, hq3⟩
        · rw [ExecutionBlockImpl.results_succ, hr, Option.some_bind, hq1, Option.map_some']
        · show r.ret :: q.1 = r'.ret :: q'.1
          rw [m1, hq2]

theorem waitingSourceExecutor_WAITING (x : WaitingSource)
    (h : (waitingSourceExecutor.produceRow x).1.1 = ExecutionState.WAITING) :
    (waitingSourceExecutor.produceRow x).1.2.2 = none := by
  obtain ⟨blocks, rows⟩ := x
  cases rows with
  | nil => rfl
  | cons a rest =>
    cases a with
    | none => rfl
    | some row =>
      exfalso
      simp only [waitingSourceExecutor] at h
      split at h <;> simp at h

theorem waitingSourceExecutor_produceRow_nil (blocks : List (Option AqlItemBlock)) :
    waitingSourceExecutor.produceRow { blocks := blocks, rows := [] }
      = ((ExecutionState.DONE, 0, none), { blocks := blocks, rows := [] }) := rfl

theorem waitingSourceExecutor_produceRow_none (blocks : List (Option AqlItemBlock))
    (rest : List (Option Row)) :
    waitingSourceExecutor.produceRow { blocks := blocks, rows := none :: rest }
      = ((ExecutionState.WAITING, 0, none), { blocks := blocks, rows := rest }) := rfl

theorem waitingSourceExecutor_produceRow_some (blocks : List (Option AqlItemBlock))
    (row : Row) (rest : List (Option Row)) :
    waitingSourceExecutor.produceRow { blocks := blocks, rows := some row :: rest }
      = ((if rest.isEmpty then ExecutionState.DONE else ExecutionState.HASMORE, 0, some row),
         { blocks := blocks, rows := rest }) := rfl

theorem waitingSourceExecutor_referenceOutput :
    ∀ (rows : List (Option Row)) (blocks : List (Option AqlItemBlock)) (fuel : Nat),
      rows.length < fuel →
      waitingSourceExecutor.referenceOutput fuel { blocks := blocks, rows := rows }
        = rows.filterMap id := by
  intro rows
  induction rows with
  | nil =>
    intro blocks fuel h
    cases fuel with
    | zero => simp at h
    | succ fuel =>
      rw [Executor.referenceOutput, waitingSourceExecutor_produceRow_nil]
      simp
  | cons a rest ih =>
    intro blocks fuel h
    cases fuel with
    | zero => simp at h
    | succ fuel =>
      simp only [List.length_cons, Nat.add_lt_add_iff_right] at h
      cases a with
      | none =>
        rw [Executor.referenceOutput, waitingSourceExecutor_produceRow_none]
        simp only [reduceCtorEq, if_false, Option.toList, List.nil_append, List.filterMap_cons, id]
        exact ih blocks fuel h
      | some row =>
        rw [Executor.referenceOutput, waitingSourceExecutor_produceRow_some]
        cases rest with
        | nil => simp
        | cons b rest =>
          simp only [List.isEmpty_cons, Bool.false_eq_true, if_false, reduceCtorEq, Option.toList,
            List.singleton_append]
          rw [ih blocks fuel h]
          simp

theorem WaitingSource.rowsOwed_zero (x : WaitingSource) (h : x.rowsOwed = 0) :
    (x.blocks.filterMap id).all (fun b => decide (0 < b.size)) = true ∧
      x.rowsToFetch = x.rowsToWrite := by
  unfold WaitingSource.rowsOwed at h
  split at h
  · rename_i hg
    exact ⟨hg.1, by omega⟩
  · omega

theorem waitingSourceExecutor_coherent :
    waitingSourceExecutor.Coherent WaitingSource.callsLeft WaitingSource.rowsOwed where
  produceRow_uses := by
    intro x h
    obtain ⟨blocks, rows⟩ := x
    cases rows with
    | nil => rw [waitingSourceExecutor_produceRow_nil] at h; simp at h
    | cons a rest =>
      cases a with
      | none =>
        rw [waitingSourceExecutor_produceRow_none]
        simp [WaitingSource.callsLeft]
      | some row =>
        rw [waitingSourceExecutor_produceRow_some]
        simp [WaitingSource.callsLeft]
  waiting_produces_nothing := waitingSourceExecutor_WAITING
  produceRow_owed := by
    intro _ x hpos
    obtain ⟨blocks, rows⟩ := x
    cases rows with
    | nil => rw [waitingSourceExecutor_produceRow_nil]; simp
    | cons a rest =>
      cases a with
      | none =>
        rw [waitingSourceExecutor_produceRow_none]
        simp [WaitingSource.rowsOwed, WaitingSource.rowsToWrite, WaitingSource.rowsToFetch]
      | some row =>
        rw [waitingSourceExecutor_produceRow_some]
        simp only [WaitingSource.rowsOwed, WaitingSource.rowsToWrite, WaitingSource.rowsToFetch,
          List.filterMap_cons, id, List.length_cons, reduceCtorEq, if_false] at hpos ⊢
        by_cases hg : ((blocks.filterMap id).all (fun b => decide (0 < b.size))) = true
        · simp only [hg, true_and] at hpos ⊢
          split_ifs at hpos ⊢ <;> omega
        · simp only [hg, false_and, if_false, Bool.false_eq_true] at hpos ⊢
          omega
  fetchBlock_owed := by
    intro _ n x b h0 hw hb
    obtain ⟨hg, hf⟩ := WaitingSource.rowsOwed_zero x h0
    obtain ⟨blocks, rows⟩ := x
    cases blocks with
    | nil => simp [waitingSourceExecutor] at hb
    | cons a rest =>
      cases a with
      | none => simp [waitingSourceExecutor] at hb
      | some block =>
        simp only [waitingSourceExecutor, Option.some.injEq] at hb ⊢
        subst hb
        simp only [WaitingSource.rowsToFetch, WaitingSource.rowsToWrite, List.filterMap_cons, id,
          List.map_cons, List.sum_cons, List.all_cons, Bool.and_eq_true, decide_eq_true_eq] at hg hf
        simp only [WaitingSource.rowsOwed, WaitingSource.rowsToFetch, WaitingSource.rowsToWrite]
        rw [if_pos ⟨hg.2, by omega⟩]
        omega
  fetchBlock_waiting := by
    intro _ n x h0 hw
    obtain ⟨blocks, rows⟩ := x
    cases blocks with
    | nil => simp [waitingSourceExecutor] at hw
    | cons a rest =>
      cases a with
      | none =>
        simpa [waitingSourceExecutor, WaitingSource.rowsOwed, WaitingSource.rowsToFetch,
          WaitingSource.rowsToWrite] using h0
      | some block => simp [waitingSourceExecutor] at hw
  fetchBlock_progress := by
    intro _ n x _
    obtain ⟨blocks, rows⟩ := x
    cases blocks with
    | nil => simp [waitingSourceExecutor, WaitingSource.callsLeft]
    | cons a rest =>
      cases a with
      | none => simp [waitingSourceExecutor, WaitingSource.callsLeft]
      | some block => simp [waitingSourceExecutor, WaitingSource.callsLeft]
  fetchBlock_output := by
    intro _ n x _
    have h : ∀ y : WaitingSource, waitingSourceExecutor.referenceOutput (y.callsLeft + 1) y
        = y.rows.filterMap id := by
      intro y
      obtain ⟨blocks, rows⟩ := y
      exact waitingSourceExecutor_referenceOutput rows blocks _
        (by simp only [WaitingSource.callsLeft]; omega)
    rw [h, h]
    obtain ⟨blocks, rows⟩ := x
    cases blocks with
    | nil => simp [waitingSourceExecutor]
    | cons a rest =>
      cases a with
      | none => simp [waitingSourceExecutor]
      | some block => simp [waitingSourceExecutor]
  fetchBlock_none := by
    intro _ n x h0 hw hb
    obtain ⟨hg, hf⟩ := WaitingSource.rowsOwed_zero x h0
    obtain ⟨blocks, rows⟩ := x
    cases blocks with
    | nil =>
      refine ⟨by simp [waitingSourceExecutor], ?_⟩
      rw [waitingSourceExecutor_referenceOutput rows [] _
        (by simp only [WaitingSource.callsLeft]; omega)]
      simp only [WaitingSource.rowsToFetch, WaitingSource.rowsToWrite, List.filterMap_nil,
        List.map_nil, List.sum_nil] at hf
      exact List.length_eq_zero.mp hf.symm
    | cons a rest =>
      cases a with
      | none => simp [waitingSourceExecutor] at hw
      | some block => simp [waitingSourceExecutor] at hb
  fetchBlock_rows := by
    intro _ n x b h0 hb
    obtain ⟨hg, hf⟩ := WaitingSource.rowsOwed_zero x h0
    obtain ⟨blocks, rows⟩ := x
    cases blocks with
    | nil => simp [waitingSourceExecutor] at hb
    | cons a rest =>
      cases a with
      | none => simp [waitingSourceExecutor] at hb
      | some block =>
        simp only [waitingSourceExecutor, Option.some.injEq] at hb
        subst hb
        simp only [List.filterMap_cons, id, List.all_cons, Bool.and_eq_true,
          decide_eq_true_eq] at hg
        exact hg.1
  preFetch_progress := by intro h; simp [waitingSourceExecutor] at h
  preFetch_output := by intro h; simp [waitingSourceExecutor] at h
  preFetch_none := by intro h; simp [waitingSourceExecutor] at h

theorem Option.eq_some_getD {α : Type} (o : Option α) (d : α) (h : o.isSome = true) :
    o = some (o.getD d) := by
  cases o with
  | none => simp at h
  | some a => rfl

/-! ### The lifecycle -/

theorem List.getElem?_append_cons_length {α : Type} (pre : List α) (x : α) (post : List α) :
    (pre ++ x :: post)[pre.length]? = some x := by
  induction pre with
  | nil => simp
  | cons a pre ih => simpa using ih

theorem List.set_append_cons_length {α : Type} (pre : List α) (x y : α) (post : List α) :
    (pre ++ x :: post).set pre.length y = pre ++ y :: post := by
  induction pre with
  | nil => rfl
  | cons a pre ih => simp [ih]

theorem List.all_or_first {α : Type} (P : α → Prop) (l : List α) :
    (∀ x ∈ l, P x) ∨ ∃ a d b, l = a ++ d :: b ∧ (∀ x ∈ a, P x) ∧ ¬ P d := by
  induction l with
  | nil => exact Or.inl (fun x hx => by simp at hx)
  | cons y l ih =>
    by_cases hy : P y
    · rcases ih with h | ⟨a, d, b, hl, ha, hd⟩
      · exact Or.inl (fun x hx => by
          rcases List.mem_cons.mp hx with rfl | hx
          · exact hy
          · exact h x hx)
      · refine Or.inr ⟨y :: a, d, b, by rw [hl]; rfl, fun x hx => ?_, hd⟩
        rcases List.mem_cons.mp hx with rfl | hx
        · exact hy
        · exact ha x hx
    · exact Or.inr ⟨[], y, l, rfl, fun x hx => by simp at hx, hy⟩

theorem ExecutionBlockImpl.initializeCursorLoop_all (rest : List Dependency) :
    ∀ (pre : List Dependency) (s : ExecutionBlockImpl σ),
      s.dependencies = pre ++ rest → s.dependencyPos = pre.length →
      (∀ d ∈ rest, d.acknowledges) →
      s.initializeCursorLoop rest.length
        = (none, { s with dependencies := pre ++ rest.map (fun d => (d.initializeCursor).2),
                          dependencyPos := pre.length + rest.length,
                          calls := s.calls ++
                            (List.range' pre.length rest.length).map Call.initializeCursor }) := by
  induction rest with
  | nil =>
    intro pre s hdeps hpos _
    simp only [List.length_nil, ExecutionBlockImpl.initializeCursorLoop, List.map_nil,
      List.append_nil, Nat.add_zero, List.range'_zero]
    simp only [List.append_nil] at hdeps
    subst hdeps
    rw [← hpos]
  | cons d rest ih =>
    intro pre s hdeps hpos hall
    have hd : d.acknowledges := hall d (List.mem_cons_self _ _)
    have hlook : s.dependencies[s.dependencyPos]? = some d := by
      rw [hdeps, hpos]; exact List.getElem?_append_cons_length pre d rest
    have hcond : ¬ ((d.initializeCursor).1.1 = ExecutionState.WAITING ∨
        (d.initializeCursor).1.2.ok = false) := by
      intro h
      rcases h with h | h
      · exact hd.1 h
      · rw [hd.2] at h; cases h
    rw [List.length_cons, ExecutionBlockImpl.initializeCursorLoop]
    simp only [hlook, if_neg hcond]
    rw [ih (pre ++ [(d.initializeCursor).2]) _
      (by simp only [hdeps, hpos, List.set_append_cons_length, List.append_assoc,
            List.singleton_append])
      (by simp only [hpos, List.length_append, List.length_singleton])
      (fun x hx => hall x (List.mem_cons_of_mem _ hx))]
    simp only [hpos, List.length_append, List.length_singleton, List.append_assoc,
      List.singleton_append, List.map_cons, List.range'_succ, Prod.mk.injEq, true_and]
    congr 1
    omega

theorem ExecutionBlockImpl.initializeCursorLoop_stop (a : List Dependency) (d : Dependency)
    (b : List Dependency) :
    ∀ (pre : List Dependency) (s : ExecutionBlockImpl σ) (n : Nat),
      s.dependencies = pre ++ (a ++ d :: b) → s.dependencyPos = pre.length →
      (∀ x ∈ a, x.acknowledges) → ¬ d.acknowledges → a.length < n →
      s.initializeCursorLoop n
        = (some (d.initializeCursor).1,
           { s with dependencies := pre ++ (a.map (fun x => (x.initializeCursor).2) ++
                                      (d.initializeCursor).2 :: b),
                    dependencyPos := pre.length + a.length,
                    calls := s.calls ++
                      (List.range' pre.length (a.length + 1)).map Call.initializeCursor }) := by
  induction a with
  | nil =>
    intro pre s n hdeps hpos _ hbad hn
    obtain ⟨n, rfl⟩ : ∃ m, n = m + 1 := ⟨n - 1, by simp at hn; omega⟩
    have hlook : s.dependencies[s.dependencyPos]? = some d := by
      rw [hdeps, hpos]; exact List.getElem?_append_cons_length pre d b
    have hcond : (d.initializeCursor).1.1 = ExecutionState.WAITING ∨
        (d.initializeCursor).1.2.ok = false := by
      by_cases hw : (d.initializeCursor).1.1 = ExecutionState.WAITING
      · exact Or.inl hw
      · right
        cases hok : (d.initializeCursor).1.2.ok with
        | false => rfl
        | true => exact absurd ⟨hw, hok⟩ hbad
    rw [ExecutionBlockImpl.initializeCursorLoop]
    simp only [hlook, if_pos hcond]
    simp only [hdeps, hpos, List.nil_append, List.set_append_cons_length, List.map_nil,
      List.length_nil, Nat.add_zero, Nat.zero_add, List.range'_one, List.map_cons]
  | cons x a ih =>
    intro pre s n hdeps hpos hall hbad hn
    obtain ⟨n, rfl⟩ : ∃ m, n = m + 1 := ⟨n - 1, by simp at hn; omega⟩
    have hx : x.acknowledges := hall x (List.mem_cons_self _ _)
    have hlook : s.dependencies[s.dependencyPos]? = some x := by
      rw [hdeps, hpos]; exact List.getElem?_append_cons_length pre x (a ++ d :: b)
    have hcond : ¬ ((x.initializeCursor).1.1 = ExecutionState.WAITING ∨
        (x.initializeCursor).1.2.ok = false) := by
      intro h
      rcases h with h | h
      · exact hx.1 h
      · rw [hx.2] at h; cases h
    rw [ExecutionBlockImpl.initializeCursorLoop]
    simp only [hlook, if_neg hcond]
    rw [ih (pre ++ [(x.initializeCursor).2]) _ n
      (by simp only [hdeps, hpos, List.cons_append, List.set_append_cons_length,
            List.append_assoc, List.nil_append])
      (by simp only [hpos, List.length_append, List.length_singleton])
      (fun y hy => hall y (List.mem_cons_of_mem _ hy)) hbad
      (by simp only [List.length_cons] at hn; omega)]
    simp only [hpos, List.length_append, List.length_singleton, List.append_assoc,
      List.map_cons, List.range'_succ, List.length_cons, List.cons_append,
      List.nil_append, List.length_nil, Prod.mk.injEq, true_and]
    congr 1
    omega

theorem ExecutionBlockImpl.internalShutdownLoop_step (errorCode n : Nat)
    (s : ExecutionBlockImpl σ) (d : Dependency)
    (hlook : s.dependencies[s.dependencyPos]? = some d) (hd : ¬ d.shutdownWaits errorCode) :
    s.internalShutdownLoop errorCode (n + 1)
      = ExecutionBlockImpl.internalShutdownLoop errorCode n
          { s with dependencies := s.dependencies.set s.dependencyPos (d.shutdown errorCode).2,
                   calls := s.calls ++ [Call.shutdown s.dependencyPos],
                   shutdownResult := (d.shutdownFailure errorCode).getD s.shutdownResult,
                   dependencyPos := s.dependencyPos + 1 } := by
  rw [ExecutionBlockImpl.internalShutdownLoop]
  simp only [hlook]
  unfold Dependency.shutdownFailure
  cases ha : (d.shutdown errorCode).1 with
  | none => simp only [Option.getD_some]
  | some a =>
    obtain ⟨state, res⟩ := a
    have hw : state ≠ ExecutionState.WAITING := fun h => hd ⟨res, by rw [ha, h]⟩
    simp only [if_neg hw]
    cases hf : res.fail with
    | true => simp only [if_true, Option.getD_some]
    | false => simp only [Bool.false_eq_true, if_false, Option.getD_none]

theorem ExecutionBlockImpl.internalShutdownLoop_wait (errorCode n : Nat)
    (s : ExecutionBlockImpl σ) (d : Dependency)
    (hlook : s.dependencies[s.dependencyPos]? = some d) (hd : d.shutdownWaits errorCode) :
    s.internalShutdownLoop errorCode (n + 1)
      = (some (ExecutionState.WAITING, { errorNumber := TRI_ERROR_NO_ERROR }),
          { s with dependencies := s.dependencies.set s.dependencyPos (d.shutdown errorCode).2,
                   calls := s.calls ++ [Call.shutdown s.dependencyPos] }) := by
  obtain ⟨res, hres⟩ := hd
  rw [ExecutionBlockImpl.internalShutdownLoop]
  simp only [hlook, hres, if_true]

theorem ExecutionBlockImpl.internalShutdownLoop_all (errorCode : Nat) (rest : List Dependency) :
    ∀ (pre : List Dependency) (s : ExecutionBlockImpl σ),
      s.dependencies = pre ++ rest → s.dependencyPos = pre.length →
      (∀ d ∈ rest, ¬ d.shutdownWaits errorCode) →
      s.internalShutdownLoop errorCode rest.length
        = (none, { s with dependencies := pre ++ rest.map (fun d => (d.shutdown errorCode).2),
                          dependencyPos := pre.length + rest.length,
                          shutdownResult := recordedShutdownResult errorCode s.shutdownResult rest,
                          calls := s.calls ++
                            (List.range' pre.length rest.length).map Call.shutdown }) := by
  induction rest with
  | nil =>
    intro pre s hdeps hpos _
    simp only [List.length_nil, ExecutionBlockImpl.internalShutdownLoop, List.map_nil,
      List.append_nil, Nat.add_zero, List.range'_zero, recordedShutdownResult, List.foldl_nil]
    simp only [List.append_nil] at hdeps
    subst hdeps
    rw [← hpos]
  | cons d rest ih =>
    intro pre s hdeps hpos hall
    have hlook : s.dependencies[s.dependencyPos]? = some d := by
      rw [hdeps, hpos]; exact List.getElem?_append_cons_length pre d rest
    rw [List.length_cons, ExecutionBlockImpl.internalShutdownLoop_step errorCode _ s d hlook
      (hall d (List.mem_cons_self _ _))]
    rw [ih (pre ++ [(d.shutdown errorCode).2]) _
      (by simp only [hdeps, hpos, List.set_append_cons_length, List.append_assoc,
            List.cons_append, List.nil_append])
      (by simp only [hpos, List.length_append, List.length_singleton])
      (fun x hx => hall x (List.mem_cons_of_mem _ hx))]
    simp only [hpos, List.length_append, List.length_singleton, List.append_assoc,
      List.map_cons, List.range'_succ, List.cons_append, List.nil_append, List.length_nil,
      recordedShutdownResult, List.foldl_cons, Prod.mk.injEq, true_and]
    congr 1
    omega

theorem ExecutionBlockImpl.internalShutdownLoop_stop (errorCode : Nat) (a : List Dependency)
    (d : Dependency) (b : List Dependency) :
    ∀ (pre : List Dependency) (s : ExecutionBlockImpl σ) (n : Nat),
      s.dependencies = pre ++ (a ++ d :: b) → s.dependencyPos = pre.length →
      (∀ x ∈ a, ¬ x.shutdownWaits errorCode) → d.shutdownWaits errorCode → a.length < n →
      s.internalShutdownLoop errorCode n
        = (some (ExecutionState.WAITING, { errorNumber := TRI_ERROR_NO_ERROR }),
           { s with dependencies := pre ++ (a.map (fun x => (x.shutdown errorCode).2) ++
                                      (d.shutdown errorCode).2 :: b),
                    dependencyPos := pre.length + a.length,
                    shutdownResult := recordedShutdownResult errorCode s.shutdownResult a,
                    calls := s.calls ++
                      (List.range' pre.length (a.length + 1)).map Call.shutdown }) := by
  induction a with
  | nil =>
    intro pre s n hdeps hpos _ hw hn
    obtain ⟨n, rfl⟩ : ∃ m, n = m + 1 := ⟨n - 1, by simp at hn; omega⟩
    have hlook : s.dependencies[s.dependencyPos]? = some d := by
      rw [hdeps, hpos]; exact List.getElem?_append_cons_length pre d b
    rw [ExecutionBlockImpl.internalShutdownLoop_wait errorCode n s d hlook hw]
    simp only [hdeps, hpos, List.nil_append, List.set_append_cons_length, List.map_nil,
      List.length_nil, Nat.add_zero, Nat.zero_add, List.range'_one, List.map_cons,
      recordedShutdownResult, List.foldl_nil]
  | cons x a ih =>
    intro pre s n hdeps hpos hall hw hn
    obtain ⟨n, rfl⟩ : ∃ m, n = m + 1 := ⟨n - 1, by simp at hn; omega⟩
    have hlook : s.dependencies[s.dependencyPos]? = some x := by
      rw [hdeps, hpos]; exact List.getElem?_append_cons_length pre x (a ++ d :: b)
    rw [ExecutionBlockImpl.internalShutdownLoop_step errorCode n s x hlook
      (hall x (List.mem_cons_self _ _))]
    rw [ih (pre ++ [(x.shutdown errorCode).2]) _ n
      (by simp only [hdeps, hpos, List.cons_append, List.set_append_cons_length,
            List.append_assoc, List.nil_append])
      (by simp only [hpos, List.length_append, List.length_singleton])
      (fun y hy => hall y (List.mem_cons_of_mem _ hy)) hw
      (by simp only [List.length_cons] at hn; omega)]
    simp only [hpos, List.length_append, List.length_singleton, List.append_assoc,
      List.map_cons, List.range'_succ, List.length_cons, List.cons_append,
      List.nil_append, List.length_nil, recordedShutdownResult, List.foldl_cons,
      Prod.mk.injEq, true_and]
    congr 1
    omega

theorem ExecutionBlockImpl.initializeCursorBegin_eq (recreate : σ → σ)
    (s : ExecutionBlockImpl σ) :
    s.initializeCursorBegin recreate
      = { s with executor := recreate s.executor, dependencyPos := s.cascadeStart } := by
  unfold ExecutionBlockImpl.initializeCursorBegin ExecutionBlockImpl.cascadeStart
  split <;> rfl

theorem ExecutionBlockImpl.internalShutdownBegin_eq (s : ExecutionBlockImpl σ) :
    s.internalShutdownBegin
      = { s with shutdownResult := s.internalShutdownBegin.shutdownResult,
                 dependencyPos := s.cascadeStart } := by
  unfold ExecutionBlockImpl.internalShutdownBegin ExecutionBlockImpl.cascadeStart
  split <;> rfl

theorem ExecutionBlockImpl.foldl_returnBlock (buffer : List AqlItemBlock) :
    ∀ (t : ExecutionBlockImpl σ),
      buffer.foldl (fun t block => t.returnBlock block) t
        = { t with itemBlockManager :=
                     { t.itemBlockManager with
                       returned := buffer.reverse ++ t.itemBlockManager.returned },
                   calls := t.calls ++ buffer.map Call.returnBlock } := by
  induction buffer with
  | nil => intro t; simp
  | cons b buffer ih =>
    intro t
    rw [List.foldl_cons, ih]
    simp [ExecutionBlockImpl.returnBlock, AqlItemBlockManager.returnBlock]

theorem ExecutionBlockImpl.initializeCursor_all (recreate : σ → σ) (input : Row)
    (s : ExecutionBlockImpl σ) (pre rest : List Dependency)
    (hdeps : s.dependencies = pre ++ rest) (hstart : s.cascadeStart = pre.length)
    (hall : ∀ d ∈ rest, d.acknowledges) :
    s.initializeCursor recreate input
      = ((ExecutionState.DONE, { errorNumber := TRI_ERROR_NO_ERROR }),
         { s with executor := recreate s.executor,
                  dependencies := pre ++ rest.map (fun d => (d.initializeCursor).2),
                  dependencyPos := pre.length + rest.length,
                  itemBlockManager :=
                    { s.itemBlockManager with
                      returned := s.buffer.reverse ++ s.itemBlockManager.returned },
                  calls := s.calls ++ (List.range' pre.length rest.length).map Call.initializeCursor
                    ++ s.buffer.map Call.returnBlock,
                  buffer := [], done := false, upstreamState := ExecutionState.HASMORE, pos := 0,
                  collector := [] }) := by
  have hd : (s.initializeCursorBegin recreate).dependencies = pre ++ rest := by
    rw [ExecutionBlockImpl.initializeCursorBegin_eq]; exact hdeps
  have hp : (s.initializeCursorBegin recreate).dependencyPos = pre.length := by
    rw [ExecutionBlockImpl.initializeCursorBegin_eq]; exact hstart
  have hloop := ExecutionBlockImpl.initializeCursorLoop_all rest pre _ hd hp hall
  have hn : (s.initializeCursorBegin recreate).dependencies.length
      - (s.initializeCursorBegin recreate).dependencyPos = rest.length := by
    rw [hd, hp, List.length_append]; omega
  unfold ExecutionBlockImpl.initializeCursor
  simp only [hn, hloop, ExecutionBlockImpl.foldl_returnBlock]
  rw [ExecutionBlockImpl.initializeCursorBegin_eq]

theorem ExecutionBlockImpl.initializeCursor_stop (recreate : σ → σ) (input : Row)
    (s : ExecutionBlockImpl σ) (pre a : List Dependency) (d : Dependency) (b : List Dependency)
    (hdeps : s.dependencies = pre ++ (a ++ d :: b)) (hstart : s.cascadeStart = pre.length)
    (hall : ∀ x ∈ a, x.acknowledges) (hbad : ¬ d.acknowledges) :
    s.initializeCursor recreate input
      = ((d.initializeCursor).1,
         { s with executor := recreate s.executor,
                  dependencies := pre ++ (a.map (fun x => (x.initializeCursor).2) ++
                                    (d.initializeCursor).2 :: b),
                  dependencyPos := pre.length + a.length,
                  calls := s.calls ++
                    (List.range' pre.length (a.length + 1)).map Call.initializeCursor }) := by
  have hd : (s.initializeCursorBegin recreate).dependencies = pre ++ (a ++ d :: b) := by
    rw [ExecutionBlockImpl.initializeCursorBegin_eq]; exact hdeps
  have hp : (s.initializeCursorBegin recreate).dependencyPos = pre.length := by
    rw [ExecutionBlockImpl.initializeCursorBegin_eq]; exact hstart
  have hloop := ExecutionBlockImpl.initializeCursorLoop_stop a d b pre _
    ((s.initializeCursorBegin recreate).dependencies.length
      - (s.initializeCursorBegin recreate).dependencyPos) hd hp hall hbad
    (by rw [hd, hp]; simp only [List.length_append, List.length_cons]; omega)
  unfold ExecutionBlockImpl.initializeCursor
  simp only [hloop]
  rw [ExecutionBlockImpl.initializeCursorBegin_eq]

theorem ExecutionBlockImpl.internalShutdown_all (errorCode : Nat)
    (s : ExecutionBlockImpl σ) (pre rest : List Dependency)
    (hdeps : s.dependencies = pre ++ rest) (hstart : s.cascadeStart = pre.length)
    (hall : ∀ d ∈ rest, ¬ d.shutdownWaits errorCode) :
    s.internalShutdown errorCode
      = ((ExecutionState.DONE,
          recordedShutdownResult errorCode s.internalShutdownBegin.shutdownResult rest),
         { s with dependencies := pre ++ rest.map (fun d => (d.shutdown errorCode).2),
                  dependencyPos := pre.length + rest.length,
                  shutdownResult :=
                    recordedShutdownResult errorCode s.internalShutdownBegin.shutdownResult rest,
                  calls := s.calls ++ (List.range' pre.length rest.length).map Call.shutdown
                    ++ s.buffer.map Call.deleteBlock,
                  buffer := [] }) := by
  have hd : s.internalShutdownBegin.dependencies = pre ++ rest := by
    rw [ExecutionBlockImpl.internalShutdownBegin_eq]; exact hdeps
  have hp : s.internalShutdownBegin.dependencyPos = pre.length := by
    rw [ExecutionBlockImpl.internalShutdownBegin_eq]; exact hstart
  have hloop := ExecutionBlockImpl.internalShutdownLoop_all errorCode rest pre _ hd hp hall
  have hn : s.internalShutdownBegin.dependencies.length - s.internalShutdownBegin.dependencyPos
      = rest.length := by
    rw [hd, hp, List.length_append]; omega
  have hb : s.internalShutdownBegin.buffer = s.buffer := by
    rw [ExecutionBlockImpl.internalShutdownBegin_eq]
  have hc : s.internalShutdownBegin.calls = s.calls := by
    rw [ExecutionBlockImpl.internalShutdownBegin_eq]
  unfold ExecutionBlockImpl.internalShutdown
  simp only [hn, hloop, hb, hc]
  cases hbuf : s.buffer with
  | nil =>
    simp only [List.isEmpty_nil, if_true, List.map_nil, List.append_nil, Prod.mk.injEq, true_and]
    rw [ExecutionBlockImpl.internalShutdownBegin_eq]
  | cons x xs =>
    simp only [List.isEmpty_cons, Bool.false_eq_true, if_false, Prod.mk.injEq, true_and]
    rw [ExecutionBlockImpl.internalShutdownBegin_eq]

theorem ExecutionBlockImpl.internalShutdown_stop (errorCode : Nat)
    (s : ExecutionBlockImpl σ) (pre a : List Dependency) (d : Dependency) (b : List Dependency)
    (hdeps : s.dependencies = pre ++ (a ++ d :: b)) (hstart : s.cascadeStart = pre.length)
    (hall : ∀ x ∈ a, ¬ x.shutdownWaits errorCode) (hw : d.shutdownWaits errorCode) :
    s.internalShutdown errorCode
      = ((ExecutionState.WAITING, { errorNumber := TRI_ERROR_NO_ERROR }),
         { s with dependencies := pre ++ (a.map (fun x => (x.shutdown errorCode).2) ++
                                    (d.shutdown errorCode).2 :: b),
                  dependencyPos := pre.length + a.length,
                  shutdownResult :=
                    recordedShutdownResult errorCode s.internalShutdownBegin.shutdownResult a,
                  calls := s.calls ++ (List.range' pre.length (a.length + 1)).map Call.shutdown }) := by
  have hd : s.internalShutdownBegin.dependencies = pre ++ (a ++ d :: b) := by
    rw [ExecutionBlockImpl.internalShutdownBegin_eq]; exact hdeps
  have hp : s.internalShutdownBegin.dependencyPos = pre.length := by
    rw [ExecutionBlockImpl.internalShutdownBegin_eq]; exact hstart
  have hloop := ExecutionBlockImpl.internalShutdownLoop_stop errorCode a d b pre _
    (s.internalShutdownBegin.dependencies.length - s.internalShutdownBegin.dependencyPos)
    hd hp hall hw
    (by rw [hd, hp]; simp only [List.length_append, List.length_cons]; omega)
  have hc : s.internalShutdownBegin.calls = s.calls := by
    rw [ExecutionBlockImpl.internalShutdownBegin_eq]
  unfold ExecutionBlockImpl.internalShutdown
  simp only [hloop, hc]
  rw [ExecutionBlockImpl.internalShutdownBegin_eq]

theorem ExecutionBlockImpl.cascade_split (s : ExecutionBlockImpl σ)
    (before : List Dependency) (d : Dependency) (after : List Dependency)
    (hdeps : s.dependencies = before ++ d :: after) (hstart : s.cascadeStart ≤ before.length) :
    s.dependencies = before.take s.cascadeStart ++ (before.drop s.cascadeStart ++ d :: after) ∧
      s.cascadeStart = (before.take s.cascadeStart).length ∧
      (before.take s.cascadeStart).length + (before.drop s.cascadeStart).length = before.length := by
  refine ⟨?_, ?_, ?_⟩
  · rw [← List.append_assoc, List.take_append_drop]; exact hdeps
  · rw [List.length_take]; omega
  · rw [← List.length_append, List.take_append_drop]

theorem ExecutionBlockImpl.cascade_whole (s : ExecutionBlockImpl σ)
    (hpos : s.dependencyPos ≤ s.dependencies.length) :
    s.dependencies = s.dependencies.take s.cascadeStart ++ s.dependencies.drop s.cascadeStart ∧
      s.cascadeStart = (s.dependencies.take s.cascadeStart).length ∧
      (s.dependencies.take s.cascadeStart).length + (s.dependencies.drop s.cascadeStart).length
        = s.dependencies.length := by
  have h : s.cascadeStart ≤ s.dependencies.length := by
    unfold ExecutionBlockImpl.cascadeStart; split <;> omega
  refine ⟨(List.take_append_drop _ _).symm, ?_, ?_⟩
  · rw [List.length_take]; omega
  · rw [← List.length_append, List.take_append_drop]

theorem ExecutionBlockImpl.initializeCursor_calls (recreate : σ → σ) (input : Row)
    (s : ExecutionBlockImpl σ) (hpos : s.dependencyPos < s.dependencies.length) :
    ∃ m tail, 0 < m ∧
      (s.initializeCursor recreate input).2.calls
        = s.calls ++ (List.range' s.dependencyPos m).map Call.initializeCursor ++ tail ∧
      ∀ c ∈ tail, ∃ block, c = Call.returnBlock block := by
  have hcs : s.cascadeStart = s.dependencyPos := by
    unfold ExecutionBlockImpl.cascadeStart
    rw [if_neg (by omega)]
  obtain ⟨hd, hs, hlen⟩ := ExecutionBlockImpl.cascade_whole s (by omega)
  have hne : 0 < (s.dependencies.drop s.cascadeStart).length := by
    rw [List.length_drop]; omega
  rcases List.all_or_first Dependency.acknowledges (s.dependencies.drop s.cascadeStart) with
    hall | ⟨a, d, b, hsplit, ha, hbad⟩
  · rw [ExecutionBlockImpl.initializeCursor_all recreate input s _ _ hd hs hall]
    refine ⟨_, s.buffer.map Call.returnBlock, hne, ?_, ?_⟩
    · rw [← hs, hcs]
    · intro c hc
      obtain ⟨block, -, rfl⟩ := List.mem_map.mp hc
      exact ⟨block, rfl⟩
  · rw [hsplit] at hd
    rw [ExecutionBlockImpl.initializeCursor_stop recreate input s _ a d b hd hs ha hbad]
    refine ⟨a.length + 1, [], Nat.succ_pos _, ?_, fun c hc => by simp at hc⟩
    rw [← hs, hcs, List.append_nil]

theorem ExecutionBlockImpl.internalShutdownLoop_frame (errorCode : Nat) :
    ∀ (n : Nat) (s : ExecutionBlockImpl σ),
      (s.internalShutdownLoop errorCode n).2.buffer = s.buffer ∧
      (s.internalShutdownLoop errorCode n).2.executor = s.executor ∧
      (∃ cs, (s.internalShutdownLoop errorCode n).2.calls = s.calls ++ cs ∧
        ∀ c ∈ cs, ∃ i, c = Call.shutdown i) ∧
      ((s.internalShutdownLoop errorCode n).1 = none ∨
        (s.internalShutdownLoop errorCode n).1
          = some (ExecutionState.WAITING, { errorNumber := TRI_ERROR_NO_ERROR })) := by
  intro n
  induction n with
  | zero =>
    intro s
    have e : s.internalShutdownLoop errorCode 0 = (none, s) := rfl
    rw [e]
    exact ⟨rfl, rfl, ⟨[], by simp, by simp⟩, Or.inl rfl⟩
  | succ n ih =>
    intro s
    cases hlook : s.dependencies[s.dependencyPos]? with
    | none =>
      have e : s.internalShutdownLoop errorCode (n + 1) = (none, s) := by
        rw [ExecutionBlockImpl.internalShutdownLoop]
        simp only [hlook]
      rw [e]
      exact ⟨rfl, rfl, ⟨[], by simp, by simp⟩, Or.inl rfl⟩
    | some d =>
      by_cases hw : d.shutdownWaits errorCode
      · rw [ExecutionBlockImpl.internalShutdownLoop_wait errorCode n s d hlook hw]
        exact ⟨rfl, rfl, ⟨[_], rfl, fun c hc => ⟨_, List.mem_singleton.mp hc⟩⟩, Or.inr rfl⟩
      · rw [ExecutionBlockImpl.internalShutdownLoop_step errorCode n s d hlook hw]
        obtain ⟨h1, h2, ⟨cs, h3, h4⟩, h5⟩ := ih
          { s with dependencies := s.dependencies.set s.dependencyPos (d.shutdown errorCode).2,
                   calls := s.calls ++ [Call.shutdown s.dependencyPos],
                   shutdownResult := (d.shutdownFailure errorCode).getD s.shutdownResult,
                   dependencyPos := s.dependencyPos + 1 }
        refine ⟨h1, h2, ⟨Call.shutdown s.dependencyPos :: cs, ?_, ?_⟩, h5⟩
        · rw [h3]; simp
        · intro c hc
          rcases List.mem_cons.mp hc with rfl | hc
          · exact ⟨_, rfl⟩
          · exact h4 c hc

theorem ExecutionBlockImpl.internalShutdown_frame (errorCode : Nat) (s : ExecutionBlockImpl σ) :
    (s.internalShutdown errorCode).2.executor = s.executor ∧
    (((s.internalShutdown errorCode).1.1 = ExecutionState.DONE ∧
        (s.internalShutdown errorCode).2.buffer = [] ∧
        ∃ cs, (s.internalShutdown errorCode).2.calls
            = s.calls ++ cs ++ s.buffer.map Call.deleteBlock ∧
          ∀ c ∈ cs, ∃ i, c = Call.shutdown i) ∨
      ((s.internalShutdown errorCode).1
          = (ExecutionState.WAITING, { errorNumber := TRI_ERROR_NO_ERROR }) ∧
        (s.internalShutdown errorCode).2.buffer = s.buffer ∧
        ∃ cs, (s.internalShutdown errorCode).2.calls = s.calls ++ cs ∧
          ∀ c ∈ cs, ∃ i, c = Call.shutdown i)) := by
  have hb : s.internalShutdownBegin.buffer = s.buffer := by
    rw [ExecutionBlockImpl.internalShutdownBegin_eq]
  have hc : s.internalShutdownBegin.calls = s.calls := by
    rw [ExecutionBlockImpl.internalShutdownBegin_eq]
  have hx : s.internalShutdownBegin.executor = s.executor := by
    rw [ExecutionBlockImpl.internalShutdownBegin_eq]
  obtain ⟨h1, h2, ⟨cs, h3, h4⟩, h5⟩ := ExecutionBlockImpl.internalShutdownLoop_frame errorCode
    (s.internalShutdownBegin.dependencies.length - s.internalShutdownBegin.dependencyPos)
    s.internalShutdownBegin
  rw [hb] at h1
  rw [hc] at h3
  rw [hx] at h2
  obtain ⟨L, hL⟩ : ∃ L, s.internalShutdownBegin.internalShutdownLoop errorCode
      (s.internalShutdownBegin.dependencies.length - s.internalShutdownBegin.dependencyPos) = L :=
    ⟨_, rfl⟩
  rw [hL] at h1 h2 h3 h5
  obtain ⟨Lret, Ls⟩ := L
  simp only at h1 h2 h3 h5
  rcases h5 with h5 | h5
  · subst h5
    have hval : s.internalShutdown errorCode
        = ((ExecutionState.DONE, Ls.shutdownResult),
           { Ls with calls := Ls.calls ++ Ls.buffer.map Call.deleteBlock, buffer := [] }) := by
      unfold ExecutionBlockImpl.internalShutdown
      simp only [hL]
      cases hbuf : Ls.buffer with
      | nil =>
        simp only [List.isEmpty_nil, if_true, List.map_nil, List.append_nil, Prod.mk.injEq,
          true_and]
        rw [← hbuf]
      | cons x xs => simp only [List.isEmpty_cons, Bool.false_eq_true, if_false]
    rw [hval]
    exact ⟨h2, Or.inl ⟨rfl, rfl, cs, by rw [h3, h1], h4⟩⟩
  · subst h5
    have hval : s.internalShutdown errorCode
        = ((ExecutionState.WAITING, { errorNumber := TRI_ERROR_NO_ERROR }), Ls) := by
      unfold ExecutionBlockImpl.internalShutdown
      simp only [hL]
    rw [hval]
    exact ⟨h2, Or.inr ⟨rfl, h1, cs, h3, h4⟩⟩

theorem recordedShutdownResult_append (errorCode : Nat) (recorded : Result)
    (xs ys : List Dependency) :
    recordedShutdownResult errorCode recorded (xs ++ ys)
      = recordedShutdownResult errorCode (recordedShutdownResult errorCode recorded xs) ys := by
  unfold recordedShutdownResult
  rw [List.foldl_append]

theorem recordedShutdownResult_of_none (errorCode : Nat) (ds : List Dependency) :
    ∀ (recorded : Result), (∀ x ∈ ds, x.shutdownFailure errorCode = none) →
      recordedShutdownResult errorCode recorded ds = recorded := by
  induction ds with
  | nil => intro recorded _; rfl
  | cons d ds ih =>
    intro recorded h
    unfold recordedShutdownResult
    rw [List.foldl_cons, h d (List.mem_cons_self _ _), Option.getD_none]
    exact ih recorded (fun x hx => h x (List.mem_cons_of_mem _ hx))

theorem recordedShutdownResult_latest (errorCode : Nat) (recorded : Result)
    (a : List Dependency) (d : Dependency) (b : List Dependency) (res : Result)
    (hd : d.shutdownFailure errorCode = some res)
    (hb : ∀ x ∈ b, x.shutdownFailure errorCode = none) :
    recordedShutdownResult errorCode recorded (a ++ d :: b) = res := by
  rw [recordedShutdownResult_append]
  have h : recordedShutdownResult errorCode (recordedShutdownResult errorCode recorded a) (d :: b)
      = recordedShutdownResult errorCode res b := by
    unfold recordedShutdownResult
    rw [List.foldl_cons, hd, Option.getD_some]
  rw [h]
  exact recordedShutdownResult_of_none errorCode b res hb

theorem Dependency.shutdownFailure_fail (d : Dependency) (errorCode : Nat) (res : Result)
    (h : d.shutdownFailure errorCode = some res) : res.fail = true := by
  unfold Dependency.shutdownFailure at h
  cases ha : (d.shutdown errorCode).1 with
  | none =>
    rw [ha] at h
    simp only [Option.some.injEq] at h
    subst h
    decide
  | some a =>
    obtain ⟨state, r⟩ := a
    rw [ha] at h
    simp only at h
    cases hf : r.fail with
    | true =>
      rw [hf] at h
      simp only [if_true, Option.some.injEq] at h
      rw [← h]; exact hf
    | false =>
      rw [hf] at h
      simp at h

theorem recordedShutdownResult_fail (errorCode : Nat) (ds : List Dependency) :
    ∀ (recorded : Result),
      (recorded.fail = true ∨ ∃ x ∈ ds, (x.shutdownFailure errorCode).isSome = true) →
      (recordedShutdownResult errorCode recorded ds).fail = true := by
  induction ds with
  | nil =>
    intro recorded h
    rcases h with h | ⟨x, hx, -⟩
    · exact h
    · simp at hx
  | cons d ds ih =>
    intro recorded h
    unfold recordedShutdownResult
    rw [List.foldl_cons]
    apply ih
    cases hd : d.shutdownFailure errorCode with
    | some res =>
      left
      rw [Option.getD_some]
      exact Dependency.shutdownFailure_fail d errorCode res hd
    | none =>
      rw [Option.getD_none]
      rcases h with h | ⟨x, hx, hsome⟩
      · exact Or.inl h
      · rcases List.mem_cons.mp hx with rfl | hx
        · rw [hd] at hsome; cases hsome
        · exact Or.inr ⟨x, hx, hsome⟩

theorem Dependency.shutdownFailure_of_fails (d : Dependency) (errorCode : Nat)
    (h : d.shutdownFails errorCode) : (d.shutdownFailure errorCode).isSome = true := by
  unfold Dependency.shutdownFailure
  rcases h with h | ⟨state, res, h, -, hf⟩
  · rw [h]; rfl
  · rw [h]
    simp only [hf, if_true, Option.isSome_some]

theorem Dependency.not_shutdownWaits_of_fails (d : Dependency) (errorCode : Nat)
    (h : d.shutdownFails errorCode) : ¬ d.shutdownWaits errorCode := by
  rintro ⟨r, hr⟩
  rcases h with h | ⟨state, res, h, hs, -⟩
  · rw [h] at hr; cases hr
  · rw [h] at hr
    simp only [Option.some.injEq, Prod.mk.injEq] at hr
    exact hs hr.1

theorem Dependency.shutdownFailure_of_neverFails (d : Dependency) (errorCode : Nat)
    (hn : d.neverFailsShutdown) (hw : ¬ d.shutdownWaits errorCode) :
    d.shutdownFailure errorCode = none := by
  unfold Dependency.neverFailsShutdown at hn
  unfold Dependency.shutdownWaits at hw
  unfold Dependency.shutdownFailure
  unfold Dependency.shutdown at hw ⊢
  cases hl : d.shutdownAnswers with
  | nil =>
    simp only
    rfl
  | cons a rest =>
    rw [hl] at hw
    simp only at hw ⊢
    obtain ⟨state, res, rfl, hsr⟩ := hn a (by rw [hl]; exact List.mem_cons_self _ _)
    rcases hsr with rfl | hf
    · exact absurd ⟨res, rfl⟩ hw
    · simp only [hf, Bool.false_eq_true, if_false]

theorem Dependency.neverFailsShutdown_shutdown (d : Dependency) (errorCode : Nat)
    (hn : d.neverFailsShutdown) : (d.shutdown errorCode).2.neverFailsShutdown := by
  unfold Dependency.neverFailsShutdown at hn ⊢
  unfold Dependency.shutdown
  cases hl : d.shutdownAnswers with
  | nil =>
    simp only
    intro a ha
    rw [hl] at ha
    cases ha
  | cons a rest =>
    simp only
    intro x hx
    exact hn x (by rw [hl]; exact List.mem_cons_of_mem _ hx)

/-- One `shutdown` call, by whether a dependency of the cascade answers
`WAITING`. -/
theorem ExecutionBlockImpl.shutdown_cases (errorCode : Nat) (s : ExecutionBlockImpl σ)
    (hpos : s.dependencyPos ≤ s.dependencies.length) :
    ((∀ x ∈ s.dependencies.drop s.cascadeStart, ¬ x.shutdownWaits errorCode) ∧
      s.shutdown errorCode
        = ((ExecutionState.DONE,
            recordedShutdownResult errorCode s.internalShutdownBegin.shutdownResult
              (s.dependencies.drop s.cascadeStart)),
           { s with dependencies := s.dependencies.take s.cascadeStart ++
                      (s.dependencies.drop s.cascadeStart).map (fun d => (d.shutdown errorCode).2),
                    dependencyPos := s.dependencies.length,
                    shutdownResult :=
                      recordedShutdownResult errorCode s.internalShutdownBegin.shutdownResult
                        (s.dependencies.drop s.cascadeStart),
                    calls := s.calls ++
                      (List.range' s.cascadeStart (s.dependencies.length - s.cascadeStart)).map
                        Call.shutdown ++ s.buffer.map Call.deleteBlock,
                    buffer := [] })) ∨
    (∃ a d b, s.dependencies.drop s.cascadeStart = a ++ d :: b ∧
      (∀ x ∈ a, ¬ x.shutdownWaits errorCode) ∧ d.shutdownWaits errorCode ∧
      s.shutdown errorCode
        = ((ExecutionState.WAITING, { errorNumber := TRI_ERROR_NO_ERROR }),
           { s with dependencies := s.dependencies.take s.cascadeStart ++
                      (a.map (fun x => (x.shutdown errorCode).2) ++ (d.shutdown errorCode).2 :: b),
                    dependencyPos := s.cascadeStart + a.length,
                    shutdownResult :=
                      recordedShutdownResult errorCode s.internalShutdownBegin.shutdownResult a,
                    calls := s.calls ++
                      (List.range' s.cascadeStart (a.length + 1)).map Call.shutdown })) := by
  obtain ⟨hd, hs, hlen⟩ := ExecutionBlockImpl.cascade_whole s hpos
  have hdl : (s.dependencies.drop s.cascadeStart).length
      = s.dependencies.length - s.cascadeStart := List.length_drop _ _
  unfold ExecutionBlockImpl.shutdown
  rcases List.all_or_first (fun x : Dependency => ¬ x.shutdownWaits errorCode)
      (s.dependencies.drop s.cascadeStart) with hall | ⟨a, d, b, hsplit, ha, hw⟩
  · left
    refine ⟨hall, ?_⟩
    rw [ExecutionBlockImpl.internalShutdown_all errorCode s _ _ hd hs hall, ← hs, hdl]
    have : s.cascadeStart + (s.dependencies.length - s.cascadeStart) = s.dependencies.length := by
      omega
    rw [this]
  · right
    refine ⟨a, d, b, hsplit, ha, not_not.mp hw, ?_⟩
    have hd' := hd
    rw [hsplit] at hd'
    rw [ExecutionBlockImpl.internalShutdown_stop errorCode s _ a d b hd' hs ha (not_not.mp hw),
      ← hs]

theorem ExecutionBlockImpl.cascadeStart_of_ne (t : ExecutionBlockImpl σ)
    (h : t.dependencyPos ≠ t.dependencies.length) : t.cascadeStart = t.dependencyPos := by
  unfold ExecutionBlockImpl.cascadeStart
  rw [if_neg h]

theorem ExecutionBlockImpl.shutdownRetrying_succ (errorCode retries : Nat)
    (s : ExecutionBlockImpl σ) :
    s.shutdownRetrying errorCode (retries + 1)
      = if (s.shutdown errorCode).1.1 = ExecutionState.WAITING then
          ExecutionBlockImpl.shutdownRetrying errorCode retries (s.shutdown errorCode).2
        else s.shutdown errorCode := rfl

theorem ExecutionBlockImpl.shutdown_done (errorCode : Nat) (s : ExecutionBlockImpl σ)
    (hpos : s.dependencyPos ≤ s.dependencies.length)
    (hall : ∀ x ∈ s.dependencies.drop s.cascadeStart, ¬ x.shutdownWaits errorCode) :
    ExecutionBlockImpl.CascadeDone errorCode s (s.shutdown errorCode) := by
  rcases ExecutionBlockImpl.shutdown_cases errorCode s hpos with ⟨-, hval⟩ | ⟨a, d, b, hsplit, -, hw, -⟩
  · rw [hval]
    refine ⟨rfl, ⟨_, List.append_assoc _ _ _, ?_, ?_⟩, ?_, ?_⟩
    · intro j h1 h2
      apply List.mem_append_left
      rw [List.mem_map]
      refine ⟨j, ?_, rfl⟩
      rw [List.mem_range']
      exact ⟨j - s.cascadeStart, by omega, by omega⟩
    · intro j hj hmem
      rcases List.mem_append.mp hmem with hmem | hmem
      · rw [List.mem_map] at hmem
        obtain ⟨i, hi, hij⟩ := hmem
        rw [List.mem_range'] at hi
        obtain ⟨x, -, hx⟩ := hi
        simp only [Call.shutdown.injEq] at hij
        omega
      · obtain ⟨block, -, hb⟩ := List.mem_map.mp hmem
        cases hb
    · intro h
      apply recordedShutdownResult_fail
      rcases h with h | ⟨x, hx, hf⟩
      · exact Or.inl h
      · exact Or.inr ⟨x, hx, Dependency.shutdownFailure_of_fails x errorCode hf⟩
    · intro h
      exact recordedShutdownResult_of_none errorCode _ _
        (fun x hx => Dependency.shutdownFailure_of_neverFails x errorCode (h x hx) (hall x hx))
  · exact absurd hw (hall d (by rw [hsplit]; simp))

theorem ExecutionBlockImpl.shutdownRetrying_spec (errorCode : Nat) :
    ∀ (retries : Nat) (s : ExecutionBlockImpl σ), s.dependencyPos ≤ s.dependencies.length →
      (s.shutdownRetrying errorCode retries).1.1 ≠ ExecutionState.WAITING →
      ExecutionBlockImpl.CascadeDone errorCode s (s.shutdownRetrying errorCode retries) := by
  intro retries
  induction retries with
  | zero =>
    intro s hpos hnw
    have e : s.shutdownRetrying errorCode 0 = s.shutdown errorCode := rfl
    rw [e] at hnw ⊢
    rcases ExecutionBlockImpl.shutdown_cases errorCode s hpos with
      ⟨hall, -⟩ | ⟨a, d, b, -, -, -, hval⟩
    · exact ExecutionBlockImpl.shutdown_done errorCode s hpos hall
    · rw [hval] at hnw
      exact absurd rfl hnw
  | succ retries ih =>
    intro s hpos hnw
    rw [ExecutionBlockImpl.shutdownRetrying_succ] at hnw ⊢
    rcases ExecutionBlockImpl.shutdown_cases errorCode s hpos with
      ⟨hall, hval⟩ | ⟨a, d, b, hsplit, ha, hw, hval⟩
    · have hd : (s.shutdown errorCode).1.1 ≠ ExecutionState.WAITING := by
        rw [hval]; simp
      rw [if_neg hd]
      exact ExecutionBlockImpl.shutdown_done errorCode s hpos hall
    · have hwt : (s.shutdown errorCode).1.1 = ExecutionState.WAITING := by rw [hval]
      rw [if_pos hwt] at hnw ⊢
      obtain ⟨hd, hs, hlen⟩ := ExecutionBlockImpl.cascade_whole s hpos
      have hdl : (s.dependencies.drop s.cascadeStart).length
          = s.dependencies.length - s.cascadeStart := List.length_drop _ _
      have hal : a.length + 1 + b.length = s.dependencies.length - s.cascadeStart := by
        rw [← hdl, hsplit]; simp only [List.length_append, List.length_cons]; omega
      have hcs : s.cascadeStart ≤ s.dependencies.length := by omega
      have h1deps : (s.shutdown errorCode).2.dependencies
          = s.dependencies.take s.cascadeStart ++
              (a.map (fun x => (x.shutdown errorCode).2) ++ (d.shutdown errorCode).2 :: b) := by
        rw [hval]
      have h1pos : (s.shutdown errorCode).2.dependencyPos = s.cascadeStart + a.length := by
        rw [hval]
      have h1res : (s.shutdown errorCode).2.shutdownResult
          = recordedShutdownResult errorCode s.internalShutdownBegin.shutdownResult a := by
        rw [hval]
      have h1calls : (s.shutdown errorCode).2.calls
          = s.calls ++ (List.range' s.cascadeStart (a.length + 1)).map Call.shutdown := by
        rw [hval]
      have h1len : (s.shutdown errorCode).2.dependencies.length = s.dependencies.length := by
        rw [h1deps]
        simp only [List.length_append, List.length_map, List.length_cons, List.length_take]
        omega
      have h1start : (s.shutdown errorCode).2.cascadeStart = s.cascadeStart + a.length := by
        rw [ExecutionBlockImpl.cascadeStart_of_ne _ (by rw [h1pos, h1len]; omega), h1pos]
      have h1begin : (s.shutdown errorCode).2.internalShutdownBegin.shutdownResult
          = recordedShutdownResult errorCode s.internalShutdownBegin.shutdownResult a := by
        rw [← h1res]
        unfold ExecutionBlockImpl.internalShutdownBegin
        rw [if_neg (by rw [h1pos, h1len]; omega)]
      have h1drop : (s.shutdown errorCode).2.dependencies.drop
          (s.shutdown errorCode).2.cascadeStart = (d.shutdown errorCode).2 :: b := by
        rw [h1start, h1deps, ← List.append_assoc]
        have hl : (List.take s.cascadeStart s.dependencies ++
            List.map (fun x => (x.shutdown errorCode).2) a).length = s.cascadeStart + a.length := by
          simp only [List.length_append, List.length_map, List.length_take]
          omega
        rw [← hl, List.drop_left]
      obtain ⟨i1, ⟨cs1, i2, i3, i4⟩, i5, i6⟩ := ih (s.shutdown errorCode).2
        (by rw [h1pos, h1len]; omega) hnw
      rw [h1start] at i3 i4
      rw [h1len] at i3
      rw [h1drop, h1begin] at i5 i6
      refine ⟨i1, ⟨(List.range' s.cascadeStart (a.length + 1)).map Call.shutdown ++ cs1,
        by rw [i2, h1calls, List.append_assoc], ?_, ?_⟩, ?_, ?_⟩
      · intro j h1 h2
        by_cases hj : j < s.cascadeStart + a.length
        · apply List.mem_append_left
          rw [List.mem_map]
          refine ⟨j, ?_, rfl⟩
          rw [List.mem_range']
          exact ⟨j - s.cascadeStart, by omega, by omega⟩
        · exact List.mem_append_right _ (i3 j (by omega) h2)
      · intro j hj hmem
        rcases List.mem_append.mp hmem with hmem | hmem
        · rw [List.mem_map] at hmem
          obtain ⟨i, hi, hij⟩ := hmem
          rw [List.mem_range'] at hi
          obtain ⟨x, -, hx⟩ := hi
          simp only [Call.shutdown.injEq] at hij
          omega
        · exact i4 j (by omega) hmem
      · intro h
        apply i5
        rcases h with h | ⟨x, hx, hf⟩
        · exact Or.inl (recordedShutdownResult_fail errorCode a _ (Or.inl h))
        · rw [hsplit] at hx
          rcases List.mem_append.mp hx with hx | hx
          · exact Or.inl (recordedShutdownResult_fail errorCode a _
              (Or.inr ⟨x, hx, Dependency.shutdownFailure_of_fails x errorCode hf⟩))
          · rcases List.mem_cons.mp hx with rfl | hx
            · exact absurd hw (Dependency.not_shutdownWaits_of_fails _ errorCode hf)
            · exact Or.inr ⟨x, List.mem_cons_of_mem _ hx, hf⟩
      · intro h
        have hsub : ∀ x ∈ a ++ d :: b, x.neverFailsShutdown := by
          intro x hx
          exact h x (by rw [hsplit]; exact hx)
        rw [i6 (fun x hx => by
          rcases List.mem_cons.mp hx with rfl | hx
          · exact Dependency.neverFailsShutdown_shutdown d errorCode (hsub d (by simp))
          · exact hsub x (by simp [hx]))]
        exact recordedShutdownResult_of_none errorCode a _
          (fun x hx => Dependency.shutdownFailure_of_neverFails x errorCode
            (hsub x (by simp [hx])) (ha x hx))

theorem ExecutionBlockImpl.dependencyPos_le (s : ExecutionBlockImpl σ)
    (before : List Dependency) (d : Dependency) (after : List Dependency)
    (hdeps : s.dependencies = before ++ d :: after) (hstart : s.cascadeStart ≤ before.length) :
    s.dependencyPos ≤ s.dependencies.length := by
  have hl : s.dependencies.length = before.length + after.length + 1 := by
    rw [hdeps]; simp only [List.length_append, List.length_cons]; omega
  unfold ExecutionBlockImpl.cascadeStart at hstart
  by_cases h : s.dependencyPos = s.dependencies.length
  · omega
  · rw [if_neg h] at hstart
    omega

theorem Dependency.shutdownWaits_iff (d : Dependency) (errorCode : Nat) :
    d.shutdownWaits errorCode ↔
      ∃ a rest, d.shutdownAnswers = a :: rest ∧ isWaitingAnswer a = true := by
  obtain ⟨ic, sa⟩ := d
  cases sa with
  | nil => simp [Dependency.shutdownWaits, Dependency.shutdown]
  | cons a rest =>
    cases a with
    | none => simp [Dependency.shutdownWaits, Dependency.shutdown, isWaitingAnswer]
    | some p =>
      obtain ⟨st, res⟩ := p
      simp only [Dependency.shutdownWaits, Dependency.shutdown, Option.some.injEq, Prod.mk.injEq,
        List.cons.injEq, isWaitingAnswer, decide_eq_true_eq]
      constructor
      · rintro ⟨res', h, -⟩
        exact ⟨_, _, ⟨rfl, rfl⟩, by simpa using h⟩
      · rintro ⟨a, rest', ⟨rfl, -⟩, h⟩
        exact ⟨res, by simpa using h, rfl⟩

theorem Dependency.shutdownSettled_of_not_waits (d : Dependency) (errorCode : Nat)
    (h : ¬ d.shutdownWaits errorCode) : d.shutdownSettled = d := by
  rw [Dependency.shutdownWaits_iff] at h
  obtain ⟨ic, sa⟩ := d
  cases sa with
  | nil => rfl
  | cons a rest =>
    have ha : isWaitingAnswer a = false := by
      cases hw : isWaitingAnswer a with
      | false => rfl
      | true => exact absurd ⟨a, rest, rfl, hw⟩ h
    simp [Dependency.shutdownSettled, List.dropWhile_cons, ha]

theorem Dependency.shutdownSettled_shutdown (d : Dependency) (errorCode : Nat)
    (h : d.shutdownWaits errorCode) :
    (d.shutdown errorCode).2.shutdownSettled = d.shutdownSettled := by
  rw [Dependency.shutdownWaits_iff] at h
  obtain ⟨a, rest, hsa, ha⟩ := h
  obtain ⟨ic, sa⟩ := d
  simp only at hsa
  subst hsa
  simp [Dependency.shutdownSettled, Dependency.shutdown, List.dropWhile_cons, ha]

theorem Dependency.shutdownWaitings_shutdown (d : Dependency) (errorCode : Nat)
    (h : d.shutdownWaits errorCode) :
    (d.shutdown errorCode).2.shutdownWaitings + 1 = d.shutdownWaitings := by
  rw [Dependency.shutdownWaits_iff] at h
  obtain ⟨a, rest, hsa, ha⟩ := h
  obtain ⟨ic, sa⟩ := d
  simp only at hsa
  subst hsa
  simp [Dependency.shutdownWaitings, Dependency.shutdown, List.takeWhile_cons, ha]

theorem Dependency.map_shutdownSettled (errorCode : Nat) (ds : List Dependency)
    (h : ∀ x ∈ ds, ¬ x.shutdownWaits errorCode) : ds.map Dependency.shutdownSettled = ds := by
  induction ds with
  | nil => rfl
  | cons d ds ih =>
    rw [List.map_cons, Dependency.shutdownSettled_of_not_waits d errorCode
      (h d (List.mem_cons_self _ _)), ih (fun x hx => h x (List.mem_cons_of_mem _ hx))]

/-- The instance that a `shutdown` suspended at a dependency leaves: the cursor
is in the list, the cascade of the next call starts at that dependency, with the
`Result` recorded so far. -/
theorem ExecutionBlockImpl.shutdown_suspended (errorCode : Nat) (s : ExecutionBlockImpl σ)
    (hpos : s.dependencyPos ≤ s.dependencies.length) (a : List Dependency) (d : Dependency)
    (b : List Dependency) (hsplit : s.dependencies.drop s.cascadeStart = a ++ d :: b)
    (hval : s.shutdown errorCode
        = ((ExecutionState.WAITING, { errorNumber := TRI_ERROR_NO_ERROR }),
           { s with dependencies := s.dependencies.take s.cascadeStart ++
                      (a.map (fun x => (x.shutdown errorCode).2) ++ (d.shutdown errorCode).2 :: b),
                    dependencyPos := s.cascadeStart + a.length,
                    shutdownResult :=
                      recordedShutdownResult errorCode s.internalShutdownBegin.shutdownResult a,
                    calls := s.calls ++
                      (List.range' s.cascadeStart (a.length + 1)).map Call.shutdown })) :
    (s.shutdown errorCode).2.dependencyPos ≤ (s.shutdown errorCode).2.dependencies.length ∧
    (s.shutdown errorCode).2.internalShutdownBegin.shutdownResult
      = recordedShutdownResult errorCode s.internalShutdownBegin.shutdownResult a ∧
    (s.shutdown errorCode).2.dependencies.drop (s.shutdown errorCode).2.cascadeStart
      = (d.shutdown errorCode).2 :: b := by
  obtain ⟨hd, hs, hlen⟩ := ExecutionBlockImpl.cascade_whole s hpos
  have hdl : (s.dependencies.drop s.cascadeStart).length
      = s.dependencies.length - s.cascadeStart := List.length_drop _ _
  have hal : a.length + 1 + b.length = s.dependencies.length - s.cascadeStart := by
    rw [← hdl, hsplit]; simp only [List.length_append, List.length_cons]; omega
  have hcs : s.cascadeStart ≤ s.dependencies.length := by omega
  have h1deps : (s.shutdown errorCode).2.dependencies
      = s.dependencies.take s.cascadeStart ++
          (a.map (fun x => (x.shutdown errorCode).2) ++ (d.shutdown errorCode).2 :: b) := by
    rw [hval]
  have h1pos : (s.shutdown errorCode).2.dependencyPos = s.cascadeStart + a.length := by
    rw [hval]
  have h1res : (s.shutdown errorCode).2.shutdownResult
      = recordedShutdownResult errorCode s.internalShutdownBegin.shutdownResult a := by
    rw [hval]
  have h1len : (s.shutdown errorCode).2.dependencies.length = s.dependencies.length := by
    rw [h1deps]
    simp only [List.length_append, List.length_map, List.length_cons, List.length_take]
    omega
  have h1start : (s.shutdown errorCode).2.cascadeStart = s.cascadeStart + a.length := by
    rw [ExecutionBlockImpl.cascadeStart_of_ne _ (by rw [h1pos, h1len]; omega), h1pos]
  refine ⟨by rw [h1pos, h1len]; omega, ?_, ?_⟩
  · rw [← h1res]
    unfold ExecutionBlockImpl.internalShutdownBegin
    rw [if_neg (by rw [h1pos, h1len]; omega)]
  · rw [h1start, h1deps, ← List.append_assoc]
    have hl : (List.take s.cascadeStart s.dependencies ++
        List.map (fun x => (x.shutdown errorCode).2) a).length = s.cascadeStart + a.length := by
      simp only [List.length_append, List.length_map, List.length_take]
      omega
    rw [← hl, List.drop_left]

/-- The `Result` of a completed cascade, re-entered after each `WAITING`: what the
answers that end the call on each dependency make the cascade record, in list
order. -/
theorem ExecutionBlockImpl.shutdownRetrying_result (errorCode : Nat) :
    ∀ (retries : Nat) (s : ExecutionBlockImpl σ), s.dependencyPos ≤ s.dependencies.length →
      (s.shutdownRetrying errorCode retries).1.1 ≠ ExecutionState.WAITING →
      (s.shutdownRetrying errorCode retries).1
        = (ExecutionState.DONE,
           recordedShutdownResult errorCode s.internalShutdownBegin.shutdownResult
             ((s.dependencies.drop s.cascadeStart).map Dependency.shutdownSettled)) := by
  intro retries
  induction retries with
  | zero =>
    intro s hpos hnw
    have e : s.shutdownRetrying errorCode 0 = s.shutdown errorCode := rfl
    rw [e] at hnw ⊢
    rcases ExecutionBlockImpl.shutdown_cases errorCode s hpos with
      ⟨hall, hval⟩ | ⟨a, d, b, -, -, -, hval⟩
    · rw [Dependency.map_shutdownSettled errorCode _ hall, hval]
    · rw [hval] at hnw
      exact absurd rfl hnw
  | succ retries ih =>
    intro s hpos hnw
    rw [ExecutionBlockImpl.shutdownRetrying_succ] at hnw ⊢
    rcases ExecutionBlockImpl.shutdown_cases errorCode s hpos with
      ⟨hall, hval⟩ | ⟨a, d, b, hsplit, ha, hw, hval⟩
    · have hd : (s.shutdown errorCode).1.1 ≠ ExecutionState.WAITING := by
        rw [hval]; simp
      rw [if_neg hd, Dependency.map_shutdownSettled errorCode _ hall, hval]
    · have hwt : (s.shutdown errorCode).1.1 = ExecutionState.WAITING := by rw [hval]
      rw [if_pos hwt] at hnw ⊢
      obtain ⟨h1pos, h1begin, h1drop⟩ :=
        ExecutionBlockImpl.shutdown_suspended errorCode s hpos a d b hsplit hval
      rw [ih (s.shutdown errorCode).2 h1pos hnw, h1begin, h1drop, hsplit, List.map_append,
        recordedShutdownResult_append, Dependency.map_shutdownSettled errorCode a ha, List.map_cons,
        List.map_cons, Dependency.shutdownSettled_shutdown d errorCode hw]

/-- The cascade completes when `shutdown` is re-entered as often as its
dependencies answer `WAITING`. -/
theorem ExecutionBlockImpl.shutdownRetrying_completes (errorCode : Nat) :
    ∀ (retries : Nat) (s : ExecutionBlockImpl σ), s.dependencyPos ≤ s.dependencies.length →
      ((s.dependencies.drop s.cascadeStart).map Dependency.shutdownWaitings).sum ≤ retries →
      (s.shutdownRetrying errorCode retries).1.1 ≠ ExecutionState.WAITING := by
  intro retries
  induction retries with
  | zero =>
    intro s hpos hsum
    have e : s.shutdownRetrying errorCode 0 = s.shutdown errorCode := rfl
    rw [e]
    rcases ExecutionBlockImpl.shutdown_cases errorCode s hpos with
      ⟨hall, hval⟩ | ⟨a, d, b, hsplit, -, hw, hval⟩
    · rw [hval]; simp
    · exfalso
      have := Dependency.shutdownWaitings_shutdown d errorCode hw
      rw [hsplit] at hsum
      simp only [List.map_append, List.map_cons, List.sum_append, List.sum_cons] at hsum
      omega
  | succ retries ih =>
    intro s hpos hsum
    rw [ExecutionBlockImpl.shutdownRetrying_succ]
    rcases ExecutionBlockImpl.shutdown_cases errorCode s hpos with
      ⟨hall, hval⟩ | ⟨a, d, b, hsplit, ha, hw, hval⟩
    · have hd : (s.shutdown errorCode).1.1 ≠ ExecutionState.WAITING := by
        rw [hval]; simp
      rw [if_neg hd]
      exact hd
    · have hwt : (s.shutdown errorCode).1.1 = ExecutionState.WAITING := by rw [hval]
      rw [if_pos hwt]
      obtain ⟨h1pos, h1begin, h1drop⟩ :=
        ExecutionBlockImpl.shutdown_suspended errorCode s hpos a d b hsplit hval
      apply ih (s.shutdown errorCode).2 h1pos
      rw [h1drop]
      have := Dependency.shutdownWaitings_shutdown d errorCode hw
      rw [hsplit] at hsum
      simp only [List.map_append, List.map_cons, List.sum_append, List.sum_cons] at hsum ⊢
      omega

theorem recordedShutdownResult_settled_latest (errorCode : Nat) (recorded : Result)
    (ds a : List Dependency) (d : Dependency) (b : List Dependency) (res : Result)
    (hsplit : ds = a ++ d :: b)
    (hd : d.shutdownSettled.shutdownFailure errorCode = some res)
    (hb : ∀ x ∈ b, x.shutdownSettled.shutdownFailure errorCode = none) :
    recordedShutdownResult errorCode recorded (ds.map Dependency.shutdownSettled) = res := by
  rw [hsplit, List.map_append, List.map_cons]
  apply recordedShutdownResult_latest errorCode recorded _ _ _ res hd
  intro x hx
  obtain ⟨y, hy, rfl⟩ := List.mem_map.mp hx
  exact hb y hy

theorem ExecutionBlockImpl.shutdown_calls (errorCode : Nat) (s : ExecutionBlockImpl σ)
    (hpos : s.dependencyPos < s.dependencies.length) :
    ∃ m tail, 0 < m ∧
      (s.shutdown errorCode).2.calls
        = s.calls ++ (List.range' s.dependencyPos m).map Call.shutdown ++ tail ∧
      ∀ c ∈ tail, ∃ block, c = Call.deleteBlock block := by
  have hcs : s.cascadeStart = s.dependencyPos :=
    ExecutionBlockImpl.cascadeStart_of_ne s (by omega)
  rcases ExecutionBlockImpl.shutdown_cases errorCode s (by omega) with
    ⟨-, hval⟩ | ⟨a, d, b, -, -, -, hval⟩
  · rw [hval, hcs]
    refine ⟨_, s.buffer.map Call.deleteBlock, by omega, rfl, fun c hc => ?_⟩
    obtain ⟨block, -, rfl⟩ := List.mem_map.mp hc
    exact ⟨block, rfl⟩
  · rw [hval, hcs]
    exact ⟨a.length + 1, [], Nat.succ_pos _, by rw [List.append_nil], fun c hc => by simp at hc⟩

theorem recordedShutdownResult_map (errorCode : Nat) (f : Dependency → Dependency)
    (ds : List Dependency) :
    ∀ (recorded : Result),
      (∀ x ∈ ds, (f x).shutdownFailure errorCode = x.shutdownFailure errorCode) →
      recordedShutdownResult errorCode recorded (ds.map f)
        = recordedShutdownResult errorCode recorded ds := by
  induction ds with
  | nil => intro recorded _; rfl
  | cons d ds ih =>
    intro recorded h
    unfold recordedShutdownResult
    rw [List.map_cons, List.foldl_cons, List.foldl_cons, h d (List.mem_cons_self _ _)]
    exact ih _ (fun x hx => h x (List.mem_cons_of_mem _ hx))

theorem ExecutionBlockImpl.shutdown_of_end (errorCode : Nat) (s : ExecutionBlockImpl σ)
    (hend : s.dependencyPos = s.dependencies.length)
    (hnowait : ∀ x ∈ s.dependencies, ¬ x.shutdownWaits errorCode) :
    s.shutdown errorCode
      = ((ExecutionState.DONE,
          recordedShutdownResult errorCode { errorNumber := TRI_ERROR_NO_ERROR } s.dependencies),
         { s with dependencies := s.dependencies.map (fun d => (d.shutdown errorCode).2),
                  dependencyPos := s.dependencies.length,
                  shutdownResult :=
                    recordedShutdownResult errorCode { errorNumber := TRI_ERROR_NO_ERROR }
                      s.dependencies,
                  calls := s.calls ++ (List.range' 0 s.dependencies.length).map Call.shutdown
                    ++ s.buffer.map Call.deleteBlock,
                  buffer := [] }) := by
  have hstart : s.cascadeStart = ([] : List Dependency).length := by
    unfold ExecutionBlockImpl.cascadeStart
    rw [if_pos hend]; rfl
  have hbegin : s.internalShutdownBegin.shutdownResult = { errorNumber := TRI_ERROR_NO_ERROR } := by
    unfold ExecutionBlockImpl.internalShutdownBegin
    rw [if_pos hend]
  unfold ExecutionBlockImpl.shutdown
  rw [ExecutionBlockImpl.internalShutdown_all errorCode s [] s.dependencies
    (List.nil_append _).symm hstart hnowait, hbegin]
  simp only [List.nil_append, List.length_nil, Nat.zero_add]

/-! ### The output row over the lifecycle, passthrough and size prediction -/

theorem ExecutionBlockImpl.initializeCursorLoop_frame :
    ∀ (n : Nat) (s : ExecutionBlockImpl σ),
      (s.initializeCursorLoop n).2.outputItemRow = s.outputItemRow ∧
      (s.initializeCursorLoop n).2.buffer = s.buffer ∧
      (s.initializeCursorLoop n).2.executor = s.executor := by
  intro n
  induction n with
  | zero => intro s; exact ⟨rfl, rfl, rfl⟩
  | succ n ih =>
    intro s
    rw [ExecutionBlockImpl.initializeCursorLoop]
    cases hlook : s.dependencies[s.dependencyPos]? with
    | none => exact ⟨rfl, rfl, rfl⟩
    | some d =>
      dsimp only
      by_cases hc : (d.initializeCursor).1.1 = ExecutionState.WAITING ∨
          (d.initializeCursor).1.2.ok = false
      · rw [if_pos hc]
        exact ⟨rfl, rfl, rfl⟩
      · rw [if_neg hc]
        exact ih _

theorem ExecutionBlockImpl.initializeCursor_outputItemRow (recreate : σ → σ) (input : Row)
    (s : ExecutionBlockImpl σ) :
    (s.initializeCursor recreate input).2.outputItemRow = s.outputItemRow := by
  obtain ⟨h1, -, -⟩ := ExecutionBlockImpl.initializeCursorLoop_frame
    ((s.initializeCursorBegin recreate).dependencies.length
      - (s.initializeCursorBegin recreate).dependencyPos) (s.initializeCursorBegin recreate)
  have hb : (s.initializeCursorBegin recreate).outputItemRow = s.outputItemRow := by
    rw [ExecutionBlockImpl.initializeCursorBegin_eq]
  rw [hb] at h1
  unfold ExecutionBlockImpl.initializeCursor
  dsimp only
  split
  · exact h1
  · rw [ExecutionBlockImpl.foldl_returnBlock]
    exact h1

theorem ExecutionBlockImpl.passFetched_post (nrItems : Nat) (s : ExecutionBlockImpl σ)
    (a : (ExecutionState × Option AqlItemBlock) × σ) :
    (ExecutionBlockImpl.passFetched nrItems s a).2
      = { s with executor := a.2,
                 calls := s.calls ++ [Call.fetchBlockForPassthrough nrItems a.1.1 a.1.2] } := by
  unfold ExecutionBlockImpl.passFetched
  split
  · rfl
  · split <;> rfl

theorem ExecutionBlockImpl.passFetched_block (nrItems : Nat) (s : ExecutionBlockImpl σ)
    (a : (ExecutionState × Option AqlItemBlock) × σ) (b : AqlItemBlock)
    (hw : a.1.1 ≠ ExecutionState.WAITING) (hb : a.1.2 = some b) :
    (ExecutionBlockImpl.passFetched nrItems s a).1 = (ExecutionState.HASMORE, some b) := by
  unfold ExecutionBlockImpl.passFetched
  rw [if_neg hw]
  split
  · rename_i h; rw [hb] at h; cases h
  · rename_i blk h; rw [hb] at h; cases h; rfl

/-- The loop of `getSomeWithoutTrace` calls `produceRow` only: it changes the
executor, the counters, the call log and the output row member. -/
theorem ExecutionBlockImpl.produceRows_frame (E : Executor σ) :
    ∀ (fuel : Nat) (st : ExecutionState) (out : OutputAqlItemRow) (s : ExecutionBlockImpl σ)
      (r : CallResult σ (ExecutionState × Option AqlItemBlock)),
      ExecutionBlockImpl.produceRows E fuel st out s = some r →
      ∃ (cs : List Call) (ex : σ) (stats : Nat) (o : Option OutputAqlItemRow),
        r.post = { s with executor := ex, engineStats := stats, calls := s.calls ++ cs,
                          outputItemRow := o } ∧
        ∀ c ∈ cs, ∃ x row, c = Call.produceRow x row := by
  intro fuel
  induction fuel with
  | zero =>
    intro st out s r h
    unfold ExecutionBlockImpl.produceRows at h
    split at h
    · simp only [Option.some.injEq] at h
      subst h
      exact ⟨[], s.executor, s.engineStats, none, by simp, by simp⟩
    · simp at h
  | succ fuel ih =>
    intro st out s r h
    unfold ExecutionBlockImpl.produceRows at h
    split at h
    · simp only [Option.some.injEq] at h
      subst h
      exact ⟨[], s.executor, s.engineStats, none, by simp, by simp⟩
    · dsimp only at h
      split at h
      · simp only [Option.some.injEq] at h
        subst h
        exact ⟨[_], _, _, _, rfl, by simp⟩
      · split at h
        · simp only [Option.some.injEq] at h
          subst h
          exact ⟨[_], _, _, _, rfl, by simp⟩
        · obtain ⟨cs, ex, stats, o, hpost, hall⟩ := ih _ _ _ r h
          refine ⟨Call.produceRow (E.produceRow s.executor).1.1 (E.produceRow s.executor).1.2.2
            :: cs, ex, stats, o, ?_, ?_⟩
          · rw [hpost]
            simp
          · intro c hc
            rcases List.mem_cons.1 hc with hc | hc
            · exact ⟨_, _, hc⟩
            · exact hall c hc

/-- From an instance with no open output row that gets past the entry checks,
when `requestWrappedBlock` hands out no block, `getSome` returns its state with a
null block and leaves the instance as `requestWrappedBlock` left it, up to the
timer and the statistics entry. -/
theorem ExecutionBlockImpl.getSome_null (E : Executor σ) (fuel atMost : Nat)
    (s : ExecutionBlockImpl σ) (hpass : s.passesEntryChecks) (hnone : s.outputItemRow = none)
    (hrq : (ExecutionBlockImpl.requestWrappedBlock E atMost
      s.infos.numberOfOutputRegisters s).1.2 = none) :
    ∃ r g n, ExecutionBlockImpl.getSome E fuel atMost s = some r ∧
      r.ret = Completion.returned
        ((ExecutionBlockImpl.requestWrappedBlock E atMost
          s.infos.numberOfOutputRegisters s).1.1, none) ∧
      r.post = { (ExecutionBlockImpl.requestWrappedBlock E atMost
          s.infos.numberOfOutputRegisters s).2 with getSomeBegin := g, nodeStats := n } := by
  obtain ⟨g, hg⟩ := ExecutionBlockImpl.traceGetSomeBeginInner_frame s atMost
  have hpass' := ExecutionBlockImpl.passesEntryChecks_traceGetSomeBeginInner s atMost hpass
  have h0 : ExecutionBlockImpl.getSomeWithoutTrace E fuel atMost (s.traceGetSomeBeginInner atMost)
      = some { ret := Completion.returned
                ((ExecutionBlockImpl.requestWrappedBlock E atMost
                  s.infos.numberOfOutputRegisters s).1.1, none),
               post := { (ExecutionBlockImpl.requestWrappedBlock E atMost
                  s.infos.numberOfOutputRegisters s).2 with getSomeBegin := g } } := by
    have hrq' := ExecutionBlockImpl.requestWrappedBlock_getSomeBegin E atMost
      s.infos.numberOfOutputRegisters s g
    rw [ExecutionBlockImpl.getSomeWithoutTrace_no_block E fuel atMost _ hpass'
      (by rw [hg]; exact hnone) (by rw [hg]; simp only; rw [hrq']; exact hrq)]
    rw [hg]
    simp only
    rw [hrq']
  unfold ExecutionBlockImpl.getSome
  rw [h0]
  simp only [ExecutionBlockImpl.traceGetSomeEnd]
  obtain ⟨g', n, hgn⟩ := ExecutionBlockImpl.traceGetSomeEndInner_frame
    { (ExecutionBlockImpl.requestWrappedBlock E atMost s.infos.numberOfOutputRegisters s).2
      with getSomeBegin := g } none
    (ExecutionBlockImpl.requestWrappedBlock E atMost s.infos.numberOfOutputRegisters s).1.1
  refine ⟨_, g', n, rfl, rfl, ?_⟩
  simp only at hgn ⊢
  rw [hgn]

theorem ExecutionBlockImpl.preFetched_WAITING (E : Executor σ) (nrItems : Nat)
    (s : ExecutionBlockImpl σ) (a : (ExecutionState × Nat) × σ)
    (hw : a.1.1 = ExecutionState.WAITING) :
    ExecutionBlockImpl.preFetched E nrItems s a
      = ((ExecutionState.WAITING, none),
         { s with executor := a.2,
                  calls := s.calls ++ [Call.preFetchNumberOfRows nrItems
                    ExecutionState.WAITING a.1.2] }) := by
  unfold ExecutionBlockImpl.preFetched
  rw [if_pos hw, hw]

theorem ExecutionBlockImpl.preFetched_zero (E : Executor σ) (nrItems : Nat)
    (s : ExecutionBlockImpl σ) (a : (ExecutionState × Nat) × σ)
    (hw : a.1.1 ≠ ExecutionState.WAITING)
    (h0 : min ((a.1.2 + E.numberOfRowsInFlight a.2) % 2 ^ 64) nrItems = 0) :
    ExecutionBlockImpl.preFetched E nrItems s a
      = ((a.1.1, none),
         { s with executor := a.2,
                  calls := s.calls ++ [Call.preFetchNumberOfRows nrItems a.1.1 a.1.2] }) := by
  unfold ExecutionBlockImpl.preFetched
  rw [if_neg hw, if_pos h0]

theorem ExecutionBlockImpl.preFetched_block (E : Executor σ) (nrItems : Nat)
    (s : ExecutionBlockImpl σ) (a : (ExecutionState × Nat) × σ)
    (hw : a.1.1 ≠ ExecutionState.WAITING)
    (h0 : min ((a.1.2 + E.numberOfRowsInFlight a.2) % 2 ^ 64) nrItems ≠ 0) :
    ExecutionBlockImpl.preFetched E nrItems s a
      = ((ExecutionState.HASMORE,
          some { id := s.itemBlockManager.requested, nrRegs := s.infos.numberOfOutputRegisters,
                 rows := List.replicate (min ((a.1.2 + E.numberOfRowsInFlight a.2) % 2 ^ 64) nrItems)
                   (List.replicate s.infos.numberOfOutputRegisters none) }),
         { s with executor := a.2,
                  itemBlockManager := { s.itemBlockManager with
                    requested := s.itemBlockManager.requested + 1 },
                  calls := s.calls ++ [Call.preFetchNumberOfRows nrItems a.1.1 a.1.2,
                    Call.requestBlock (min ((a.1.2 + E.numberOfRowsInFlight a.2) % 2 ^ 64) nrItems)
                      s.infos.numberOfOutputRegisters] }) := by
  unfold ExecutionBlockImpl.preFetched
  rw [if_neg hw, if_neg h0]
  simp [ExecutionBlockImpl.requestBlock, AqlItemBlockManager.requestBlock]

/-! ### Independence of the profiling level -/

theorem ExecutionBlockImpl.produceRows_withStatistics (E : Executor σ) (p g : Nat)
    (n : Option ExecutionStatsNode) :
    ∀ (fuel : Nat) (st : ExecutionState) (out : OutputAqlItemRow) (s : ExecutionBlockImpl σ),
      ExecutionBlockImpl.produceRows E fuel st out (s.withStatistics p g n)
        = (ExecutionBlockImpl.produceRows E fuel st out s).map
            (fun r => r.withStatistics p g n) := by
  intro fuel
  induction fuel with
  | zero =>
    intro st out s
    unfold ExecutionBlockImpl.produceRows
    split <;> rfl
  | succ fuel ih =>
    intro st out s
    unfold ExecutionBlockImpl.produceRows
    split
    · rfl
    · dsimp only
      have hex : (s.withStatistics p g n).executor = s.executor := rfl
      rw [hex]
      split
      · rfl
      · split
        · rfl
        · exact ih _ _ { s with
            executor := (E.produceRow s.executor).2,
            engineStats := s.engineStats + (E.produceRow s.executor).1.2.1,
            calls := s.calls ++ [Call.produceRow (E.produceRow s.executor).1.1
              (E.produceRow s.executor).1.2.2] }

theorem ExecutionBlockImpl.requestWrappedBlock_withStatistics (E : Executor σ)
    (nrItems nrRegs : Nat) (s : ExecutionBlockImpl σ) (p g : Nat)
    (n : Option ExecutionStatsNode) :
    ExecutionBlockImpl.requestWrappedBlock E nrItems nrRegs (s.withStatistics p g n)
      = ((ExecutionBlockImpl.requestWrappedBlock E nrItems nrRegs s).1,
         (ExecutionBlockImpl.requestWrappedBlock E nrItems nrRegs s).2.withStatistics p g n) := by
  unfold ExecutionBlockImpl.requestWrappedBlock
  cases E.allowsBlockPassthrough with
  | true =>
    simp only [if_true]
    have hex : (s.withStatistics p g n).executor = s.executor := rfl
    rw [hex]
    by_cases hw : (E.fetchBlockForPassthrough nrItems s.executor).1.1 = ExecutionState.WAITING
    · simp only [hw, if_true]
      rfl
    · simp only [hw, if_false]
      cases (E.fetchBlockForPassthrough nrItems s.executor).1.2 <;> rfl
  | false =>
    simp only [Bool.false_eq_true, if_false]
    cases E.inputSizeRestrictsOutputSize with
    | true =>
      simp only [if_true]
      have hex : (s.withStatistics p g n).executor = s.executor := rfl
      rw [hex]
      by_cases hw : (E.preFetchNumberOfRows nrItems s.executor).1.1 = ExecutionState.WAITING
      · simp only [hw, if_true]
        rfl
      · simp only [hw, if_false]
        split <;> rfl
    | false => rfl

theorem ExecutionBlockImpl.getSomeWithoutTrace_withStatistics (E : Executor σ)
    (fuel atMost : Nat) (s : ExecutionBlockImpl σ) (p g : Nat) (n : Option ExecutionStatsNode) :
    ExecutionBlockImpl.getSomeWithoutTrace E fuel atMost (s.withStatistics p g n)
      = (ExecutionBlockImpl.getSomeWithoutTrace E fuel atMost s).map
          (fun r => r.withStatistics p g n) := by
  unfold ExecutionBlockImpl.getSomeWithoutTrace
  have hf : ∀ name, (s.withStatistics p g n).TRI_IF_FAILURE name = s.TRI_IF_FAILURE name :=
    fun _ => rfl
  have hk : (s.withStatistics p g n).killed = s.killed := rfl
  have ho : (s.withStatistics p g n).outputItemRow = s.outputItemRow := rfl
  have hi : (s.withStatistics p g n).infos = s.infos := rfl
  rw [hf, hf, hf, hk, ho, hi]
  split
  · rfl
  · split
    · rfl
    · split
      · rfl
      · split
        · rfl
        · cases hout : s.outputItemRow with
          | some out =>
            simp only
            exact ExecutionBlockImpl.produceRows_withStatistics E p g n fuel _ out s
          | none =>
            simp only
            rw [ExecutionBlockImpl.requestWrappedBlock_withStatistics]
            simp only
            split
            · rfl
            · cases (ExecutionBlockImpl.requestWrappedBlock E atMost
                s.infos.numberOfOutputRegisters s).1.2 with
              | none => rfl
              | some b =>
                simp only
                exact ExecutionBlockImpl.produceRows_withStatistics E p g n fuel _ _ _

theorem ExecutionBlockImpl.traceGetSomeBeginInner_withStatistics (s : ExecutionBlockImpl σ)
    (atMost p g : Nat) (n : Option ExecutionStatsNode) :
    ∃ g', (s.withStatistics p g n).traceGetSomeBeginInner atMost = s.withStatistics p g' n := by
  obtain ⟨b, hb⟩ := ExecutionBlockImpl.traceGetSomeBeginInner_frame (s.withStatistics p g n) atMost
  exact ⟨b, hb.trans rfl⟩

theorem ExecutionBlockImpl.traceGetSomeEnd_withoutStatistics (t : ExecutionBlockImpl σ)
    (state : ExecutionState) (result : Option AqlItemBlock) :
    (t.traceGetSomeEnd state result).ret = Completion.returned (state, result) ∧
      (t.traceGetSomeEnd state result).post.withoutStatistics = t.withoutStatistics := by
  obtain ⟨b, n, h⟩ := ExecutionBlockImpl.traceGetSomeEndInner_frame t result state
  refine ⟨rfl, ?_⟩
  show (t.traceGetSomeEndInner result state).withoutStatistics = _
  rw [h]
  rfl

theorem ExecutionBlockImpl.traceSkipSomeEnd_withoutStatistics (t : ExecutionBlockImpl σ)
    (state : ExecutionState) (skipped : Nat) :
    (t.traceSkipSomeEnd state skipped).ret = Completion.returned (state, skipped) ∧
      (t.traceSkipSomeEnd state skipped).post.withoutStatistics = t.withoutStatistics := by
  obtain ⟨b, n, h⟩ := ExecutionBlockImpl.traceSkipSomeEndInner_frame t skipped state
  refine ⟨rfl, ?_⟩
  show (t.traceSkipSomeEndInner skipped state).withoutStatistics = _
  rw [h]
  rfl

/-- What `getSome` returns and the instance it leaves, the profiling members
apart, do not depend on the profiling level, the timer and the statistics entry
it starts with. -/
theorem ExecutionBlockImpl.getSome_withStatistics (E : Executor σ) (fuel atMost : Nat)
    (s : ExecutionBlockImpl σ) (p g : Nat) (n : Option ExecutionStatsNode) :
    (ExecutionBlockImpl.getSome E fuel atMost (s.withStatistics p g n)).map
        (fun r => (r.ret, r.post.withoutStatistics))
      = (ExecutionBlockImpl.getSomeWithoutTrace E fuel atMost s).map
        (fun r => (r.ret, r.post.withoutStatistics)) := by
  unfold ExecutionBlockImpl.getSome
  obtain ⟨g', hg'⟩ := ExecutionBlockImpl.traceGetSomeBeginInner_withStatistics s atMost p g n
  rw [hg', ExecutionBlockImpl.getSomeWithoutTrace_withStatistics]
  cases ExecutionBlockImpl.getSomeWithoutTrace E fuel atMost s with
  | none => rfl
  | some r0 =>
    obtain ⟨ret, post⟩ := r0
    cases ret with
    | exception e => rfl
    | returned v =>
      simp only [Option.map_some', CallResult.withStatistics, Option.some.injEq, Prod.mk.injEq]
      obtain ⟨h1, h2⟩ := ExecutionBlockImpl.traceGetSomeEnd_withoutStatistics
        (post.withStatistics p g' n) v.1 v.2
      exact ⟨h1, h2⟩

/-- What `skipSome` returns and the instance it leaves, the profiling members
apart, do not depend on the profiling level, the timer and the statistics entry
it starts with. -/
theorem ExecutionBlockImpl.skipSome_withStatistics (E : Executor σ) (fuel atMost : Nat)
    (s : ExecutionBlockImpl σ) (p g : Nat) (n : Option ExecutionStatsNode) :
    (ExecutionBlockImpl.skipSome E fuel atMost (s.withStatistics p g n)).map
        (fun r => (r.ret, r.post.withoutStatistics))
      = (ExecutionBlockImpl.skipSome E fuel atMost (s.withStatistics 0 0 none)).map
        (fun r => (r.ret, r.post.withoutStatistics)) := by
  unfold ExecutionBlockImpl.skipSome
  rw [ExecutionBlockImpl.traceSkipSomeBeginInner_eq, ExecutionBlockImpl.traceSkipSomeBeginInner_eq]
  obtain ⟨g', hg'⟩ := ExecutionBlockImpl.traceGetSomeBeginInner_withStatistics s atMost p g n
  obtain ⟨g0, hg0⟩ := ExecutionBlockImpl.traceGetSomeBeginInner_withStatistics s atMost 0 0 none
  rw [hg', hg0, ExecutionBlockImpl.getSomeWithoutTrace_withStatistics,
    ExecutionBlockImpl.getSomeWithoutTrace_withStatistics]
  cases ExecutionBlockImpl.getSomeWithoutTrace E fuel atMost s with
  | none => rfl
  | some r0 =>
    obtain ⟨ret, post⟩ := r0
    cases ret with
    | exception e => rfl
    | returned v =>
      obtain ⟨state, result⟩ := v
      cases result with
      | none =>
        simp only [Option.map_some', CallResult.withStatistics, Option.some.injEq, Prod.mk.injEq]
        obtain ⟨h1, h2⟩ := ExecutionBlockImpl.traceSkipSomeEnd_withoutStatistics
          (post.withStatistics p g' n) state 0
        obtain ⟨h3, h4⟩ := ExecutionBlockImpl.traceSkipSomeEnd_withoutStatistics
          (post.withStatistics 0 g0 none) state 0
        exact ⟨h1.trans h3.symm, h2.trans h4.symm⟩
      | some block =>
        simp only [Option.map_some', CallResult.withStatistics, Option.some.injEq, Prod.mk.injEq]
        obtain ⟨h1, h2⟩ := ExecutionBlockImpl.traceSkipSomeEnd_withoutStatistics
          ((post.withStatistics p g' n).returnBlock block) state block.size
        obtain ⟨h3, h4⟩ := ExecutionBlockImpl.traceSkipSomeEnd_withoutStatistics
          ((post.withStatistics 0 g0 none).returnBlock block) state block.size
        exact ⟨h1.trans h3.symm, h2.trans h4.symm⟩

/-! ### The direction list of a `ShortestPathNode` -/

theorem ShortestPathNode.entries_snd_ne (c p : String × TRI_edge_direction_e)
    (h : p ∈ ShortestPathNode.entries c) : p.2 ≠ TRI_edge_direction_e.TRI_EDGE_ANY := by
  unfold ShortestPathNode.entries at h
  split at h
  · simp only [List.mem_cons, List.mem_singleton, List.not_mem_nil, or_false] at h
    rcases h with h | h <;> rw [h] <;> simp
  · rename_i hne
    rw [List.mem_singleton] at h
    rw [h]
    exact hne

theorem ShortestPathNode.StandsFor.of_eq {node node' : ShortestPathNode}
    {added : List (String × TRI_edge_direction_e)} (h : node.StandsFor added)
    (he : node'.edgeColls = node.edgeColls) (hd : node'.directions = node.directions) :
    node'.StandsFor added := by
  unfold ShortestPathNode.StandsFor at h ⊢
  rw [he, hd]
  exact h

theorem ShortestPathNode.StandsFor.addEdgeColl {node : ShortestPathNode}
    {added : List (String × TRI_edge_direction_e)} (h : node.StandsFor added) (n : String)
    (dir : TRI_edge_direction_e) : (node.addEdgeColl n dir).StandsFor (added ++ [(n, dir)]) := by
  unfold ShortestPathNode.StandsFor at h ⊢
  unfold ShortestPathNode.addEdgeColl
  split
  · rename_i hd
    simp only [List.flatMap_append, List.map_append, ← h.1, ← h.2]
    simp [List.flatMap, ShortestPathNode.entries, hd]
  · rename_i hd
    simp only [List.flatMap_append, List.map_append, ← h.1, ← h.2]
    simp [List.flatMap, ShortestPathNode.entries, hd]

theorem ShortestPathNode.StandsFor.foldl_addEdgeColl (dir : TRI_edge_direction_e) :
    ∀ (names : List String) (node : ShortestPathNode)
      (added : List (String × TRI_edge_direction_e)), node.StandsFor added →
      (names.foldl (fun node name => node.addEdgeColl name dir) node).StandsFor
        (added ++ names.map (fun name => (name, dir))) := by
  intro names
  induction names with
  | nil =>
    intro node added h
    simpa using h
  | cons name rest ih =>
    intro node added h
    have h' := ih (node.addEdgeColl name dir) (added ++ [(name, dir)]) (h.addEdgeColl name dir)
    simpa using h'

theorem ShortestPathNode.StandsFor.addEdgeCollOnServer (server : PlanningServer)
    {node : ShortestPathNode} {added : List (String × TRI_edge_direction_e)}
    (h : node.StandsFor added) (n : String) (dir : TRI_edge_direction_e) :
    ∃ extra, (ShortestPathNode.addEdgeCollOnServer server node n dir).StandsFor
        (added ++ extra) ∧
      ((server.isRunningInCluster = true → ∀ n, server.isSmart n = false) →
        extra = [(n, dir)]) := by
  unfold ShortestPathNode.addEdgeCollOnServer
  cases hc : server.isRunningInCluster with
  | false =>
    simp only [Bool.false_eq_true, if_false]
    exact ⟨[(n, dir)], h.addEdgeColl n dir, fun _ => rfl⟩
  | true =>
    simp only [if_true]
    cases hs : server.isSmart n with
    | false =>
      simp only [Bool.not_false, if_true]
      exact ⟨[(n, dir)], h.addEdgeColl n dir, fun _ => rfl⟩
    | true =>
      simp only [Bool.not_true, Bool.false_eq_true, if_false]
      refine ⟨_, ShortestPathNode.StandsFor.foldl_addEdgeColl dir _ node added h, ?_⟩
      intro hsmart
      have := hsmart (by trivial) n
      rw [hs] at this
      cases this

theorem ShortestPathNode.StandsFor.foldl_addEdgeCollOnServer (server : PlanningServer)
    (dir : TRI_edge_direction_e) :
    ∀ (eColls : List String) (node : ShortestPathNode)
      (added : List (String × TRI_edge_direction_e)), node.StandsFor added →
      ∃ extra, (eColls.foldl
          (fun node n => ShortestPathNode.addEdgeCollOnServer server node n dir) node).StandsFor
          (added ++ extra) ∧
        ((server.isRunningInCluster = true → ∀ n, server.isSmart n = false) →
          extra = eColls.map (fun n => (n, dir))) := by
  intro eColls
  induction eColls with
  | nil =>
    intro node added h
    exact ⟨[], by simpa using h, fun _ => rfl⟩
  | cons n rest ih =>
    intro node added h
    obtain ⟨extra1, h1, hs1⟩ := h.addEdgeCollOnServer server n dir
    obtain ⟨extra2, h2, hs2⟩ := ih _ _ h1
    refine ⟨extra1 ++ extra2, ?_, ?_⟩
    · rw [← List.append_assoc]
      exact h2
    · intro hsmart
      rw [hs1 hsmart, hs2 hsmart]
      rfl

theorem ShortestPathNode.StandsFor.lists {node : ShortestPathNode}
    {added : List (String × TRI_edge_direction_e)} (h : node.StandsFor added) :
    node.directions.length = node.edgeColls.length ∧
    TRI_edge_direction_e.TRI_EDGE_ANY ∉ node.directions ∧
    node.edgeColls.zip node.directions = added.flatMap ShortestPathNode.entries := by
  unfold ShortestPathNode.StandsFor at h
  refine ⟨by rw [h.1, h.2, List.length_map, List.length_map], ?_, ?_⟩
  · rw [h.2]
    intro hmem
    obtain ⟨p, hp, hp2⟩ := List.mem_map.1 hmem
    obtain ⟨c, -, hc⟩ := List.mem_flatMap.1 hp
    exact ShortestPathNode.entries_snd_ne c p hc hp2
  · rw [h.1, h.2, List.zip_map']
    simp

/-- The loop over a collection list, when it ends without an exception: the
entries added to the two lists stand for collections `extra`; outside the
smart-collection case these are the entries `seenExtra` that the loop adds to the
map `seenCollections`, which keep the names of the map distinct and are the
members of the list with their directions. -/
theorem ShortestPathNode.addCollectionList_spec (server : PlanningServer)
    (baseDirection : TRI_edge_direction_e) :
    ∀ (members : List AstNode) (seen : List (String × TRI_edge_direction_e))
      (node : ShortestPathNode) (added : List (String × TRI_edge_direction_e))
      (node' : ShortestPathNode),
      ShortestPathNode.addCollectionList server baseDirection members seen node
        = Except.ok node' →
      node.StandsFor added →
      ∃ extra seenExtra, node'.StandsFor (added ++ extra) ∧
        ((server.isRunningInCluster = true → ∀ n, server.isSmart n = false) →
          extra = seenExtra) ∧
        ((seen.map Prod.fst).Nodup → ((seen ++ seenExtra).map Prod.fst).Nodup) ∧
        ∀ name dir, (name, dir) ∈ seen ++ seenExtra ↔
          ((name, dir) ∈ seen ∨ ∃ col ∈ members, ∃ c,
            ShortestPathNode.memberDirection baseDirection col = Except.ok (dir, c) ∧
            c.getString = name) := by
  intro members
  induction members with
  | nil =>
    intro seen node added node' h hst
    unfold ShortestPathNode.addCollectionList at h
    cases h
    exact ⟨[], [], by simpa using hst, fun _ => rfl, by simp, by simp⟩
  | cons col rest ih =>
    intro seen node added node' h hst
    unfold ShortestPathNode.addCollectionList at h
    cases hmd : ShortestPathNode.memberDirection baseDirection col with
    | error e =>
      rw [hmd] at h
      cases h
    | ok dc =>
      obtain ⟨dir, c⟩ := dc
      rw [hmd] at h
      simp only at h
      cases hfind : seen.find? (fun it => it.1 == c.getString) with
      | some it =>
        rw [hfind] at h
        simp only at h
        by_cases hd : it.2 ≠ dir
        · rw [if_pos hd] at h
          cases h
        · rw [if_neg hd] at h
          obtain ⟨extra, seenExtra, h1, h2, h3, h4⟩ := ih seen node added node' h hst
          refine ⟨extra, seenExtra, h1, h2, h3, ?_⟩
          intro name d
          rw [h4 name d]
          constructor
          · rintro (hm | ⟨col', hcol', c', hc', hn⟩)
            · exact Or.inl hm
            · exact Or.inr ⟨col', List.mem_cons_of_mem _ hcol', c', hc', hn⟩
          · rintro (hm | ⟨col', hcol', c', hc', hn⟩)
            · exact Or.inl hm
            · rcases List.mem_cons.1 hcol' with heq | hmem
              · subst heq
                rw [hmd] at hc'
                simp only [Except.ok.injEq, Prod.mk.injEq] at hc'
                obtain ⟨hd', hc''⟩ := hc'
                subst hd' hc''
                have hit := List.mem_of_find?_eq_some hfind
                have hp := List.find?_some hfind
                simp only [beq_iff_eq] at hp
                have hd2 : it.2 = dir := not_not.1 hd
                have : it = (name, dir) := by
                  rw [← hn, ← hp, ← hd2]
                rw [← this]
                exact Or.inl hit
              · exact Or.inr ⟨col', hmem, c', hc', hn⟩
      | none =>
        rw [hfind] at h
        simp only at h
        by_cases ht : server.getCollectionTypeCluster c.getString
            ≠ TRI_col_type_e.TRI_COL_TYPE_EDGE
        · rw [if_pos ht] at h
          cases h
        · rw [if_neg ht] at h
          have hst0 : ShortestPathNode.StandsFor
              { node with graphInfo := node.graphInfo ++ [c.getString] } added :=
            hst.of_eq rfl rfl
          obtain ⟨extra1, hst1, hs1⟩ := hst0.addEdgeCollOnServer server c.getString dir
          have hst2 : ShortestPathNode.StandsFor
              (if dir = TRI_edge_direction_e.TRI_EDGE_ANY then
                { ShortestPathNode.addEdgeCollOnServer server
                    { node with graphInfo := node.graphInfo ++ [c.getString] } c.getString dir
                  with graphInfo := (ShortestPathNode.addEdgeCollOnServer server
                    { node with graphInfo := node.graphInfo ++ [c.getString] }
                    c.getString dir).graphInfo ++ [c.getString] }
               else ShortestPathNode.addEdgeCollOnServer server
                    { node with graphInfo := node.graphInfo ++ [c.getString] } c.getString dir)
              (added ++ extra1) := by
            split
            · exact hst1.of_eq rfl rfl
            · exact hst1
          obtain ⟨extra2, seenExtra2, h1, h2, h3, h4⟩ := ih _ _ _ node' h hst2
          have hnotin : c.getString ∉ seen.map Prod.fst := by
            intro hmem
            obtain ⟨p, hp, hpn⟩ := List.mem_map.1 hmem
            have := List.find?_eq_none.1 hfind p hp
            simp only [beq_iff_eq] at this
            exact this hpn
          refine ⟨extra1 ++ extra2, (c.getString, dir) :: seenExtra2, ?_, ?_, ?_, ?_⟩
          · rw [← List.append_assoc]
            exact h1
          · intro hsmart
            rw [hs1 hsmart, h2 hsmart]
            rfl
          · intro hnd
            have : ((seen ++ [(c.getString, dir)]).map Prod.fst).Nodup := by
              rw [List.map_append, List.map_singleton]
              exact List.Nodup.append hnd (List.nodup_singleton _)
                (by simpa using hnotin)
            have h3' := h3 this
            rw [List.append_assoc] at h3'
            exact h3'
          · intro name d
            have h4' := h4 name d
            rw [List.append_assoc] at h4'
            rw [show seen ++ (c.getString, dir) :: seenExtra2
              = seen ++ ([(c.getString, dir)] ++ seenExtra2) from rfl, h4']
            constructor
            · rintro (hm | ⟨col', hcol', c', hc', hn⟩)
              · rcases List.mem_append.1 hm with hm | hm
                · exact Or.inl hm
                · rw [List.mem_singleton] at hm
                  simp only [Prod.mk.injEq] at hm
                  refine Or.inr ⟨col, List.mem_cons_self _ _, c, ?_, hm.1.symm⟩
                  rw [hmd, hm.2]
              · exact Or.inr ⟨col', List.mem_cons_of_mem _ hcol', c', hc', hn⟩
            · rintro (hm | ⟨col', hcol', c', hc', hn⟩)
              · exact Or.inl (List.mem_append_left _ hm)
              · rcases List.mem_cons.1 hcol' with heq | hmem
                · subst heq
                  rw [hmd] at hc'
                  simp only [Except.ok.injEq, Prod.mk.injEq] at hc'
                  obtain ⟨hd', hc''⟩ := hc'
                  subst hd' hc''
                  refine Or.inl (List.mem_append_right _ ?_)
                  rw [hn]
                  exact List.mem_singleton_self _
                · exact Or.inr ⟨col', hmem, c', hc', hn⟩

theorem parseDirection_error (dirNum : Nat) (h : 3 ≤ dirNum) :
    parseDirection dirNum = Except.error TRI_ERROR_QUERY_PARSE := by
  unfold parseDirection
  split
  · omega
  · omega
  · omega
  · rfl

theorem parseDirection_ok (dirNum : Nat) (dir : TRI_edge_direction_e)
    (h : parseDirection dirNum = Except.ok dir) : dirNum < 3 := by
  by_cases h3 : 3 ≤ dirNum
  · rw [parseDirection_error dirNum h3] at h
    cases h
  · omega

/-! ## The claims -/

/-- C1 fails on the code: an executor without passthrough whose input size
restricts its output size, a fetcher that reports one row available with
`HASMORE`, `atMost = 2`. `requestWrappedBlock` asks the pool for a block of
`min(1 + 0, 2) = 1` row, the one `produceRow` call fills it and answers
`HASMORE`, and `getSome` returns the state `HASMORE` with a block of one row,
where the code asserts `numRowsWritten() == atMost` for every executor without
passthrough. -/
theorem getSome_HASMORE_short_block :
    (scriptedExecutor false true).allowsBlockPassthrough = false ∧
    (scriptedExecutor false true).inputSizeRestrictsOutputSize = true ∧
    (ExecutionBlockImpl.getSome (scriptedExecutor false true) 10 2 oneRowAvailable).map
        (fun r => r.ret)
      = some (Completion.returned
          (ExecutionState.HASMORE, some { id := 0, nrRegs := 1, rows := [rowOf 7] })) ∧
    (ExecutionBlockImpl.getSome (scriptedExecutor false true) 10 2 oneRowAvailable).map
        (fun r => r.post.calls)
      = some [Call.preFetchNumberOfRows 2 ExecutionState.HASMORE 1, Call.requestBlock 1 1,
              Call.produceRow ExecutionState.HASMORE (some (rowOf 7))] ∧
    AqlItemBlock.size { id := 0, nrRegs := 1, rows := [rowOf 7] } ≠ 2 := by
  decide

/-- Without passthrough, from an instance whose output row is unset or open on a
block of the size an earlier `getSome(atMost)` gave it, a `getSome` that returns
`HASMORE` returns a block of at most `atMost` rows: exactly `atMost` rows when
the input size does not restrict the output size, and otherwise, on a freshly
opened block, the smaller of `atMost` and the rows the fetcher expects plus the
rows in flight, added in `size_t`. -/
theorem ExecutionBlockImpl.getSome_HASMORE_size (E : Executor σ)
    (hpass : E.allowsBlockPassthrough = false)
    (fuel atMost : Nat) (s : ExecutionBlockImpl σ)
    (hrow : ∀ o, s.outputItemRow = some o → o.wellFormed ∧ o.block.size ≤ atMost ∧
      (E.inputSizeRestrictsOutputSize = false → o.block.size = atMost))
    (r : CallResult σ (ExecutionState × Option AqlItemBlock))
    (h : ExecutionBlockImpl.getSome E fuel atMost s = some r) (b : AqlItemBlock)
    (hret : r.ret = Completion.returned (ExecutionState.HASMORE, some b)) :
    b.size ≤ atMost ∧
    (E.inputSizeRestrictsOutputSize = false → b.size = atMost) ∧
    (E.inputSizeRestrictsOutputSize = true → s.outputItemRow = none →
      b.size = min (((E.preFetchNumberOfRows atMost s.executor).1.2
        + E.numberOfRowsInFlight (E.preFetchNumberOfRows atMost s.executor).2) % 2 ^ 64) atMost) := by
  obtain ⟨r0, g, n, h0, hr0, -⟩ := ExecutionBlockImpl.getSome_eq E fuel atMost s r h
  obtain ⟨g', hg'⟩ := ExecutionBlockImpl.traceGetSomeBeginInner_frame s atMost
  rw [hr0] at hret
  rw [hg'] at h0
  rcases ExecutionBlockImpl.getSomeWithoutTrace_cases E fuel atMost _ r0 h0 with
    ⟨-, -, e, he⟩ | ⟨-, hc⟩
  · rw [he] at hret; simp at hret
  rcases hc with ⟨out, hout, hloop⟩ | ⟨-, -, hr⟩ | ⟨hnone, -, b0, hb0, hloop⟩
  · obtain ⟨hwf, hle, heq⟩ := hrow out hout
    obtain ⟨-, -, -, hsz⟩ := ExecutionBlockImpl.produceRows_block E fuel _ out _ r0 hloop hwf _ b hret
    have hsz' := hsz (by simp)
    refine ⟨by omega, fun hr => by rw [hsz']; exact heq hr, fun _ hn => ?_⟩
    simp only at hout
    rw [hn] at hout; simp at hout
  · rw [hr] at hret; simp at hret
  · obtain ⟨hwf, hblk, -⟩ := ExecutionBlockImpl.createOutputRow_wellFormed E b0
    obtain ⟨-, -, -, hsz⟩ := ExecutionBlockImpl.produceRows_block E fuel _ _ _ r0 hloop hwf _ b hret
    have hsz' := hsz (by simp)
    rw [hblk] at hsz'
    obtain ⟨-, hnp, -⟩ := ExecutionBlockImpl.requestWrappedBlock_block E atMost _ _ b0 hb0
    obtain ⟨h1, -, h3, h4⟩ := hnp hpass
    exact ⟨by omega, fun hr => by rw [hsz']; exact h3 hr, fun hr _ => by rw [hsz']; exact h4 hr⟩

/-- An example: the executor produces three rows with `HASMORE`, the input size
does not restrict the output size; `getSome(2)` returns `HASMORE` with a block
of two rows. -/
theorem ExecutionBlockImpl.getSome_HASMORE_size_example :
    (ExecutionBlockImpl.getSome (scriptedExecutor false false) 5 2 threeRows).map
        (fun r => r.ret)
      = some (Completion.returned
          (ExecutionState.HASMORE, some { id := 0, nrRegs := 1, rows := [rowOf 1, rowOf 2] })) ∧
    AqlItemBlock.size { id := 0, nrRegs := 1, rows := [rowOf 1, rowOf 2] } = 2 :=
  ⟨by decide,
   (ExecutionBlockImpl.getSome_HASMORE_size (scriptedExecutor false false) rfl 5 2 threeRows
      (fun o ho => by simp [threeRows, ExecutionBlockImpl.construct] at ho)
      ((ExecutionBlockImpl.getSome (scriptedExecutor false false) 5 2 threeRows).get rfl)
      (Option.some_get _).symm { id := 0, nrRegs := 1, rows := [rowOf 1, rowOf 2] } rfl).2.1 rfl⟩

/-- C2: from a well-formed instance, the block `getSome` returns is null or has a
row; when a `produceRow` call of the `getSome` call answers `DONE` and the output
block holds no row, neither from an earlier call nor from this one, `getSome`
returns `(DONE, null)`. -/
theorem getSome_block_not_empty (E : Executor σ) (fuel atMost : Nat) (s : ExecutionBlockImpl σ)
    (hwf : s.wellFormed) (r : CallResult σ (ExecutionState × Option AqlItemBlock))
    (h : ExecutionBlockImpl.getSome E fuel atMost s = some r) :
    (∀ x b, r.ret = Completion.returned (x, some b) → 0 < b.size) ∧
    (∀ cs, r.post.calls = s.calls ++ cs →
      (∃ row, Call.produceRow ExecutionState.DONE row ∈ cs) → producedRows cs = [] →
      (∀ o, s.outputItemRow = some o → o.baseIndex = 0) →
      r.ret = Completion.returned (ExecutionState.DONE, none)) := by
  obtain ⟨r0, g, g', n, hret, hpost, hc⟩ := ExecutionBlockImpl.getSome_cases E fuel atMost s r h
  have hcalls : r.post.calls = r0.post.calls := by rw [hpost]
  rw [hret, hcalls]
  rcases hc with ⟨-, hp, e, he⟩ | ⟨-, ⟨out, hout, hloop⟩ | ⟨hnone, -, hr⟩ | ⟨hnone, -, b0, hb0, hloop⟩⟩
  · refine ⟨fun x b hb => by rw [he] at hb; simp at hb, fun cs hcs hmem _ _ => ?_⟩
    rw [hp] at hcs
    simp only [List.self_eq_append_right] at hcs
    rw [hcs] at hmem
    simp at hmem
  · refine ⟨fun x b hb =>
      (ExecutionBlockImpl.produceRows_block E fuel _ out _ r0 hloop (hwf out hout) x b hb).1,
      fun cs hcs hmem hnil hzero => ?_⟩
    obtain ⟨cs', out', ex, stats, -, hwf', -, -, -, htake, hp, -, hlast⟩ :=
      ExecutionBlockImpl.produceRows_last E fuel _ out _ r0 hloop (hwf out hout)
    rw [hp] at hcs
    simp only [List.append_cancel_left_eq] at hcs
    subst hcs
    obtain ⟨-, -, hd⟩ := hlast ExecutionState.DONE (by simp) hmem
    rcases hd with ⟨hx, -, -⟩ | ⟨-, hr, -⟩
    · simp at hx
    · rw [hr, OutputAqlItemRow.stealBlock_none out' hwf']
      rw [htake, hnil, hzero out hout]; simp
  · refine ⟨fun x b hb => by rw [hr] at hb; simp at hb, fun cs hcs hmem _ _ => ?_⟩
    obtain ⟨ex, m, rq, hrq, hnp, -⟩ := ExecutionBlockImpl.requestWrappedBlock_frame E atMost
      s.infos.numberOfOutputRegisters s
    rw [hr, hrq] at hcs
    simp only [List.append_cancel_left_eq] at hcs
    subst hcs
    obtain ⟨row, hrow⟩ := hmem
    have := (hnp _ hrow).1
    simp [Call.produceRowState] at this
  · obtain ⟨hwf0, hblk, hbase⟩ := ExecutionBlockImpl.createOutputRow_wellFormed E b0
    refine ⟨fun x b hb =>
      (ExecutionBlockImpl.produceRows_block E fuel _ _ _ r0 hloop hwf0 x b hb).1,
      fun cs hcs hmem hnil _ => ?_⟩
    obtain ⟨cs', out', ex, stats, -, hwf', -, -, -, htake, hp, -, hlast⟩ :=
      ExecutionBlockImpl.produceRows_last E fuel _ _ _ r0 hloop hwf0
    obtain ⟨ex0, m, rq, hrq, hnp, -⟩ := ExecutionBlockImpl.requestWrappedBlock_frame E atMost
      s.infos.numberOfOutputRegisters s
    rw [hp, hrq] at hcs
    simp only [List.append_assoc, List.append_cancel_left_eq] at hcs
    subst hcs
    rw [producedRows_append, producedRows_eq_nil rq (fun c hc => (hnp c hc).2),
      List.nil_append] at hnil
    have hmem' : ∃ row, Call.produceRow ExecutionState.DONE row ∈ cs' := by
      obtain ⟨row, hrow⟩ := hmem
      rcases List.mem_append.1 hrow with h1 | h1
      · have := (hnp _ h1).1
        simp [Call.produceRowState] at this
      · exact ⟨row, h1⟩
    obtain ⟨-, -, hd⟩ := hlast ExecutionState.DONE (by simp) hmem'
    rcases hd with ⟨hx, -, -⟩ | ⟨-, hr, -⟩
    · simp at hx
    · rw [hr, OutputAqlItemRow.stealBlock_none out' hwf']
      rw [htake, hnil, hbase]; simp

/-- Witness of C2: an executor that answers `DONE` without a row on its first
call; `getSome(2)` requests a block, produces nothing and returns `(DONE, null)`. -/
theorem getSome_block_not_empty_witness :
    (ExecutionBlockImpl.getSome (scriptedExecutor false false) 5 2
        (ExecutionBlockImpl.construct
          { produce := [], blocks := [], counts := [], inFlight := 0 } oneRegister [] 0)).map
        (fun r => (r.ret, r.post.calls))
      = some (Completion.returned (ExecutionState.DONE, none),
          [Call.requestBlock 2 1, Call.produceRow ExecutionState.DONE none]) ∧
    ((ExecutionBlockImpl.getSome (scriptedExecutor false false) 5 2
        (ExecutionBlockImpl.construct
          { produce := [], blocks := [], counts := [], inFlight := 0 } oneRegister [] 0)).get
        rfl).ret = Completion.returned (ExecutionState.DONE, none) :=
  ⟨by decide,
   (getSome_block_not_empty (scriptedExecutor false false) 5 2
      (ExecutionBlockImpl.construct
          { produce := [], blocks := [], counts := [], inFlight := 0 } oneRegister [] 0)
      (fun o ho => by simp [ExecutionBlockImpl.construct] at ho)
      ((ExecutionBlockImpl.getSome (scriptedExecutor false false) 5 2
        (ExecutionBlockImpl.construct
          { produce := [], blocks := [], counts := [], inFlight := 0 } oneRegister [] 0)).get rfl)
      (Option.some_get _).symm).2
      [Call.requestBlock 2 1, Call.produceRow ExecutionState.DONE none] rfl
      ⟨none, by simp⟩ rfl (fun o ho => by simp [ExecutionBlockImpl.construct] at ho)⟩

/-- C3 fails on the code: with passthrough and a fetcher that answers
`fetchBlockForPassthrough` with `HASMORE` and no block, and without passthrough,
with an input size that restricts the output size and a fetcher that answers
`preFetchNumberOfRows` with `HASMORE` and no row while no row is in flight,
`getSome(3)` returns the state `HASMORE` with a null block, after the one call
on the fetcher: the two exits of `requestWrappedBlock` without a block, and the
exit of `getSomeWithoutTrace` after it, return the state of the fetcher, which
they assert to be `DONE`. -/
theorem getSome_HASMORE_null :
    (ExecutionBlockImpl.getSome (scriptedExecutor true false) 5 3 passthroughNoBlock).map
        (fun r => (r.ret, r.post.calls))
      = some (Completion.returned (ExecutionState.HASMORE, none),
          [Call.fetchBlockForPassthrough 3 ExecutionState.HASMORE none]) ∧
    (ExecutionBlockImpl.getSome (scriptedExecutor false true) 5 3 noRowExpected).map
        (fun r => (r.ret, r.post.calls))
      = some (Completion.returned (ExecutionState.HASMORE, none),
          [Call.preFetchNumberOfRows 3 ExecutionState.HASMORE 0]) := by
  decide

/-- The other exits of `getSome` keep to it: from an instance whose open output
row, if any, is on a block with a row, and with a fetcher that answers neither
`HASMORE` without a block or without an expected row, nor a block without rows,
a `getSome` with `atMost > 0` that returns the state `HASMORE` returns a
block. -/
theorem ExecutionBlockImpl.getSome_HASMORE_has_block (E : Executor σ) (fuel atMost : Nat)
    (hpos : 0 < atMost)
    (s : ExecutionBlockImpl σ)
    (hwf : ∀ o, s.outputItemRow = some o → o.wellFormed ∧ 0 < o.block.size)
    (hfetch : E.allowsBlockPassthrough = true → s.outputItemRow = none →
      ((E.fetchBlockForPassthrough atMost s.executor).1.2 = none →
        (E.fetchBlockForPassthrough atMost s.executor).1.1 ≠ ExecutionState.HASMORE) ∧
      ∀ b, (E.fetchBlockForPassthrough atMost s.executor).1.2 = some b → 0 < b.size)
    (hpre : E.allowsBlockPassthrough = false → E.inputSizeRestrictsOutputSize = true →
      s.outputItemRow = none →
      (E.preFetchNumberOfRows atMost s.executor).1.1 = ExecutionState.HASMORE →
      0 < ((E.preFetchNumberOfRows atMost s.executor).1.2
        + E.numberOfRowsInFlight (E.preFetchNumberOfRows atMost s.executor).2) % 2 ^ 64)
    (r : CallResult σ (ExecutionState × Option AqlItemBlock))
    (h : ExecutionBlockImpl.getSome E fuel atMost s = some r) (result : Option AqlItemBlock)
    (hret : r.ret = Completion.returned (ExecutionState.HASMORE, result)) :
    ∃ b, result = some b := by
  cases result with
  | some b => exact ⟨b, rfl⟩
  | none =>
    exfalso
    obtain ⟨r0, g, g', n, hr0, hpost, hc⟩ := ExecutionBlockImpl.getSome_cases E fuel atMost s r h
    rw [hr0] at hret
    rcases hc with ⟨-, hp, e, he⟩ |
      ⟨-, ⟨out, hout, hloop⟩ | ⟨hnone, hw, hr⟩ | ⟨hnone, -, b0, hb0, hloop⟩⟩
    · rw [he] at hret; simp at hret
    · exact ExecutionBlockImpl.produceRows_HASMORE E fuel out _ r0 hloop (hwf out hout).1
        (hwf out hout).2 hret
    · rw [hr] at hret
      simp only [Completion.returned.injEq, Prod.mk.injEq, and_true] at hret
      have hb : (ExecutionBlockImpl.requestWrappedBlock E atMost
          s.infos.numberOfOutputRegisters s).1.2 = none := by
        rcases hw with hw | hw
        · rw [hret] at hw; simp at hw
        · exact hw
      rcases ExecutionBlockImpl.requestWrappedBlock_none E atMost _ s hb with
        ⟨hp, hst, hf⟩ | ⟨hp, hres, hst, hf⟩
      · rw [hret] at hst
        rcases hf with hf | hf
        · rw [← hst] at hf; simp at hf
        · exact (hfetch hp hnone).1 hf hst.symm
      · rw [hret] at hst
        rcases hf with hf | hf
        · rw [← hst] at hf; simp at hf
        · have := hpre hp hres hnone hst.symm
          omega
    · obtain ⟨hwf0, hblk, -⟩ := ExecutionBlockImpl.createOutputRow_wellFormed E b0
      refine ExecutionBlockImpl.produceRows_HASMORE E fuel _ _ r0 hloop hwf0 ?_ hret
      rw [hblk]
      obtain ⟨-, hnp, hpt⟩ := ExecutionBlockImpl.requestWrappedBlock_block E atMost _ _ b0 hb0
      cases hp : E.allowsBlockPassthrough with
      | true => exact (hfetch hp hnone).2 b0 (hpt hp)
      | false => exact (hnp hp).2.1 hpos

/-- An example: with passthrough the fetcher hands out a block of two rows and
the executor writes both; `getSome(1000)` returns `HASMORE` with that block. -/
theorem ExecutionBlockImpl.getSome_HASMORE_has_block_example :
    (ExecutionBlockImpl.getSome (scriptedExecutor true false) 5 1000 passthroughTwoRows).map
        (fun r => r.ret)
      = some (Completion.returned
          (ExecutionState.HASMORE, some { id := 7, nrRegs := 1, rows := [rowOf 1, rowOf 2] })) ∧
    ∃ b, some ({ id := 7, nrRegs := 1, rows := [rowOf 1, rowOf 2] } : AqlItemBlock) = some b :=
  ⟨by decide,
   ExecutionBlockImpl.getSome_HASMORE_has_block (scriptedExecutor true false) 5 1000 (by decide)
      passthroughTwoRows
      (fun o ho => by simp [passthroughTwoRows, ExecutionBlockImpl.construct] at ho)
      (fun _ _ => ⟨by decide, fun b hb => by
        simp only [scriptedExecutor, passthroughTwoRows, ExecutionBlockImpl.construct,
          Option.some.injEq] at hb
        subst hb
        decide⟩)
      (fun hp => by simp [scriptedExecutor] at hp)
      ((ExecutionBlockImpl.getSome (scriptedExecutor true false) 5 1000 passthroughTwoRows).get rfl)
      (Option.some_get _).symm _ rfl⟩

/-- C6: from an instance with no open output row that gets past the entry checks,
when `requestWrappedBlock` hands out no block, `getSome` returns, for every bound
on the loop, the state `requestWrappedBlock` returned with a null block; the
output row stays unset, and the one call made is the call on the fetcher, not a
`produceRow` call: executor and counters are as `requestWrappedBlock` left them. -/
theorem getSome_no_block (E : Executor σ) (fuel atMost : Nat) (s : ExecutionBlockImpl σ)
    (hpass : s.passesEntryChecks) (hnone : s.outputItemRow = none)
    (hrq : (ExecutionBlockImpl.requestWrappedBlock E atMost
      s.infos.numberOfOutputRegisters s).1.2 = none) :
    ∃ r, ExecutionBlockImpl.getSome E fuel atMost s = some r ∧
      r.ret = Completion.returned
        ((ExecutionBlockImpl.requestWrappedBlock E atMost
          s.infos.numberOfOutputRegisters s).1.1, none) ∧
      r.post.outputItemRow = none ∧
      r.post.executor = (ExecutionBlockImpl.requestWrappedBlock E atMost
          s.infos.numberOfOutputRegisters s).2.executor ∧
      r.post.engineStats = s.engineStats ∧
      r.post.itemBlockManager = s.itemBlockManager ∧
      ∃ c, r.post.calls = s.calls ++ [c] ∧ c.produceRowState = none := by
  obtain ⟨g, hg⟩ := ExecutionBlockImpl.traceGetSomeBeginInner_frame s atMost
  have hpass' := ExecutionBlockImpl.passesEntryChecks_traceGetSomeBeginInner s atMost hpass
  have h0 : ExecutionBlockImpl.getSomeWithoutTrace E fuel atMost (s.traceGetSomeBeginInner atMost)
      = some { ret := Completion.returned
                ((ExecutionBlockImpl.requestWrappedBlock E atMost
                  s.infos.numberOfOutputRegisters s).1.1, none),
               post := { (ExecutionBlockImpl.requestWrappedBlock E atMost
                  s.infos.numberOfOutputRegisters s).2 with getSomeBegin := g } } := by
    have hrq' := ExecutionBlockImpl.requestWrappedBlock_getSomeBegin E atMost
      s.infos.numberOfOutputRegisters s g
    rw [ExecutionBlockImpl.getSomeWithoutTrace_no_block E fuel atMost _ hpass'
      (by rw [hg]; exact hnone) (by rw [hg]; simp only; rw [hrq']; exact hrq)]
    rw [hg]
    simp only
    rw [hrq']
  obtain ⟨ex, c, hframe, hc, -⟩ := ExecutionBlockImpl.requestWrappedBlock_none_frame E atMost
    s.infos.numberOfOutputRegisters s hrq
  unfold ExecutionBlockImpl.getSome
  rw [h0]
  simp only [ExecutionBlockImpl.traceGetSomeEnd]
  refine ⟨_, rfl, rfl, ?_⟩
  obtain ⟨g', n, hgn⟩ := ExecutionBlockImpl.traceGetSomeEndInner_frame
    { (ExecutionBlockImpl.requestWrappedBlock E atMost s.infos.numberOfOutputRegisters s).2
      with getSomeBegin := g } none
    (ExecutionBlockImpl.requestWrappedBlock E atMost s.infos.numberOfOutputRegisters s).1.1
  simp only at hgn ⊢
  rw [hgn, hframe]
  exact ⟨hnone, rfl, rfl, rfl, c, rfl, hc⟩

/-- Witness of C6: with passthrough and a fetcher that answers `WAITING`,
`getSome(3)` returns `(WAITING, null)` and leaves the output row unset. -/
theorem getSome_no_block_witness :
    ∃ r, ExecutionBlockImpl.getSome (scriptedExecutor true false) 0 3 passthroughWaiting = some r ∧
      r.ret = Completion.returned (ExecutionState.WAITING, none) ∧
      r.post.outputItemRow = none ∧
      ∃ c, r.post.calls = [c] ∧ c.produceRowState = none := by
  obtain ⟨r, h1, h2, h3, -, -, -, h4⟩ :=
    getSome_no_block (scriptedExecutor true false) 0 3 passthroughWaiting ⟨rfl, rfl, rfl, rfl⟩
      rfl rfl
  exact ⟨r, h1, h2, h3, h4⟩

/-- C7: from an instance with an open, well-formed output row, when a `produceRow`
call of the `getSome` call is answered `WAITING`: `getSome` returns
`(WAITING, null)`; the calls of the `getSome` call are `produceRow` calls and the
one answered `WAITING` is the last; the output row stays open on the same block
(same identity, same size) with the rows written before and the rows produced in
this call; and the next `getSome` call asks the pool and the fetcher for nothing,
its calls are `produceRow` calls, and a block it returns is that same block with
the rows written so far followed by the rows it produced. -/
theorem getSome_produceRow_WAITING (E : Executor σ) (fuel atMost : Nat)
    (s : ExecutionBlockImpl σ) (out : OutputAqlItemRow) (hout : s.outputItemRow = some out)
    (hwf : out.wellFormed) (r : CallResult σ (ExecutionState × Option AqlItemBlock))
    (h : ExecutionBlockImpl.getSome E fuel atMost s = some r) (cs : List Call)
    (hcs : r.post.calls = s.calls ++ cs)
    (hmem : ∃ row, Call.produceRow ExecutionState.WAITING row ∈ cs) :
    r.ret = Completion.returned (ExecutionState.WAITING, none) ∧
    (∀ c ∈ cs, ∃ x row, c = Call.produceRow x row) ∧
    (∃ row, cs.getLast? = some (Call.produceRow ExecutionState.WAITING row)) ∧
    r.post.itemBlockManager = s.itemBlockManager ∧
    ∃ out', r.post.outputItemRow = some out' ∧ out'.wellFormed ∧
      out'.block.id = out.block.id ∧ out'.block.size = out.block.size ∧
      out'.writtenRows = out.writtenRows ++ producedRows cs ∧
      ∀ fuel' atMost' r', ExecutionBlockImpl.getSome E fuel' atMost' r.post = some r' →
        r'.post.itemBlockManager = r.post.itemBlockManager ∧
        ∃ cs', r'.post.calls = r.post.calls ++ cs' ∧
          (∀ c ∈ cs', ∃ x row, c = Call.produceRow x row) ∧
          ∀ x b, r'.ret = Completion.returned (x, some b) →
            b.id = out.block.id ∧
            b.rows = out.writtenRows ++ producedRows cs ++ producedRows cs' := by
  have hswf : s.wellFormed := by
    intro o ho
    rw [hout] at ho
    simp only [Option.some.injEq] at ho
    subst ho
    exact hwf
  obtain ⟨rq, ps, out', hcalls, -, hps, hopen, hwf', hrows, -, hlast⟩ :=
    ExecutionBlockImpl.getSome_run E fuel atMost s hswf r h
  obtain ⟨hrq, hpool, hid, hsize⟩ := hopen out hout
  subst hrq
  rw [hcalls] at hcs
  simp only [List.nil_append, List.append_cancel_left_eq] at hcs
  subst hcs
  obtain ⟨hl, hd⟩ := hlast ExecutionState.WAITING (by simp) hmem
  rcases hd with ⟨-, hret, hrow⟩ | ⟨hx, -, -⟩
  swap
  · simp at hx
  have hw : s.writtenRows = out.writtenRows := by simp [ExecutionBlockImpl.writtenRows, hout]
  rw [hw] at hrows
  refine ⟨hret, hps, hl, hpool, out', hrow, hwf', hid, hsize, hrows, ?_⟩
  intro fuel' atMost' r' h'
  have hpwf : r.post.wellFormed := by
    intro o ho
    rw [hrow] at ho
    simp only [Option.some.injEq] at ho
    subst ho
    exact hwf'
  obtain ⟨rq', ps', out'', hcalls', -, hps', hopen', hwf'', hrows', hblk', -⟩ :=
    ExecutionBlockImpl.getSome_run E fuel' atMost' r.post hpwf r' h'
  obtain ⟨hrq', hpool', hid', -⟩ := hopen' out' hrow
  subst hrq'
  refine ⟨hpool', ps', by simpa using hcalls', hps', ?_⟩
  intro x b hb
  obtain ⟨h1, h2, -⟩ := hblk' x b hb
  refine ⟨h1.trans (hid'.trans hid), ?_⟩
  rw [h2, hrows']
  simp [ExecutionBlockImpl.writtenRows, hrow, hrows]

/-- Witness of C7: the output row is open on block 0 with the row 1 written, the
executor answers `WAITING`; `getSome(2)` returns `(WAITING, null)`, and the
`getSome(2)` after it returns block 0 with the rows 1 and 2. -/
theorem getSome_produceRow_WAITING_witness :
    ((ExecutionBlockImpl.getSome (scriptedExecutor false false) 5 2 openRowWaiting).get rfl).ret
      = Completion.returned (ExecutionState.WAITING, none) ∧
    (ExecutionBlockImpl.getSome (scriptedExecutor false false) 5 2
        ((ExecutionBlockImpl.getSome (scriptedExecutor false false) 5 2 openRowWaiting).get
          rfl).post).map (fun r => r.ret)
      = some (Completion.returned
          (ExecutionState.DONE, some { id := 0, nrRegs := 1, rows := [rowOf 1, rowOf 2] })) :=
  ⟨(getSome_produceRow_WAITING (scriptedExecutor false false) 5 2 openRowWaiting _ rfl
      ⟨rfl, by decide⟩
      ((ExecutionBlockImpl.getSome (scriptedExecutor false false) 5 2 openRowWaiting).get rfl)
      (Option.some_get _).symm [Call.produceRow ExecutionState.WAITING none] rfl
      ⟨none, by simp⟩).1, by decide⟩

/-- C8: from a well-formed instance, when a `produceRow` call of the `getSome`
call is answered `DONE`: `getSome` returns the state `DONE`, the output row is
unset afterwards, and the rows of the returned block (none for a null block) are
the rows written before the call followed by the rows the `produceRow` calls of
this call produced, one row per call that produced and none for the others;
their number does not depend on `atMost`. -/
theorem getSome_produceRow_DONE (E : Executor σ) (fuel atMost : Nat)
    (s : ExecutionBlockImpl σ) (hwf : s.wellFormed)
    (r : CallResult σ (ExecutionState × Option AqlItemBlock))
    (h : ExecutionBlockImpl.getSome E fuel atMost s = some r) (cs : List Call)
    (hcs : r.post.calls = s.calls ++ cs)
    (hmem : ∃ row, Call.produceRow ExecutionState.DONE row ∈ cs) :
    ∃ result, r.ret = Completion.returned (ExecutionState.DONE, result) ∧
      r.post.outputItemRow = none ∧
      (match result with
        | some b => b.rows
        | none => []) = s.writtenRows ++ producedRows cs ∧
      (match result with
        | some b => b.size
        | none => 0) = s.writtenRows.length + (cs.filter (fun c => c.producedRow.isSome)).length := by
  obtain ⟨rq, ps, out', hcalls, hrq, hps, -, hwf', hrows, hblk, hlast⟩ :=
    ExecutionBlockImpl.getSome_run E fuel atMost s hwf r h
  rw [hcalls] at hcs
  simp only [List.append_cancel_left_eq] at hcs
  subst hcs
  have hmem' : ∃ row, Call.produceRow ExecutionState.DONE row ∈ ps := by
    obtain ⟨row, hrow⟩ := hmem
    rcases List.mem_append.1 hrow with h1 | h1
    · have := (hrq _ h1).1
      simp [Call.produceRowState] at this
    · exact ⟨row, h1⟩
  obtain ⟨-, hd⟩ := hlast ExecutionState.DONE (by simp) hmem'
  rcases hd with ⟨hx, -, -⟩ | ⟨-, hret, hrow⟩
  · simp at hx
  have hprod : producedRows (rq ++ ps) = producedRows ps := by
    rw [producedRows_append, producedRows_eq_nil rq (fun c hc => (hrq c hc).2), List.nil_append]
  have hrowsEq : (match out'.stealBlock with
      | some b => b.rows
      | none => []) = s.writtenRows ++ producedRows (rq ++ ps) := by
    rw [hprod, ← hrows]
    cases hsb : out'.stealBlock with
    | some b => exact (hblk _ b (by rw [hret, hsb])).2.1
    | none =>
      simp only [OutputAqlItemRow.stealBlock] at hsb
      split at hsb
      · rename_i h0
        simp [OutputAqlItemRow.writtenRows, h0]
      · simp at hsb
  refine ⟨out'.stealBlock, hret, hrow, hrowsEq, ?_⟩
  have hlen := congrArg List.length hrowsEq
  rw [List.length_append] at hlen
  have hcount : (producedRows (rq ++ ps)).length
      = ((rq ++ ps).filter (fun c => c.producedRow.isSome)).length := by
    simp only [producedRows]
    generalize rq ++ ps = l
    induction l with
    | nil => rfl
    | cons c l ih =>
      cases hc : c.producedRow with
      | none => simp [List.filterMap_cons, List.filter_cons, hc, ih]
      | some row => simp [List.filterMap_cons, List.filter_cons, hc, ih]
  rw [← hcount, ← hlen]
  cases out'.stealBlock <;> rfl

/-- Witness of C8: the executor produces one row, skips one and answers `DONE`;
`getSome(3)` returns `DONE` with a block of that one row, fewer than `atMost`. -/
theorem getSome_produceRow_DONE_witness :
    (ExecutionBlockImpl.getSome (scriptedExecutor false false) 5 3 oneRowThenDone).map
        (fun r => (r.ret, r.post.outputItemRow))
      = some (Completion.returned
          (ExecutionState.DONE, some { id := 0, nrRegs := 1, rows := [rowOf 1] }), none) ∧
    ∃ result,
      ((ExecutionBlockImpl.getSome (scriptedExecutor false false) 5 3 oneRowThenDone).get rfl).ret
        = Completion.returned (ExecutionState.DONE, result) ∧
      (match result with
        | some b => b.size
        | none => 0) = 1 := by
  refine ⟨by decide, ?_⟩
  obtain ⟨result, h1, -, -, h4⟩ :=
    getSome_produceRow_DONE (scriptedExecutor false false) 5 3 oneRowThenDone
      (fun o ho => by simp [oneRowThenDone, ExecutionBlockImpl.construct] at ho)
      ((ExecutionBlockImpl.getSome (scriptedExecutor false false) 5 3 oneRowThenDone).get rfl)
      (Option.some_get _).symm
      [Call.requestBlock 3 1, Call.produceRow ExecutionState.HASMORE (some (rowOf 1)),
        Call.produceRow ExecutionState.HASMORE none, Call.produceRow ExecutionState.DONE none]
      rfl ⟨none, by simp⟩
  exact ⟨result, h1, h4⟩

/-- C9: when the query is flagged as killed (and no failure point is switched
on), `getSome` and `skipSome` throw `TRI_ERROR_QUERY_KILLED`, for every bound on
the loop; the instance afterwards is the instance before but for the timer of the
call: no call was made on the pool, the fetcher or the executor, and output row,
buffer and dependency cursor are as before. -/
theorem getSome_skipSome_killed (E : Executor σ) (fuel atMost : Nat) (s : ExecutionBlockImpl σ)
    (h1 : s.TRI_IF_FAILURE "ExecutionBlock::getOrSkipSome1" = false)
    (h2 : s.TRI_IF_FAILURE "ExecutionBlock::getOrSkipSome2" = false)
    (h3 : s.TRI_IF_FAILURE "ExecutionBlock::getOrSkipSome3" = false)
    (hkilled : s.killed = true) :
    (∃ g, ExecutionBlockImpl.getSome E fuel atMost s
        = some { ret := Completion.exception TRI_ERROR_QUERY_KILLED,
                 post := { s with getSomeBegin := g } }) ∧
    (∃ g, ExecutionBlockImpl.skipSome E fuel atMost s
        = some { ret := Completion.exception TRI_ERROR_QUERY_KILLED,
                 post := { s with getSomeBegin := g } }) := by
  obtain ⟨g, hg⟩ := ExecutionBlockImpl.traceGetSomeBeginInner_frame s atMost
  have h0 : ExecutionBlockImpl.getSomeWithoutTrace E fuel atMost { s with getSomeBegin := g }
      = some { ret := Completion.exception TRI_ERROR_QUERY_KILLED,
               post := { s with getSomeBegin := g } } :=
    ExecutionBlockImpl.getSomeWithoutTrace_killed E fuel atMost { s with getSomeBegin := g }
      h1 h2 h3 hkilled
  refine ⟨⟨g, ?_⟩, ⟨g, ?_⟩⟩
  · unfold ExecutionBlockImpl.getSome
    rw [hg, h0]
  · unfold ExecutionBlockImpl.skipSome
    rw [ExecutionBlockImpl.traceSkipSomeBeginInner_eq, hg, h0]

/-- Witness of C9: the killed instance throws from `getSome(2)` and from
`skipSome(2)` and is left as it was. -/
theorem getSome_skipSome_killed_witness :
    (∃ g, ExecutionBlockImpl.getSome (scriptedExecutor false false) 5 2 threeRowsKilled
        = some { ret := Completion.exception TRI_ERROR_QUERY_KILLED,
                 post := { threeRowsKilled with getSomeBegin := g } }) ∧
    (∃ g, ExecutionBlockImpl.skipSome (scriptedExecutor false false) 5 2 threeRowsKilled
        = some { ret := Completion.exception TRI_ERROR_QUERY_KILLED,
                 post := { threeRowsKilled with getSomeBegin := g } }) :=
  getSome_skipSome_killed (scriptedExecutor false false) 5 2 threeRowsKilled rfl rfl rfl rfl

theorem ExecutionBlockImpl.traceSkipSomeEndInner_returnBlock (s : ExecutionBlockImpl σ)
    (b : AqlItemBlock) (state : ExecutionState) :
    (s.returnBlock b).traceSkipSomeEndInner b.size state
      = (s.traceGetSomeEndInner (some b) state).returnBlock b := by
  unfold ExecutionBlockImpl.traceSkipSomeEndInner ExecutionBlockImpl.traceGetSomeEndInner
  by_cases hp : PROFILE_LEVEL_BLOCKS ≤ s.profile
  · have hp' : PROFILE_LEVEL_BLOCKS ≤ (s.returnBlock b).profile := hp
    by_cases hs : state ≠ ExecutionState.WAITING
    · simp only [hp, hp', hs, if_true, ne_eq, not_false_eq_true]
      unfold ExecutionBlockImpl.addNodeStats ExecutionBlockImpl.returnBlock
      cases s.nodeStats <;> rfl
    · simp only [hp, hp', hs, if_true, if_false]
      unfold ExecutionBlockImpl.addNodeStats ExecutionBlockImpl.returnBlock
      cases s.nodeStats <;> rfl
  · have hp' : ¬ PROFILE_LEVEL_BLOCKS ≤ (s.returnBlock b).profile := hp
    simp only [hp, hp', if_false]

theorem ExecutionBlockImpl.traceSkipSomeEndInner_zero (s : ExecutionBlockImpl σ)
    (state : ExecutionState) :
    s.traceSkipSomeEndInner 0 state = s.traceGetSomeEndInner none state := rfl

/-- C10: `skipSome` is `getSome` with the block counted and given to the pool.
The two throw the same exceptions and return the same state; the count is 0 for a
null block and the number of rows of the block otherwise; the instance after
`skipSome` is the instance after `getSome` (output row, fetcher, executor and all
else) but for the block, which is put on the list of blocks returned to the pool
by a `returnBlock` call that is the last call made. Without a block nothing is
returned to the pool. -/
theorem skipSome_eq_getSome (E : Executor σ) (fuel atMost : Nat) (s : ExecutionBlockImpl σ) :
    ExecutionBlockImpl.skipSome E fuel atMost s =
      (ExecutionBlockImpl.getSome E fuel atMost s).map (fun rg =>
        match rg.ret with
        | Completion.exception errorNumber =>
          { ret := Completion.exception errorNumber, post := rg.post }
        | Completion.returned (state, none) =>
          { ret := Completion.returned (state, 0), post := rg.post }
        | Completion.returned (state, some block) =>
          { ret := Completion.returned (state, block.size),
            post := { rg.post with
              itemBlockManager :=
                { requested := rg.post.itemBlockManager.requested,
                  returned := block :: rg.post.itemBlockManager.returned },
              calls := rg.post.calls ++ [Call.returnBlock block] } }) := by
  unfold ExecutionBlockImpl.skipSome ExecutionBlockImpl.getSome
  rw [ExecutionBlockImpl.traceSkipSomeBeginInner_eq]
  cases ExecutionBlockImpl.getSomeWithoutTrace E fuel atMost (s.traceGetSomeBeginInner atMost) with
  | none => rfl
  | some res =>
    cases hret : res.ret with
    | exception e => simp only [hret, Option.map_some']
    | returned v =>
      obtain ⟨state, result⟩ := v
      cases result with
      | none =>
        simp only [hret, Option.map_some', ExecutionBlockImpl.traceSkipSomeEnd,
          ExecutionBlockImpl.traceGetSomeEnd, ExecutionBlockImpl.traceSkipSomeEndInner_zero]
      | some b =>
        simp only [hret, Option.map_some', ExecutionBlockImpl.traceSkipSomeEnd,
          ExecutionBlockImpl.traceGetSomeEnd, ExecutionBlockImpl.traceSkipSomeEndInner_returnBlock]
        rfl

/-- Witness of C10: on three rows to produce, `getSome(2)` returns `HASMORE` with
a block of two rows, the pool has no block returned and the last call is a
`produceRow`; `skipSome(2)` from the same instance returns `HASMORE` and 2, the
block is on the list of blocks returned to the pool, and the last call is the
`returnBlock` of that block. -/
theorem skipSome_eq_getSome_witness :
    (ExecutionBlockImpl.getSome (scriptedExecutor false false) 5 2 threeRows).map
        (fun rg => (rg.ret, rg.post.itemBlockManager.returned, rg.post.calls.getLast?))
      = some (Completion.returned (ExecutionState.HASMORE,
          some { id := 0, nrRegs := 1, rows := [rowOf 1, rowOf 2] }), [],
          some (Call.produceRow ExecutionState.HASMORE (some (rowOf 2)))) ∧
    (ExecutionBlockImpl.skipSome (scriptedExecutor false false) 5 2 threeRows).map
        (fun r => (r.ret, r.post.itemBlockManager.returned, r.post.calls.getLast?))
      = some (Completion.returned (ExecutionState.HASMORE, 2),
          [{ id := 0, nrRegs := 1, rows := [rowOf 1, rowOf 2] }],
          some (Call.returnBlock { id := 0, nrRegs := 1, rows := [rowOf 1, rowOf 2] })) ∧
    ExecutionBlockImpl.skipSome (scriptedExecutor false false) 5 2 threeRows =
      (ExecutionBlockImpl.getSome (scriptedExecutor false false) 5 2 threeRows).map (fun rg =>
        match rg.ret with
        | Completion.exception errorNumber =>
          { ret := Completion.exception errorNumber, post := rg.post }
        | Completion.returned (state, none) =>
          { ret := Completion.returned (state, 0), post := rg.post }
        | Completion.returned (state, some block) =>
          { ret := Completion.returned (state, block.size),
            post := { rg.post with
              itemBlockManager :=
                { requested := rg.post.itemBlockManager.requested,
                  returned := block :: rg.post.itemBlockManager.returned },
              calls := rg.post.calls ++ [Call.returnBlock block] } }) :=
  ⟨by decide!, by decide!, skipSome_eq_getSome (scriptedExecutor false false) 5 2 threeRows⟩

/-- C4: for an executor and fetcher that keep to their contract over a finite
input (`μ` bounds the calls the input allows; with passthrough `ω` counts the
rows of the block handed on that the executor has still to write, none in a
fresh instance, and the contract binds the fetcher only where the engine asks
it, at `ω = 0`), from a fresh instance and for every `atMost > 0`: the drain by
repeated `getSome(atMost)` ends as soon as it is given more calls and more fuel
than the input allows, and the rows of the blocks it returns, in order, are the
un-batched reference output of the executor, which does not depend on
`atMost`. -/
theorem drain_eq_referenceOutput (E : Executor σ) (μ ω : σ → Nat) (hE : E.Coherent μ ω)
    (fuel atMost calls : Nat) (hpos : 0 < atMost) (s : ExecutionBlockImpl σ)
    (hpass : s.passesEntryChecks) (hfresh : s.outputItemRow = none)
    (hω : E.allowsBlockPassthrough = true → ω s.executor = 0)
    (hcalls : μ s.executor < calls) (hfuel : μ s.executor < fuel) :
    ∃ blocks post, ExecutionBlockImpl.drain E fuel atMost calls s = some (blocks, post) ∧
      concatRows blocks = E.referenceOutput (μ s.executor + 1) s.executor := by
  have howes : s.owes E ω := by
    intro hpt
    simp only [hfresh]
    exact hω hpt
  obtain ⟨blocks, post, hdr, hrows⟩ := ExecutionBlockImpl.drain_forward E μ ω hE fuel atMost hpos
    calls s hpass (fun o ho => by rw [hfresh] at ho; simp at ho) howes hcalls hfuel
  refine ⟨blocks, post, hdr, ?_⟩
  rw [hrows]
  simp [ExecutionBlockImpl.writtenRows, hfresh]

/-- Witness of C4, the example of §8: ten input rows of which six pass the
filter, limit 3. Drained with `atMost = 2` the blocks have 2 rows and 1 row, the
second one with `DONE`; their rows are the first three rows that pass, the
reference output; drained with `atMost = 5` the rows are the same. And with
passthrough, on an upstream that makes the fetcher and the executor wait: the
blocks of 2 rows and 1 row that the fetcher hands on come back with the three
rows of the reference output. -/
theorem drain_eq_referenceOutput_witness :
    (ExecutionBlockImpl.drain filterLimitExecutor 11 2 11 filterLimitExample).map
        (fun p => p.1.map AqlItemBlock.size) = some [2, 1] ∧
    filterLimitExecutor.referenceOutput
        (FilterLimit.rowsToRead filterLimitExample.executor + 1) filterLimitExample.executor
      = [rowOf 2, rowOf 3, rowOf 5] ∧
    (∃ blocks post,
      ExecutionBlockImpl.drain filterLimitExecutor 11 2 11 filterLimitExample
        = some (blocks, post) ∧
      concatRows blocks = filterLimitExecutor.referenceOutput
        (FilterLimit.rowsToRead filterLimitExample.executor + 1) filterLimitExample.executor) ∧
    (∃ blocks post,
      ExecutionBlockImpl.drain filterLimitExecutor 11 5 11 filterLimitExample
        = some (blocks, post) ∧
      concatRows blocks = filterLimitExecutor.referenceOutput
        (FilterLimit.rowsToRead filterLimitExample.executor + 1) filterLimitExample.executor) ∧
    waitingSourceExecutor.allowsBlockPassthrough = true ∧
    (ExecutionBlockImpl.drain waitingSourceExecutor 13 2 13 waitingExample).map
        (fun p => p.1.map AqlItemBlock.size) = some [2, 1] ∧
    waitingSourceExecutor.referenceOutput
        (WaitingSource.callsLeft waitingExample.executor + 1) waitingExample.executor
      = [rowOf 1, rowOf 2, rowOf 3] ∧
    (∃ blocks post,
      ExecutionBlockImpl.drain waitingSourceExecutor 13 2 13 waitingExample
        = some (blocks, post) ∧
      concatRows blocks = waitingSourceExecutor.referenceOutput
        (WaitingSource.callsLeft waitingExample.executor + 1) waitingExample.executor) :=
  ⟨by decide!, by decide!,
   drain_eq_referenceOutput filterLimitExecutor FilterLimit.rowsToRead (fun _ => 0)
     filterLimitExecutor_coherent 11 2 11 (by decide) filterLimitExample ⟨rfl, rfl, rfl, rfl⟩ rfl
     (fun _ => rfl) (by decide) (by decide),
   drain_eq_referenceOutput filterLimitExecutor FilterLimit.rowsToRead (fun _ => 0)
     filterLimitExecutor_coherent 11 5 11 (by decide) filterLimitExample ⟨rfl, rfl, rfl, rfl⟩ rfl
     (fun _ => rfl) (by decide) (by decide),
   rfl, by decide!, by decide!,
   drain_eq_referenceOutput waitingSourceExecutor WaitingSource.callsLeft WaitingSource.rowsOwed
     waitingSourceExecutor_coherent 13 2 13 (by decide) waitingExample ⟨rfl, rfl, rfl, rfl⟩ rfl
     (fun _ => by decide) (by decide) (by decide)⟩

/-- C5: for an executor and fetcher whose `WAITING` answers carry no row, and a
run of `k` successive `getSome(atMost)` calls on the upstream with its `WAITING`
answers removed (at most `w` before each real answer) none of whose results is
`WAITING`: on the waiting upstream, re-invoking `getSome(atMost)` after each
`WAITING` result, at most `(fuel + 1) * w` times a call, gives the same `k`
results, states and blocks, and ends in an instance with the same executor, output
row, pool, kill flag, failure points and register layout. -/
theorem getSome_WAITING_transparent (E : Executor σ) (w : Nat)
    (hE : ∀ x, (E.produceRow x).1.1 = ExecutionState.WAITING → (E.produceRow x).1.2.2 = none)
    (fuel atMost retries k : Nat) (hretries : (fuel + 1) * w ≤ retries)
    (s : ExecutionBlockImpl σ) (hwf : s.wellFormed)
    (p' : List (Completion (ExecutionState × Option AqlItemBlock)) × ExecutionBlockImpl σ)
    (h' : ExecutionBlockImpl.results (E.withoutWaiting w) fuel atMost 0 k s = some p')
    (hnw : ∀ c ∈ p'.1, c.isWaiting = false) :
    ∃ p, ExecutionBlockImpl.results E fuel atMost retries k s = some p ∧ p.1 = p'.1 ∧
      p.2.sameCore p'.2 :=
  ExecutionBlockImpl.results_sim E w hE fuel atMost retries hretries k s s p' ⟨rfl, rfl, rfl⟩ hwf
    h' hnw

/-- Witness of C5: a passthrough executor whose fetcher waits once before the
first block and twice before the second, and whose `produceRow` waits before
each row. With the `WAITING` answers removed two calls return the block of the
rows 1 and 2 with `HASMORE` and the block of the row 3 with `DONE`; re-invoked
after each `WAITING` result the two calls return the same. -/
theorem getSome_WAITING_transparent_witness :
    (ExecutionBlockImpl.results (waitingSourceExecutor.withoutWaiting 2) 3 2 0 2
        waitingExample).map Prod.fst
      = some [Completion.returned (ExecutionState.HASMORE,
                some { id := 7, nrRegs := 1, rows := [rowOf 1, rowOf 2] }),
              Completion.returned (ExecutionState.DONE,
                some { id := 8, nrRegs := 1, rows := [rowOf 3] })] ∧
    (ExecutionBlockImpl.results waitingSourceExecutor 3 2 8 2 waitingExample).map Prod.fst
      = (ExecutionBlockImpl.results (waitingSourceExecutor.withoutWaiting 2) 3 2 0 2
          waitingExample).map Prod.fst :=
  ⟨by decide!, by
    have h : (ExecutionBlockImpl.results (waitingSourceExecutor.withoutWaiting 2) 3 2 0 2
        waitingExample).isSome = true := by decide!
    obtain ⟨p, hp, hl, -⟩ := getSome_WAITING_transparent waitingSourceExecutor 2
      waitingSourceExecutor_WAITING 3 2 8 2 (by decide) waitingExample
      (fun o ho => by simp [waitingExample, ExecutionBlockImpl.construct] at ho)
      ((ExecutionBlockImpl.results (waitingSourceExecutor.withoutWaiting 2) 3 2 0 2
        waitingExample).getD ([], waitingExample))
      (Option.eq_some_getD _ _ h) (by decide!)
    rw [hp, Option.eq_some_getD _ ([], waitingExample) h, Option.map_some', Option.map_some', hl]⟩

/-- C11: from every instance whose dependencies all answer `initializeCursor`
with a state other than `WAITING` and an ok `Result`, `initializeCursor` returns
`(DONE, no error)`; afterwards the done flag is false, the upstream state is
`HASMORE`, the position is 0, the collector and the buffer are empty, every block
that was buffered has been returned to the pool, the dependency cursor is at the
end of the list, and `getHasMoreState` reports `HASMORE`. -/
theorem initializeCursor_resets (recreate : σ → σ) (input : Row) (s : ExecutionBlockImpl σ)
    (hpos : s.dependencyPos ≤ s.dependencies.length)
    (hall : ∀ d ∈ s.dependencies, d.acknowledges) :
    (s.initializeCursor recreate input).1
        = (ExecutionState.DONE, { errorNumber := TRI_ERROR_NO_ERROR }) ∧
      (s.initializeCursor recreate input).2.done = false ∧
      (s.initializeCursor recreate input).2.upstreamState = ExecutionState.HASMORE ∧
      (s.initializeCursor recreate input).2.pos = 0 ∧
      (s.initializeCursor recreate input).2.collector = [] ∧
      (s.initializeCursor recreate input).2.buffer = [] ∧
      (s.initializeCursor recreate input).2.itemBlockManager.returned
        = s.buffer.reverse ++ s.itemBlockManager.returned ∧
      (∃ cs, (s.initializeCursor recreate input).2.calls
        = s.calls ++ cs ++ s.buffer.map Call.returnBlock) ∧
      (s.initializeCursor recreate input).2.dependencyPos
        = (s.initializeCursor recreate input).2.dependencies.length ∧
      (s.initializeCursor recreate input).2.getHasMoreState.1 = ExecutionState.HASMORE := by
  obtain ⟨hd, hs, hlen⟩ := ExecutionBlockImpl.cascade_whole s hpos
  rw [ExecutionBlockImpl.initializeCursor_all recreate input s _ _ hd hs
    (fun d hd => hall d (List.mem_of_mem_drop hd))]
  refine ⟨rfl, rfl, rfl, rfl, rfl, rfl, rfl, ⟨_, rfl⟩, ?_, ?_⟩
  · simp only [List.length_append, List.length_map]
  · simp [ExecutionBlockImpl.getHasMoreState]

/-- C13: when the dependency `d_k` is the first of the cascade that answers
`initializeCursor` with `WAITING` or with a failed `Result`, `initializeCursor`
returns the pair that `d_k` answered, has called the dependencies from the start
of the cascade up to `d_k` and none after it, leaves the cursor at `k`, and leaves
the done flag, the upstream state, the position, the collector, the buffer and the
pool as they were. -/
theorem initializeCursor_propagates (recreate : σ → σ) (input : Row)
    (s : ExecutionBlockImpl σ) (before : List Dependency) (d : Dependency)
    (after : List Dependency) (hdeps : s.dependencies = before ++ d :: after)
    (hstart : s.cascadeStart ≤ before.length)
    (hbefore : ∀ x ∈ before.drop s.cascadeStart, x.acknowledges) (hbad : ¬ d.acknowledges) :
    (s.initializeCursor recreate input).1 = (d.initializeCursor).1 ∧
      (s.initializeCursor recreate input).2.calls
        = s.calls ++ (List.range' s.cascadeStart (before.length + 1 - s.cascadeStart)).map
            Call.initializeCursor ∧
      (∀ j, before.length < j →
        Call.initializeCursor j ∉ (s.initializeCursor recreate input).2.calls.drop s.calls.length) ∧
      (s.initializeCursor recreate input).2.dependencyPos = before.length ∧
      (s.initializeCursor recreate input).2.done = s.done ∧
      (s.initializeCursor recreate input).2.upstreamState = s.upstreamState ∧
      (s.initializeCursor recreate input).2.pos = s.pos ∧
      (s.initializeCursor recreate input).2.collector = s.collector ∧
      (s.initializeCursor recreate input).2.buffer = s.buffer ∧
      (s.initializeCursor recreate input).2.itemBlockManager = s.itemBlockManager := by
  obtain ⟨hd, hs, hlen⟩ := ExecutionBlockImpl.cascade_split s before d after hdeps hstart
  rw [ExecutionBlockImpl.initializeCursor_stop recreate input s _ _ d after hd hs hbefore hbad]
  have hcount : (List.drop s.cascadeStart before).length + 1
      = before.length + 1 - s.cascadeStart := by
    rw [List.length_drop]; omega
  refine ⟨rfl, ?_, ?_, ?_, rfl, rfl, rfl, rfl, rfl, rfl⟩
  · simp only [← hs, hcount]
  · intro j hj hmem
    simp only [← hs, hcount, List.drop_left, List.mem_map, List.mem_range', Call.initializeCursor.injEq] at hmem
    obtain ⟨i, ⟨x, hx, hi⟩, hij⟩ := hmem
    omega
  · simp only [hlen]

/-- C12: when the dependency `d_k` is the first of the cascade that answers
`initializeCursor` with `WAITING`, `initializeCursor` returns `WAITING` and leaves
the dependency cursor at `k`; the next `initializeCursor` call calls `d_k` first and
then the dependencies after it in order, and calls none of `d_0..d_k-1`: the calls
it makes are `initializeCursor` on `d_k, ..., d_(k+m-1)` for some `m > 0`, followed
only by `returnBlock` calls. -/
theorem initializeCursor_resumes (recreate : σ → σ) (input : Row)
    (s : ExecutionBlockImpl σ) (before : List Dependency) (d : Dependency)
    (after : List Dependency) (hdeps : s.dependencies = before ++ d :: after)
    (hstart : s.cascadeStart ≤ before.length)
    (hbefore : ∀ x ∈ before.drop s.cascadeStart, x.acknowledges)
    (hwait : (d.initializeCursor).1.1 = ExecutionState.WAITING) :
    (s.initializeCursor recreate input).1.1 = ExecutionState.WAITING ∧
      (s.initializeCursor recreate input).2.dependencyPos = before.length ∧
      ∀ (recreate' : σ → σ) (input' : Row), ∃ m tail, 0 < m ∧
        ((s.initializeCursor recreate input).2.initializeCursor recreate' input').2.calls
          = (s.initializeCursor recreate input).2.calls
              ++ (List.range' before.length m).map Call.initializeCursor ++ tail ∧
        ∀ c ∈ tail, ∃ block, c = Call.returnBlock block := by
  obtain ⟨hd, hs, hlen⟩ := ExecutionBlockImpl.cascade_split s before d after hdeps hstart
  have hbad : ¬ d.acknowledges := fun h => h.1 hwait
  have hrun := ExecutionBlockImpl.initializeCursor_stop recreate input s _ _ d after hd hs
    hbefore hbad
  have hp : (s.initializeCursor recreate input).2.dependencyPos = before.length := by
    rw [hrun]; exact hlen
  have hl : (s.initializeCursor recreate input).2.dependencies.length = s.dependencies.length := by
    rw [hrun]
    simp only [List.length_append, List.length_map, List.length_cons]
    rw [hdeps]
    simp only [List.length_append, List.length_cons]
    omega
  refine ⟨by rw [hrun]; exact hwait, hp, fun recreate' input' => ?_⟩
  have h := ExecutionBlockImpl.initializeCursor_calls recreate' input'
    (s.initializeCursor recreate input).2
    (by rw [hp, hl, hdeps]; simp only [List.length_append, List.length_cons]; omega)
  rw [hp] at h
  exact h

/-- C17: whenever `shutdown` returns the state `DONE`, with an ok or a failed
`Result`, the buffer is empty afterwards and every block that was buffered has
been deleted, after the last dependency call; whenever it returns `WAITING` the
buffer is as before and no block has been deleted. -/
theorem shutdown_releases_buffer (errorCode : Nat) (s : ExecutionBlockImpl σ) :
    ((s.shutdown errorCode).1.1 = ExecutionState.DONE →
      (s.shutdown errorCode).2.buffer = [] ∧
      ∃ cs, (s.shutdown errorCode).2.calls = s.calls ++ cs ++ s.buffer.map Call.deleteBlock ∧
        ∀ c ∈ cs, ∃ i, c = Call.shutdown i) ∧
    ((s.shutdown errorCode).1.1 = ExecutionState.WAITING →
      (s.shutdown errorCode).2.buffer = s.buffer ∧
      ∀ block, Call.deleteBlock block ∉ (s.shutdown errorCode).2.calls.drop s.calls.length) ∧
    ((s.shutdown errorCode).1.1 = ExecutionState.DONE ∨
      (s.shutdown errorCode).1.1 = ExecutionState.WAITING) := by
  unfold ExecutionBlockImpl.shutdown
  obtain ⟨-, h⟩ := ExecutionBlockImpl.internalShutdown_frame errorCode s
  rcases h with ⟨hdone, hbuf, cs, hcalls, hcs⟩ | ⟨hwait, hbuf, cs, hcalls, hcs⟩
  · refine ⟨fun _ => ⟨hbuf, cs, hcalls, hcs⟩, fun hw => ?_, Or.inl hdone⟩
    rw [hdone] at hw
    cases hw
  · refine ⟨fun hd => ?_, fun _ => ⟨hbuf, fun block hmem => ?_⟩, Or.inr (by rw [hwait])⟩
    · rw [hwait] at hd
      cases hd
    · rw [hcalls, List.drop_left] at hmem
      obtain ⟨i, hi⟩ := hcs _ hmem
      cases hi

/-- C20: in the `shutdown` of the blocks of `TraversalExecutor` and of
`ShortestPathExecutor`, the executor's own `shutdown` is called if and only if the
`internalShutdown` of the call returned a state other than `WAITING`, and then as
the last call, after the cascade; while `internalShutdown` returns `WAITING`,
`shutdown` returns what it returned, with the state `WAITING`, and makes no call
but those of the cascade. -/
theorem shutdown_executor_after_cascade
    (executorShutdown : Nat → σ → (ExecutionState × Result) × σ) (errorCode : Nat)
    (s : ExecutionBlockImpl σ) :
    (Call.executorShutdown ∈
        (s.shutdownTraversalExecutor executorShutdown errorCode).2.calls.drop s.calls.length ↔
      (s.internalShutdown errorCode).1.1 ≠ ExecutionState.WAITING) ∧
    (Call.executorShutdown ∈
        (s.shutdownShortestPathExecutor executorShutdown errorCode).2.calls.drop s.calls.length ↔
      (s.internalShutdown errorCode).1.1 ≠ ExecutionState.WAITING) ∧
    ((s.internalShutdown errorCode).1.1 = ExecutionState.WAITING →
      (s.shutdownTraversalExecutor executorShutdown errorCode).1.1 = ExecutionState.WAITING ∧
      s.shutdownTraversalExecutor executorShutdown errorCode = s.internalShutdown errorCode ∧
      (s.shutdownShortestPathExecutor executorShutdown errorCode).1.1 = ExecutionState.WAITING ∧
      s.shutdownShortestPathExecutor executorShutdown errorCode = s.internalShutdown errorCode) ∧
    ((s.internalShutdown errorCode).1.1 ≠ ExecutionState.WAITING →
      (s.shutdownTraversalExecutor executorShutdown errorCode).2.calls
        = (s.internalShutdown errorCode).2.calls ++ [Call.executorShutdown] ∧
      (s.shutdownTraversalExecutor executorShutdown errorCode).1
        = (executorShutdown errorCode (s.internalShutdown errorCode).2.executor).1 ∧
      (s.shutdownShortestPathExecutor executorShutdown errorCode).2.calls
        = (s.internalShutdown errorCode).2.calls ++ [Call.executorShutdown] ∧
      (s.shutdownShortestPathExecutor executorShutdown errorCode).1
        = (executorShutdown errorCode (s.internalShutdown errorCode).2.executor).1) := by
  have hcascade : ∃ cs, (s.internalShutdown errorCode).2.calls = s.calls ++ cs ∧
      Call.executorShutdown ∉ cs := by
    obtain ⟨-, h⟩ := ExecutionBlockImpl.internalShutdown_frame errorCode s
    rcases h with ⟨-, -, cs, hcalls, hcs⟩ | ⟨-, -, cs, hcalls, hcs⟩
    · refine ⟨cs ++ s.buffer.map Call.deleteBlock, by rw [hcalls, List.append_assoc], ?_⟩
      intro hmem
      rcases List.mem_append.mp hmem with hmem | hmem
      · obtain ⟨i, hi⟩ := hcs _ hmem
        cases hi
      · obtain ⟨block, -, hb⟩ := List.mem_map.mp hmem
        cases hb
    · refine ⟨cs, hcalls, ?_⟩
      intro hmem
      obtain ⟨i, hi⟩ := hcs _ hmem
      cases hi
  obtain ⟨cs, hcalls, hnot⟩ := hcascade
  unfold ExecutionBlockImpl.shutdownTraversalExecutor
    ExecutionBlockImpl.shutdownShortestPathExecutor
  by_cases hw : (s.internalShutdown errorCode).1.1 = ExecutionState.WAITING
  · rw [if_pos hw]
    have hdrop : List.drop s.calls.length (s.internalShutdown errorCode).2.calls = cs := by
      rw [hcalls, List.drop_left]
    exact ⟨⟨fun h => absurd (hdrop ▸ h) hnot, fun h => absurd hw h⟩,
      ⟨fun h => absurd (hdrop ▸ h) hnot, fun h => absurd hw h⟩,
      fun _ => ⟨hw, rfl, hw, rfl⟩, fun h => absurd hw h⟩
  · rw [if_neg hw]
    have hmem : Call.executorShutdown ∈
        ((s.internalShutdown errorCode).2.calls ++ [Call.executorShutdown]).drop
          s.calls.length := by
      rw [hcalls, List.append_assoc, List.drop_left]
      simp
    exact ⟨⟨fun _ => hw, fun _ => hmem⟩, ⟨fun _ => hw, fun _ => hmem⟩,
      fun h => absurd h hw, fun _ => ⟨rfl, rfl, rfl, rfl⟩⟩

/-- C14, as stated, fails: two dependencies fail their `shutdown`, the first with
the error 5 and the second with the error 7; `shutdown` returns `DONE` with the
error 7, the failure of the later one. -/
theorem shutdown_first_failure_counterexample :
    (dependencyShutdownFailing 5).shutdownFailure 0 = some { errorNumber := 5 } ∧
    (dependencyShutdownFailing 7).shutdownFailure 0 = some { errorNumber := 7 } ∧
    ((lifecycleBlock [dependencyShutdownFailing 5, dependencyShutdownFailing 7]).shutdown 0).1
      = (ExecutionState.DONE, { errorNumber := 7 }) ∧
    ({ errorNumber := 7 } : Result) ≠ { errorNumber := 5 } := by
  decide

/-- C14, amended: `shutdown`, re-entered after each `WAITING`, completes once it
has been re-entered as often as the dependencies of the cascade answer `WAITING`
(at the first call when none does), and whenever it completes it returns `DONE`
with the failure of the latest dependency in list order whose `shutdown` failed
(`TRI_ERROR_INTERNAL` when it threw): the dependencies after it, which succeed,
do not overwrite it, and the failures of dependencies before it are replaced.
The failure of a dependency is that of the answer that ends the call on it, the
first one that is not `WAITING`. -/
theorem shutdown_reports_latest_failure (errorCode : Nat) (s : ExecutionBlockImpl σ)
    (before : List Dependency) (d : Dependency) (after : List Dependency)
    (hdeps : s.dependencies = before ++ d :: after) (hstart : s.cascadeStart ≤ before.length)
    (res : Result) (hfail : d.shutdownSettled.shutdownFailure errorCode = some res)
    (hafter : ∀ x ∈ after, x.shutdownSettled.shutdownFailure errorCode = none) :
    (∀ retries, (s.shutdownRetrying errorCode retries).1.1 ≠ ExecutionState.WAITING →
      (s.shutdownRetrying errorCode retries).1 = (ExecutionState.DONE, res)) ∧
    (∀ retries,
      ((s.dependencies.drop s.cascadeStart).map Dependency.shutdownWaitings).sum ≤ retries →
      (s.shutdownRetrying errorCode retries).1 = (ExecutionState.DONE, res)) ∧
    ((∀ x ∈ s.dependencies.drop s.cascadeStart, ¬ x.shutdownWaits errorCode) →
      (s.shutdown errorCode).1 = (ExecutionState.DONE, res)) ∧
    res.fail = true := by
  have hpos := ExecutionBlockImpl.dependencyPos_le s before d after hdeps hstart
  have hdrop : s.dependencies.drop s.cascadeStart = before.drop s.cascadeStart ++ d :: after := by
    rw [hdeps, List.drop_append_of_le_length hstart]
  have hdone : ∀ retries, (s.shutdownRetrying errorCode retries).1.1 ≠ ExecutionState.WAITING →
      (s.shutdownRetrying errorCode retries).1 = (ExecutionState.DONE, res) := by
    intro retries hnw
    rw [ExecutionBlockImpl.shutdownRetrying_result errorCode retries s hpos hnw,
      recordedShutdownResult_settled_latest errorCode _ _ _ d after res hdrop hfail hafter]
  refine ⟨hdone, fun retries hsum => hdone retries
    (ExecutionBlockImpl.shutdownRetrying_completes errorCode retries s hpos hsum), ?_,
    Dependency.shutdownFailure_fail _ errorCode res hfail⟩
  intro hnowait
  rcases ExecutionBlockImpl.shutdown_cases errorCode s hpos with
    ⟨-, hval⟩ | ⟨a, x, b, hsplit, -, hw, -⟩
  · exact hdone 0 (by
      show (s.shutdown errorCode).1.1 ≠ ExecutionState.WAITING
      rw [hval]; simp)
  · exact absurd hw (hnowait x (by rw [hsplit]; simp))

/-- Witness of C14, amended: of two dependencies that fail with the errors 5 and
7, the error 7 of the later one is returned; and when the first one fails with
the error 5 and the second one answers `WAITING` before it fails with the error
7, `shutdown` re-entered once returns `DONE` with the error 7. -/
theorem shutdown_reports_latest_failure_witness :
    ((lifecycleBlock [dependencyShutdownFailing 5, dependencyShutdownFailing 7]).shutdown 0).1
      = (ExecutionState.DONE, { errorNumber := 7 }) ∧
    Result.fail { errorNumber := 7 } = true ∧
    ((lifecycleBlock [dependencyShutdownFailing 5, dependencyShutdownWaiting 7]).shutdownRetrying
      0 1).1 = (ExecutionState.DONE, { errorNumber := 7 }) :=
  have h := shutdown_reports_latest_failure 0
    (lifecycleBlock [dependencyShutdownFailing 5, dependencyShutdownFailing 7])
    [dependencyShutdownFailing 5] (dependencyShutdownFailing 7) [] rfl (by decide)
    { errorNumber := 7 } rfl (by decide)
  have h2 := shutdown_reports_latest_failure 0
    (lifecycleBlock [dependencyShutdownFailing 5, dependencyShutdownWaiting 7])
    [dependencyShutdownFailing 5] (dependencyShutdownWaiting 7) [] rfl (by decide)
    { errorNumber := 7 } rfl (by decide)
  ⟨h.2.2.1 (by decide), h.2.2.2, h2.2.1 1 (by decide)⟩

/-- Witness of C11: two dependencies that acknowledge and one buffered block; the
block is returned to the pool and the instance is reset. -/
theorem initializeCursor_resets_witness :
    ((lifecycleBlock [dependencyOk, dependencyOk]).initializeCursor id []).1
        = (ExecutionState.DONE, { errorNumber := TRI_ERROR_NO_ERROR }) ∧
      ((lifecycleBlock [dependencyOk, dependencyOk]).initializeCursor id []).2.buffer = [] ∧
      ((lifecycleBlock [dependencyOk, dependencyOk]).initializeCursor id []).2.itemBlockManager.returned
        = [bufferedBlock] ∧
      ((lifecycleBlock [dependencyOk, dependencyOk]).initializeCursor id []).2.dependencyPos = 2 :=
  have h := initializeCursor_resets id [] (lifecycleBlock [dependencyOk, dependencyOk])
    (by decide) (by decide)
  ⟨h.1, h.2.2.2.2.2.1, h.2.2.2.2.2.2.1, h.2.2.2.2.2.2.2.2.1.trans (by decide)⟩

/-- Witness of C13: the second of three dependencies answers `initializeCursor`
with the error 7; the call returns `(DONE, 7)`, has called the first two
dependencies and keeps the buffered block. -/
theorem initializeCursor_propagates_witness :
    ((lifecycleBlock [dependencyOk, dependencyInitializeCursorFailing 7, dependencyOk]).initializeCursor
        id []).1 = (ExecutionState.DONE, { errorNumber := 7 }) ∧
      ((lifecycleBlock [dependencyOk, dependencyInitializeCursorFailing 7, dependencyOk]).initializeCursor
        id []).2.calls = [Call.initializeCursor 0, Call.initializeCursor 1] ∧
      ((lifecycleBlock [dependencyOk, dependencyInitializeCursorFailing 7, dependencyOk]).initializeCursor
        id []).2.buffer = [bufferedBlock] :=
  have h := initializeCursor_propagates id []
    (lifecycleBlock [dependencyOk, dependencyInitializeCursorFailing 7, dependencyOk])
    [dependencyOk] (dependencyInitializeCursorFailing 7) [dependencyOk] rfl (by decide)
    (by decide) (by decide)
  ⟨h.1, h.2.1, h.2.2.2.2.2.2.2.2.1⟩

/-- Witness of C12: the second of three dependencies answers `initializeCursor`
with `WAITING`; the call returns `WAITING` with the cursor at 1, and the next call
calls the dependencies 1 and 2. -/
theorem initializeCursor_resumes_witness :
    ((lifecycleBlock [dependencyOk, dependencyInitializeCursorWaiting, dependencyOk]).initializeCursor
        id []).1.1 = ExecutionState.WAITING ∧
      ((lifecycleBlock [dependencyOk, dependencyInitializeCursorWaiting, dependencyOk]).initializeCursor
        id []).2.dependencyPos = 1 ∧
      (((lifecycleBlock [dependencyOk, dependencyInitializeCursorWaiting, dependencyOk]).initializeCursor
        id []).2.initializeCursor id []).2.calls
        = [Call.initializeCursor 0, Call.initializeCursor 1, Call.initializeCursor 1,
           Call.initializeCursor 2, Call.returnBlock bufferedBlock] :=
  have h := initializeCursor_resumes id []
    (lifecycleBlock [dependencyOk, dependencyInitializeCursorWaiting, dependencyOk])
    [dependencyOk] dependencyInitializeCursorWaiting [dependencyOk] rfl (by decide)
    (by decide) (by decide)
  ⟨h.1, h.2.1, by decide⟩

/-- C15: when the dependency `d_k` of the cascade fails its `shutdown` (it throws,
or answers a failed `Result`), a `shutdown` that is re-entered after each `WAITING`
and ends with another state ends with `DONE` and a failed `Result` and has called
`shutdown` on every dependency after `d_k`; and when no dependency of the cascade
answers `WAITING`, the first `shutdown` call already does so. -/
theorem shutdown_continues_after_failure (errorCode : Nat) (s : ExecutionBlockImpl σ)
    (before : List Dependency) (d : Dependency) (after : List Dependency)
    (hdeps : s.dependencies = before ++ d :: after) (hstart : s.cascadeStart ≤ before.length)
    (hfail : d.shutdownFails errorCode) :
    (∀ retries, (s.shutdownRetrying errorCode retries).1.1 ≠ ExecutionState.WAITING →
      (s.shutdownRetrying errorCode retries).1.1 = ExecutionState.DONE ∧
      (s.shutdownRetrying errorCode retries).1.2.fail = true ∧
      ∀ j, before.length < j → j < s.dependencies.length →
        Call.shutdown j ∈ (s.shutdownRetrying errorCode retries).2.calls.drop s.calls.length) ∧
    ((∀ x ∈ before.drop s.cascadeStart, ¬ x.shutdownWaits errorCode) →
      (∀ x ∈ after, ¬ x.shutdownWaits errorCode) →
      (s.shutdown errorCode).1.1 = ExecutionState.DONE ∧
      (s.shutdown errorCode).1.2.fail = true ∧
      ∀ j, before.length < j → j < s.dependencies.length →
        Call.shutdown j ∈ (s.shutdown errorCode).2.calls.drop s.calls.length) := by
  have hpos := ExecutionBlockImpl.dependencyPos_le s before d after hdeps hstart
  have hdrop : s.dependencies.drop s.cascadeStart = before.drop s.cascadeStart ++ d :: after := by
    rw [hdeps, List.drop_append_of_le_length hstart]
  have hmem : ∃ x ∈ s.dependencies.drop s.cascadeStart, x.shutdownFails errorCode :=
    ⟨d, by rw [hdrop]; simp, hfail⟩
  have hmain : ∀ retries,
      (s.shutdownRetrying errorCode retries).1.1 ≠ ExecutionState.WAITING →
      (s.shutdownRetrying errorCode retries).1.1 = ExecutionState.DONE ∧
      (s.shutdownRetrying errorCode retries).1.2.fail = true ∧
      ∀ j, before.length < j → j < s.dependencies.length →
        Call.shutdown j ∈ (s.shutdownRetrying errorCode retries).2.calls.drop s.calls.length := by
    intro retries hnw
    obtain ⟨h1, ⟨cs, h2, h3, -⟩, h4, -⟩ :=
      ExecutionBlockImpl.shutdownRetrying_spec errorCode retries s hpos hnw
    refine ⟨h1, h4 (Or.inr hmem), fun j hj hlt => ?_⟩
    rw [h2, List.drop_left]
    exact h3 j (by omega) hlt
  refine ⟨hmain, fun hb ha => ?_⟩
  have hall : ∀ x ∈ s.dependencies.drop s.cascadeStart, ¬ x.shutdownWaits errorCode := by
    intro x hx
    rw [hdrop] at hx
    rcases List.mem_append.mp hx with hx | hx
    · exact hb x hx
    · rcases List.mem_cons.mp hx with rfl | hx
      · exact Dependency.not_shutdownWaits_of_fails _ errorCode hfail
      · exact ha x hx
  have h0 := hmain 0
  have e : s.shutdownRetrying errorCode 0 = s.shutdown errorCode := rfl
  rw [e] at h0
  apply h0
  rw [(ExecutionBlockImpl.shutdown_done errorCode s hpos hall).1]
  simp

/-- Witness of C15: the first of three dependencies fails its `shutdown` and the
second answers `WAITING` once; re-entered once, `shutdown` ends with `DONE` and a
failed `Result` and has called the second and the third dependency. -/
theorem shutdown_continues_after_failure_witness :
    ((lifecycleBlock [dependencyShutdownFailing 5, dependencyShutdownWaiting 0,
        dependencyOk]).shutdownRetrying 0 1).1.1 = ExecutionState.DONE ∧
    ((lifecycleBlock [dependencyShutdownFailing 5, dependencyShutdownWaiting 0,
        dependencyOk]).shutdownRetrying 0 1).1.2.fail = true ∧
    Call.shutdown 1 ∈ ((lifecycleBlock [dependencyShutdownFailing 5, dependencyShutdownWaiting 0,
        dependencyOk]).shutdownRetrying 0 1).2.calls ∧
    Call.shutdown 2 ∈ ((lifecycleBlock [dependencyShutdownFailing 5, dependencyShutdownWaiting 0,
        dependencyOk]).shutdownRetrying 0 1).2.calls :=
  have h := (shutdown_continues_after_failure 0
    (lifecycleBlock [dependencyShutdownFailing 5, dependencyShutdownWaiting 0, dependencyOk])
    [] (dependencyShutdownFailing 5) [dependencyShutdownWaiting 0, dependencyOk] rfl (by decide)
    (by decide)).1 1 (by decide)
  ⟨h.1, h.2.1, List.mem_of_mem_drop (h.2.2 1 (by decide) (by decide)),
    List.mem_of_mem_drop (h.2.2 2 (by decide) (by decide))⟩

/-- C16 fails on the code: of two dependencies the second answers
`initializeCursor` with the error 7, so that `initializeCursor` returns `(DONE, 7)`
and leaves the dependency cursor at 1; the `shutdown` that follows returns
`(DONE, no error)` and has called `shutdown` on the second dependency only, never
on the first. -/
theorem shutdown_after_failed_initializeCursor :
    ((lifecycleBlock [dependencyOk, dependencyInitializeCursorFailing 7]).initializeCursor
        id []).1 = (ExecutionState.DONE, { errorNumber := 7 }) ∧
    ((lifecycleBlock [dependencyOk, dependencyInitializeCursorFailing 7]).initializeCursor
        id []).2.dependencyPos = 1 ∧
    (((lifecycleBlock [dependencyOk, dependencyInitializeCursorFailing 7]).initializeCursor
        id []).2.shutdown 0).1 = (ExecutionState.DONE, { errorNumber := TRI_ERROR_NO_ERROR }) ∧
    (((lifecycleBlock [dependencyOk, dependencyInitializeCursorFailing 7]).initializeCursor
        id []).2.shutdown 0).2.calls
      = [Call.initializeCursor 0, Call.initializeCursor 1, Call.shutdown 1,
         Call.deleteBlock bufferedBlock] ∧
    Call.shutdown 0 ∉ (((lifecycleBlock [dependencyOk,
        dependencyInitializeCursorFailing 7]).initializeCursor id []).2.shutdown 0).2.calls := by
  decide

/-- C18, as stated, fails: the first dependency fails its `shutdown` with the error
5, the second answers `WAITING` and, when `shutdown` is re-entered, fails with the
error 7; the first call returns `WAITING` with the cursor at 1 and the error 5
recorded, and the second call returns `DONE` with the error 7, not 5. -/
theorem shutdown_resumes_counterexample :
    ((lifecycleBlock [dependencyShutdownFailing 5, dependencyShutdownWaiting 7]).shutdown 0).1.1
      = ExecutionState.WAITING ∧
    ((lifecycleBlock [dependencyShutdownFailing 5, dependencyShutdownWaiting 7]).shutdown
      0).2.dependencyPos = 1 ∧
    ((lifecycleBlock [dependencyShutdownFailing 5, dependencyShutdownWaiting 7]).shutdown
      0).2.shutdownResult = { errorNumber := 5 } ∧
    (((lifecycleBlock [dependencyShutdownFailing 5, dependencyShutdownWaiting 7]).shutdown
      0).2.shutdown 0).1 = (ExecutionState.DONE, { errorNumber := 7 }) ∧
    ({ errorNumber := 7 } : Result) ≠ { errorNumber := 5 } := by
  decide

/-- C18, amended: when the dependency `d_k` is the first of the cascade that
answers `shutdown` with `WAITING`, `shutdown` returns `WAITING` and leaves the
dependency cursor at `k`, with the failure of the latest dependency before `d_k`
that failed as the recorded `Result`; the next `shutdown` call calls `d_k` first
and then the dependencies after it in order, and none of `d_0..d_k-1`; and when
`shutdown`, re-entered after each `WAITING`, ends, it has called no dependency
before `d_k` again and, provided no answer of `d_k` or of a later dependency is a
failure, it returns `DONE` with the `Result` that was recorded; when `d_k` or a
later dependency fails, it returns the failure of the latest of them in list
order that fails, which replaces the recorded one (the failure of a dependency
is that of its first answer that is not `WAITING`). The re-entered `shutdown`
ends once it has been re-entered as often as `d_k` and the later dependencies
still answer `WAITING`. -/
theorem shutdown_resumes (errorCode : Nat) (s : ExecutionBlockImpl σ)
    (before : List Dependency) (d : Dependency) (after : List Dependency)
    (hdeps : s.dependencies = before ++ d :: after) (hstart : s.cascadeStart ≤ before.length)
    (hbefore : ∀ x ∈ before.drop s.cascadeStart, ¬ x.shutdownWaits errorCode)
    (hwait : d.shutdownWaits errorCode) :
    (s.shutdown errorCode).1.1 = ExecutionState.WAITING ∧
    (s.shutdown errorCode).2.dependencyPos = before.length ∧
    (∀ b1 dj b2 res, before.drop s.cascadeStart = b1 ++ dj :: b2 →
      dj.shutdownFailure errorCode = some res → (∀ x ∈ b2, x.shutdownFailure errorCode = none) →
      (s.shutdown errorCode).2.shutdownResult = res) ∧
    (∃ m tail, 0 < m ∧
      ((s.shutdown errorCode).2.shutdown errorCode).2.calls
        = (s.shutdown errorCode).2.calls ++ (List.range' before.length m).map Call.shutdown
            ++ tail ∧
      ∀ c ∈ tail, ∃ block, c = Call.deleteBlock block) ∧
    (∀ retries,
      ((s.shutdown errorCode).2.shutdownRetrying errorCode retries).1.1 ≠ ExecutionState.WAITING →
      ((s.shutdown errorCode).2.shutdownRetrying errorCode retries).1.1 = ExecutionState.DONE ∧
      (∀ j, j < before.length →
        Call.shutdown j ∉ ((s.shutdown errorCode).2.shutdownRetrying errorCode retries).2.calls.drop
          (s.shutdown errorCode).2.calls.length) ∧
      ((∀ x ∈ (d.shutdown errorCode).2 :: after, x.neverFailsShutdown) →
        ((s.shutdown errorCode).2.shutdownRetrying errorCode retries).1.2
          = (s.shutdown errorCode).2.shutdownResult) ∧
      (∀ a1 dj a2 res, (d.shutdown errorCode).2 :: after = a1 ++ dj :: a2 →
        dj.shutdownSettled.shutdownFailure errorCode = some res →
        (∀ x ∈ a2, x.shutdownSettled.shutdownFailure errorCode = none) →
        ((s.shutdown errorCode).2.shutdownRetrying errorCode retries).1.2 = res)) ∧
    (∀ retries,
      ((((d.shutdown errorCode).2 :: after).map Dependency.shutdownWaitings).sum ≤ retries →
        ((s.shutdown errorCode).2.shutdownRetrying errorCode retries).1.1
          ≠ ExecutionState.WAITING)) := by
  obtain ⟨hd, hs, hlen⟩ := ExecutionBlockImpl.cascade_split s before d after hdeps hstart
  have hval := ExecutionBlockImpl.internalShutdown_stop errorCode s _ _ d after hd hs hbefore hwait
  have e : s.shutdown errorCode = s.internalShutdown errorCode := rfl
  rw [← e] at hval
  have hl : s.dependencies.length = before.length + after.length + 1 := by
    rw [hdeps]; simp only [List.length_append, List.length_cons]; omega
  have h1pos : (s.shutdown errorCode).2.dependencyPos = before.length := by
    rw [hval]; exact hlen
  have h1deps : (s.shutdown errorCode).2.dependencies
      = (before.take s.cascadeStart ++ (before.drop s.cascadeStart).map
          (fun x => (x.shutdown errorCode).2)) ++ (d.shutdown errorCode).2 :: after := by
    rw [hval, List.append_assoc]
  have h1len : (s.shutdown errorCode).2.dependencies.length = s.dependencies.length := by
    rw [h1deps, hl]
    simp only [List.length_append, List.length_map, List.length_cons]
    omega
  have h1lt : (s.shutdown errorCode).2.dependencyPos
      < (s.shutdown errorCode).2.dependencies.length := by
    rw [h1pos, h1len, hl]; omega
  have h1start : (s.shutdown errorCode).2.cascadeStart = before.length := by
    rw [ExecutionBlockImpl.cascadeStart_of_ne _ (by omega), h1pos]
  have h1begin : (s.shutdown errorCode).2.internalShutdownBegin.shutdownResult
      = (s.shutdown errorCode).2.shutdownResult := by
    unfold ExecutionBlockImpl.internalShutdownBegin
    rw [if_neg (by omega)]
  have h1drop : (s.shutdown errorCode).2.dependencies.drop (s.shutdown errorCode).2.cascadeStart
      = (d.shutdown errorCode).2 :: after := by
    rw [h1start, h1deps]
    have hl' : (before.take s.cascadeStart ++ (before.drop s.cascadeStart).map
        (fun x => (x.shutdown errorCode).2)).length = before.length := by
      simp only [List.length_append, List.length_map]
      exact hlen
    rw [← hl', List.drop_left]
  refine ⟨by rw [hval], h1pos, ?_, ?_, ?_, ?_⟩
  · intro b1 dj b2 res hsplit hdj hb2
    rw [hval]
    show recordedShutdownResult errorCode _ (before.drop s.cascadeStart) = res
    rw [hsplit]
    exact recordedShutdownResult_latest errorCode _ b1 dj b2 res hdj hb2
  · have h := ExecutionBlockImpl.shutdown_calls errorCode (s.shutdown errorCode).2 h1lt
    rw [h1pos] at h
    exact h
  · intro retries hnw
    obtain ⟨i1, ⟨cs, i2, -, i4⟩, -, i6⟩ := ExecutionBlockImpl.shutdownRetrying_spec errorCode
      retries (s.shutdown errorCode).2 (by omega) hnw
    rw [h1start] at i4
    rw [h1drop, h1begin] at i6
    refine ⟨i1, fun j hj => ?_, i6, ?_⟩
    · rw [i2, List.drop_left]
      exact i4 j hj
    · intro a1 dj a2 res hsplit hdj ha2
      rw [ExecutionBlockImpl.shutdownRetrying_result errorCode retries (s.shutdown errorCode).2
        (by omega) hnw, h1drop]
      exact recordedShutdownResult_settled_latest errorCode _ _ a1 dj a2 res hsplit hdj ha2
  · intro retries hsum
    exact ExecutionBlockImpl.shutdownRetrying_completes errorCode retries (s.shutdown errorCode).2
      (by omega) (by rw [h1drop]; exact hsum)

/-- Witness of C18, amended: the first dependency fails its `shutdown` with the
error 5 and the second answers `WAITING` once and then without error; the first
call returns `WAITING` with the cursor at 1, and re-entered once `shutdown`
returns `DONE` with the error 5. When the second dependency fails with the error
7 after its `WAITING`, the re-entered `shutdown` returns `DONE` with the error 7,
which has replaced the error 5. -/
theorem shutdown_resumes_witness :
    ((lifecycleBlock [dependencyShutdownFailing 5, dependencyShutdownWaiting 0]).shutdown 0).1.1
      = ExecutionState.WAITING ∧
    ((lifecycleBlock [dependencyShutdownFailing 5, dependencyShutdownWaiting 0]).shutdown
      0).2.dependencyPos = 1 ∧
    ((lifecycleBlock [dependencyShutdownFailing 5, dependencyShutdownWaiting 0]).shutdown
      0).2.shutdownResult = { errorNumber := 5 } ∧
    (((lifecycleBlock [dependencyShutdownFailing 5, dependencyShutdownWaiting 0]).shutdown
      0).2.shutdownRetrying 0 0).1 = (ExecutionState.DONE, { errorNumber := 5 }) ∧
    (((lifecycleBlock [dependencyShutdownFailing 5, dependencyShutdownWaiting 7]).shutdown
      0).2.shutdownRetrying 0 0).1 = (ExecutionState.DONE, { errorNumber := 7 }) :=
  have h := shutdown_resumes 0
    (lifecycleBlock [dependencyShutdownFailing 5, dependencyShutdownWaiting 0])
    [dependencyShutdownFailing 5] (dependencyShutdownWaiting 0) [] rfl (by decide) (by decide)
    (by decide)
  have h3 := h.2.2.1 [] (dependencyShutdownFailing 5) [] { errorNumber := 5 } rfl rfl (by decide)
  have h5 := h.2.2.2.2.1 0 (by decide)
  have g := shutdown_resumes 0
    (lifecycleBlock [dependencyShutdownFailing 5, dependencyShutdownWaiting 7])
    [dependencyShutdownFailing 5] (dependencyShutdownWaiting 7) [] rfl (by decide) (by decide)
    (by decide)
  have g5 := g.2.2.2.2.1 0 (g.2.2.2.2.2 0 (by decide))
  ⟨h.1, h.2.1, h3, Prod.ext h5.1 ((h5.2.2.1 (by decide)).trans h3),
   Prod.ext g5.1 (g5.2.2.2 [] ((dependencyShutdownWaiting 7).shutdown 0).2 []
     { errorNumber := 7 } rfl rfl (by decide))⟩

/-- C19, as stated, fails: the one dependency never answers `WAITING`; its first
`shutdown` fails with the error 5 and its second succeeds. The first `shutdown`
call of the block returns `(DONE, 5)` and the second `(DONE, no error)`. -/
theorem shutdown_twice_counterexample :
    ¬ (dependencyShutdownFailingOnce 5).shutdownWaits 0 ∧
    ¬ ((dependencyShutdownFailingOnce 5).shutdown 0).2.shutdownWaits 0 ∧
    ((lifecycleBlock [dependencyShutdownFailingOnce 5]).shutdown 0).1
      = (ExecutionState.DONE, { errorNumber := 5 }) ∧
    (((lifecycleBlock [dependencyShutdownFailingOnce 5]).shutdown 0).2.shutdown 0).1
      = (ExecutionState.DONE, { errorNumber := TRI_ERROR_NO_ERROR }) ∧
    (((lifecycleBlock [dependencyShutdownFailingOnce 5]).shutdown 0).2.shutdown 0).1
      ≠ ((lifecycleBlock [dependencyShutdownFailingOnce 5]).shutdown 0).1 := by
  decide

/-- C19, amended: from an instance whose dependency cursor is at the end of the
list, with dependencies none of which answers `WAITING` and each of which answers
its second `shutdown` call as its first: two successive `shutdown` calls return
the same pair, with the state `DONE`; the buffer is empty after the first call and
the second call deletes no block. -/
theorem shutdown_twice (errorCode : Nat) (s : ExecutionBlockImpl σ)
    (hend : s.dependencyPos = s.dependencies.length)
    (hnowait : ∀ x ∈ s.dependencies, ¬ x.shutdownWaits errorCode)
    (hsame : ∀ x ∈ s.dependencies,
      ((x.shutdown errorCode).2.shutdown errorCode).1 = (x.shutdown errorCode).1) :
    ((s.shutdown errorCode).2.shutdown errorCode).1 = (s.shutdown errorCode).1 ∧
    (s.shutdown errorCode).1.1 = ExecutionState.DONE ∧
    (s.shutdown errorCode).2.buffer = [] ∧
    ∀ block, Call.deleteBlock block ∉
      ((s.shutdown errorCode).2.shutdown errorCode).2.calls.drop
        (s.shutdown errorCode).2.calls.length := by
  have h1 := ExecutionBlockImpl.shutdown_of_end errorCode s hend hnowait
  have h1deps : (s.shutdown errorCode).2.dependencies
      = s.dependencies.map (fun d => (d.shutdown errorCode).2) := by rw [h1]
  have h1pos : (s.shutdown errorCode).2.dependencyPos = s.dependencies.length := by rw [h1]
  have h1buf : (s.shutdown errorCode).2.buffer = [] := by rw [h1]
  have h1end : (s.shutdown errorCode).2.dependencyPos
      = (s.shutdown errorCode).2.dependencies.length := by
    rw [h1pos, h1deps, List.length_map]
  have h1nowait : ∀ x ∈ (s.shutdown errorCode).2.dependencies, ¬ x.shutdownWaits errorCode := by
    intro x hx
    rw [h1deps] at hx
    obtain ⟨y, hy, rfl⟩ := List.mem_map.mp hx
    intro hw
    apply hnowait y hy
    unfold Dependency.shutdownWaits at hw ⊢
    rw [hsame y hy] at hw
    exact hw
  have h2 := ExecutionBlockImpl.shutdown_of_end errorCode (s.shutdown errorCode).2 h1end h1nowait
  refine ⟨?_, by rw [h1], h1buf, fun block hmem => ?_⟩
  · rw [h2, h1deps, recordedShutdownResult_map errorCode _ _ _ (fun x hx => by
      unfold Dependency.shutdownFailure
      rw [hsame x hx])]
    rw [h1]
  · rw [h2, h1buf, List.map_nil, List.append_nil, List.drop_left] at hmem
    obtain ⟨i, -, hi⟩ := List.mem_map.mp hmem
    cases hi

/-- Witness of C19, amended: two dependencies that fail their first and their
second `shutdown` with the errors 5 and 7; both `shutdown` calls of the block
return `(DONE, 7)`. -/
theorem shutdown_twice_witness :
    (((lifecycleBlock [dependencyShutdownFailing 5, dependencyShutdownFailing 7]).shutdown
      0).2.shutdown 0).1
      = ((lifecycleBlock [dependencyShutdownFailing 5, dependencyShutdownFailing 7]).shutdown 0).1 ∧
    ((lifecycleBlock [dependencyShutdownFailing 5, dependencyShutdownFailing 7]).shutdown 0).1.1
      = ExecutionState.DONE ∧
    ((lifecycleBlock [dependencyShutdownFailing 5, dependencyShutdownFailing 7]).shutdown
      0).2.buffer = [] :=
  have h := shutdown_twice 0
    (lifecycleBlock [dependencyShutdownFailing 5, dependencyShutdownFailing 7]) rfl (by decide)
    (by decide)
  ⟨h.1, h.2.1, h.2.2.1⟩

/-- C22, as stated, fails: with the done flag set and a block in the buffer
`getHasMoreState` reports `DONE`, and with the done flag unset, an empty buffer
and the upstream state `DONE` it reports `DONE` as well. -/
theorem getHasMoreState_counterexample :
    doneWithBuffer.buffer ≠ [] ∧
    doneWithBuffer.getHasMoreState.1 = ExecutionState.DONE ∧
    upstreamDone.done = false ∧
    upstreamDone.getHasMoreState.1 = ExecutionState.DONE := by
  decide

/-- C22, amended: `getHasMoreState` reports `DONE` if and only if the done flag is
set, or the buffer is empty and the upstream state is `DONE`; in every other state
it reports `HASMORE`. It sets the done flag when it reports `DONE` and changes
nothing else. -/
theorem getHasMoreState_DONE (s : ExecutionBlockImpl σ) :
    (s.getHasMoreState.1 = ExecutionState.DONE ↔
      (s.done = true ∨ (s.buffer = [] ∧ s.upstreamState = ExecutionState.DONE))) ∧
    (s.getHasMoreState.1 ≠ ExecutionState.DONE → s.getHasMoreState.1 = ExecutionState.HASMORE) ∧
    (s.getHasMoreState.1 = ExecutionState.DONE →
      s.getHasMoreState.2 = { s with done := true }) ∧
    (s.getHasMoreState.1 = ExecutionState.HASMORE → s.getHasMoreState.2 = s) := by
  unfold ExecutionBlockImpl.getHasMoreState
  by_cases hd : s.done = true
  · rw [if_pos hd]
    refine ⟨⟨fun _ => Or.inl hd, fun _ => rfl⟩, fun h => absurd rfl h, fun _ => ?_,
      fun h => (by cases h)⟩
    cases s
    simp only at hd
    subst hd
    rfl
  · rw [if_neg hd]
    by_cases hc : (s.buffer.isEmpty && decide (s.upstreamState = ExecutionState.DONE)) = true
    · rw [if_pos hc]
      have h : s.buffer = [] ∧ s.upstreamState = ExecutionState.DONE := by
        simpa [List.isEmpty_iff] using hc
      exact ⟨⟨fun _ => Or.inr h, fun _ => rfl⟩, fun h => absurd rfl h, fun _ => rfl,
        fun h => (by cases h)⟩
    · rw [if_neg hc]
      have h : ¬ (s.buffer = [] ∧ s.upstreamState = ExecutionState.DONE) := by
        simpa [List.isEmpty_iff] using hc
      refine ⟨⟨fun h => (by cases h), fun h' => ?_⟩, fun _ => rfl, fun h => (by cases h),
        fun _ => rfl⟩
      rcases h' with h' | h'
      · exact absurd h' hd
      · exact absurd h' h

/-- C30: the `shutdown` of the block of `SubqueryExecutor` returns `(WAITING, r)`
without a call on a dependency when the executor's `shutdown` answers `WAITING`
with the `Result` `r`; otherwise what `internalShutdown` returns when that is
`WAITING`; otherwise what `internalShutdown` returns when its `Result` failed; and
otherwise the state of `internalShutdown` with the `Result` of the executor's
`shutdown`. -/
theorem shutdownSubqueryExecutor_result
    (executorShutdown : Nat → σ → (ExecutionState × Result) × σ) (errorCode : Nat)
    (s : ExecutionBlockImpl σ) :
    ((executorShutdown errorCode s.executor).1.1 = ExecutionState.WAITING →
      (s.shutdownSubqueryExecutor executorShutdown errorCode).1
        = (ExecutionState.WAITING, (executorShutdown errorCode s.executor).1.2) ∧
      (s.shutdownSubqueryExecutor executorShutdown errorCode).2.calls
        = s.calls ++ [Call.executorShutdown] ∧
      (s.shutdownSubqueryExecutor executorShutdown errorCode).2.dependencies = s.dependencies ∧
      (s.shutdownSubqueryExecutor executorShutdown errorCode).2.dependencyPos = s.dependencyPos) ∧
    ((executorShutdown errorCode s.executor).1.1 ≠ ExecutionState.WAITING →
      ((ExecutionBlockImpl.internalShutdown errorCode
          { s with executor := (executorShutdown errorCode s.executor).2,
                   calls := s.calls ++ [Call.executorShutdown] }).1.1 = ExecutionState.WAITING →
        (s.shutdownSubqueryExecutor executorShutdown errorCode).1.1 = ExecutionState.WAITING) ∧
      ((ExecutionBlockImpl.internalShutdown errorCode
          { s with executor := (executorShutdown errorCode s.executor).2,
                   calls := s.calls ++ [Call.executorShutdown] }).1.1 ≠ ExecutionState.WAITING →
        ((ExecutionBlockImpl.internalShutdown errorCode
            { s with executor := (executorShutdown errorCode s.executor).2,
                     calls := s.calls ++ [Call.executorShutdown] }).1.2.fail = true →
          (s.shutdownSubqueryExecutor executorShutdown errorCode).1
            = (ExecutionBlockImpl.internalShutdown errorCode
                { s with executor := (executorShutdown errorCode s.executor).2,
                         calls := s.calls ++ [Call.executorShutdown] }).1) ∧
        ((ExecutionBlockImpl.internalShutdown errorCode
            { s with executor := (executorShutdown errorCode s.executor).2,
                     calls := s.calls ++ [Call.executorShutdown] }).1.2.fail = false →
          (s.shutdownSubqueryExecutor executorShutdown errorCode).1
            = ((ExecutionBlockImpl.internalShutdown errorCode
                { s with executor := (executorShutdown errorCode s.executor).2,
                         calls := s.calls ++ [Call.executorShutdown] }).1.1,
               (executorShutdown errorCode s.executor).1.2)))) := by
  unfold ExecutionBlockImpl.shutdownSubqueryExecutor
  dsimp only
  refine ⟨fun hw => ?_, fun hw => ⟨fun hc => ?_, fun hc => ⟨fun hf => ?_, fun hf => ?_⟩⟩⟩
  · rw [if_pos hw]
    exact ⟨rfl, rfl, rfl, rfl⟩
  · rw [if_neg hw, if_pos hc]
    exact hc
  · rw [if_neg hw, if_neg hc, if_pos hf]
  · rw [if_neg hw, if_neg hc, if_neg (by rw [hf]; simp)]

/-- C27: `initializeCursor` leaves the output row as it is, whatever it returns;
with an output row open on a block with `r` rows written, the `getSome` after it
asks for no block, neither from the fetcher nor from the pool, and makes
`produceRow` calls only, and a block that it returns is the block that was open
(same identity), with the `r` rows followed by the rows produced in the call. -/
theorem initializeCursor_keeps_outputItemRow (recreate : σ → σ) (input : Row)
    (s : ExecutionBlockImpl σ) (out : OutputAqlItemRow) (hout : s.outputItemRow = some out)
    (hwf : out.wellFormed) :
    (s.initializeCursor recreate input).2.outputItemRow = some out ∧
    ∀ (E : Executor σ) (fuel atMost : Nat)
      (r : CallResult σ (ExecutionState × Option AqlItemBlock)),
      ExecutionBlockImpl.getSome E fuel atMost (s.initializeCursor recreate input).2 = some r →
      ∃ ps, r.post.calls = (s.initializeCursor recreate input).2.calls ++ ps ∧
        (∀ c ∈ ps, ∃ x row, c = Call.produceRow x row) ∧
        r.post.itemBlockManager = (s.initializeCursor recreate input).2.itemBlockManager ∧
        ∀ x b, r.ret = Completion.returned (x, some b) →
          b.id = out.block.id ∧
          b.rows = out.block.rows.take out.baseIndex ++ producedRows ps := by
  have h1 : (s.initializeCursor recreate input).2.outputItemRow = some out := by
    rw [ExecutionBlockImpl.initializeCursor_outputItemRow, hout]
  refine ⟨h1, fun E fuel atMost r h => ?_⟩
  obtain ⟨rq, ps, out', hcalls, -, hps, hopen, -, hrows, hret, -⟩ :=
    ExecutionBlockImpl.getSome_run E fuel atMost _
      (fun o ho => by rw [h1] at ho; cases ho; exact hwf) r h
  obtain ⟨hrq, hpool, hid, -⟩ := hopen out h1
  subst hrq
  refine ⟨ps, by rw [hcalls, List.nil_append], hps, hpool, fun x b hb => ?_⟩
  obtain ⟨hbid, hbrows, -⟩ := hret x b hb
  refine ⟨hbid.trans hid, ?_⟩
  rw [hbrows, hrows]
  unfold ExecutionBlockImpl.writtenRows
  rw [h1]
  simp only
  rw [OutputAqlItemRow.wellFormed_writtenRows out hwf]

/-- Witness of C27: an output row open on block 0 with one row written;
`initializeCursor` returns `(DONE, no error)` and keeps it, and the `getSome` after
it returns block 0 with the row written before and the row produced now. -/
theorem initializeCursor_keeps_outputItemRow_witness :
    (openRowWaiting.initializeCursor
        (fun x => { x with produce := [(ExecutionState.DONE, 0, some (rowOf 2))] }) []).1
      = (ExecutionState.DONE, { errorNumber := TRI_ERROR_NO_ERROR }) ∧
    (openRowWaiting.initializeCursor
        (fun x => { x with produce := [(ExecutionState.DONE, 0, some (rowOf 2))] }) []).2.outputItemRow
      = some { block := { id := 0, nrRegs := 1, rows := [rowOf 1, [none]] },
               baseIndex := 1, producedFlag := false, doNotCopyInputRows := false } ∧
    (ExecutionBlockImpl.getSome (scriptedExecutor false false) 5 2
        (openRowWaiting.initializeCursor
          (fun x => { x with produce := [(ExecutionState.DONE, 0, some (rowOf 2))] }) []).2).map
        (fun r => r.ret)
      = some (Completion.returned
          (ExecutionState.DONE, some { id := 0, nrRegs := 1, rows := [rowOf 1, rowOf 2] })) :=
  ⟨by decide,
   (initializeCursor_keeps_outputItemRow
      (fun x => { x with produce := [(ExecutionState.DONE, 0, some (rowOf 2))] }) []
      openRowWaiting _ rfl ⟨rfl, by decide⟩).1,
   by decide⟩

/-- C21, as stated, fails: in the `shutdown` of the block of `SubqueryExecutor`
with one dependency the first call is the executor's own `shutdown`; the
`shutdown` of the dependency comes after it. -/
theorem shutdownSubqueryExecutor_counterexample :
    ((lifecycleBlock [dependencyOk]).shutdownSubqueryExecutor executorShutdownOk 0).2.calls
      = [Call.executorShutdown, Call.shutdown 0, Call.deleteBlock bufferedBlock] := by
  decide

/-- C21, amended: in every `shutdown` call of the block of `SubqueryExecutor` the
executor's own `shutdown` is the first call, before the dependency cascade; the
calls after it are those of the cascade, and there is none when the executor's
`shutdown` answers `WAITING`. -/
theorem shutdownSubqueryExecutor_calls
    (executorShutdown : Nat → σ → (ExecutionState × Result) × σ) (errorCode : Nat)
    (s : ExecutionBlockImpl σ) :
    ∃ cs, (s.shutdownSubqueryExecutor executorShutdown errorCode).2.calls
        = s.calls ++ Call.executorShutdown :: cs ∧
      (∀ c ∈ cs, (∃ i, c = Call.shutdown i) ∨ ∃ block, c = Call.deleteBlock block) ∧
      ((executorShutdown errorCode s.executor).1.1 = ExecutionState.WAITING → cs = []) := by
  obtain ⟨-, h⟩ := ExecutionBlockImpl.internalShutdown_frame errorCode
    { s with executor := (executorShutdown errorCode s.executor).2,
             calls := s.calls ++ [Call.executorShutdown] }
  have hcascade : ∃ cs, (ExecutionBlockImpl.internalShutdown errorCode
        { s with executor := (executorShutdown errorCode s.executor).2,
                 calls := s.calls ++ [Call.executorShutdown] }).2.calls
        = s.calls ++ Call.executorShutdown :: cs ∧
      ∀ c ∈ cs, (∃ i, c = Call.shutdown i) ∨ ∃ block, c = Call.deleteBlock block := by
    rcases h with ⟨-, -, cs, hcalls, hcs⟩ | ⟨-, -, cs, hcalls, hcs⟩
    · refine ⟨cs ++ s.buffer.map Call.deleteBlock, by rw [hcalls]; simp, fun c hc => ?_⟩
      rcases List.mem_append.mp hc with hc | hc
      · exact Or.inl (hcs c hc)
      · obtain ⟨block, -, rfl⟩ := List.mem_map.mp hc
        exact Or.inr ⟨block, rfl⟩
    · exact ⟨cs, by rw [hcalls]; simp, fun c hc => Or.inl (hcs c hc)⟩
  obtain ⟨cs, hcalls, hcs⟩ := hcascade
  unfold ExecutionBlockImpl.shutdownSubqueryExecutor
  dsimp only
  by_cases hw : (executorShutdown errorCode s.executor).1.1 = ExecutionState.WAITING
  · rw [if_pos hw]
    exact ⟨[], rfl, fun c hc => by simp at hc, fun _ => rfl⟩
  · rw [if_neg hw]
    refine ⟨cs, ?_, hcs, fun h => absurd h hw⟩
    split
    · exact hcalls
    · split
      · exact hcalls
      · exact hcalls

/-- C25 fails on the code: the one dependency fails its `shutdown` with the error
5, so that `internalShutdown` returns `(DONE, 5)`, and the executor's own
`shutdown` succeeds; the `shutdown` of the block of `TraversalExecutor`, and that
of `ShortestPathExecutor`, returns `(DONE, no error)`. -/
theorem shutdownTraversalExecutor_drops_failure :
    ((lifecycleBlock [dependencyShutdownFailing 5]).internalShutdown 0).1
      = (ExecutionState.DONE, { errorNumber := 5 }) ∧
    Result.fail { errorNumber := 5 } = true ∧
    ((lifecycleBlock [dependencyShutdownFailing 5]).shutdownTraversalExecutor
      executorShutdownOk 0).1 = (ExecutionState.DONE, { errorNumber := TRI_ERROR_NO_ERROR }) ∧
    ((lifecycleBlock [dependencyShutdownFailing 5]).shutdownShortestPathExecutor
      executorShutdownOk 0).1 = (ExecutionState.DONE, { errorNumber := TRI_ERROR_NO_ERROR }) ∧
    Result.fail { errorNumber := TRI_ERROR_NO_ERROR } = false := by
  decide

/-- C23: with an executor that allows block passthrough, a `getSome` call, whatever
`atMost` is and however it ends, asks the pool for no block: the pool is as
before and no call of the `getSome` call is a `requestBlock`. From an instance
with no open output row that gets past the entry checks, when
`fetchBlockForPassthrough(atMost)` answers a block `b` without `WAITING`, the
output row is on `b` itself: the first call is that fetch, the others are
`produceRow` calls, and the output block has the identity, the row count and the
register count of `b`; the call leaves this row open with `(WAITING, null)`, or it
returns what `stealBlock` makes of it, a block of the identity of `b` with the
rows produced. -/
theorem getSome_passthrough_block (E : Executor σ) (hpt : E.allowsBlockPassthrough = true)
    (fuel atMost : Nat) (s : ExecutionBlockImpl σ)
    (r : CallResult σ (ExecutionState × Option AqlItemBlock))
    (h : ExecutionBlockImpl.getSome E fuel atMost s = some r) :
    r.post.itemBlockManager = s.itemBlockManager ∧
    (∃ cs, r.post.calls = s.calls ++ cs ∧ ∀ c ∈ cs, ∀ n k, c ≠ Call.requestBlock n k) ∧
    (s.passesEntryChecks → s.outputItemRow = none →
      ∀ b, (E.fetchBlockForPassthrough atMost s.executor).1.1 ≠ ExecutionState.WAITING →
        (E.fetchBlockForPassthrough atMost s.executor).1.2 = some b →
        ∃ (ps : List Call) (out' : OutputAqlItemRow),
          r.post.calls = s.calls ++ Call.fetchBlockForPassthrough atMost
            (E.fetchBlockForPassthrough atMost s.executor).1.1 (some b) :: ps ∧
          (∀ c ∈ ps, ∃ x row, c = Call.produceRow x row) ∧
          out'.block.id = b.id ∧ out'.block.size = b.size ∧ out'.block.nrRegs = b.nrRegs ∧
          out'.block.rows.take out'.baseIndex = producedRows ps ∧
          ((r.ret = Completion.returned (ExecutionState.WAITING, none) ∧
              r.post.outputItemRow = some out') ∨
           (∃ st, r.ret = Completion.returned (st, out'.stealBlock) ∧
              r.post.outputItemRow = none)) ∧
          ∀ x b', r.ret = Completion.returned (x, some b') →
            b'.id = b.id ∧ b'.rows = producedRows ps ∧ b'.size ≤ b.size) := by
  obtain ⟨r0, g, g', n, hret, hpost, hc⟩ := ExecutionBlockImpl.getSome_cases E fuel atMost s r h
  have hcalls : r.post.calls = r0.post.calls := by rw [hpost]
  have hpool : r.post.itemBlockManager = r0.post.itemBlockManager := by rw [hpost]
  have hrow : r.post.outputItemRow = r0.post.outputItemRow := by rw [hpost]
  rw [hret, hcalls, hpool, hrow]
  have hrq := ExecutionBlockImpl.requestWrappedBlock_passthrough E hpt atMost
    s.infos.numberOfOutputRegisters s
  have hq2 := ExecutionBlockImpl.passFetched_post atMost s
    (E.fetchBlockForPassthrough atMost s.executor)
  rcases hc with ⟨hnp, hp, e, he⟩ |
    ⟨-, ⟨out, hout, hloop⟩ | ⟨hnone, hwn, hr⟩ | ⟨hnone, -, b0, hb0, hloop⟩⟩
  · refine ⟨by rw [hp], ⟨[], by rw [hp]; simp, by simp⟩, ?_⟩
    intro hpass
    exact absurd hpass hnp
  · obtain ⟨cs, ex, stats, o, hpost0, hall⟩ :=
      ExecutionBlockImpl.produceRows_frame E fuel _ out _ r0 hloop
    refine ⟨by rw [hpost0], ⟨cs, by rw [hpost0], ?_⟩, ?_⟩
    · intro c hc n k hck
      obtain ⟨x, row, hx⟩ := hall c hc
      rw [hx] at hck
      cases hck
    · intro _ hnone
      rw [hout] at hnone
      cases hnone
  · rw [hrq] at hwn hr
    have hpost0 : r0.post = { s with
        executor := (E.fetchBlockForPassthrough atMost s.executor).2,
        calls := s.calls ++ [Call.fetchBlockForPassthrough atMost
          (E.fetchBlockForPassthrough atMost s.executor).1.1
          (E.fetchBlockForPassthrough atMost s.executor).1.2],
        getSomeBegin := g } := by
      rw [hr]
      simp only
      rw [hq2]
    refine ⟨by rw [hpost0], ⟨[_], by rw [hpost0], ?_⟩, ?_⟩
    · intro c hc n k hck
      rw [List.mem_singleton] at hc
      rw [hc] at hck
      cases hck
    · intro _ _ b hw hb
      have hblk := ExecutionBlockImpl.passFetched_block atMost s _ b hw hb
      rw [hblk] at hwn
      rcases hwn with hwn | hwn <;> cases hwn
  · rw [hrq] at hb0 hloop
    rw [hq2] at hloop
    obtain ⟨hwf0, hblk, -⟩ := ExecutionBlockImpl.createOutputRow_wellFormed E b0
    obtain ⟨cs, out', ex, stats, -, hall, -, hwf', hsize, hid, hregs, htake, hcase⟩ :=
      ExecutionBlockImpl.produceRows_spec E fuel _ _ _ r0 hloop hwf0
    have hpost0 : r0.post.itemBlockManager = s.itemBlockManager ∧
        r0.post.calls = s.calls ++ Call.fetchBlockForPassthrough atMost
          (E.fetchBlockForPassthrough atMost s.executor).1.1
          (E.fetchBlockForPassthrough atMost s.executor).1.2 :: cs := by
      rcases hcase with ⟨row, -, hp, -⟩ | ⟨row, -, hp, -⟩ | ⟨-, hp, -⟩ <;>
        rw [hp] <;> simp
    refine ⟨hpost0.1, ⟨_, hpost0.2, ?_⟩, ?_⟩
    · intro c hc n k hck
      rcases List.mem_cons.1 hc with hc | hc
      · rw [hc] at hck
        cases hck
      · obtain ⟨x, row, hx⟩ := hall c hc
        rw [hx] at hck
        cases hck
    · intro _ _ b hw hb
      have hblk' := ExecutionBlockImpl.passFetched_block atMost s _ b hw hb
      rw [hblk'] at hb0
      simp only [Option.some.injEq] at hb0
      subst hb0
      rw [hblk] at hsize hid hregs htake
      have htake' : out'.block.rows.take out'.baseIndex = producedRows cs := by
        rw [htake]
        simp [ExecutionBlockImpl.createOutputRow]
        split <;> simp
      have hsteal : ∀ b', out'.stealBlock = some b' →
          b'.id = b.id ∧ b'.rows = producedRows cs ∧ b'.size ≤ b.size := by
        intro b' hb'
        unfold OutputAqlItemRow.stealBlock at hb'
        rw [OutputAqlItemRow.wellFormed_numRowsWritten out' hwf'] at hb'
        split at hb'
        · cases hb'
        · simp only [Option.some.injEq] at hb'
          subst hb'
          refine ⟨hid, htake', ?_⟩
          have hs := hsize
          simp only [AqlItemBlock.size] at hs
          simp only [AqlItemBlock.shrink, AqlItemBlock.size, List.length_take]
          omega
      refine ⟨cs, out', by rw [hpost0.2, hb], hall, hid, hsize, hregs, htake', ?_, ?_⟩
      · rcases hcase with ⟨row, hr, hp, -⟩ | ⟨row, hr, hp, -⟩ | ⟨hr, hp, -⟩
        · exact Or.inl ⟨hr, by rw [hp]⟩
        · exact Or.inr ⟨_, hr, by rw [hp]⟩
        · exact Or.inr ⟨_, hr, by rw [hp]⟩
      · intro x b' hxb
        rcases hcase with ⟨row, hr, hp, -⟩ | ⟨row, hr, hp, -⟩ | ⟨hr, hp, -⟩
        · rw [hr] at hxb
          cases hxb
        · rw [hr] at hxb
          simp only [Completion.returned.injEq, Prod.mk.injEq] at hxb
          exact hsteal b' hxb.2
        · rw [hr] at hxb
          simp only [Completion.returned.injEq, Prod.mk.injEq] at hxb
          exact hsteal b' hxb.2

/-- Witness of C23: with passthrough the fetcher hands out the upstream block 7 of
two rows and the executor writes both; `getSome(1000)` returns block 7 with the
two rows, the pool is as before and the calls are the fetch and two `produceRow`
calls. -/
theorem getSome_passthrough_block_witness :
    ∃ r, ExecutionBlockImpl.getSome (scriptedExecutor true false) 5 1000 passthroughTwoRows
        = some r ∧
      r.ret = Completion.returned
        (ExecutionState.HASMORE, some { id := 7, nrRegs := 1, rows := [rowOf 1, rowOf 2] }) ∧
      r.post.itemBlockManager = passthroughTwoRows.itemBlockManager ∧
      ∃ cs, r.post.calls = passthroughTwoRows.calls ++ cs ∧
        ∀ c ∈ cs, ∀ n k, c ≠ Call.requestBlock n k :=
  ⟨(ExecutionBlockImpl.getSome (scriptedExecutor true false) 5 1000 passthroughTwoRows).get rfl,
   (Option.some_get _).symm, by decide,
   (getSome_passthrough_block (scriptedExecutor true false) rfl 5 1000 passthroughTwoRows _
      (Option.some_get _).symm).1,
   (getSome_passthrough_block (scriptedExecutor true false) rfl 5 1000 passthroughTwoRows _
      (Option.some_get _).symm).2.1⟩

/-- C26, as stated, fails: the fetcher answers `DONE` with 2^64 - 1 rows and the
executor has one row in flight; the sum of the two wraps around to 0 in `size_t`,
so with `atMost = 3` no block is requested and the result is `(DONE, null)`,
though the smaller of `n + f` and `atMost` is 3, not 0. -/
theorem requestWrappedBlock_preFetch_counterexample :
    (scriptedExecutor false true).allowsBlockPassthrough = false ∧
    (scriptedExecutor false true).inputSizeRestrictsOutputSize = true ∧
    (scriptedExecutor false true).preFetchNumberOfRows 3 rowsWrapAround.executor
      = ((ExecutionState.DONE, 18446744073709551615),
         { rowsWrapAround.executor with counts := [] }) ∧
    (scriptedExecutor false true).numberOfRowsInFlight
      { rowsWrapAround.executor with counts := [] } = 1 ∧
    min (18446744073709551615 + 1) 3 = 3 ∧
    (ExecutionBlockImpl.requestWrappedBlock (scriptedExecutor false true) 3 1 rowsWrapAround).1
      = (ExecutionState.DONE, none) ∧
    (ExecutionBlockImpl.requestWrappedBlock (scriptedExecutor false true) 3 1
        rowsWrapAround).2.calls
      = [Call.preFetchNumberOfRows 3 ExecutionState.DONE 18446744073709551615] ∧
    (ExecutionBlockImpl.requestWrappedBlock (scriptedExecutor false true) 3 1
        rowsWrapAround).2.itemBlockManager.requested = 0 := by
  decide

/-- C26, amended: for an executor without passthrough whose input size restricts
its output size. `preFetchNumberOfRows(atMost)` answers the state `st` with `n`
rows; the executor then reports its `f` rows in flight, and the engine adds the
two in `size_t`, modulo 2^64. When `st` is not `WAITING` and the smaller of
`(n + f) mod 2^64` and `atMost` is not 0, `requestWrappedBlock` asks the pool for
a block of exactly that many rows, which is at most `atMost`, and hands it out;
when it is 0, no block is requested and the result is the state `st` that the
fetcher answered with a null block, `(DONE, null)` when the fetcher answered
`DONE`; when `st` is `WAITING`, no block is requested and the result is
`(WAITING, null)`. `getSome`, from an instance with no open output row that gets
past the entry checks, returns these null results for every bound on its loop,
with the fetch as its one call and the pool as before; in the other case its
calls start with the fetch and the request of that block, and the block it
returns is that block with at most that many rows. -/
theorem requestWrappedBlock_preFetch (E : Executor σ)
    (hpt : E.allowsBlockPassthrough = false) (hin : E.inputSizeRestrictsOutputSize = true)
    (fuel atMost : Nat) (s : ExecutionBlockImpl σ) (st : ExecutionState) (n : Nat) (x : σ)
    (hpre : E.preFetchNumberOfRows atMost s.executor = ((st, n), x)) :
    (st ≠ ExecutionState.WAITING → min ((n + E.numberOfRowsInFlight x) % 2 ^ 64) atMost ≠ 0 →
      ExecutionBlockImpl.requestWrappedBlock E atMost s.infos.numberOfOutputRegisters s
        = ((ExecutionState.HASMORE,
            some { id := s.itemBlockManager.requested,
                   nrRegs := s.infos.numberOfOutputRegisters,
                   rows := List.replicate (min ((n + E.numberOfRowsInFlight x) % 2 ^ 64) atMost)
                     (List.replicate s.infos.numberOfOutputRegisters none) }),
           { s with executor := x,
                    itemBlockManager := { s.itemBlockManager with
                      requested := s.itemBlockManager.requested + 1 },
                    calls := s.calls ++ [Call.preFetchNumberOfRows atMost st n,
                      Call.requestBlock (min ((n + E.numberOfRowsInFlight x) % 2 ^ 64) atMost)
                        s.infos.numberOfOutputRegisters] }) ∧
      min ((n + E.numberOfRowsInFlight x) % 2 ^ 64) atMost ≤ atMost) ∧
    (st ≠ ExecutionState.WAITING → min ((n + E.numberOfRowsInFlight x) % 2 ^ 64) atMost = 0 →
      ExecutionBlockImpl.requestWrappedBlock E atMost s.infos.numberOfOutputRegisters s
        = ((st, none),
           { s with executor := x,
                    calls := s.calls ++ [Call.preFetchNumberOfRows atMost st n] })) ∧
    (st = ExecutionState.DONE → min ((n + E.numberOfRowsInFlight x) % 2 ^ 64) atMost = 0 →
      ExecutionBlockImpl.requestWrappedBlock E atMost s.infos.numberOfOutputRegisters s
        = ((ExecutionState.DONE, none),
           { s with executor := x,
                    calls := s.calls ++ [Call.preFetchNumberOfRows atMost
                      ExecutionState.DONE n] })) ∧
    (st = ExecutionState.WAITING →
      ExecutionBlockImpl.requestWrappedBlock E atMost s.infos.numberOfOutputRegisters s
        = ((ExecutionState.WAITING, none),
           { s with executor := x,
                    calls := s.calls ++ [Call.preFetchNumberOfRows atMost
                      ExecutionState.WAITING n] })) ∧
    (s.passesEntryChecks → s.outputItemRow = none →
      (st = ExecutionState.WAITING ∨ min ((n + E.numberOfRowsInFlight x) % 2 ^ 64) atMost = 0) →
      ∃ r, ExecutionBlockImpl.getSome E fuel atMost s = some r ∧
        r.ret = Completion.returned (st, none) ∧
        r.post.itemBlockManager = s.itemBlockManager ∧
        r.post.calls = s.calls ++ [Call.preFetchNumberOfRows atMost st n] ∧
        r.post.outputItemRow = none) ∧
    (s.passesEntryChecks → s.outputItemRow = none → st ≠ ExecutionState.WAITING →
      min ((n + E.numberOfRowsInFlight x) % 2 ^ 64) atMost ≠ 0 →
      ∀ r, ExecutionBlockImpl.getSome E fuel atMost s = some r →
        ∃ ps, r.post.calls = s.calls ++ Call.preFetchNumberOfRows atMost st n ::
            Call.requestBlock (min ((n + E.numberOfRowsInFlight x) % 2 ^ 64) atMost)
              s.infos.numberOfOutputRegisters :: ps ∧
          (∀ c ∈ ps, ∃ y row, c = Call.produceRow y row) ∧
          r.post.itemBlockManager = { s.itemBlockManager with
            requested := s.itemBlockManager.requested + 1 } ∧
          ∀ y b, r.ret = Completion.returned (y, some b) →
            b.id = s.itemBlockManager.requested ∧
            b.size ≤ min ((n + E.numberOfRowsInFlight x) % 2 ^ 64) atMost) := by
  have hrq := ExecutionBlockImpl.requestWrappedBlock_restricts E hpt hin atMost s
  rw [hpre] at hrq
  have hblock : st ≠ ExecutionState.WAITING → min ((n + E.numberOfRowsInFlight x) % 2 ^ 64) atMost ≠ 0 →
      ExecutionBlockImpl.requestWrappedBlock E atMost s.infos.numberOfOutputRegisters s
        = ((ExecutionState.HASMORE,
            some { id := s.itemBlockManager.requested,
                   nrRegs := s.infos.numberOfOutputRegisters,
                   rows := List.replicate (min ((n + E.numberOfRowsInFlight x) % 2 ^ 64) atMost)
                     (List.replicate s.infos.numberOfOutputRegisters none) }),
           { s with executor := x,
                    itemBlockManager := { s.itemBlockManager with
                      requested := s.itemBlockManager.requested + 1 },
                    calls := s.calls ++ [Call.preFetchNumberOfRows atMost st n,
                      Call.requestBlock (min ((n + E.numberOfRowsInFlight x) % 2 ^ 64) atMost)
                        s.infos.numberOfOutputRegisters] }) := by
    intro hw h0
    rw [hrq]
    exact ExecutionBlockImpl.preFetched_block E atMost s ((st, n), x) hw h0
  have hzero : st ≠ ExecutionState.WAITING → min ((n + E.numberOfRowsInFlight x) % 2 ^ 64) atMost = 0 →
      ExecutionBlockImpl.requestWrappedBlock E atMost s.infos.numberOfOutputRegisters s
        = ((st, none),
           { s with executor := x,
                    calls := s.calls ++ [Call.preFetchNumberOfRows atMost st n] }) := by
    intro hw h0
    rw [hrq]
    exact ExecutionBlockImpl.preFetched_zero E atMost s ((st, n), x) hw h0
  have hwait : st = ExecutionState.WAITING →
      ExecutionBlockImpl.requestWrappedBlock E atMost s.infos.numberOfOutputRegisters s
        = ((st, none),
           { s with executor := x,
                    calls := s.calls ++ [Call.preFetchNumberOfRows atMost st n] }) := by
    intro hw
    rw [hrq, ExecutionBlockImpl.preFetched_WAITING E atMost s ((st, n), x) hw]
    simp only [hw]
  refine ⟨fun hw h0 => ⟨hblock hw h0, Nat.min_le_right _ _⟩, hzero, ?_, ?_, ?_, ?_⟩
  · intro hd h0
    rw [hzero (by rw [hd]; simp) h0, hd]
  · intro hw
    rw [hwait hw, hw]
  · intro hpass hnone hcase
    have hq : ExecutionBlockImpl.requestWrappedBlock E atMost s.infos.numberOfOutputRegisters s
        = ((st, none),
           { s with executor := x,
                    calls := s.calls ++ [Call.preFetchNumberOfRows atMost st n] }) := by
      by_cases hw : st = ExecutionState.WAITING
      · exact hwait hw
      · rcases hcase with hc | hc
        · exact absurd hc hw
        · exact hzero hw hc
    obtain ⟨r, g, m, hr, hret, hpost⟩ := ExecutionBlockImpl.getSome_null E fuel atMost s hpass
      hnone (by rw [hq])
    rw [hq] at hret hpost
    exact ⟨r, hr, by rw [hret], by rw [hpost], by rw [hpost], by rw [hpost]; exact hnone⟩
  · intro hpass hnone hw h0 r hr
    obtain ⟨r0, g, g', m, hret, hpost, hc⟩ := ExecutionBlockImpl.getSome_cases E fuel atMost s r hr
    have hcalls : r.post.calls = r0.post.calls := by rw [hpost]
    have hpool : r.post.itemBlockManager = r0.post.itemBlockManager := by rw [hpost]
    rw [hret, hcalls, hpool]
    have hq := hblock hw h0
    rcases hc with ⟨hnp, -, -⟩ |
      ⟨-, ⟨out, hout, -⟩ | ⟨-, hwn, -⟩ | ⟨-, -, b0, hb0, hloop⟩⟩
    · exact absurd hpass hnp
    · rw [hout] at hnone
      cases hnone
    · rw [hq] at hwn
      rcases hwn with hwn | hwn <;> cases hwn
    · rw [hq] at hb0 hloop
      simp only [Option.some.injEq] at hb0
      subst hb0
      obtain ⟨hwf0, hblk, -⟩ := ExecutionBlockImpl.createOutputRow_wellFormed E
        { id := s.itemBlockManager.requested, nrRegs := s.infos.numberOfOutputRegisters,
          rows := List.replicate (min ((n + E.numberOfRowsInFlight x) % 2 ^ 64) atMost)
            (List.replicate s.infos.numberOfOutputRegisters none) }
      obtain ⟨cs, out', ex, stats, -, hall, -, hwf', hsize, hid, -, -, hcase⟩ :=
        ExecutionBlockImpl.produceRows_spec E fuel _ _ _ r0 hloop hwf0
      rw [hblk] at hsize hid
      simp only [AqlItemBlock.size, List.length_replicate] at hsize
      have hsteal : ∀ b, out'.stealBlock = some b →
          b.id = s.itemBlockManager.requested ∧
          b.size ≤ min ((n + E.numberOfRowsInFlight x) % 2 ^ 64) atMost := by
        intro b hb
        unfold OutputAqlItemRow.stealBlock at hb
        split at hb
        · cases hb
        · simp only [Option.some.injEq] at hb
          subst hb
          refine ⟨hid, ?_⟩
          simp only [AqlItemBlock.shrink, AqlItemBlock.size, List.length_take]
          omega
      refine ⟨cs, ?_, hall, ?_, ?_⟩
      · rcases hcase with ⟨row, -, hp, -⟩ | ⟨row, -, hp, -⟩ | ⟨-, hp, -⟩ <;>
          rw [hp] <;> simp
      · rcases hcase with ⟨row, -, hp, -⟩ | ⟨row, -, hp, -⟩ | ⟨-, hp, -⟩ <;>
          rw [hp]
      · intro y b hyb
        rcases hcase with ⟨row, hr', -, -⟩ | ⟨row, hr', -, -⟩ | ⟨hr', -, -⟩
        · rw [hr'] at hyb
          cases hyb
        · rw [hr'] at hyb
          simp only [Completion.returned.injEq, Prod.mk.injEq] at hyb
          exact hsteal b hyb.2
        · rw [hr'] at hyb
          simp only [Completion.returned.injEq, Prod.mk.injEq] at hyb
          exact hsteal b hyb.2

/-- Witness of C26, amended: the fetcher reports one row available with `HASMORE`
and the executor has no row in flight; with `atMost = 3`, `requestWrappedBlock`
asks the pool for a block of one row and hands it out. -/
theorem requestWrappedBlock_preFetch_witness :
    (ExecutionBlockImpl.requestWrappedBlock (scriptedExecutor false true) 3 1 oneRowAvailable).1
      = (ExecutionState.HASMORE, some { id := 0, nrRegs := 1, rows := [[none]] }) ∧
    (ExecutionBlockImpl.requestWrappedBlock (scriptedExecutor false true) 3 1
        oneRowAvailable).2.calls
      = [Call.preFetchNumberOfRows 3 ExecutionState.HASMORE 1, Call.requestBlock 1 1] ∧
    min (1 + 0) 3 ≤ 3 :=
  ⟨congrArg Prod.fst
     ((requestWrappedBlock_preFetch (scriptedExecutor false true) rfl rfl 5 3 oneRowAvailable
        ExecutionState.HASMORE 1
        { produce := [(ExecutionState.HASMORE, 0, some (rowOf 7)),
                      (ExecutionState.HASMORE, 0, some (rowOf 8))],
          blocks := [], counts := [(ExecutionState.HASMORE, 1)], inFlight := 0 }
        rfl).1 (by decide) (by decide)).1,
   by decide,
   ((requestWrappedBlock_preFetch (scriptedExecutor false true) rfl rfl 5 3 oneRowAvailable
        ExecutionState.HASMORE 1
        { produce := [(ExecutionState.HASMORE, 0, some (rowOf 7)),
                      (ExecutionState.HASMORE, 0, some (rowOf 8))],
          blocks := [], counts := [(ExecutionState.HASMORE, 1)], inFlight := 0 }
        rfl).1 (by decide) (by decide)).2⟩

/-- C24: for every instance, every `atMost` and every two profiling levels `p1` and
`p2`, `getSome(atMost)` run with `p1` and run with `p2` end the same way (both run
out of the bound on the loop, or both throw the same exception, or both return the
same state and the same block) and leave instances that agree on every member but
the profiling level, the timer `_getSomeBegin` of the tracing and the entry of the
node in the statistics table; so do the two `skipSome(atMost)` runs, with the same
count. The members that agree include the output row, the buffer, the dependency
cursor, the fetcher and executor, the pool and the call log. -/
theorem getSome_skipSome_profile_independent (E : Executor σ) (fuel atMost : Nat)
    (s : ExecutionBlockImpl σ) (p1 p2 : Nat) :
    (ExecutionBlockImpl.getSome E fuel atMost { s with profile := p1 }).map
        (fun r => (r.ret, r.post.withoutStatistics))
      = (ExecutionBlockImpl.getSome E fuel atMost { s with profile := p2 }).map
        (fun r => (r.ret, r.post.withoutStatistics)) ∧
    (ExecutionBlockImpl.skipSome E fuel atMost { s with profile := p1 }).map
        (fun r => (r.ret, r.post.withoutStatistics))
      = (ExecutionBlockImpl.skipSome E fuel atMost { s with profile := p2 }).map
        (fun r => (r.ret, r.post.withoutStatistics)) ∧
    ∀ t : ExecutionBlockImpl σ,
      t.withoutStatistics.outputItemRow = t.outputItemRow ∧
      t.withoutStatistics.buffer = t.buffer ∧
      t.withoutStatistics.dependencyPos = t.dependencyPos ∧
      t.withoutStatistics.executor = t.executor ∧
      t.withoutStatistics.itemBlockManager = t.itemBlockManager ∧
      t.withoutStatistics.engineStats = t.engineStats ∧
      t.withoutStatistics.calls = t.calls := by
  have h1 : ({ s with profile := p1 } : ExecutionBlockImpl σ)
      = s.withStatistics p1 s.getSomeBegin s.nodeStats := rfl
  have h2 : ({ s with profile := p2 } : ExecutionBlockImpl σ)
      = s.withStatistics p2 s.getSomeBegin s.nodeStats := rfl
  rw [h1, h2]
  refine ⟨?_, ?_, fun t => ⟨rfl, rfl, rfl, rfl, rfl, rfl, rfl⟩⟩
  · rw [ExecutionBlockImpl.getSome_withStatistics, ExecutionBlockImpl.getSome_withStatistics]
  · rw [ExecutionBlockImpl.skipSome_withStatistics E fuel atMost s p1,
      ExecutionBlockImpl.skipSome_withStatistics E fuel atMost s p2]

/-- C29: when the constructor of `ShortestPathNode` from the AST returns without
throwing, the direction number is 0, 1 or 2, the direction list and the
edge-collection list have the same length, no stored direction is `ANY`, and the
two lists, entry by entry, are the entries of a list `added` of collections with
their directions: `OUT` then `IN` with the same name for a collection with the
direction `ANY`, one entry otherwise. Outside the smart-collection case, `added`
for a collection list has each name once and holds the members of the list, each
with its own direction or else the base direction; for a graph name it holds the
edge collections of the graph with the base direction. A direction number outside
0, 1 and 2 is rejected with `TRI_ERROR_QUERY_PARSE`, as the direction of the node
and as the direction of a member of the list. -/
theorem shortestPathNode_directions (server : PlanningServer) (direction : Nat)
    (start target graph : AstNode) :
    (3 ≤ direction → ShortestPathNode.construct server direction start target graph
      = Except.error TRI_ERROR_QUERY_PARSE) ∧
    (∀ (value : Int) (col : AstNode) (baseDirection : TRI_edge_direction_e),
      3 ≤ toUInt64 value →
      ShortestPathNode.memberDirection baseDirection (AstNode.direction (AstNode.intValue value) col)
        = Except.error TRI_ERROR_QUERY_PARSE) ∧
    ∀ node, ShortestPathNode.construct server direction start target graph = Except.ok node →
      ∃ baseDirection added,
        direction < 3 ∧ parseDirection direction = Except.ok baseDirection ∧
        node.directions.length = node.edgeColls.length ∧
        TRI_edge_direction_e.TRI_EDGE_ANY ∉ node.directions ∧
        node.edgeColls.zip node.directions = added.flatMap ShortestPathNode.entries ∧
        ((server.isRunningInCluster = true → ∀ n, server.isSmart n = false) →
          (∀ members, graph = AstNode.collectionList members →
            (added.map Prod.fst).Nodup ∧
            ∀ name dir, (name, dir) ∈ added ↔ ∃ col ∈ members, ∃ c,
              ShortestPathNode.memberDirection baseDirection col = Except.ok (dir, c) ∧
              c.getString = name) ∧
          (∀ graphName, graph = AstNode.stringValue graphName →
            ∃ eColls, server.lookupGraphByName graphName = some eColls ∧
              added = eColls.map (fun n => (n, baseDirection)))) := by
  refine ⟨?_, ?_, ?_⟩
  · intro h
    unfold ShortestPathNode.construct
    rw [parseDirection_error direction h]
  · intro value col baseDirection h
    unfold ShortestPathNode.memberDirection
    simp only [AstNode.getIntValue]
    rw [parseDirection_error _ h]
  · intro node h
    unfold ShortestPathNode.construct at h
    cases hbase : parseDirection direction with
    | error e =>
      rw [hbase] at h
      cases h
    | ok baseDirection =>
      rw [hbase] at h
      simp only at h
      have hempty : ShortestPathNode.StandsFor
          { directions := [], edgeColls := [], graphInfo := [], graphObj := none,
            inStartVariable := none, startVertexId := "",
            inTargetVariable := none, targetVertexId := "" } [] := ⟨rfl, rfl⟩
      have key : ∀ node1 : ShortestPathNode,
          (match graph with
            | AstNode.collectionList members =>
              ShortestPathNode.addCollectionList server baseDirection members []
                { directions := [], edgeColls := [], graphInfo := [], graphObj := none,
                  inStartVariable := none, startVertexId := "",
                  inTargetVariable := none, targetVertexId := "" }
            | _ =>
              if ([] : List String).isEmpty then
                if graph.isStringValue then
                  ShortestPathNode.addGraph server baseDirection graph.getString
                    { directions := [], edgeColls := [], graphInfo := [], graphObj := none,
                      inStartVariable := none, startVertexId := "",
                      inTargetVariable := none, targetVertexId := "" }
                else Except.ok
                  { directions := [], edgeColls := [], graphInfo := [], graphObj := none,
                    inStartVariable := none, startVertexId := "",
                    inTargetVariable := none, targetVertexId := "" }
              else Except.ok
                { directions := [], edgeColls := [], graphInfo := [], graphObj := none,
                  inStartVariable := none, startVertexId := "",
                  inTargetVariable := none, targetVertexId := "" }) = Except.ok node1 →
          ∃ added, node1.StandsFor added ∧
            ((server.isRunningInCluster = true → ∀ n, server.isSmart n = false) →
              (∀ members, graph = AstNode.collectionList members →
                (added.map Prod.fst).Nodup ∧
                ∀ name dir, (name, dir) ∈ added ↔ ∃ col ∈ members, ∃ c,
                  ShortestPathNode.memberDirection baseDirection col = Except.ok (dir, c) ∧
                  c.getString = name) ∧
              (∀ graphName, graph = AstNode.stringValue graphName →
                ∃ eColls, server.lookupGraphByName graphName = some eColls ∧
                  added = eColls.map (fun n => (n, baseDirection)))) := by
        intro node1 h1
        cases graph with
        | collectionList members =>
          simp only at h1
          obtain ⟨extra, seenExtra, hst, hs, hnd, hmem⟩ :=
            ShortestPathNode.addCollectionList_spec server baseDirection members [] _ [] node1
              h1 hempty
          refine ⟨extra, by simpa using hst, ?_⟩
          intro hsmart
          have he := hs hsmart
          subst he
          refine ⟨?_, ?_⟩
          · intro members' hm
            cases hm
            refine ⟨by simpa using hnd, ?_⟩
            intro name dir
            have := hmem name dir
            simpa using this
          · intro graphName hg
            cases hg
        | stringValue value =>
          simp only [List.isEmpty_nil, if_true, AstNode.isStringValue, AstNode.getString] at h1
          unfold ShortestPathNode.addGraph at h1
          simp only at h1
          cases hl : server.lookupGraphByName value with
          | none =>
            rw [hl] at h1
            cases h1
          | some eColls =>
            rw [hl] at h1
            simp only at h1
            split at h1
            · cases h1
            · simp only [Except.ok.injEq] at h1
              have hst0 : ShortestPathNode.StandsFor
                  { directions := [], edgeColls := [], graphInfo := [] ++ [value],
                    graphObj := some eColls,
                    inStartVariable := none, startVertexId := "",
                    inTargetVariable := none, targetVertexId := "" } [] := ⟨rfl, rfl⟩
              obtain ⟨extra, hst, hs⟩ :=
                ShortestPathNode.StandsFor.foldl_addEdgeCollOnServer server baseDirection
                  eColls _ [] hst0
              rw [h1] at hst
              refine ⟨extra, by simpa using hst, ?_⟩
              intro hsmart
              refine ⟨?_, ?_⟩
              · intro members hm
                cases hm
              · intro graphName hg
                cases hg
                exact ⟨eColls, hl, hs hsmart⟩
        | reference v =>
          simp only [List.isEmpty_nil, if_true, AstNode.isStringValue, Bool.false_eq_true,
            if_false, Except.ok.injEq] at h1
          subst h1
          exact ⟨[], hempty, fun _ => ⟨fun _ hm => (by cases hm), fun _ hg => (by cases hg)⟩⟩
        | intValue v =>
          simp only [List.isEmpty_nil, if_true, AstNode.isStringValue, Bool.false_eq_true,
            if_false, Except.ok.injEq] at h1
          subst h1
          exact ⟨[], hempty, fun _ => ⟨fun _ hm => (by cases hm), fun _ hg => (by cases hg)⟩⟩
        | otherValue =>
          simp only [List.isEmpty_nil, if_true, AstNode.isStringValue, Bool.false_eq_true,
            if_false, Except.ok.injEq] at h1
          subst h1
          exact ⟨[], hempty, fun _ => ⟨fun _ hm => (by cases hm), fun _ hg => (by cases hg)⟩⟩
        | collection v =>
          simp only [List.isEmpty_nil, if_true, AstNode.isStringValue, Bool.false_eq_true,
            if_false, Except.ok.injEq] at h1
          subst h1
          exact ⟨[], hempty, fun _ => ⟨fun _ hm => (by cases hm), fun _ hg => (by cases hg)⟩⟩
        | direction a b =>
          simp only [List.isEmpty_nil, if_true, AstNode.isStringValue, Bool.false_eq_true,
            if_false, Except.ok.injEq] at h1
          subst h1
          exact ⟨[], hempty, fun _ => ⟨fun _ hm => (by cases hm), fun _ hg => (by cases hg)⟩⟩
        | other =>
          simp only [List.isEmpty_nil, if_true, AstNode.isStringValue, Bool.false_eq_true,
            if_false, Except.ok.injEq] at h1
          subst h1
          exact ⟨[], hempty, fun _ => ⟨fun _ hm => (by cases hm), fun _ hg => (by cases hg)⟩⟩
      split at h
      · cases h
      · rename_i node1 hnode1
        obtain ⟨added, hst, hrest⟩ := key node1 hnode1
        split at h
        · cases h
        · split at h
          · cases h
          · simp only [Except.ok.injEq] at h
            subst h
            have hst' := hst.lists
            exact ⟨baseDirection, added, parseDirection_ok direction baseDirection hbase, rfl,
              hst'.1, hst'.2.1, hst'.2.2, hrest⟩

/-- Witness of C29: on a single server, the direction `ANY` and the collection list
`e1, INBOUND e2, e1` give the edge collections `e1, e1, e2` with the directions
`OUT, IN, IN`: the lists have the same length and hold no `ANY`. -/
theorem shortestPathNode_directions_witness :
    ShortestPathNode.construct singleServer 0 (AstNode.stringValue "v/1") (AstNode.reference 3)
        twoCollections = Except.ok twoCollectionsNode ∧
    twoCollectionsNode.directions.length = twoCollectionsNode.edgeColls.length ∧
    TRI_edge_direction_e.TRI_EDGE_ANY ∉ twoCollectionsNode.directions :=
  ⟨rfl,
   ((shortestPathNode_directions singleServer 0 (AstNode.stringValue "v/1")
      (AstNode.reference 3) twoCollections).2.2 twoCollectionsNode rfl).elim
      (fun _ h => h.elim (fun _ h => h.2.2.1)),
   ((shortestPathNode_directions singleServer 0 (AstNode.stringValue "v/1")
      (AstNode.reference 3) twoCollections).2.2 twoCollectionsNode rfl).elim
      (fun _ h => h.elim (fun _ h => h.2.2.2.1))⟩

end aql

/-- C28 fails on the code: the followers are `A` and `B`, the transaction knows `A`
already, and the begin fails on `B`. One request is built, for `B`. The dropping
loop reads `requests[0]`, the request of `B`, for `followers[0]`, which is `A`,
and removes `A`; it then reads `requests[1]`, outside the vector of one request.
`beginTransactionOnLeaders`, whose loop runs over the requests, returns on these
servers. -/
theorem beginTransactionOnFollowers_reads_outside :
    ClusterTrxMethods.prepareRequests (listCollaborators ["B"]) ["A", "B"] ["A"] []
      = (["A", "B"], [("B", false)]) ∧
    ClusterTrxMethods.beginTransactionOnFollowers (listCollaborators ["B"])
        ["A"] ["A", "B"] ["A", "B"]
      = ClusterTrxMethods.Outcome.readOutside 1 1 ["B"] ∧
    ClusterTrxMethods.beginTransactionOnLeaders (listCollaborators ["B"]) ["A"] ["A", "B"]
      = ({ errorNumber := aql.TRI_ERROR_INTERNAL }, ["A", "B"]) := by
  decide

end arangodb
